import Mathlib

/-!
# Antenna-ratio evaluation engine (`src/ant/src/AntennaChecker.cc`)

A shallow embedding of the antenna checker and theorems about it.

Conventions of the embedding.

* C++ `double` values are idealised as exact rationals (`ℚ`): the theorems
  are about the formulas the code evaluates, not about rounding.  Division
  by zero follows Lean (`x / 0 = 0`); no theorem below rests on the value
  of such a quotient.
* A `dbWireGraph::Node*` is a natural number, dereferenced through the
  graph (`dbWireGraph.node`).  Pointer equality of nodes is equality of these
  numbers.
* Recursive graph walks take a `fuel` argument and return `none` when it is
  used up; `none` also stands for a null dereference.
* Text written to the report file is not modelled; the functions keep the
  code's control flow and return values.
-/

namespace ant

/-! ## Database types read by the checker

The declarations of these types are in the design database (`odb`), outside
the antenna checker.  Each structure below holds what the checker reads
through the accessor of the same name. -/

/-- The pair of vectors `dbTechLayerAntennaRule::pwl_pair`: breakpoint
indices and the ratios at these indices. -/
structure pwl_pair where
  indices : List ℚ
  ratios : List ℚ
deriving DecidableEq, Repr

/-- The layer rule `dbTechLayerAntennaRule`: the values returned by its
accessors. -/
structure dbTechLayerAntennaRule where
  getPAR : ℚ
  getPSR : ℚ
  getCAR : ℚ
  getCSR : ℚ
  getDiffPAR : pwl_pair
  getDiffPSR : pwl_pair
  getDiffCAR : pwl_pair
  getDiffCSR : pwl_pair
  getAreaDiffReduce : pwl_pair
  getAreaFactor : ℚ
  isAreaFactorDiffUseOnly : Bool
  getSideAreaFactor : ℚ
  isSideAreaFactorDiffUseOnly : Bool
  getAreaMinusDiffFactor : ℚ
  hasAntennaCumRoutingPlusCut : Bool
deriving DecidableEq, Repr

/-- The values of `dbTechLayerType`; the checker only tests for `CUT`. -/
inductive dbTechLayerType where
  | ROUTING
  | CUT
  | MASTERSLICE
  | OVERLAP
  | IMPLANT
  | NONE
deriving DecidableEq, Repr

/-- A technology layer `dbTechLayer`.  `getDefaultAntennaRule` is `none` when
`hasDefaultAntennaRule()` is false; `getThickness` is `none` when the layer
has no thickness (the C++ accessor then leaves its output at 0);
`LEF57_ANTENNAGATEPLUSDIFF` is the string property of that name, if any.
Two layer pointers are equal in the model when the layers hold the same
data. -/
structure dbTechLayer where
  getConstName : String
  getType : dbTechLayerType
  getRoutingLevel : Int
  getWidth : Nat
  getThickness : Option Nat
  getDefaultAntennaRule : Option dbTechLayerAntennaRule
  LEF57_ANTENNAGATEPLUSDIFF : Option String
deriving DecidableEq, Repr

/-- A box of a via definition (`dbBox`). -/
structure dbBox where
  getTechLayer : dbTechLayer
  getDX : Nat
  getDY : Nat
deriving DecidableEq, Repr

/-- Modelled from the spec: the tag enumeration `dbWireGraph::Edge::Type`,
declared in `odb/dbWireGraph.h`.  The data model of the spec tags an edge as
one of SEGMENT, SHORT, VIA, TECH_VIA. -/
inductive EdgeType where
  | SEGMENT
  | TECH_VIA
  | VIA
  | SHORT
deriving DecidableEq, Repr

/-- An edge of the wire graph.  `source` and `target` are node pointers;
`via_boxes` and `via_name` are `via()->getBoxes()` and `via()->getName()` of a
VIA or TECH_VIA edge. -/
structure Edge where
  type : EdgeType
  source : Nat
  target : Nat
  via_boxes : List dbBox
  via_name : String
deriving DecidableEq, Repr

/-- The values of `dbObjectType` a graph node can refer to. -/
inductive dbObjectType where
  | dbITermObj
  | dbBTermObj
deriving DecidableEq, Repr

/-- The object a graph node is attached to (`node->object()`). -/
structure dbObject where
  getObjectType : dbObjectType
  getId : Nat
deriving DecidableEq, Repr

/-- A node of the wire graph: location, layer, attached object, the incoming
edge (`none` for a null `in_edge()`) and the outgoing edges in the order of
`begin()` .. `end()`. -/
structure Node where
  x : Int
  y : Int
  layer : dbTechLayer
  object : Option dbObject
  in_edge : Option Edge
  out_edges : List Edge
deriving DecidableEq, Repr

/-- The decoded wire graph of a net: the node pointers in the order of
`begin_nodes()` .. `end_nodes()`, and the node each pointer refers to. -/
structure dbWireGraph where
  nodes : List Nat
  node : Nat → Node

/-- The values of `dbIoType`. -/
inductive dbIoType where
  | INPUT
  | OUTPUT
  | INOUT
  | FEEDTHRU
deriving DecidableEq, Repr

/-- The antenna pin model `dbTechAntennaPinModel`: the vector filled by
`getGateArea`. -/
structure dbTechAntennaPinModel where
  getGateArea : List (ℚ × Option dbTechLayer)
deriving DecidableEq, Repr

/-- A master terminal `dbMTerm`.  `getDefaultAntennaModel` is `none` when
`hasDefaultAntennaModel()` is false; `getDiffArea` is the vector filled by the
accessor of that name. -/
structure dbMTerm where
  getConstName : String
  getMasterName : String
  getIoType : dbIoType
  getDefaultAntennaModel : Option dbTechAntennaPinModel
  getDiffArea : List (ℚ × Option dbTechLayer)
deriving DecidableEq, Repr

/-- An instance terminal `dbITerm`. -/
structure dbITerm where
  getInstName : String
  getMTerm : dbMTerm
deriving DecidableEq, Repr

/-! ## The checker's own types -/

/-- The record `PARinfo`.  `iterm_areas.1` is `iterm_areas[0]` (gate area) and
`iterm_areas.2` is `iterm_areas[1]` (diffusion area); `iterms` holds the
identifiers of the terminals in the `std::set<dbITerm*>`. -/
structure PARinfo where
  WirerootNode : Nat
  iterms : List Nat
  wire_area : ℚ
  side_wire_area : ℚ
  iterm_areas : ℚ × ℚ
  PAR_value : ℚ
  PSR_value : ℚ
  diff_PAR_value : ℚ
  diff_PSR_value : ℚ
deriving DecidableEq, Repr

/-- The record `ARinfo`. -/
structure ARinfo where
  WirerootNode : Nat
  GateNode : Nat
  violated_net : Bool
  PAR_value : ℚ
  PSR_value : ℚ
  diff_PAR_value : ℚ
  diff_PSR_value : ℚ
  CAR_value : ℚ
  CSR_value : ℚ
  diff_CAR_value : ℚ
  diff_CSR_value : ℚ
  diff_area : ℚ
deriving DecidableEq, Repr

/-- The record `ANTENNAmodel`; `layer` is `none` for a null pointer. -/
structure ANTENNAmodel where
  layer : Option dbTechLayer
  metal_factor : ℚ
  diff_metal_factor : ℚ
  cut_factor : ℚ
  diff_cut_factor : ℚ
  side_metal_factor : ℚ
  diff_side_metal_factor : ℚ
  minus_diff_factor : ℚ
  plus_diff_factor : ℚ
  diff_metal_reduce_factor : ℚ
deriving DecidableEq, Repr

/-- The members of `AntennaChecker` the engine reads: the database
(`getDbUnitsPerMicron` of the block, `dbITerm::getITerm` by identifier) and
the map `layer_info`, kept as an association list. -/
structure AntennaChecker where
  getDbUnitsPerMicron : Int
  getITerm : Nat → dbITerm
  layer_info : List (dbTechLayer × ANTENNAmodel)

/-- A value-initialised `ANTENNAmodel`, which `std::map::operator[]` yields for
a key that is not in the map. -/
def ANTENNAmodel.zero : ANTENNAmodel :=
  ⟨none, 0, 0, 0, 0, 0, 0, 0, 0, 0⟩

/-- Reading `layer_info[layer]`. -/
def layer_info_at (layer_info : List (dbTechLayer × ANTENNAmodel)) (layer : dbTechLayer) :
    ANTENNAmodel :=
  match layer_info.find? (fun kv => kv.1 = layer) with
  | some kv => kv.2
  | none => ANTENNAmodel.zero

/-- The assignment `layer_info[layer] = model`. -/
def layer_info_assign :
    List (dbTechLayer × ANTENNAmodel) → dbTechLayer → ANTENNAmodel →
      List (dbTechLayer × ANTENNAmodel)
  | [], layer, model => [(layer, model)]
  | kv :: rest, layer, model =>
    if kv.1 = layer then (layer, model) :: rest
    else kv :: layer_info_assign rest layer model

/-- Insertion into a `std::set` of pointers, kept as a list without
repetition. -/
def set_insert (s : List Nat) (a : Nat) : List Nat :=
  if a ∈ s then s else s ++ [a]

/-! ## The functions of `AntennaChecker.cc` -/

/-- The template `AntennaChecker::defDist`. -/
def defDist (ck : AntennaChecker) (value : ℚ) : ℚ :=
  let _dist_factor : ℚ := 1 / (ck.getDbUnitsPerMicron : ℚ)
  value * _dist_factor

/-- The call `std::string::substr(pos, count)` for `pos` inside the string,
with the `int` count converted to `size_t`: a negative count reaches to the
end of the string. -/
def substr (s : List Char) (pos : Nat) (count : Int) : List Char :=
  if count < 0 then s.drop pos else (s.drop pos).take count.toNat

/-- The scanning loop of `loadAntennaRules` over the property string: the
pair `(start, gate_plus_diff_value)` after the loop. -/
def gate_plus_diff_scan (gate_plus_diff_info : List Char) : Nat × List Char :=
  (List.range gate_plus_diff_info.length).foldl
    (fun (st : Nat × List Char) i =>
      if gate_plus_diff_info.getD i 'x' = ' ' then
        (i, substr gate_plus_diff_info st.1 ((i : Int) - (st.1 : Int) - 1))
      else st)
    (0, [])

/-- The body of the loop of `loadAntennaRules` for one layer: the model stored
for the layer.  `stod` is `std::stod`, `none` where it throws. -/
def loadAntennaRules_layer (stod : String → Option ℚ) (tech_layer : dbTechLayer) :
    Option ANTENNAmodel :=
  match tech_layer.getDefaultAntennaRule with
  | some antenna_rule =>
    let plus_diff_factor? : Option ℚ :=
      match tech_layer.LEF57_ANTENNAGATEPLUSDIFF with
      | some gate_plus_diff_info =>
        stod (String.mk (gate_plus_diff_scan gate_plus_diff_info.data).2)
      | none => some 0
    plus_diff_factor?.map fun plus_diff_factor =>
      let metal_factor : ℚ :=
        if antenna_rule.isAreaFactorDiffUseOnly then 1 else antenna_rule.getAreaFactor
      let diff_metal_factor : ℚ := antenna_rule.getAreaFactor
      let cut_factor : ℚ :=
        if antenna_rule.isAreaFactorDiffUseOnly then 1 else antenna_rule.getAreaFactor
      let diff_cut_factor : ℚ := antenna_rule.getAreaFactor
      let side_metal_factor : ℚ :=
        if antenna_rule.isSideAreaFactorDiffUseOnly then 1 else antenna_rule.getSideAreaFactor
      let diff_side_metal_factor : ℚ := antenna_rule.getSideAreaFactor
      let minus_diff_factor : ℚ := antenna_rule.getAreaMinusDiffFactor
      let diff_metal_reduce_factor : ℚ := 1
      { layer := some tech_layer
        metal_factor := metal_factor
        diff_metal_factor := diff_metal_factor
        cut_factor := cut_factor
        diff_cut_factor := diff_cut_factor
        side_metal_factor := side_metal_factor
        diff_side_metal_factor := diff_side_metal_factor
        minus_diff_factor := minus_diff_factor
        plus_diff_factor := plus_diff_factor
        diff_metal_reduce_factor := diff_metal_reduce_factor }
  | none =>
    some
      { layer := some tech_layer
        metal_factor := 1
        diff_metal_factor := 1
        cut_factor := 1
        diff_cut_factor := 1
        side_metal_factor := 1
        diff_side_metal_factor := 1
        minus_diff_factor := 0
        plus_diff_factor := 0
        diff_metal_reduce_factor := 1 }

/-- The function `AntennaChecker::loadAntennaRules` over the technology layers
`tech_layers`, starting from the map `layer_info`: the map after the loop, or
`none` when `std::stod` throws. -/
def loadAntennaRules (stod : String → Option ℚ) :
    List dbTechLayer → List (dbTechLayer × ANTENNAmodel) →
      Option (List (dbTechLayer × ANTENNAmodel))
  | [], layer_info => some layer_info
  | tech_layer :: rest, layer_info =>
    match loadAntennaRules_layer stod tech_layer with
    | some layer_antenna =>
      loadAntennaRules stod rest (layer_info_assign layer_info tech_layer layer_antenna)
    | none => none

/-- The body of the `for` loop of `getPwlFactor` over the two iterators.
`first` says that both iterators are at `begin()`. -/
def getPwlFactor_loop (ref_val : ℚ) :
    Bool → List ℚ → List ℚ → ℚ → ℚ → ℚ → ℚ
  | first, indice :: indices, ratio :: ratios, pwl_info_indice, pwl_info_ratio, _ =>
    let pwl_info_indice := if first then indice else pwl_info_indice
    let pwl_info_ratio := if first then ratio else pwl_info_ratio
    let slope_factor := (ratio - pwl_info_ratio) / (indice - pwl_info_indice)
    if ref_val ≥ pwl_info_indice ∧ ref_val < indice then
      slope_factor * (ref_val - pwl_info_indice) + pwl_info_ratio
    else
      getPwlFactor_loop ref_val false indices ratios indice ratio slope_factor
  | _, _, _, pwl_info_indice, pwl_info_ratio, slope_factor =>
    slope_factor * (ref_val - pwl_info_indice) + pwl_info_ratio

/-- The function `AntennaChecker::getPwlFactor`.  With exactly one index the
code returns `*ratios.begin()`; on an empty `ratios` vector that read is
undefined in C++ and the model returns `0` there. -/
def getPwlFactor (pwl_info : pwl_pair) (ref_val : ℚ) (dflt : ℚ) : ℚ :=
  if pwl_info.indices.length ≠ 0 then
    if pwl_info.indices.length = 1 then
      pwl_info.ratios.headD 0
    else
      getPwlFactor_loop ref_val true pwl_info.indices pwl_info.ratios 0 0 1
  else
    dflt

/-- The function `AntennaChecker::findSegmentRoot`. -/
def findSegmentRoot (g : dbWireGraph) : Nat → Nat → Int → Option Nat
  | 0, _, _ => none
  | fuel + 1, node, wire_level =>
    match (g.node node).in_edge with
    | none => some node
    | some in_edge =>
      match in_edge.type with
      | EdgeType.VIA | EdgeType.TECH_VIA =>
        if (g.node in_edge.source).layer.getRoutingLevel > wire_level then some node
        else
          match findSegmentRoot g fuel in_edge.source wire_level with
          | none => none
          | some new_root =>
            if (g.node new_root).layer.getRoutingLevel = wire_level then some new_root
            else some node
      | EdgeType.SEGMENT | EdgeType.SHORT => findSegmentRoot g fuel in_edge.source wire_level

/-- The function `AntennaChecker::getWireroots`.  The inner loop of the code
searches `wireroots_info` for the root; it is a membership test. -/
def getWireroots (g : dbWireGraph) (fuel : Nat) : Option (List Nat) :=
  g.nodes.foldlM
    (fun (wireroots_info : List Nat) (node : Nat) =>
      (findSegmentRoot g fuel node (g.node node).layer.getRoutingLevel).map fun wireroot =>
        if wireroot ∈ wireroots_info then wireroots_info else wireroots_info ++ [wireroot])
    []

/-- The function `AntennaChecker::findSegmentStart`. -/
def findSegmentStart (g : dbWireGraph) : Nat → Nat → Option Nat
  | 0, _ => none
  | fuel + 1, node =>
    match (g.node node).in_edge with
    | none => some node
    | some in_edge =>
      if ((g.node node).object.map fun o => o.getObjectType) = some dbObjectType.dbITermObj then
        some node
      else
        match in_edge.type with
        | EdgeType.VIA | EdgeType.TECH_VIA => some node
        | EdgeType.SEGMENT | EdgeType.SHORT => findSegmentStart g fuel in_edge.source

/-- The function `AntennaChecker::checkIterm`: the returned flag and the
array `iterm_areas` after the call. -/
def checkIterm (ck : AntennaChecker) (g : dbWireGraph) (node : Nat) (iterm_areas : ℚ × ℚ) :
    Bool × (ℚ × ℚ) :=
  match (g.node node).object with
  | some object =>
    if object.getObjectType = dbObjectType.dbITermObj then
      let iterm := ck.getITerm object.getId
      let mterm := iterm.getMTerm
      let iterm_areas0 : ℚ :=
        match mterm.getDefaultAntennaModel with
        | some pinmodel =>
          let max_gate_area : ℚ :=
            pinmodel.getGateArea.foldl (fun max_gate_area p => max max_gate_area p.1) 0
          iterm_areas.1 + max_gate_area
        | none => iterm_areas.1
      let max_diff_area : ℚ :=
        mterm.getDiffArea.foldl (fun max_diff_area p => max max_diff_area p.1) 0
      (true, (iterm_areas0, iterm_areas.2 + max_diff_area))
    else (false, iterm_areas)
  | none => (false, iterm_areas)

/-- The state `findWireBelowIterms` updates through its reference
parameters: `iterm_areas`, the terminal set `iv` and the node set `nv`. -/
structure BelowIterms where
  iterm_areas : ℚ × ℚ
  iv : List Nat
  nv : List Nat
deriving DecidableEq, Repr

/-- The part of `findWireBelowIterms` that follows the incoming edge of `node`.
`start` is `findSegmentStart` and `recurse` the recursive call, both with the
fuel that is left. -/
def findWireBelowIterms_in (g : dbWireGraph) (node : Nat) (wire_level : Int)
    (start : Nat → Option Nat) (recurse : Nat → BelowIterms → Option BelowIterms)
    (st : BelowIterms) : Option BelowIterms :=
  match (g.node node).in_edge with
  | some in_edge =>
    if (g.node in_edge.source).layer.getRoutingLevel ≤ wire_level then
      if (in_edge.type = EdgeType.VIA ∨ in_edge.type = EdgeType.TECH_VIA)
          ∧ in_edge.source ∉ st.nv then
        (start in_edge.source).bind fun first => recurse first st
      else if (in_edge.type = EdgeType.SEGMENT ∨ in_edge.type = EdgeType.SHORT)
          ∧ in_edge.source ∉ st.nv then
        recurse in_edge.source st
      else some st
    else some st
  | none => some st

/-- The body of the loop of `findWireBelowIterms` over the outgoing edges, for
the edge `edge`. -/
def findWireBelowIterms_out (g : dbWireGraph) (wire_level : Int)
    (start : Nat → Option Nat) (recurse : Nat → BelowIterms → Option BelowIterms)
    (st : BelowIterms) (edge : Edge) : Option BelowIterms :=
  if edge.type = EdgeType.VIA ∨ edge.type = EdgeType.TECH_VIA then
    if (g.node edge.target).layer.getRoutingLevel ≤ wire_level ∧ edge.target ∉ st.nv then
      (start edge.target).bind fun first => recurse first st
    else some st
  else if (edge.type = EdgeType.SEGMENT ∨ edge.type = EdgeType.SHORT)
      ∧ edge.target ∉ st.nv then
    recurse edge.target st
  else some st

/-- The function `AntennaChecker::findWireBelowIterms`. -/
def findWireBelowIterms (ck : AntennaChecker) (g : dbWireGraph) :
    Nat → Nat → Int → BelowIterms → Option BelowIterms
  | 0, _, _, _ => none
  | fuel + 1, node, wire_level, st =>
    let chk := checkIterm ck g node st.iterm_areas
    let iv : List Nat :=
      if chk.1 then
        match (g.node node).object with
        | some object => set_insert st.iv object.getId
        | none => st.iv
      else st.iv
    let st1 : BelowIterms := ⟨chk.2, iv, set_insert st.nv node⟩
    let start := findSegmentStart g fuel
    let recurse := fun (next : Nat) (st : BelowIterms) =>
      findWireBelowIterms ck g fuel next wire_level st
    (findWireBelowIterms_in g node wire_level start recurse st1).bind fun st2 =>
      (g.node node).out_edges.foldlM (findWireBelowIterms_out g wire_level start recurse) st2

/-- The tag of an entry of `edge_vec` in `calculateWireArea` (the strings
"IN" and "OUT"). -/
inductive EdgeIoType where
  | IN
  | OUT
deriving DecidableEq, Repr

/-- The state `calculateWireArea` updates: the two running sums of the
current call and the sets `nv` and `level_nodes` passed by reference. -/
structure WireArea where
  wire_area : ℚ
  side_wire_area : ℚ
  nv : List Nat
  level_nodes : List Nat
deriving DecidableEq, Repr

/-- The vector `edge_vec` of `calculateWireArea`: the incoming edge and the
outgoing edges whose source is not in `nv`. -/
def calculateWireArea_edge_vec (g : dbWireGraph) (node : Nat) (nv : List Nat) :
    List (Edge × EdgeIoType) :=
  let edge_vec_in : List (Edge × EdgeIoType) :=
    match (g.node node).in_edge with
    | some in_edge => if in_edge.source ∉ nv then [(in_edge, EdgeIoType.IN)] else []
    | none => []
  let outs : List Edge := (g.node node).out_edges.filter fun edge => edge.source ∉ nv
  edge_vec_in ++ outs.map fun edge => (edge, EdgeIoType.OUT)

/-- The counter `out_edges_count` of `calculateWireArea`. -/
def calculateWireArea_out_edges_count (g : dbWireGraph) (node : Nat) (nv : List Nat) : Nat :=
  ((g.node node).out_edges.filter fun edge => edge.source ∉ nv).length

/-- The value a 32-bit `int` holds for the integer `value`: the operations on
`int` wrap around in two's complement. -/
def int_wrap (value : Int) : Int :=
  (value + 2147483648) % 4294967296 - 2147483648

/-- The `int` expression `abs(end_x - start_x) + abs(end_y - start_y)` of
`calculateWireArea`; the subtractions, the calls of `abs` and the addition are
operations on `int`. -/
def calculateWireArea_dist (start_x start_y end_x end_y : Int) : Int :=
  int_wrap (int_wrap |int_wrap (end_x - start_x)| + int_wrap |int_wrap (end_y - start_y)|)

/-- The statements `areas = calculateWireArea(next, ...); wire_area +=
areas.first; side_wire_area += areas.second;` of `calculateWireArea`, with
`recurse` the recursive call. -/
def calculateWireArea_add (recurse : Nat → List Nat → List Nat → Option WireArea)
    (st : WireArea) (next : Nat) : Option WireArea :=
  (recurse next st.nv st.level_nodes).map fun areas =>
    { wire_area := st.wire_area + areas.wire_area
      side_wire_area := st.side_wire_area + areas.side_wire_area
      nv := areas.nv
      level_nodes := areas.level_nodes }

/-- The body of the loop of `calculateWireArea` over `edge_vec`, for the entry
`edge_info` of the node `node`. -/
def calculateWireArea_edge (ck : AntennaChecker) (g : dbWireGraph) (node : Nat)
    (wire_level : Int) (out_edges_count : Nat)
    (recurse : Nat → List Nat → List Nat → Option WireArea)
    (st : WireArea) (edge_info : Edge × EdgeIoType) : Option WireArea :=
  let wire_width : ℚ := defDist ck (g.node node).layer.getWidth
  let wire_thickness_uint : Nat := (g.node node).layer.getThickness.getD 0
  let start_x := (g.node node).x
  let start_y := (g.node node).y
  let edge := edge_info.1
  let edge_io_type := edge_info.2
  match edge.type with
  | EdgeType.VIA | EdgeType.TECH_VIA =>
    match edge_io_type with
    | EdgeIoType.IN =>
      let st : WireArea :=
        { st with
          wire_area := st.wire_area + (1 / 2) * wire_width * wire_width
          side_wire_area := st.side_wire_area + defDist ck wire_thickness_uint * wire_width }
      if (g.node edge.source).layer.getRoutingLevel ≤ wire_level then
        calculateWireArea_add recurse st edge.source
      else some st
    | EdgeIoType.OUT =>
      let st : WireArea :=
        if out_edges_count = 1 then
          { st with
            wire_area := st.wire_area + (1 / 2) * wire_width * wire_width
            side_wire_area := st.side_wire_area + defDist ck wire_thickness_uint * wire_width }
        else st
      if (g.node edge.target).layer.getRoutingLevel ≤ wire_level then
        calculateWireArea_add recurse st edge.target
      else some st
  | EdgeType.SEGMENT | EdgeType.SHORT =>
    let far : Nat :=
      match edge_io_type with
      | EdgeIoType.IN => edge.source
      | EdgeIoType.OUT => edge.target
    let st : WireArea :=
      if (g.node node).layer.getRoutingLevel = wire_level then
        let end_x := (g.node far).x
        let end_y := (g.node far).y
        let dist : ℚ :=
          defDist ck ((calculateWireArea_dist start_x start_y end_x end_y : Int) : ℚ)
        { st with
          level_nodes := set_insert st.level_nodes node
          wire_area := st.wire_area + dist * wire_width
          side_wire_area :=
            st.side_wire_area + (dist + wire_width) * defDist ck wire_thickness_uint * 2 }
      else st
    calculateWireArea_add recurse st far

/-- The function `AntennaChecker::calculateWireArea`: the returned pair
`(wire_area, side_wire_area)` with the sets `nv` and `level_nodes` after the
call. -/
def calculateWireArea (ck : AntennaChecker) (g : dbWireGraph) :
    Nat → Nat → Int → List Nat → List Nat → Option WireArea
  | 0, _, _, _, _ => none
  | fuel + 1, node, wire_level, nv, level_nodes =>
    (calculateWireArea_edge_vec g node nv).foldlM
      (calculateWireArea_edge ck g node wire_level
        (calculateWireArea_out_edges_count g node nv)
        (fun next nv level_nodes => calculateWireArea ck g fuel next wire_level nv level_nodes))
      { wire_area := 0, side_wire_area := 0, nv := set_insert nv node,
        level_nodes := level_nodes }

/-- The function `AntennaChecker::getViaArea`: the area of the last CUT box
of the via of a VIA or TECH_VIA edge, 0 otherwise. -/
def getViaArea (ck : AntennaChecker) (edge : Edge) : ℚ :=
  match edge.type with
  | EdgeType.TECH_VIA | EdgeType.VIA =>
    edge.via_boxes.foldl
      (fun (via_area : ℚ) (box : dbBox) =>
        if box.getTechLayer.getType = dbTechLayerType.CUT then
          defDist ck box.getDX * defDist ck box.getDY
        else via_area)
      0
  | EdgeType.SEGMENT | EdgeType.SHORT => 0

/-- The function `AntennaChecker::getViaLayer` on a non-null edge: the layer
of the first CUT box, `none` for the null pointer it returns otherwise. -/
def getViaLayer (edge : Edge) : Option dbTechLayer :=
  match edge.type with
  | EdgeType.TECH_VIA | EdgeType.VIA =>
    (edge.via_boxes.find? fun box => box.getTechLayer.getType = dbTechLayerType.CUT).map
      fun box => box.getTechLayer
  | EdgeType.SEGMENT | EdgeType.SHORT => none

/-- The loop of `findVia` over the outgoing edges, which returns at the first
edge that yields a via.  `step` is the loop body: `none` when the fuel is used
up, `some none` when the edge yields no via. -/
def findVia_loop (step : Edge → Option (Option Edge)) : List Edge → Option (Option Edge)
  | [] => some none
  | edge :: rest =>
    match step edge with
    | none => none
    | some (some via) => some (some via)
    | some none => findVia_loop step rest

/-- The function `AntennaChecker::findVia`: `some none` is the null pointer,
`none` means the fuel ran out. -/
def findVia (g : dbWireGraph) : Nat → Nat → Int → Option (Option Edge)
  | 0, _, _ => none
  | fuel + 1, node, wire_level =>
    let in_via : Option Edge :=
      match (g.node node).in_edge with
      | some in_edge =>
        if (in_edge.type = EdgeType.VIA ∨ in_edge.type = EdgeType.TECH_VIA)
            ∧ (g.node in_edge.source).layer.getRoutingLevel > wire_level then
          some in_edge
        else none
      | none => none
    match in_via with
    | some in_edge => some (some in_edge)
    | none =>
      findVia_loop
        (fun edge =>
          match edge.type with
          | EdgeType.SEGMENT | EdgeType.SHORT => findVia g fuel edge.target wire_level
          | EdgeType.VIA | EdgeType.TECH_VIA =>
            if (g.node edge.target).layer.getRoutingLevel > wire_level then some (some edge)
            else findVia g fuel edge.target wire_level)
        (g.node node).out_edges

/-- The function `AntennaChecker::calculateParInfo`: the record after the
call. -/
def calculateParInfo (ck : AntennaChecker) (g : dbWireGraph) (it : PARinfo) : PARinfo :=
  let wireroot := it.WirerootNode
  let tech_layer := (g.node wireroot).layer
  let am := layer_info_at ck.layer_info tech_layer
  let metal_factor := am.metal_factor
  let diff_metal_factor := am.diff_metal_factor
  let side_metal_factor := am.side_metal_factor
  let diff_side_metal_factor := am.diff_side_metal_factor
  let minus_diff_factor := am.minus_diff_factor
  let plus_diff_factor := am.plus_diff_factor
  let diff_metal_reduce_factor : ℚ :=
    match tech_layer.getDefaultAntennaRule with
    | some antenna_rule => getPwlFactor antenna_rule.getAreaDiffReduce it.iterm_areas.2 1
    | none => am.diff_metal_reduce_factor
  if it.iterm_areas.1 = 0 then it
  else if it.iterm_areas.2 ≠ 0 then
    { it with
      PAR_value := (diff_metal_factor * it.wire_area) / it.iterm_areas.1
      PSR_value := (diff_side_metal_factor * it.side_wire_area) / it.iterm_areas.1
      diff_PAR_value :=
        (diff_metal_factor * it.wire_area * diff_metal_reduce_factor
            - minus_diff_factor * it.iterm_areas.2)
          / (it.iterm_areas.1 + plus_diff_factor * it.iterm_areas.2)
      diff_PSR_value :=
        (diff_side_metal_factor * it.side_wire_area * diff_metal_reduce_factor
            - minus_diff_factor * it.iterm_areas.2)
          / (it.iterm_areas.1 + plus_diff_factor * it.iterm_areas.2) }
  else
    { it with
      PAR_value := (metal_factor * it.wire_area) / it.iterm_areas.1
      PSR_value := (side_metal_factor * it.side_wire_area) / it.iterm_areas.1
      diff_PAR_value :=
        (metal_factor * it.wire_area * diff_metal_reduce_factor) / it.iterm_areas.1
      diff_PSR_value :=
        (side_metal_factor * it.side_wire_area * diff_metal_reduce_factor)
          / it.iterm_areas.1 }

/-- The first loop of `AntennaChecker::buildWireParTable` over the wireroots:
the table and the set `level_nodes` after the loop. -/
def buildWireParTable_loop (ck : AntennaChecker) (g : dbWireGraph) (fuel : Nat) :
    List Nat → List PARinfo × List Nat → Option (List PARinfo × List Nat)
  | [], st => some st
  | wireroot :: rest, (PARtable, level_nodes) =>
    if wireroot ∈ level_nodes then
      buildWireParTable_loop ck g fuel rest (PARtable, level_nodes)
    else
      match calculateWireArea ck g fuel wireroot (g.node wireroot).layer.getRoutingLevel []
          level_nodes with
      | none => none
      | some areas =>
        match findWireBelowIterms ck g fuel wireroot (g.node wireroot).layer.getRoutingLevel
            ⟨(0, 0), [], []⟩ with
        | none => none
        | some below =>
          let new_par : PARinfo :=
            { WirerootNode := wireroot
              iterms := below.iv
              wire_area := areas.wire_area
              side_wire_area := areas.side_wire_area
              iterm_areas := below.iterm_areas
              PAR_value := 0
              PSR_value := 0
              diff_PAR_value := 0
              diff_PSR_value := 0 }
          buildWireParTable_loop ck g fuel rest (PARtable ++ [new_par], areas.level_nodes)

/-- The function `AntennaChecker::buildWireParTable`: the table `PARtable`
after the call. -/
def buildWireParTable (ck : AntennaChecker) (g : dbWireGraph) (fuel : Nat)
    (PARtable : List PARinfo) (wireroots_info : List Nat) : Option (List PARinfo) :=
  (buildWireParTable_loop ck g fuel wireroots_info (PARtable, [])).map fun st =>
    st.1.map (calculateParInfo ck g)

/-- The local flags of `checkWirePar`: the four violation flags, `if_violated`
and `checked`. -/
structure WireParFlags where
  par_violation : Bool
  diff_par_violation : Bool
  psr_violation : Bool
  diff_psr_violation : Bool
  if_violated : Bool
  checked : Bool
deriving DecidableEq, Repr

/-- The threshold checks of `checkWirePar` for a layer with the default rule
`antenna_rule`: the local flags when the checks are done. -/
def checkWirePar_flags (antenna_rule : dbTechLayerAntennaRule) (AntennaRatio : ARinfo) :
    WireParFlags :=
  let par := AntennaRatio.PAR_value
  let psr := AntennaRatio.PSR_value
  let diff_par := AntennaRatio.diff_PAR_value
  let diff_psr := AntennaRatio.diff_PSR_value
  let diff_area := AntennaRatio.diff_area
  let fl : WireParFlags := ⟨false, false, false, false, false, false⟩
  let PAR_ratio := antenna_rule.getPAR
  let diffPAR := antenna_rule.getDiffPAR
  let diffPAR_PWL_ratio := getPwlFactor diffPAR diff_area 0
  let fl : WireParFlags :=
    if PAR_ratio ≠ 0 then
      if par > PAR_ratio then { fl with par_violation := true, if_violated := true } else fl
    else if diffPAR_PWL_ratio ≠ 0 then
      let fl := { fl with checked := true }
      if diff_par > diffPAR_PWL_ratio then
        { fl with diff_par_violation := true, if_violated := true }
      else fl
    else fl
  let PSR_ratio := antenna_rule.getPSR
  let diffPSR := antenna_rule.getDiffPSR
  let diffPSR_PWL_ratio := getPwlFactor diffPSR diff_area 0
  if PSR_ratio ≠ 0 then
    if psr > PSR_ratio then { fl with psr_violation := true, if_violated := true } else fl
  else if diffPSR_PWL_ratio ≠ 0 then
    let fl := { fl with checked := true }
    if diff_psr > diffPSR_PWL_ratio then
      { fl with diff_psr_violation := true, if_violated := true }
    else fl
  else fl

/-- The function `AntennaChecker::checkWirePar`: the returned pair
`(if_violated, checked)`. -/
def checkWirePar (g : dbWireGraph) (AntennaRatio : ARinfo) (report_violating_nets : Bool)
    (print : Bool) : Bool × Bool :=
  let layer := (g.node AntennaRatio.WirerootNode).layer
  match layer.getDefaultAntennaRule with
  | some antenna_rule =>
    let fl := checkWirePar_flags antenna_rule AntennaRatio
    if !print then (fl.if_violated, fl.checked)
    else if !fl.if_violated && report_violating_nets then (fl.if_violated, fl.checked)
    else (fl.if_violated, fl.checked)
  | none => (false, false)

/-- The local flags of `checkWireCar`. -/
structure WireCarFlags where
  car_violation : Bool
  diff_car_violation : Bool
  csr_violation : Bool
  diff_csr_violation : Bool
  if_violated : Bool
  checked : Bool
deriving DecidableEq, Repr

/-- The threshold checks of `checkWireCar` for a layer with the default rule
`antenna_rule`: the local flags when the checks are done. -/
def checkWireCar_flags (antenna_rule : dbTechLayerAntennaRule) (AntennaRatio : ARinfo)
    (par_checked : Bool) : WireCarFlags :=
  let car := AntennaRatio.CAR_value
  let csr := AntennaRatio.CSR_value
  let diff_csr := AntennaRatio.diff_CSR_value
  let diff_area := AntennaRatio.diff_area
  let fl : WireCarFlags := ⟨false, false, false, false, false, false⟩
  let CAR_ratio : ℚ := if par_checked then 0 else antenna_rule.getCAR
  let diffCAR := antenna_rule.getDiffCAR
  let diffCAR_PWL_ratio : ℚ := if par_checked then 0 else getPwlFactor diffCAR diff_area 0
  let fl : WireCarFlags :=
    if CAR_ratio ≠ 0 then
      if car > CAR_ratio then { fl with car_violation := true, if_violated := true } else fl
    else if diffCAR_PWL_ratio ≠ 0 then
      let fl := { fl with checked := true }
      if car > diffCAR_PWL_ratio then
        { fl with diff_car_violation := true, if_violated := true }
      else fl
    else fl
  let CSR_ratio : ℚ := if par_checked then 0 else antenna_rule.getCSR
  let diffCSR := antenna_rule.getDiffCSR
  let diffCSR_PWL_ratio : ℚ := if par_checked then 0 else getPwlFactor diffCSR diff_area 0
  if CSR_ratio ≠ 0 then
    if csr > CSR_ratio then { fl with csr_violation := true, if_violated := true } else fl
  else if diffCSR_PWL_ratio ≠ 0 then
    let fl := { fl with checked := true }
    if diff_csr > diffCSR_PWL_ratio then
      { fl with diff_csr_violation := true, if_violated := true }
    else fl
  else fl

/-- The function `AntennaChecker::checkWireCar`: the returned pair
`(if_violated, checked)`. -/
def checkWireCar (g : dbWireGraph) (AntennaRatio : ARinfo) (par_checked : Bool)
    (report_violating_nets : Bool) (print : Bool) : Bool × Bool :=
  let layer := (g.node AntennaRatio.WirerootNode).layer
  match layer.getDefaultAntennaRule with
  | some antenna_rule =>
    let fl := checkWireCar_flags antenna_rule AntennaRatio par_checked
    if !print then (fl.if_violated, fl.checked)
    else if !fl.if_violated && report_violating_nets then (fl.if_violated, fl.checked)
    else (fl.if_violated, fl.checked)
  | none => (false, false)

/-- The layer `getViaLayer(findVia(wireroot, level of wireroot))` that
`checkViaPar` and `checkViaCar` start from; `none` when the fuel runs out or a
null pointer would be dereferenced. -/
def viaLayerOf (g : dbWireGraph) (fuel : Nat) (WirerootNode : Nat) : Option dbTechLayer :=
  match findVia g fuel WirerootNode (g.node WirerootNode).layer.getRoutingLevel with
  | some (some via) => getViaLayer via
  | _ => none

/-- The function `AntennaChecker::checkViaPar`: the returned flag. -/
def checkViaPar (g : dbWireGraph) (fuel : Nat) (AntennaRatio : ARinfo)
    (report_violating_nets : Bool) (print : Bool) : Option Bool :=
  (viaLayerOf g fuel AntennaRatio.WirerootNode).map fun layer =>
    let par := AntennaRatio.PAR_value
    let diff_par := AntennaRatio.diff_PAR_value
    let diff_area := AntennaRatio.diff_area
    match layer.getDefaultAntennaRule with
    | some antenna_rule =>
      let PAR_ratio := antenna_rule.getPAR
      let diffPAR := antenna_rule.getDiffPAR
      let diffPAR_PWL_ratio := getPwlFactor diffPAR diff_area 0
      let if_violated : Bool :=
        if PAR_ratio ≠ 0 then
          if par > PAR_ratio then true else false
        else if diffPAR_PWL_ratio ≠ 0 then
          if diff_par > diffPAR_PWL_ratio then true else false
        else false
      if !print then if_violated
      else if !if_violated && report_violating_nets then false
      else if_violated
    | none => false

/-- The function `AntennaChecker::checkViaCar`: the returned flag. -/
def checkViaCar (g : dbWireGraph) (fuel : Nat) (AntennaRatio : ARinfo)
    (report_violating_nets : Bool) (print : Bool) : Option Bool :=
  (viaLayerOf g fuel AntennaRatio.WirerootNode).map fun layer =>
    let car := AntennaRatio.CAR_value
    let diff_area := AntennaRatio.diff_area
    match layer.getDefaultAntennaRule with
    | some antenna_rule =>
      let CAR_ratio := antenna_rule.getCAR
      let diffCAR := antenna_rule.getDiffCAR
      let diffCAR_PWL_ratio := getPwlFactor diffCAR diff_area 0
      let if_violated : Bool :=
        if CAR_ratio ≠ 0 then
          if car > CAR_ratio then true else false
        else if diffCAR_PWL_ratio ≠ 0 then
          if car > diffCAR_PWL_ratio then true else false
        else false
      if !print then if_violated
      else if !if_violated && report_violating_nets then false
      else if_violated
    | none => false

/-- The function `AntennaChecker::checkViolation`. -/
def checkViolation (par_info : PARinfo) (layer : dbTechLayer) : Bool :=
  let par := par_info.PAR_value
  let psr := par_info.PSR_value
  let diff_par := par_info.diff_PAR_value
  let diff_psr := par_info.diff_PSR_value
  let diff_area := par_info.iterm_areas.2
  match layer.getDefaultAntennaRule with
  | some antenna_rule =>
    let PAR_ratio := antenna_rule.getPAR
    let wire_PAR_violation : Bool :=
      if PAR_ratio ≠ 0 then
        if par > PAR_ratio then true else false
      else
        let diffPAR := antenna_rule.getDiffPAR
        let diffPAR_ratio := getPwlFactor diffPAR diff_area 0
        if diffPAR_ratio ≠ 0 ∧ diff_par > diffPAR_ratio then true else false
    let PSR_ratio := antenna_rule.getPSR
    if PSR_ratio ≠ 0 then
      if psr > PSR_ratio then true else wire_PAR_violation
    else
      let diffPSR := antenna_rule.getDiffPSR
      let diffPSR_ratio := getPwlFactor diffPSR diff_area 0
      if diffPSR_ratio ≠ 0 ∧ diff_psr > diffPSR_ratio then true else wire_PAR_violation
  | none => false

/-- The function `AntennaChecker::ifSegmentRoot`. -/
def ifSegmentRoot (g : dbWireGraph) (fuel : Nat) (node : Nat) (wire_level : Int) :
    Option Bool :=
  match (g.node node).in_edge with
  | none => some true
  | some in_edge =>
    if ((g.node node).object.map fun o => o.getObjectType) = some dbObjectType.dbITermObj then
      some true
    else
      match in_edge.type with
      | EdgeType.VIA | EdgeType.TECH_VIA =>
        if (g.node in_edge.source).layer.getRoutingLevel ≤ wire_level then
          (findSegmentRoot g fuel in_edge.source wire_level).map fun new_root =>
            if (g.node new_root).layer.getRoutingLevel = wire_level then false else true
        else some true
      | EdgeType.SEGMENT | EdgeType.SHORT => some false

/-- The body of the loop of `calculateViaArea` over the outgoing edges, with
`recurse` the recursive call: the sum `via_area` after the edge. -/
def calculateViaArea_edge (ck : AntennaChecker) (g : dbWireGraph) (wire_level : Int)
    (recurse : Nat → Option ℚ) (via_area : ℚ) (edge : Edge) : Option ℚ :=
  match edge.type with
  | EdgeType.SEGMENT | EdgeType.SHORT =>
    (recurse edge.target).map fun below => via_area + below
  | EdgeType.VIA | EdgeType.TECH_VIA =>
    if (g.node edge.target).layer.getRoutingLevel > wire_level then
      some (via_area + getViaArea ck edge)
    else (recurse edge.target).map fun below => via_area + below

/-- The function `AntennaChecker::calculateViaArea`. -/
def calculateViaArea (ck : AntennaChecker) (g : dbWireGraph) : Nat → Nat → Int → Option ℚ
  | 0, _, _ => none
  | fuel + 1, node, wire_level =>
    let via_area : ℚ :=
      match (g.node node).in_edge with
      | some in_edge =>
        if (in_edge.type = EdgeType.VIA ∨ in_edge.type = EdgeType.TECH_VIA)
            ∧ (g.node in_edge.source).layer.getRoutingLevel > wire_level then
          0 + getViaArea ck in_edge
        else 0
      | none => 0
    (g.node node).out_edges.foldlM
      (calculateViaArea_edge ck g wire_level
        (fun next => calculateViaArea ck g fuel next wire_level))
      via_area

/-- The two vectors `findCarPath` updates through its reference parameters. -/
structure CarPath where
  current_path : List Nat
  path_found : List Nat
deriving DecidableEq, Repr

/-- The loop of `findCarPath` at the goal: every node of `current_path` that is
not yet in `path_found` is appended to it. -/
def findCarPath_merge (current_path path_found : List Nat) : List Nat :=
  current_path.foldl
    (fun (path_found : List Nat) (current : Nat) =>
      if current ∈ path_found then path_found else path_found ++ [current])
    path_found

/-- The part of `findCarPath` on the incoming edge of `node`: when it is a via
that comes from a strictly lower level, the search goes on from the segment
root of its source, at the level of the source.  `root` is `findSegmentRoot`
and `recurse` the recursive call, both with the fuel that is left. -/
def findCarPath_in (g : dbWireGraph) (node : Nat)
    (root : Nat → Int → Option Nat) (recurse : Nat → Int → CarPath → Option CarPath)
    (st : CarPath) : Option CarPath :=
  match (g.node node).in_edge with
  | some in_edge =>
    if (in_edge.type = EdgeType.VIA ∨ in_edge.type = EdgeType.TECH_VIA)
        ∧ (g.node in_edge.source).layer.getRoutingLevel
            < (g.node in_edge.target).layer.getRoutingLevel then
      (root in_edge.source (g.node in_edge.source).layer.getRoutingLevel).bind fun root_info =>
        recurse root_info (g.node in_edge.source).layer.getRoutingLevel st
    else some st
  | none => some st

/-- The body of the loop of `findCarPath` over the outgoing edges. -/
def findCarPath_out (g : dbWireGraph) (wire_level : Int)
    (start : Nat → Option Nat) (recurse : Nat → Int → CarPath → Option CarPath)
    (st : CarPath) (edge : Edge) : Option CarPath :=
  match edge.type with
  | EdgeType.VIA | EdgeType.TECH_VIA =>
    if (g.node edge.target).layer.getRoutingLevel ≤ wire_level then
      (start edge.target).bind fun first => recurse first wire_level st
    else some st
  | EdgeType.SEGMENT | EdgeType.SHORT => recurse edge.target wire_level st

/-- The function `AntennaChecker::findCarPath`: the vectors `current_path` and
`path_found` after the call. -/
def findCarPath (g : dbWireGraph) : Nat → Nat → Int → Nat → CarPath → Option CarPath
  | 0, _, _, _, _ => none
  | fuel + 1, node, wire_level, goal, st =>
    let st1 : CarPath := { st with current_path := st.current_path ++ [node] }
    let searched : Option CarPath :=
      if node = goal then
        some { st1 with path_found := findCarPath_merge st1.current_path st1.path_found }
      else
        let root := findSegmentRoot g fuel
        let start := findSegmentStart g fuel
        let recurse := fun (next : Nat) (level : Int) (st : CarPath) =>
          findCarPath g fuel next level goal st
        (findCarPath_in g node root recurse st1).bind fun st2 =>
          (g.node node).out_edges.foldlM (findCarPath_out g wire_level start recurse) st2
    searched.map fun st3 => { st3 with current_path := st3.current_path.dropLast }

/-- The running sums `car`, `csr`, `diff_car` and `diff_csr` of the two
cumulative table builders. -/
structure CarSums where
  car : ℚ
  csr : ℚ
  diff_car : ℚ
  diff_csr : ℚ
deriving DecidableEq, Repr

/-- The loop of the cumulative table builders that keeps the nodes of
`path_found` for which `ifSegmentRoot(node, level of node)` holds: the vector
`car_wireroots`. -/
def car_wireroots (g : dbWireGraph) (fuel : Nat) (path_found : List Nat) : Option (List Nat) :=
  path_found.foldlM
    (fun (roots : List Nat) (node : Nat) =>
      (ifSegmentRoot g fuel node (g.node node).layer.getRoutingLevel).map fun is_root =>
        if is_root then roots ++ [node] else roots)
    []

/-- The body of the loop of `buildWireCarTable` over `car_wireroots`: the sums
after the root `car_root`, for the record of `wireroot`.  The search loops over
the tables stop at the first entry of the root. -/
def buildWireCarTable_root (g : dbWireGraph) (PARtable VIA_PARtable : List PARinfo)
    (wireroot : Nat) (sums : CarSums) (car_root : Nat) : CarSums :=
  let sums : CarSums :=
    match PARtable.find? fun par_itr => par_itr.WirerootNode = car_root with
    | some par_itr =>
      { car := sums.car + par_itr.PAR_value
        csr := sums.csr + par_itr.PSR_value
        diff_car := sums.diff_car + par_itr.diff_PAR_value
        diff_csr := sums.diff_csr + par_itr.diff_PSR_value }
    | none => sums
  let wire_layer := (g.node wireroot).layer
  match wire_layer.getDefaultAntennaRule with
  | some antenna_rule =>
    if antenna_rule.hasAntennaCumRoutingPlusCut then
      if (g.node car_root).layer.getRoutingLevel < (g.node wireroot).layer.getRoutingLevel then
        match VIA_PARtable.find? fun via_par_itr => via_par_itr.WirerootNode = car_root with
        | some via_par_itr =>
          { sums with
            car := sums.car + via_par_itr.PAR_value
            diff_car := sums.diff_car + via_par_itr.diff_PAR_value }
        | none => sums
      else sums
    else sums
  | none => sums

/-- The body of the inner loop of `buildWireCarTable` for the gate `gate` and
the entry `ar_itr` of the PAR table: the record pushed to the table, `some
none` when no path is found. -/
def buildWireCarTable_record (g : dbWireGraph) (fuel : Nat)
    (PARtable VIA_PARtable : List PARinfo) (gate : Nat) (ar_itr : PARinfo) :
    Option (Option ARinfo) :=
  let wireroot := ar_itr.WirerootNode
  (findCarPath g fuel wireroot (g.node wireroot).layer.getRoutingLevel gate ⟨[], []⟩).bind
    fun path =>
      if path.path_found ≠ [] then
        (car_wireroots g fuel path.path_found).map fun roots =>
          let sums := roots.foldl (buildWireCarTable_root g PARtable VIA_PARtable wireroot)
            ⟨0, 0, 0, 0⟩
          some
            { WirerootNode := wireroot
              GateNode := gate
              violated_net := false
              PAR_value := ar_itr.PAR_value
              PSR_value := ar_itr.PSR_value
              diff_PAR_value := ar_itr.diff_PAR_value
              diff_PSR_value := ar_itr.diff_PSR_value
              CAR_value := sums.car
              CSR_value := sums.csr
              diff_CAR_value := sums.diff_car
              diff_CSR_value := sums.diff_csr
              diff_area := ar_itr.iterm_areas.2 }
      else some none

/-- Pushing the record of one pair to a cumulative table. -/
def push_record (table : List ARinfo) (record : Option ARinfo) : List ARinfo :=
  match record with
  | some new_car => table ++ [new_car]
  | none => table

/-- The function `AntennaChecker::buildWireCarTable`: the table `CARtable`
after the call. -/
def buildWireCarTable (g : dbWireGraph) (fuel : Nat) (CARtable : List ARinfo)
    (PARtable VIA_PARtable : List PARinfo) (gate_iterms : List Nat) : Option (List ARinfo) :=
  gate_iterms.foldlM
    (fun (CARtable : List ARinfo) (gate : Nat) =>
      PARtable.foldlM
        (fun (CARtable : List ARinfo) (ar_itr : PARinfo) =>
          (buildWireCarTable_record g fuel PARtable VIA_PARtable gate ar_itr).map
            (push_record CARtable))
        CARtable)
    CARtable

/-- The body of the loop of `buildViaParTable` for one wireroot: the record
pushed to the table, `some none` when the via area or the gate area is 0. -/
def buildViaParTable_record (ck : AntennaChecker) (g : dbWireGraph) (fuel : Nat)
    (wireroot : Nat) : Option (Option PARinfo) :=
  (calculateViaArea ck g fuel wireroot (g.node wireroot).layer.getRoutingLevel).bind
    fun via_area =>
      (findWireBelowIterms ck g fuel wireroot (g.node wireroot).layer.getRoutingLevel
          ⟨(0, 0), [], []⟩).bind fun below =>
        let iterm_areas := below.iterm_areas
        let iv := below.iv
        if via_area ≠ 0 ∧ iterm_areas.1 ≠ 0 then
          (viaLayerOf g fuel wireroot).map fun layer =>
            let am := layer_info_at ck.layer_info layer
            let diff_metal_reduce_factor : ℚ :=
              match layer.getDefaultAntennaRule with
              | some antenna_rule =>
                getPwlFactor antenna_rule.getAreaDiffReduce iterm_areas.2 1
              | none => am.diff_metal_reduce_factor
            let cut_factor := am.cut_factor
            let diff_cut_factor := am.diff_cut_factor
            let minus_diff_factor := am.minus_diff_factor
            let plus_diff_factor := am.plus_diff_factor
            let par : ℚ :=
              if iterm_areas.2 ≠ 0 then (diff_cut_factor * via_area) / iterm_areas.1
              else (cut_factor * via_area) / iterm_areas.1
            let diff_par : ℚ :=
              if iterm_areas.2 ≠ 0 then
                (diff_cut_factor * via_area * diff_metal_reduce_factor
                    - minus_diff_factor * iterm_areas.2)
                  / (iterm_areas.1 + plus_diff_factor * iterm_areas.2)
              else
                (cut_factor * via_area * diff_metal_reduce_factor
                    - minus_diff_factor * iterm_areas.2)
                  / (iterm_areas.1 + plus_diff_factor * iterm_areas.2)
            some
              { WirerootNode := wireroot
                iterms := iv
                wire_area := 0
                side_wire_area := 0
                iterm_areas := (0, 0)
                PAR_value := par
                PSR_value := 0
                diff_PAR_value := diff_par
                diff_PSR_value := 0 }
        else some none

/-- The function `AntennaChecker::buildViaParTable`: the table `VIA_PARtable`
after the call. -/
def buildViaParTable (ck : AntennaChecker) (g : dbWireGraph) (fuel : Nat)
    (VIA_PARtable : List PARinfo) (wireroots_info : List Nat) : Option (List PARinfo) :=
  wireroots_info.foldlM
    (fun (VIA_PARtable : List PARinfo) (wireroot : Nat) =>
      (buildViaParTable_record ck g fuel wireroot).map fun record =>
        match record with
        | some new_par => VIA_PARtable ++ [new_par]
        | none => VIA_PARtable)
    VIA_PARtable

/-- The body of the loop of `buildViaCarTable` over `car_wireroots`: the sums
after the root `car_root`, for the record of `wireroot`; `none` when the via
lookup dereferences a null pointer. -/
def buildViaCarTable_root (g : dbWireGraph) (fuel : Nat) (PARtable VIA_PARtable : List PARinfo)
    (wireroot : Nat) (sums : CarSums) (car_root : Nat) : Option CarSums :=
  let sums : CarSums :=
    match VIA_PARtable.find? fun via_par_itr => via_par_itr.WirerootNode = car_root with
    | some via_par_itr =>
      { sums with
        car := sums.car + via_par_itr.PAR_value
        diff_car := sums.diff_car + via_par_itr.diff_PAR_value }
    | none => sums
  (viaLayerOf g fuel wireroot).map fun via_layer =>
    match via_layer.getDefaultAntennaRule with
    | some antenna_rule =>
      if antenna_rule.hasAntennaCumRoutingPlusCut then
        match PARtable.find? fun par_itr => par_itr.WirerootNode = car_root with
        | some par_itr =>
          { sums with
            car := sums.car + par_itr.PAR_value
            diff_car := sums.diff_car + par_itr.diff_PAR_value }
        | none => sums
      else sums
    | none => sums

/-- The body of the inner loop of `buildViaCarTable` for the gate `gate` and
the entry `ar_itr` of the VIA-PAR table. -/
def buildViaCarTable_record (g : dbWireGraph) (fuel : Nat)
    (PARtable VIA_PARtable : List PARinfo) (gate : Nat) (ar_itr : PARinfo) :
    Option (Option ARinfo) :=
  let wireroot := ar_itr.WirerootNode
  (findCarPath g fuel wireroot (g.node wireroot).layer.getRoutingLevel gate ⟨[], []⟩).bind
    fun path =>
      if path.path_found ≠ [] then
        (car_wireroots g fuel path.path_found).bind fun roots =>
          (roots.foldlM (buildViaCarTable_root g fuel PARtable VIA_PARtable wireroot)
            ⟨0, 0, 0, 0⟩).map fun sums =>
            some
              { WirerootNode := wireroot
                GateNode := gate
                violated_net := false
                PAR_value := ar_itr.PAR_value
                PSR_value := 0
                diff_PAR_value := ar_itr.diff_PAR_value
                diff_PSR_value := 0
                CAR_value := sums.car
                CSR_value := 0
                diff_CAR_value := sums.diff_car
                diff_CSR_value := 0
                diff_area := ar_itr.iterm_areas.2 }
      else some none

/-- The function `AntennaChecker::buildViaCarTable`: the table `VIA_CARtable`
after the call. -/
def buildViaCarTable (g : dbWireGraph) (fuel : Nat) (VIA_CARtable : List ARinfo)
    (PARtable VIA_PARtable : List PARinfo) (gate_iterms : List Nat) : Option (List ARinfo) :=
  gate_iterms.foldlM
    (fun (VIA_CARtable : List ARinfo) (gate : Nat) =>
      VIA_PARtable.foldlM
        (fun (VIA_CARtable : List ARinfo) (ar_itr : PARinfo) =>
          (buildViaCarTable_record g fuel PARtable VIA_PARtable gate ar_itr).map
            (push_record VIA_CARtable))
        VIA_CARtable)
    VIA_CARtable

/-- A net `dbNet`: `getWire` holds the graph decoded from the wire of the net,
`none` for a net without a wire. -/
structure dbNet where
  getConstName : String
  isSpecial : Bool
  getWire : Option dbWireGraph

/-- The gate nodes `gate_iterms` collected by `getAntennaRatio`: the nodes on
an instance terminal that is an input with a default antenna model. -/
def getAntennaRatio_gate_iterms (ck : AntennaChecker) (g : dbWireGraph) : List Nat :=
  g.nodes.filter fun node =>
    match (g.node node).object with
    | some object =>
      object.getObjectType = dbObjectType.dbITermObj
        ∧ (ck.getITerm object.getId).getMTerm.getIoType = dbIoType.INPUT
        ∧ (ck.getITerm object.getId).getMTerm.getDefaultAntennaModel.isSome
    | none => false

/-- The vectors and tables `getAntennaRatio` builds for one net. -/
structure NetTables where
  wireroots_info : List Nat
  gate_iterms : List Nat
  PARtable : List PARinfo
  VIA_PARtable : List PARinfo
  CARtable : List ARinfo
  VIA_CARtable : List ARinfo

/-- The part of `getAntennaRatio` that builds the tables of one net.  The loop
over the nodes that fills `wireroots_info` is the loop of `getWireroots`. -/
def getAntennaRatio_tables (ck : AntennaChecker) (g : dbWireGraph) (fuel : Nat) :
    Option NetTables :=
  (getWireroots g fuel).bind fun wireroots_info =>
    let gate_iterms := getAntennaRatio_gate_iterms ck g
    (buildWireParTable ck g fuel [] wireroots_info).bind fun PARtable =>
      (buildViaParTable ck g fuel [] wireroots_info).bind fun VIA_PARtable =>
        (buildWireCarTable g fuel [] PARtable VIA_PARtable gate_iterms).bind fun CARtable =>
          (buildViaCarTable g fuel [] PARtable VIA_PARtable gate_iterms).map fun VIA_CARtable =>
            { wireroots_info := wireroots_info
              gate_iterms := gate_iterms
              PARtable := PARtable
              VIA_PARtable := VIA_PARtable
              CARtable := CARtable
              VIA_CARtable := VIA_CARtable }

/-- The flags `if_violated_wire` and `if_violated_VIA` and the set
`violated_iterms` of `getAntennaRatio` for one net. -/
structure NetViolations where
  if_violated_wire : Bool
  if_violated_VIA : Bool
  violated_iterms : List Nat
deriving DecidableEq, Repr

/-- The body of the loop of `getAntennaRatio` over `CARtable` that sets
`if_violated_wire`, for the gate `gate` and the record `ar`. -/
def getAntennaRatio_wire (g : dbWireGraph) (report_violating_nets : Bool) (gate : Nat)
    (st : NetViolations) (ar : ARinfo) : NetViolations :=
  if ar.GateNode = gate then
    let wire_PAR_violation := checkWirePar g ar report_violating_nets true
    let wire_CAR_violation := checkWireCar g ar wire_PAR_violation.2 report_violating_nets true
    if wire_PAR_violation.1 || wire_CAR_violation.1 then
      { st with
        if_violated_wire := true
        violated_iterms := set_insert st.violated_iterms gate }
    else st
  else st

/-- The body of the loop of `getAntennaRatio` over `VIA_CARtable` that sets
`if_violated_VIA`, for the gate `gate` and the record `via_ar`. -/
def getAntennaRatio_via (g : dbWireGraph) (fuel : Nat) (report_violating_nets : Bool)
    (gate : Nat) (st : NetViolations) (via_ar : ARinfo) : Option NetViolations :=
  if via_ar.GateNode = gate then
    (checkViaPar g fuel via_ar report_violating_nets true).bind fun VIA_PAR_violation =>
      (checkViaCar g fuel via_ar report_violating_nets true).map fun VIA_CAR_violation =>
        if VIA_PAR_violation || VIA_CAR_violation then
          { st with
            if_violated_VIA := true
            violated_iterms := set_insert st.violated_iterms gate }
        else st
  else some st

/-- The body of the loop of `getAntennaRatio` over the gates of one net.  The
first pass of the code over the two tables, which calls the same checks
without printing, only decides what is printed. -/
def getAntennaRatio_gate (g : dbWireGraph) (fuel : Nat) (report_violating_nets : Bool)
    (tables : NetTables) (st : NetViolations) (gate : Nat) : Option NetViolations :=
  tables.VIA_CARtable.foldlM (getAntennaRatio_via g fuel report_violating_nets gate)
    (tables.CARtable.foldl (getAntennaRatio_wire g report_violating_nets gate) st)

/-- The part of `getAntennaRatio` for one net with a wire: the two flags and
the set of violated gates after the loop over the gates. -/
def getAntennaRatio_net (ck : AntennaChecker) (g : dbWireGraph) (fuel : Nat)
    (report_violating_nets : Bool) : Option NetViolations :=
  (getAntennaRatio_tables ck g fuel).bind fun tables =>
    tables.gate_iterms.foldlM (getAntennaRatio_gate g fuel report_violating_nets tables)
      ⟨false, false, []⟩

/-- The three counters of `getAntennaRatio`. -/
structure NetCounts where
  num_violated_pins : Nat
  num_violated_net : Nat
  num_total_net : Nat
deriving DecidableEq, Repr

/-- The body of the loop of `getAntennaRatio` over the nets. -/
def getAntennaRatio_step (ck : AntennaChecker) (fuel : Nat) (report_violating_nets : Bool)
    (counts : NetCounts) (net : dbNet) : Option NetCounts :=
  if net.isSpecial then some counts
  else
    let counts : NetCounts := { counts with num_total_net := counts.num_total_net + 1 }
    match net.getWire with
    | some graph =>
      (getAntennaRatio_net ck graph fuel report_violating_nets).map fun st =>
        if st.if_violated_wire || st.if_violated_VIA then
          { counts with
            num_violated_net := counts.num_violated_net + 1
            num_violated_pins := counts.num_violated_pins + st.violated_iterms.length }
        else counts
    | none => some counts

/-- The function `AntennaChecker::getAntennaRatio` on the nets `nets` of the
block: the returned counts `{num_violated_pins, num_violated_net,
num_total_net}`.  `out_opened` says that the report file could be opened. -/
def getAntennaRatio (ck : AntennaChecker) (out_opened : Bool) (nets : List dbNet) (fuel : Nat)
    (report_violating_nets : Bool) : Option NetCounts :=
  if out_opened then
    if nets.length = 0 then some ⟨0, 0, 0⟩
    else nets.foldlM (getAntennaRatio_step ck fuel report_violating_nets) ⟨0, 0, 0⟩
  else some ⟨0, 0, 0⟩

/-- The function `AntennaChecker::findWirerootIterms`: the vector `gates`. -/
def findWirerootIterms (ck : AntennaChecker) (g : dbWireGraph) (fuel : Nat) (node : Nat)
    (wire_level : Int) : Option (List Nat) :=
  (findWireBelowIterms ck g fuel node wire_level ⟨(0, 0), [], []⟩).map fun below => below.iv

/-- Modelled from the spec: the record `ViolationInfo`, declared in
`ant/AntennaChecker.hh`; it holds, per violation, the routing level, the
feeding terminals and the diode count needed. -/
structure ViolationInfo where
  routing_level : Int
  iterms : List Nat
  antenna_cell_nums : Nat
deriving DecidableEq, Repr

/-- The `while` loop of `getNetAntennaViolations`: the record, the flag
`wire_PAR_violation` and the counter `required_cell_nums` after the loop.  The
first argument bounds the number of iterations; the loop is entered with 10,
which the condition `required_cell_nums < 10` never lets run out. -/
def getNetAntennaViolations_while (ck : AntennaChecker) (g : dbWireGraph) (layer : dbTechLayer)
    (max_diff_area : ℚ) : Nat → PARinfo → Bool → Nat → PARinfo × Bool × Nat
  | 0, par, wire_PAR_violation, required_cell_nums =>
    (par, wire_PAR_violation, required_cell_nums)
  | bound + 1, par, wire_PAR_violation, required_cell_nums =>
    if wire_PAR_violation = true ∧ required_cell_nums < 10 then
      let par : PARinfo :=
        { par with
          iterm_areas :=
            (par.iterm_areas.1, par.iterm_areas.2 + max_diff_area * (par.iterms.length : ℚ)) }
      let required_cell_nums := required_cell_nums + 1
      let par := calculateParInfo ck g par
      getNetAntennaViolations_while ck g layer max_diff_area bound par
        (checkViolation par layer) required_cell_nums
    else (par, wire_PAR_violation, required_cell_nums)

/-- The body of the loop of `getNetAntennaViolations` over the PAR table: the
vector `antenna_violations` after the record `par`. -/
def getNetAntennaViolations_record (ck : AntennaChecker) (g : dbWireGraph) (fuel : Nat)
    (antenna_cell_name : String) (max_diff_area : ℚ)
    (antenna_violations : List ViolationInfo) (par : PARinfo) : Option (List ViolationInfo) :=
  let layer := (g.node par.WirerootNode).layer
  let wire_PAR_violation := checkViolation par layer
  if wire_PAR_violation then
    (findWirerootIterms ck g fuel par.WirerootNode layer.getRoutingLevel).map fun gates =>
      let required_cell_nums : Nat :=
        if antenna_cell_name ≠ "" then
          (getNetAntennaViolations_while ck g layer max_diff_area 10 par wire_PAR_violation
            0).2.2
        else 0
      antenna_violations
        ++ [{ routing_level := layer.getRoutingLevel
              iterms := gates
              antenna_cell_nums := required_cell_nums }]
  else some antenna_violations

/-- The function `AntennaChecker::getNetAntennaViolations`.  `findMTerm` is
`db_->findMaster(name)->findMTerm(pin)`, `none` where a null pointer would be
dereferenced. -/
def getNetAntennaViolations (ck : AntennaChecker) (findMTerm : String → String → Option dbMTerm)
    (net : dbNet) (fuel : Nat) (antenna_cell_name cell_pin : String) :
    Option (List ViolationInfo) :=
  let max_diff_area? : Option ℚ :=
    if antenna_cell_name ≠ "" then
      (findMTerm antenna_cell_name cell_pin).map fun mterm =>
        mterm.getDiffArea.foldl (fun max_diff_area p => max max_diff_area p.1) 0
    else some 0
  max_diff_area?.bind fun max_diff_area =>
    if net.isSpecial then some []
    else
      match net.getWire with
      | some graph =>
        (getWireroots graph fuel).bind fun wireroots_info =>
          (buildWireParTable ck graph fuel [] wireroots_info).bind fun PARtable =>
            PARtable.foldlM
              (getNetAntennaViolations_record ck graph fuel antenna_cell_name max_diff_area) []
      | none => some []


/-- The four thresholds `CAR_ratio`, `diffCAR_PWL_ratio`, `CSR_ratio` and
`diffCSR_PWL_ratio` that `checkWireCar` compares the record with. -/
def checkWireCar_thresholds (antenna_rule : dbTechLayerAntennaRule) (AntennaRatio : ARinfo)
    (par_checked : Bool) : ℚ × ℚ × ℚ × ℚ :=
  let diff_area := AntennaRatio.diff_area
  let CAR_ratio : ℚ := if par_checked then 0 else antenna_rule.getCAR
  let diffCAR := antenna_rule.getDiffCAR
  let diffCAR_PWL_ratio : ℚ := if par_checked then 0 else getPwlFactor diffCAR diff_area 0
  let CSR_ratio : ℚ := if par_checked then 0 else antenna_rule.getCSR
  let diffCSR := antenna_rule.getDiffCSR
  let diffCSR_PWL_ratio : ℚ := if par_checked then 0 else getPwlFactor diffCSR diff_area 0
  (CAR_ratio, diffCAR_PWL_ratio, CSR_ratio, diffCSR_PWL_ratio)

/-- The body of the `while` loop of `getNetAntennaViolations` on the record:
the diffusion area grows by `max_diff_area * iterms.size()` and the ratios are
computed again. -/
def getNetAntennaViolations_add (ck : AntennaChecker) (g : dbWireGraph) (max_diff_area : ℚ)
    (par : PARinfo) : PARinfo :=
  calculateParInfo ck g
    { par with
      iterm_areas :=
        (par.iterm_areas.1, par.iterm_areas.2 + max_diff_area * (par.iterms.length : ℚ)) }

/-- Spec-side definition, from the words of the diode estimate: the record
`par` with `j` diodes, that is with its diffusion area increased by `j` times
(diode diffusion area times number of terminals of the record) and its ratios
recomputed by `calculateParInfo`; without diodes it is `par` itself. -/
def diode_record (ck : AntennaChecker) (g : dbWireGraph) (max_diff_area : ℚ) (par : PARinfo)
    (j : Nat) : PARinfo :=
  if j = 0 then par
  else
    calculateParInfo ck g
      { par with
        iterm_areas :=
          (par.iterm_areas.1,
            par.iterm_areas.2 + (j : ℚ) * (max_diff_area * (par.iterms.length : ℚ))) }

/-- Spec-side definition, from the words of the spec: `SegmentRoot g level n r`
says that `r` is the segment root of the node `n` at the level `level`.  A node
without incoming edge is its own root; so is a node whose incoming edge is a
via from a level above `level`; behind a via from a level at or below `level`
the root is the root `r` of the source when the level of `r` is `level`, and
the node itself otherwise; behind a SEGMENT or SHORT edge it is the root of
the source. -/
inductive SegmentRoot (g : dbWireGraph) (level : Int) : Nat → Nat → Prop
  | no_in_edge (n : Nat) : (g.node n).in_edge = none → SegmentRoot g level n n
  | via_above (n : Nat) (e : Edge) : (g.node n).in_edge = some e →
      (e.type = EdgeType.VIA ∨ e.type = EdgeType.TECH_VIA) →
      (g.node e.source).layer.getRoutingLevel > level → SegmentRoot g level n n
  | via_same (n : Nat) (e : Edge) (r : Nat) : (g.node n).in_edge = some e →
      (e.type = EdgeType.VIA ∨ e.type = EdgeType.TECH_VIA) →
      (g.node e.source).layer.getRoutingLevel ≤ level → SegmentRoot g level e.source r →
      (g.node r).layer.getRoutingLevel = level → SegmentRoot g level n r
  | via_other (n : Nat) (e : Edge) (r : Nat) : (g.node n).in_edge = some e →
      (e.type = EdgeType.VIA ∨ e.type = EdgeType.TECH_VIA) →
      (g.node e.source).layer.getRoutingLevel ≤ level → SegmentRoot g level e.source r →
      (g.node r).layer.getRoutingLevel ≠ level → SegmentRoot g level n n
  | segment (n : Nat) (e : Edge) (r : Nat) : (g.node n).in_edge = some e →
      (e.type = EdgeType.SEGMENT ∨ e.type = EdgeType.SHORT) →
      SegmentRoot g level e.source r → SegmentRoot g level n r

/-- The PAR value a table holds for the wireroot `root`, in its first record
of that wireroot; 0 when the table holds no record of it (the search loops of
the cumulative table builders then add nothing). -/
def par_of (table : List PARinfo) (root : Nat) : ℚ :=
  match table.find? fun par_itr => par_itr.WirerootNode = root with
  | some par_itr => par_itr.PAR_value
  | none => 0

/-- The flag "cumulative routing plus cut" as `buildWireCarTable` reads it from
a layer: false for a layer without a default rule. -/
def plus_cut (layer : dbTechLayer) : Bool :=
  match layer.getDefaultAntennaRule with
  | some antenna_rule => antenna_rule.hasAntennaCumRoutingPlusCut
  | none => false

/-- Spec-side definition: the wire cumulative record `ar` is violating, that
is `checkWirePar` or `checkWireCar` (called as `getAntennaRatio` calls them)
reports a violation for it. -/
def wire_record_violates (g : dbWireGraph) (report_violating_nets : Bool) (ar : ARinfo) :
    Bool :=
  (checkWirePar g ar report_violating_nets true).1
    || (checkWireCar g ar (checkWirePar g ar report_violating_nets true).2
        report_violating_nets true).1

/-- Spec-side definition: the via cumulative record `via_ar` is violating, that
is `checkViaPar` or `checkViaCar` reports a violation for it. -/
def via_record_violates (g : dbWireGraph) (fuel : Nat) (report_violating_nets : Bool)
    (via_ar : ARinfo) : Bool :=
  checkViaPar g fuel via_ar report_violating_nets true == some true
    || checkViaCar g fuel via_ar report_violating_nets true == some true

/-- Spec-side definition: the net with the tables `tables` contains a gate
terminal with a violating wire or via cumulative record. -/
def has_violated_gate (g : dbWireGraph) (fuel : Nat) (report_violating_nets : Bool)
    (tables : NetTables) : Bool :=
  tables.gate_iterms.any fun gate =>
    (tables.CARtable.any fun ar =>
      decide (ar.GateNode = gate) && wire_record_violates g report_violating_nets ar)
    || (tables.VIA_CARtable.any fun via_ar =>
      decide (via_ar.GateNode = gate)
        && via_record_violates g fuel report_violating_nets via_ar)

/-- Spec-side definition: the net is violated, that is it is not special, has
a wire, and contains a gate terminal with a violating wire or via cumulative
record. -/
def net_violated (ck : AntennaChecker) (fuel : Nat) (report_violating_nets : Bool)
    (net : dbNet) : Bool :=
  !net.isSpecial
    && match net.getWire with
      | some graph =>
        match getAntennaRatio_tables ck graph fuel with
        | some tables => has_violated_gate graph fuel report_violating_nets tables
        | none => false
      | none => false

/-- Spec-side definition: `CarReaches g goal fuel node level` says that the
walk of `findCarPath` started on `node` at `level` with `fuel` reaches the
goal, that is one of its calls is on the goal.  The walk is on the goal at
once; or it is not and goes on, below an incoming via from a lower level, from
the segment root of the source of that via; or along an outgoing via that
stays at or below the level, from the segment start of its target; or along
an outgoing SEGMENT or SHORT edge, from its target. -/
inductive CarReaches (g : dbWireGraph) (goal : Nat) : Nat → Nat → Int → Prop
  | here (fuel : Nat) (level : Int) : CarReaches g goal (fuel + 1) goal level
  | via_in (fuel node : Nat) (level : Int) (e : Edge) (root : Nat) : node ≠ goal →
      (g.node node).in_edge = some e →
      (e.type = EdgeType.VIA ∨ e.type = EdgeType.TECH_VIA) →
      (g.node e.source).layer.getRoutingLevel < (g.node e.target).layer.getRoutingLevel →
      findSegmentRoot g fuel e.source (g.node e.source).layer.getRoutingLevel = some root →
      CarReaches g goal fuel root (g.node e.source).layer.getRoutingLevel →
      CarReaches g goal (fuel + 1) node level
  | via_out (fuel node : Nat) (level : Int) (e : Edge) (first : Nat) : node ≠ goal →
      e ∈ (g.node node).out_edges →
      (e.type = EdgeType.VIA ∨ e.type = EdgeType.TECH_VIA) →
      (g.node e.target).layer.getRoutingLevel ≤ level →
      findSegmentStart g fuel e.target = some first →
      CarReaches g goal fuel first level → CarReaches g goal (fuel + 1) node level
  | segment_out (fuel node : Nat) (level : Int) (e : Edge) : node ≠ goal →
      e ∈ (g.node node).out_edges →
      (e.type = EdgeType.SEGMENT ∨ e.type = EdgeType.SHORT) →
      CarReaches g goal fuel e.target level → CarReaches g goal (fuel + 1) node level

/-- The contract of a piece of `findCarPath` that runs on states whose path
stack is `cp`: it returns with the same stack; it only appends to the found
list; it keeps the found list free of repetitions; it keeps the goal in a
non-empty found list; a found list that was empty and no longer is starts with
`hd`; and the found list is non-empty afterwards if and only if it was before
or `reach` holds. -/
def CarStep (goal : Nat) (cp : List Nat) (hd : Option Nat) (reach : Prop)
    (f : CarPath → Option CarPath) : Prop :=
  ∀ st res, st.current_path = cp → f st = some res →
    res.current_path = cp
      ∧ (∃ ext, res.path_found = st.path_found ++ ext)
      ∧ (st.path_found.Nodup → res.path_found.Nodup)
      ∧ ((st.path_found ≠ [] → goal ∈ st.path_found) →
          res.path_found ≠ [] → goal ∈ res.path_found)
      ∧ (st.path_found = [] → res.path_found ≠ [] → res.path_found.head? = hd)
      ∧ (res.path_found ≠ [] ↔ (st.path_found ≠ [] ∨ reach))

/-- Spec-side definition: the edge `e` is a via whose target is above the
level `level`; the cut area of such an outgoing via is summed. -/
def via_above (g : dbWireGraph) (level : Int) (e : Edge) : Bool :=
  decide ((e.type = EdgeType.VIA ∨ e.type = EdgeType.TECH_VIA)
    ∧ (g.node e.target).layer.getRoutingLevel > level)

/-- Spec-side definition: the outgoing edge `e` is followed by the search for
vias: it is a SEGMENT or SHORT edge, or a via whose target level is at or
below `level`. -/
def via_followed (g : dbWireGraph) (level : Int) (e : Edge) : Prop :=
  (e.type = EdgeType.SEGMENT ∨ e.type = EdgeType.SHORT)
    ∨ ((e.type = EdgeType.VIA ∨ e.type = EdgeType.TECH_VIA)
      ∧ (g.node e.target).layer.getRoutingLevel ≤ level)

/-- Spec-side definition: the node `m` is reachable from `n` by following
outgoing SEGMENT/SHORT edges and outgoing vias whose target level is at or
below `level`. -/
def ViaReach (g : dbWireGraph) (level : Int) : Nat → Nat → Prop :=
  Relation.ReflTransGen fun a b =>
    ∃ e ∈ (g.node a).out_edges, e.target = b ∧ via_followed g level e

/-- Spec-side definition: the cut areas summed at a node `m`: the cut area of
its incoming via when the source of that via is above `level`, and the cut
areas of its outgoing vias whose target is above `level`. -/
def via_node_area (ck : AntennaChecker) (g : dbWireGraph) (level : Int) (m : Nat) : ℚ :=
  (match (g.node m).in_edge with
    | some in_edge =>
      if (in_edge.type = EdgeType.VIA ∨ in_edge.type = EdgeType.TECH_VIA)
          ∧ (g.node in_edge.source).layer.getRoutingLevel > level then
        getViaArea ck in_edge
      else 0
    | none => 0)
  + (((g.node m).out_edges.filter (via_above g level)).map (getViaArea ck)).sum

/-- The number of nodes of the graph below the routing level `wire_level`. -/
def level_rank (g : dbWireGraph) (wire_level : Int) : Nat :=
  g.nodes.countP fun m => decide ((g.node m).layer.getRoutingLevel < wire_level)

/-- The measure that decreases along the calls of `findCarPath`: a call on a
node at or below its level is ranked by the number of nodes below that level,
a call on a node above its level is ranked above all of these; calls of equal
rank are ordered by the height `D - depth node` left below the node. -/
def findCarPath_measure (g : dbWireGraph) (depth : Nat → Nat) (D : Nat) (node : Nat)
    (wire_level : Int) : Nat :=
  (if (g.node node).layer.getRoutingLevel ≤ wire_level then level_rank g wire_level
    else g.nodes.length + 1) * (D + 1)
    + (D - depth node)

/-- Spec-side definition: the edge `e` is a via counted in the via area of the
node `n` at `level`: a via that is the incoming edge, with source above
`level`, or an outgoing edge, with target above `level`, of a node reached
from `n`. -/
def via_counted (g : dbWireGraph) (level : Int) (n : Nat) (e : Edge) : Prop :=
  (e.type = EdgeType.VIA ∨ e.type = EdgeType.TECH_VIA)
    ∧ ∃ m, ViaReach g level n m
      ∧ (((g.node m).in_edge = some e ∧ (g.node e.source).layer.getRoutingLevel > level)
        ∨ (e ∈ (g.node m).out_edges ∧ (g.node e.target).layer.getRoutingLevel > level))

/-- The PSR value a table holds for the wireroot `root`, in its first record
of that wireroot; 0 when the table holds no record of it. -/
def psr_of (table : List PARinfo) (root : Nat) : ℚ :=
  match table.find? fun par_itr => par_itr.WirerootNode = root with
  | some par_itr => par_itr.PSR_value
  | none => 0

/-- Spec-side definition: the maximum gate area declared for a terminal, 0 for
a terminal without a default antenna model. -/
def iterm_gate_area (iterm : dbITerm) : ℚ :=
  match iterm.getMTerm.getDefaultAntennaModel with
  | some pinmodel => pinmodel.getGateArea.foldl (fun max_gate_area p => max max_gate_area p.1) 0
  | none => 0

/-- Spec-side definition: the maximum diffusion area declared for a
terminal. -/
def iterm_diff_area (iterm : dbITerm) : ℚ :=
  iterm.getMTerm.getDiffArea.foldl (fun max_diff_area p => max max_diff_area p.1) 0

/-- The identifier of the instance terminal a node is on, if any. -/
def node_iterm (g : dbWireGraph) (node : Nat) : Option Nat :=
  match (g.node node).object with
  | some object =>
    if object.getObjectType = dbObjectType.dbITermObj then some object.getId else none
  | none => none

/-- The gate area a visit of `node` adds: that of its terminal, 0 for a node
that is on no terminal. -/
def node_gate_area (ck : AntennaChecker) (g : dbWireGraph) (node : Nat) : ℚ :=
  match node_iterm g node with
  | some id => iterm_gate_area (ck.getITerm id)
  | none => 0

/-- The diffusion area a visit of `node` adds. -/
def node_diff_area (ck : AntennaChecker) (g : dbWireGraph) (node : Nat) : ℚ :=
  match node_iterm g node with
  | some id => iterm_diff_area (ck.getITerm id)
  | none => 0

/-- The state `res` of `findWireBelowIterms` extends the state `st` by visits
of new nodes, each visited once: `nv` has grown by the nodes `new`, the two
areas by the areas of these nodes, and `iv` by their terminals. -/
def BelowExt (ck : AntennaChecker) (g : dbWireGraph) (st res : BelowIterms) : Prop :=
  ∃ new : List Nat, res.nv = st.nv ++ new ∧ new.Nodup ∧ (∀ v ∈ new, v ∉ st.nv)
    ∧ res.iterm_areas.1 = st.iterm_areas.1 + (new.map (node_gate_area ck g)).sum
    ∧ res.iterm_areas.2 = st.iterm_areas.2 + (new.map (node_diff_area ck g)).sum
    ∧ res.iv = (new.filterMap (node_iterm g)).foldl set_insert st.iv

/-- The condition under which `findWireBelowIterms` is called on `node` with
the visited set `nv`: every visited node is deeper than `node` (a call that
moves up), or `node` is not visited and the source of its incoming edge is (a
call that moves down). -/
def BelowValid (g : dbWireGraph) (depth : Nat → Nat) (node : Nat) (nv : List Nat) : Prop :=
  (∀ v ∈ nv, depth node < depth v)
    ∨ (node ∉ nv ∧ ∃ e, (g.node node).in_edge = some e ∧ e.source ∈ nv)

/-! ## Well-formed graphs -/

/-- What a decoded wire graph is taken to satisfy where a theorem needs the
walks to return: the graph is closed under its edges, an outgoing edge of a
node starts at that node and is the incoming edge of its target, and following
incoming edges never comes back (`depth` decreases along them). -/
structure dbWireGraph.WellFormed (g : dbWireGraph) : Prop where
  in_source : ∀ n ∈ g.nodes, ∀ e, (g.node n).in_edge = some e → e.source ∈ g.nodes
  out_edge : ∀ n ∈ g.nodes, ∀ e ∈ (g.node n).out_edges,
    e.source = n ∧ e.target ∈ g.nodes ∧ (g.node e.target).in_edge = some e
  acyclic : ∃ depth : Nat → Nat, ∀ n ∈ g.nodes, ∀ e, (g.node n).in_edge = some e →
    depth e.source < depth n

/-- The node at the other end of an entry of `edge_vec`: the source of the
incoming edge, the target of an outgoing edge. -/
def edge_far (edge : Edge) (io : EdgeIoType) : Nat :=
  match io with
  | EdgeIoType.IN => edge.source
  | EdgeIoType.OUT => edge.target

/-- The number of nodes of `nodes` that are not in the set `nv`. -/
def unvisited (nodes nv : List Nat) : Nat :=
  (nodes.filter fun n => n ∉ nv).length

/-- The terms that the loop body of `calculateWireArea` adds to the two sums
for the entry `edge_info` of `edge_vec` of the node `node`, before it follows
the edge: the landing of a via (for an incoming via, and for an outgoing via
when `out_edges_count` is 1), and the length and sidewall terms of a SEGMENT or
SHORT edge when the node is on `wire_level`. -/
def wire_edge_term (ck : AntennaChecker) (g : dbWireGraph) (node : Nat) (wire_level : Int)
    (out_edges_count : Nat) (edge_info : Edge × EdgeIoType) : ℚ × ℚ :=
  let wire_width : ℚ := defDist ck (g.node node).layer.getWidth
  let wire_thickness_uint : Nat := (g.node node).layer.getThickness.getD 0
  match edge_info.1.type with
  | EdgeType.VIA | EdgeType.TECH_VIA =>
    match edge_info.2 with
    | EdgeIoType.IN =>
      ((1 / 2) * wire_width * wire_width, defDist ck wire_thickness_uint * wire_width)
    | EdgeIoType.OUT =>
      if out_edges_count = 1 then
        ((1 / 2) * wire_width * wire_width, defDist ck wire_thickness_uint * wire_width)
      else (0, 0)
  | EdgeType.SEGMENT | EdgeType.SHORT =>
    if (g.node node).layer.getRoutingLevel = wire_level then
      let far := edge_far edge_info.1 edge_info.2
      let dist : ℚ :=
        defDist ck ((calculateWireArea_dist (g.node node).x (g.node node).y (g.node far).x
          (g.node far).y : Int) : ℚ)
      (dist * wire_width, (dist + wire_width) * defDist ck wire_thickness_uint * 2)
    else (0, 0)

/-- Whether the loop body of `calculateWireArea` follows the entry `edge_info`
of `edge_vec` to its far node: always along a SEGMENT or SHORT edge, along a
via when the far node is at or below `wire_level`. -/
def wire_edge_follows (g : dbWireGraph) (wire_level : Int) (edge_info : Edge × EdgeIoType) :
    Bool :=
  match edge_info.1.type with
  | EdgeType.VIA | EdgeType.TECH_VIA =>
    decide ((g.node (edge_far edge_info.1 edge_info.2)).layer.getRoutingLevel ≤ wire_level)
  | EdgeType.SEGMENT | EdgeType.SHORT => true

/-- The terms added at the first visit of `node` for its outgoing edges. -/
def wire_out_terms (ck : AntennaChecker) (g : dbWireGraph) (wire_level : Int) (node : Nat) :
    ℚ × ℚ :=
  ((g.node node).out_edges.map fun edge =>
    wire_edge_term ck g node wire_level (g.node node).out_edges.length
      (edge, EdgeIoType.OUT)).sum

/-- The terms added at the visit of `node` for its incoming edge, when that
edge is in `edge_vec`. -/
def wire_in_term (ck : AntennaChecker) (g : dbWireGraph) (wire_level : Int) (node : Nat) :
    ℚ × ℚ :=
  match (g.node node).in_edge with
  | some in_edge => wire_edge_term ck g node wire_level 0 (in_edge, EdgeIoType.IN)
  | none => (0, 0)

/-- The state `res` of `calculateWireArea` extends the state `st`: `nv` has
grown by the nodes `new`, each visited once; the walk has come to the nodes
`ups` of them along their outgoing edges, from below, and these satisfy `P`;
the new nodes are nodes of the graph, and every edge followed out of a new node
leads into `nv`; and the two sums have
grown by `extra`, by the terms of the outgoing edges of the new nodes and by the
terms of the incoming edges of the nodes `ups`. -/
def WireExt (ck : AntennaChecker) (g : dbWireGraph) (wire_level : Int) (P : Nat → Prop)
    (st res : WireArea) (extra : ℚ × ℚ) : Prop :=
  ∃ new ups : List Nat, res.nv = st.nv ++ new ∧ new.Nodup ∧ (∀ v ∈ new, v ∉ st.nv)
    ∧ ups.Sublist new ∧ (∀ u ∈ ups, P u) ∧ (∀ v ∈ new, v ∈ g.nodes)
    ∧ (∀ v ∈ new, ∀ e ∈ (g.node v).out_edges,
        wire_edge_follows g wire_level (e, EdgeIoType.OUT) = true → e.target ∈ res.nv)
    ∧ (res.wire_area, res.side_wire_area)
        = (st.wire_area, st.side_wire_area) + extra
          + (new.map (wire_out_terms ck g wire_level)).sum
          + (ups.map (wire_in_term ck g wire_level)).sum

/-- The condition under which `calculateWireArea` is called on `node` with the
visited set `nv`: every visited node is deeper than `node` and `node` satisfies
`P` (a call that moves up), or the source of the incoming edge of `node` is
visited (a call that moves down). -/
def WireValid (g : dbWireGraph) (depth : Nat → Nat) (P : Nat → Prop) (node : Nat)
    (nv : List Nat) : Prop :=
  ((∀ v ∈ nv, depth node < depth v) ∧ P node)
    ∨ ∃ e, (g.node node).in_edge = some e ∧ e.source ∈ nv

/-- Spec-side definition: the edges of the graph, as the outgoing edges of its
nodes. -/
def graph_edges (g : dbWireGraph) : List Edge :=
  (g.nodes.map fun n => (g.node n).out_edges).flatten

/-- Spec-side definition: the Manhattan distance between the end points of an
edge, in database units. -/
def edge_dbu (g : dbWireGraph) (e : Edge) : Int :=
  |(g.node e.target).x - (g.node e.source).x| + |(g.node e.target).y - (g.node e.source).y|

/-- Spec-side definition: the Manhattan distance between the end points of an
edge, converted by the database-unit scale. -/
def edge_length (ck : AntennaChecker) (g : dbWireGraph) (e : Edge) : ℚ :=
  defDist ck (edge_dbu g e : Int)


/-- Two states of `calculateWireArea` that differ in `level_nodes` only. -/
def WireArea.same_areas (a b : WireArea) : Prop :=
  a.wire_area = b.wire_area ∧ a.side_wire_area = b.side_wire_area ∧ a.nv = b.nv

/-- A wire graph as the decoder of the wire hands it over: it is tree-shaped,
every incoming edge ends at its node, the SEGMENT and SHORT edges join nodes of
one routing level, and every via has a CUT box. -/
structure dbWireGraph.Decoded (g : dbWireGraph) : Prop where
  wellFormed : g.WellFormed
  in_target : ∀ n ∈ g.nodes, ∀ e, (g.node n).in_edge = some e → e.target = n
  segment_level : ∀ n ∈ g.nodes, ∀ e, (g.node n).in_edge = some e →
    (e.type = EdgeType.SEGMENT ∨ e.type = EdgeType.SHORT) →
      (g.node e.source).layer.getRoutingLevel = (g.node n).layer.getRoutingLevel
  via_cut_in : ∀ n ∈ g.nodes, ∀ e, (g.node n).in_edge = some e →
    (e.type = EdgeType.VIA ∨ e.type = EdgeType.TECH_VIA) → (getViaLayer e).isSome
  via_cut_out : ∀ n ∈ g.nodes, ∀ e ∈ (g.node n).out_edges,
    (e.type = EdgeType.VIA ∨ e.type = EdgeType.TECH_VIA) → (getViaLayer e).isSome

/-- A fuel that suffices for the walks and table builders of `getAntennaRatio`
on the graph `g`, whose nodes have the depths `depth`. -/
def tables_fuel (g : dbWireGraph) (depth : Nat → Nat) : Nat :=
  unvisited g.nodes [] * ((g.nodes.map depth).sum + 2) + 2 * unvisited g.nodes []
    + (g.nodes.length + 1) * ((g.nodes.map depth).sum + 1) + 2 * (g.nodes.map depth).sum + 2

/-! ## Example data

Small concrete layers, graphs and records on which the theorems below are
instantiated. -/

/-- The empty piecewise-linear curve. -/
def ex_no_curve : pwl_pair := ⟨[], []⟩

/-- A layer rule with the flat PAR threshold 1.5, area factors 1 and nothing
else. -/
def ex_rule_flat_par : dbTechLayerAntennaRule :=
  { getPAR := 3 / 2
    getPSR := 0
    getCAR := 0
    getCSR := 0
    getDiffPAR := ex_no_curve
    getDiffPSR := ex_no_curve
    getDiffCAR := ex_no_curve
    getDiffCSR := ex_no_curve
    getAreaDiffReduce := ex_no_curve
    getAreaFactor := 1
    isAreaFactorDiffUseOnly := false
    getSideAreaFactor := 1
    isSideAreaFactorDiffUseOnly := false
    getAreaMinusDiffFactor := 0
    hasAntennaCumRoutingPlusCut := false }

/-- A rule without any threshold: all flat thresholds 0, all curves empty. -/
def ex_rule_none : dbTechLayerAntennaRule :=
  { ex_rule_flat_par with getPAR := 0 }

/-- A rule with the flat CAR threshold 1 and no other threshold. -/
def ex_rule_flat_car : dbTechLayerAntennaRule :=
  { ex_rule_none with getCAR := 1 }

/-- The rule `ex_rule_flat_car` with a one-point PAR curve of ratio 100 added. -/
def ex_rule_flat_car_pwl_par : dbTechLayerAntennaRule :=
  { ex_rule_flat_car with getDiffPAR := ⟨[0], [100]⟩ }

/-- A routing layer of level 1 and width 100 with the given default rule. -/
def ex_metal1 (rule : Option dbTechLayerAntennaRule) : dbTechLayer :=
  { getConstName := "metal1"
    getType := dbTechLayerType.ROUTING
    getRoutingLevel := 1
    getWidth := 100
    getThickness := none
    getDefaultAntennaRule := rule
    LEF57_ANTENNAGATEPLUSDIFF := none }

/-- A routing layer of level 2 without a rule. -/
def ex_metal2 : dbTechLayer :=
  { getConstName := "metal2"
    getType := dbTechLayerType.ROUTING
    getRoutingLevel := 2
    getWidth := 100
    getThickness := none
    getDefaultAntennaRule := none
    LEF57_ANTENNAGATEPLUSDIFF := none }

/-- A cut layer with the given default rule. -/
def ex_via1 (rule : Option dbTechLayerAntennaRule) : dbTechLayer :=
  { getConstName := "via1"
    getType := dbTechLayerType.CUT
    getRoutingLevel := 0
    getWidth := 0
    getThickness := none
    getDefaultAntennaRule := rule
    LEF57_ANTENNAGATEPLUSDIFF := none }

/-- A graph whose nodes all are isolated nodes at the origin on one layer. -/
def ex_graph_isolated (layer : dbTechLayer) : dbWireGraph :=
  { nodes := [0]
    node := fun _ =>
      { x := 0, y := 0, layer := layer, object := none, in_edge := none, out_edges := [] } }

/-- The segment from node 0 to node 1. -/
def ex_segment : Edge :=
  { type := EdgeType.SEGMENT, source := 0, target := 1, via_boxes := [], via_name := "" }

/-- A net of one wire on `ex_metal1`, from node 0 at (0, 0) to node 1 at
(2000, 0), which reaches no terminal. -/
def ex_graph_wire (rule : Option dbTechLayerAntennaRule) : dbWireGraph :=
  { nodes := [0, 1]
    node := fun n =>
      if n = 0 then
        { x := 0, y := 0, layer := ex_metal1 rule, object := none, in_edge := none,
          out_edges := [ex_segment] }
      else
        { x := 2000, y := 0, layer := ex_metal1 rule, object := none,
          in_edge := some ex_segment, out_edges := [] } }

/-- The via from node 0 up to node 1, with one cut box on `ex_via1 rule`. -/
def ex_via_edge (rule : Option dbTechLayerAntennaRule) : Edge :=
  { type := EdgeType.VIA, source := 0, target := 1,
    via_boxes := [{ getTechLayer := ex_via1 rule, getDX := 100, getDY := 100 }],
    via_name := "via1_0" }

/-- A net of one via from node 0 on `ex_metal1` up to node 1 on `ex_metal2`;
`rule` is the rule of the cut layer. -/
def ex_graph_via (rule : Option dbTechLayerAntennaRule) : dbWireGraph :=
  { nodes := [0, 1]
    node := fun n =>
      if n = 0 then
        { x := 0, y := 0, layer := ex_metal1 none, object := none, in_edge := none,
          out_edges := [ex_via_edge rule] }
      else
        { x := 0, y := 0, layer := ex_metal2, object := none,
          in_edge := some (ex_via_edge rule), out_edges := [] } }

/-- A terminal without antenna data. -/
def ex_iterm : dbITerm :=
  { getInstName := "u1"
    getMTerm :=
      { getConstName := "A", getMasterName := "BUF", getIoType := dbIoType.INPUT,
        getDefaultAntennaModel := none, getDiffArea := [] } }

/-- A checker on a database with 1000 units per micron and the given layer
table. -/
def ex_checker (layer_info : List (dbTechLayer × ANTENNAmodel)) : AntennaChecker :=
  { getDbUnitsPerMicron := 1000, getITerm := fun _ => ex_iterm, layer_info := layer_info }

/-- The model `loadAntennaRules` stores for a layer whose area factors are 1. -/
def ex_model (layer : dbTechLayer) : ANTENNAmodel :=
  { layer := some layer, metal_factor := 1, diff_metal_factor := 1, cut_factor := 1,
    diff_cut_factor := 1, side_metal_factor := 1, diff_side_metal_factor := 1,
    minus_diff_factor := 0, plus_diff_factor := 0, diff_metal_reduce_factor := 1 }

/-- A PAR record of wireroot 0 with wire area 10, sidewall area 4 and the given
gate and diffusion areas, before `calculateParInfo`. -/
def ex_par (gate_area diff_area : ℚ) : PARinfo :=
  { WirerootNode := 0, iterms := [], wire_area := 10, side_wire_area := 4,
    iterm_areas := (gate_area, diff_area), PAR_value := 0, PSR_value := 0,
    diff_PAR_value := 0, diff_PSR_value := 0 }

/-- A cumulative record of wireroot 0 and gate 1 with the given PAR and CAR
values, all other ratios and the diffusion area 0. -/
def ex_ar (par car : ℚ) : ARinfo :=
  { WirerootNode := 0, GateNode := 1, violated_net := false, PAR_value := par, PSR_value := 0,
    diff_PAR_value := 0, diff_PSR_value := 0, CAR_value := car, CSR_value := 0,
    diff_CAR_value := 0, diff_CSR_value := 0, diff_area := 0 }

/-- A gate terminal: an input whose default antenna model declares the gate
area 1/20 and whose diffusion areas are the given ones. -/
def ex_gate_iterm (diff_area : List (ℚ × Option dbTechLayer)) : dbITerm :=
  { getInstName := "u2"
    getMTerm :=
      { getConstName := "A", getMasterName := "INV", getIoType := dbIoType.INPUT,
        getDefaultAntennaModel := some ⟨[(1 / 20, none)]⟩, getDiffArea := diff_area } }

/-- A checker on a database with 1000 units per micron in which every
terminal is `ex_gate_iterm diff_area`. -/
def ex_gate_checker (diff_area : List (ℚ × Option dbTechLayer))
    (layer_info : List (dbTechLayer × ANTENNAmodel)) : AntennaChecker :=
  { getDbUnitsPerMicron := 1000, getITerm := fun _ => ex_gate_iterm diff_area,
    layer_info := layer_info }

/-- The net of one wire on `ex_metal1`, from node 0 at (0, 0), which is on the
terminal 0, to node 1 at (2000, 0). -/
def ex_graph_gate (rule : Option dbTechLayerAntennaRule) : dbWireGraph :=
  { nodes := [0, 1]
    node := fun n =>
      if n = 0 then
        { x := 0, y := 0, layer := ex_metal1 rule,
          object := some ⟨dbObjectType.dbITermObj, 0⟩, in_edge := none,
          out_edges := [ex_segment] }
      else
        { x := 2000, y := 0, layer := ex_metal1 rule, object := none,
          in_edge := some ex_segment, out_edges := [] } }

/-- A rule whose only threshold is the PAR curve through (0, 1) and
(10, 11). -/
def ex_rule_pwl_par : dbTechLayerAntennaRule :=
  { ex_rule_none with getDiffPAR := ⟨[0, 10], [1, 11]⟩ }

/-- The pin of a diode cell, with diffusion area 2. -/
def ex_diode_mterm : dbMTerm :=
  { getConstName := "DIODE", getMasterName := "ANTENNA", getIoType := dbIoType.INOUT,
    getDefaultAntennaModel := none, getDiffArea := [(2, none)] }

/-- The net, not special, of the given wire graph. -/
def ex_net (graph : dbWireGraph) : dbNet :=
  { getConstName := "net1", isSpecial := false, getWire := some graph }

/-- The layer table that holds the model `ex_model` for `ex_metal1 rule`. -/
def ex_layer_info (rule : Option dbTechLayerAntennaRule) : List (dbTechLayer × ANTENNAmodel) :=
  [(ex_metal1 rule, ex_model (ex_metal1 rule))]

/-- The PAR record of wireroot 0 of `ex_graph_gate`: wire area 1/5 over the
gate area 1/20 of the terminal 0, without diffusion. -/
def ex_par_gate : PARinfo :=
  { WirerootNode := 0, iterms := [0], wire_area := 1 / 5, side_wire_area := 0,
    iterm_areas := (1 / 20, 0), PAR_value := 4, PSR_value := 0, diff_PAR_value := 4,
    diff_PSR_value := 0 }

/-- The net of one wire on `ex_metal1`, from node 0 at (0, 0) to node 1 at
(2000, 0), which is on the terminal 1. -/
def ex_graph_sink (rule : Option dbTechLayerAntennaRule) : dbWireGraph :=
  { nodes := [0, 1]
    node := fun n =>
      if n = 0 then
        { x := 0, y := 0, layer := ex_metal1 rule, object := none, in_edge := none,
          out_edges := [ex_segment] }
      else
        { x := 2000, y := 0, layer := ex_metal1 rule,
          object := some ⟨dbObjectType.dbITermObj, 1⟩, in_edge := some ex_segment,
          out_edges := [] } }

/-- The segment from node 1 back to node 0. -/
def ex_segment_back : Edge :=
  { type := EdgeType.SEGMENT, source := 1, target := 0, via_boxes := [], via_name := "" }

/-- A graph with a cycle: the segment from node 0 to node 1 and the segment
from node 1 back to node 0. -/
def ex_graph_cycle : dbWireGraph :=
  { nodes := [0, 1]
    node := fun n =>
      if n = 0 then
        { x := 0, y := 0, layer := ex_metal1 none, object := none,
          in_edge := some ex_segment_back, out_edges := [ex_segment] }
      else
        { x := 2000, y := 0, layer := ex_metal1 none, object := none,
          in_edge := some ex_segment, out_edges := [ex_segment_back] } }

/-- A routing layer of level 2 and width 100 with the given default rule. -/
def ex_metal2_rule (rule : Option dbTechLayerAntennaRule) : dbTechLayer :=
  { ex_metal2 with getDefaultAntennaRule := rule }

/-- The via from node 1 up to node 2, with one cut box of 100 by 100 units on
the layer `cut`. -/
def ex_via_up (cut : dbTechLayer) : Edge :=
  { type := EdgeType.VIA, source := 1, target := 2,
    via_boxes := [{ getTechLayer := cut, getDX := 100, getDY := 100 }],
    via_name := "via1_1" }

/-- The segment from node 2 to node 3. -/
def ex_segment_top : Edge :=
  { type := EdgeType.SEGMENT, source := 2, target := 3, via_boxes := [], via_name := "" }

/-- A two-level net: the wire from node 0 at (0, 0) to node 1 at (2000, 0) on
the layer `m1`, the via on the cut layer `cut` from node 1 up to node 2, and
the wire from node 2 to node 3 at (2000, 3000) on the layer `m2`.  The nodes in
`gates` are on instance terminals, node `n` on the terminal `n`. -/
def ex_net_two_level (m1 m2 cut : dbTechLayer) (gates : List Nat) : dbWireGraph :=
  { nodes := [0, 1, 2, 3]
    node := fun n =>
      let object : Option dbObject :=
        if n ∈ gates then some ⟨dbObjectType.dbITermObj, n⟩ else none
      if n = 0 then
        { x := 0, y := 0, layer := m1, object := object, in_edge := none,
          out_edges := [ex_segment] }
      else if n = 1 then
        { x := 2000, y := 0, layer := m1, object := object, in_edge := some ex_segment,
          out_edges := [ex_via_up cut] }
      else if n = 2 then
        { x := 2000, y := 0, layer := m2, object := object, in_edge := some (ex_via_up cut),
          out_edges := [ex_segment_top] }
      else
        { x := 2000, y := 3000, layer := m2, object := object,
          in_edge := some ex_segment_top, out_edges := [] } }

/-- A rule without thresholds that is flagged "cumulative routing plus
cut". -/
def ex_rule_plus_cut : dbTechLayerAntennaRule :=
  { ex_rule_none with hasAntennaCumRoutingPlusCut := true }

/-- A rule without thresholds whose area factor 2 is for diffusion use
only. -/
def ex_rule_diff_use_only : dbTechLayerAntennaRule :=
  { ex_rule_none with getAreaFactor := 2, isAreaFactorDiffUseOnly := true }

/-- The layer table `loadAntennaRules` builds for the given layers; empty when
it does not return. -/
def ex_loaded (tech_layers : List dbTechLayer) : List (dbTechLayer × ANTENNAmodel) :=
  (loadAntennaRules (fun _ => none) tech_layers []).getD []

/-- The PAR record of wireroot 0 (level 1) of the two-level net with a gate on
node 0 alone: wire area 41/200 over the gate area 1/20. -/
def ex_two_level_par_A : PARinfo :=
  { WirerootNode := 0, iterms := [0], wire_area := 41 / 200, side_wire_area := 0,
    iterm_areas := (1 / 20, 0), PAR_value := 41 / 10, PSR_value := 0,
    diff_PAR_value := 41 / 10, diff_PSR_value := 0 }

/-- The PAR record of wireroot 2 (level 2) of the two-level net with a gate on
node 0 alone: wire area 31/100 over the gate area 1/20. -/
def ex_two_level_par_B : PARinfo :=
  { WirerootNode := 2, iterms := [0], wire_area := 31 / 100, side_wire_area := 0,
    iterm_areas := (1 / 20, 0), PAR_value := 31 / 5, PSR_value := 0,
    diff_PAR_value := 31 / 5, diff_PSR_value := 0 }

/-- The PAR table of the two-level net with a gate on node 0 alone. -/
def ex_two_level_PARtable : List PARinfo :=
  [ex_two_level_par_A, ex_two_level_par_B]

/-- The VIA-PAR table of the two-level net with a gate on node 0 alone: the cut
area 1/100 over the gate area 1/20, in the record of wireroot 0. -/
def ex_two_level_VIA_PARtable : List PARinfo :=
  [{ WirerootNode := 0, iterms := [0], wire_area := 0, side_wire_area := 0,
     iterm_areas := (0, 0), PAR_value := 1 / 5, PSR_value := 0,
     diff_PAR_value := 1 / 5, diff_PSR_value := 0 }]

/-- A checker in which every terminal is a gate with the diffusion area 1/10,
with the layer table loaded for `ex_metal1`, `ex_metal2` and `ex_via1`, all
without rules. -/
def ex_diff_checker : AntennaChecker :=
  ex_gate_checker [(1 / 10, none)] (ex_loaded [ex_metal1 none, ex_metal2, ex_via1 none])

/-- The two-level net without rules with a gate on node 0. -/
def ex_diff_net : dbWireGraph :=
  ex_net_two_level (ex_metal1 none) ex_metal2 (ex_via1 none) [0]

/-- The PAR table of `ex_diff_net` under `ex_diff_checker`. -/
def ex_diff_PARtable : List PARinfo :=
  (buildWireParTable ex_diff_checker ex_diff_net 10 [] [0, 2]).getD []

/-- The VIA-PAR table of `ex_diff_net` under `ex_diff_checker`. -/
def ex_diff_VIA_PARtable : List PARinfo :=
  (buildViaParTable ex_diff_checker ex_diff_net 10 [] [0, 2]).getD []

/-- The wire CAR table of `ex_diff_net` under `ex_diff_checker`. -/
def ex_diff_CARtable : List ARinfo :=
  (buildWireCarTable ex_diff_net 10 [] ex_diff_PARtable ex_diff_VIA_PARtable [0]).getD []

/-- The via CAR table of `ex_diff_net` under `ex_diff_checker`. -/
def ex_diff_VIA_CARtable : List ARinfo :=
  (buildViaCarTable ex_diff_net 10 [] ex_diff_PARtable ex_diff_VIA_PARtable [0]).getD []

/-- A checker in which every terminal is a gate without diffusion, with the
layer table loaded for two routing layers under the flat PAR threshold 1.5,
for the cut layer and for `ex_metal1` without rule. -/
def ex_design_checker : AntennaChecker :=
  ex_gate_checker []
    (ex_loaded [ex_metal1 (some ex_rule_flat_par), ex_metal2_rule (some ex_rule_flat_par),
      ex_via1 none, ex_metal1 none])

/-- The two-level net under the flat PAR threshold 1.5 on both routing layers,
with gates on node 0 and node 3. -/
def ex_design_graph : dbWireGraph :=
  ex_net_two_level (ex_metal1 (some ex_rule_flat_par))
    (ex_metal2_rule (some ex_rule_flat_par)) (ex_via1 none) [0, 3]

/-- A design of three nets: a net with two violated gates, the same wire as a
special net, and a net on a layer without rule. -/
def ex_design : List dbNet :=
  [{ getConstName := "net1", isSpecial := false, getWire := some ex_design_graph },
   { getConstName := "vdd", isSpecial := true, getWire := some ex_design_graph },
   { getConstName := "net2", isSpecial := false, getWire := some (ex_graph_gate none) }]

/-- A rule whose only thresholds are the one-point CAR curve of ratio 3 and the
one-point CSR curve of ratio 3. -/
def ex_rule_pwl_car : dbTechLayerAntennaRule :=
  { ex_rule_none with getDiffCAR := ⟨[0], [3]⟩, getDiffCSR := ⟨[0], [3]⟩ }

/-- The net of one wire on `ex_metal1` from node 0 to node 1, both of which are
on the terminal 0. -/
def ex_graph_two_pins : dbWireGraph :=
  { nodes := [0, 1]
    node := fun n =>
      if n = 0 then
        { x := 0, y := 0, layer := ex_metal1 none,
          object := some ⟨dbObjectType.dbITermObj, 0⟩, in_edge := none,
          out_edges := [ex_segment] }
      else
        { x := 2000, y := 0, layer := ex_metal1 none,
          object := some ⟨dbObjectType.dbITermObj, 0⟩, in_edge := some ex_segment,
          out_edges := [] } }

/-- A routing layer of the given level, of width 100 and thickness 500. -/
def ex_metal_thick (level : Int) : dbTechLayer :=
  { getConstName := "metal_thick"
    getType := dbTechLayerType.ROUTING
    getRoutingLevel := level
    getWidth := 100
    getThickness := some 500
    getDefaultAntennaRule := none
    LEF57_ANTENNAGATEPLUSDIFF := none }

/-- The SHORT edge from node 0 to node 2. -/
def ex_short_side : Edge :=
  { type := EdgeType.SHORT, source := 0, target := 2, via_boxes := [], via_name := "" }

/-- A fork on the layer `layer`: the segment from node 0 at (0, 0) to node 1 at
(1000, 0) and the SHORT edge from node 0 to node 2 at (0, 2000). -/
def ex_graph_fork (layer : dbTechLayer) : dbWireGraph :=
  { nodes := [0, 1, 2]
    node := fun n =>
      if n = 0 then
        { x := 0, y := 0, layer := layer, object := none, in_edge := none,
          out_edges := [ex_segment, ex_short_side] }
      else if n = 1 then
        { x := 1000, y := 0, layer := layer, object := none, in_edge := some ex_segment,
          out_edges := [] }
      else
        { x := 0, y := 2000, layer := layer, object := none, in_edge := some ex_short_side,
          out_edges := [] } }

/-- A wire on the layer `layer` from node 0 at (0, 0) to node 1 at
(2000000000, 1000000000).  The coordinates are values of a 32-bit `int`; the
Manhattan distance 3000000000 of the end points is not. -/
def ex_graph_far (layer : dbTechLayer) : dbWireGraph :=
  { nodes := [0, 1]
    node := fun n =>
      if n = 0 then
        { x := 0, y := 0, layer := layer, object := none, in_edge := none,
          out_edges := [ex_segment] }
      else
        { x := 2000000000, y := 1000000000, layer := layer, object := none,
          in_edge := some ex_segment, out_edges := [] } }

/-! ## Piecewise-linear evaluation -/

/-- In a strictly increasing list, the head is at most every element. -/
theorem sorted_head_le_getD (x : ℚ) (xs : List ℚ) (hs : (x :: xs).Sorted (· < ·))
    (i : ℕ) (hi : i < (x :: xs).length) : x ≤ (x :: xs).getD i 0 := by
  cases i with
  | zero => simp
  | succ j =>
    have hj : j < xs.length := by simpa using hi
    have hmem : xs[j] ∈ xs := List.getElem_mem hj
    have := List.rel_of_sorted_cons hs _ hmem
    simp only [List.getD_cons_succ]
    rw [List.getD_eq_getElem xs 0 hj]
    exact le_of_lt this

/-- The loop of `getPwlFactor` after its first iteration, with the previous
breakpoint `(px, py)`: on the interval `i` of the breakpoints `px :: xs` that
holds `v` it returns the interpolated value. -/
theorem getPwlFactor_loop_interval (v : ℚ) :
    ∀ (i : ℕ) (xs ys : List ℚ) (px py slope : ℚ) (_ : ys.length = xs.length)
      (_ : (px :: xs).Sorted (· < ·)) (_ : i < xs.length)
      (_ : (px :: xs).getD i 0 ≤ v) (_ : v < xs.getD i 0),
      getPwlFactor_loop v false xs ys px py slope
        = (py :: ys).getD i 0
          + (ys.getD i 0 - (py :: ys).getD i 0) / (xs.getD i 0 - (px :: xs).getD i 0)
            * (v - (px :: xs).getD i 0) := by
  intro i
  induction i with
  | zero =>
    intro xs ys px py slope hlen hs hi hlo hhi
    match xs, ys, hlen, hi with
    | x :: xs, y :: ys, _, _ =>
      simp only [List.getD_cons_zero] at hlo hhi ⊢
      simp only [getPwlFactor_loop, Bool.false_eq_true, if_false]
      rw [if_pos ⟨hlo, hhi⟩]
      ring
  | succ j ih =>
    intro xs ys px py slope hlen hs hi hlo hhi
    match xs, ys, hlen, hi with
    | x :: xs, y :: ys, hlen, hi =>
      have hj : j < xs.length := by simpa using hi
      have hlen2 : ys.length = xs.length := by simpa using hlen
      have hs2 : (x :: xs).Sorted (· < ·) := hs.of_cons
      simp only [List.getD_cons_succ] at hlo hhi ⊢
      have hx : x ≤ v :=
        le_trans (sorted_head_le_getD x xs hs2 j (by simp; omega)) hlo
      simp only [getPwlFactor_loop, Bool.false_eq_true, if_false]
      rw [if_neg (fun h => absurd h.2 (not_lt.mpr hx))]
      exact ih xs ys x y _ hlen2 hs2 hj hlo hhi

/-- The loop of `getPwlFactor` after its first iteration, with the previous
breakpoint `(px, py)`: when `v` is at or above every remaining index, it
returns the line through the last two of the breakpoints `px :: xs`. -/
theorem getPwlFactor_loop_above (v : ℚ) :
    ∀ (xs ys : List ℚ) (px py slope : ℚ) (_ : ys.length = xs.length) (_ : xs ≠ [])
      (_ : ∀ x ∈ xs, x ≤ v),
      getPwlFactor_loop v false xs ys px py slope
        = ((py :: ys).getD xs.length 0 - (py :: ys).getD (xs.length - 1) 0)
            / ((px :: xs).getD xs.length 0 - (px :: xs).getD (xs.length - 1) 0)
            * (v - (px :: xs).getD xs.length 0)
          + (py :: ys).getD xs.length 0 := by
  intro xs
  induction xs with
  | nil => intro ys px py slope _ hne; exact absurd rfl hne
  | cons x xs ih =>
    intro ys px py slope hlen _ hv
    match ys, hlen with
    | y :: ys, hlen =>
      have hlen2 : ys.length = xs.length := by simpa using hlen
      have hx : x ≤ v := hv x (by simp)
      simp only [getPwlFactor_loop, Bool.false_eq_true, if_false]
      rw [if_neg (fun h => absurd h.2 (not_lt.mpr hx))]
      cases xs with
      | nil =>
        have : ys = [] := by simpa using hlen2
        subst this
        simp [getPwlFactor_loop]
      | cons x2 xs2 =>
        rw [ih ys x y _ hlen2 (by simp) (fun z hz => hv z (by simp [hz]))]
        simp only [List.length_cons, List.getD_cons_succ, Nat.add_sub_cancel]

/-- In a strictly increasing list, every element is at most the last one. -/
theorem sorted_le_last (xs : List ℚ) (hs : xs.Sorted (· < ·)) (x : ℚ) (hx : x ∈ xs) :
    x ≤ xs.getD (xs.length - 1) 0 := by
  obtain ⟨k, hk, rfl⟩ := List.getElem_of_mem hx
  have hlast : xs.length - 1 < xs.length := by omega
  rw [List.getD_eq_getElem xs 0 hlast]
  rcases Nat.lt_or_ge k (xs.length - 1) with h | h
  · exact le_of_lt (List.pairwise_iff_getElem.mp hs k (xs.length - 1) hk hlast h)
  · have : k = xs.length - 1 := by omega
    subst this
    exact le_refl _

/-- With two or more indices, `getPwlFactor` runs its loop; the first iteration
only records the first breakpoint. -/
theorem getPwlFactor_cons_cons (x0 y0 : ℚ) (xs ys : List ℚ) (v dflt : ℚ) (hne : xs ≠ []) :
    getPwlFactor ⟨x0 :: xs, y0 :: ys⟩ v dflt
      = getPwlFactor_loop v false xs ys x0 y0 ((y0 - y0) / (x0 - x0)) := by
  have h1 : ¬ (xs.length + 1 = 1) := by
    intro h
    exact hne (List.length_eq_zero.mp (by omega))
  simp only [getPwlFactor, ne_eq, List.length_cons, Nat.add_one_ne_zero, not_false_eq_true,
    if_true]
  rw [if_neg h1]
  simp only [getPwlFactor_loop, if_true]
  rw [if_neg (fun h => absurd (lt_of_le_of_lt h.1 h.2) (lt_irrefl _))]

/-- C1. `getPwlFactor` interpolates inside an interval: for breakpoints with
strictly increasing indices `xs` and ratios `ys` (at least two of them) and a
reference value `v` with `xs[i] ≤ v < xs[i+1]`, the result is
`ys[i] + (ys[i+1] - ys[i]) / (xs[i+1] - xs[i]) * (v - xs[i])`. -/
theorem getPwlFactor_interpolates (xs ys : List ℚ) (v dflt : ℚ) (i : ℕ)
    (hlen : ys.length = xs.length) (hsorted : xs.Sorted (· < ·))
    (hi : i + 1 < xs.length) (hlo : xs[i] ≤ v) (hhi : v < xs[i + 1]) :
    getPwlFactor ⟨xs, ys⟩ v dflt
      = ys[i] + (ys[i + 1] - ys[i]) / (xs[i + 1] - xs[i]) * (v - xs[i]) := by
  have hxi : xs[i] = xs.getD i 0 := (List.getD_eq_getElem xs 0 (by omega)).symm
  have hxj : xs[i + 1] = xs.getD (i + 1) 0 := (List.getD_eq_getElem xs 0 hi).symm
  have hyi : ys[i] = ys.getD i 0 := (List.getD_eq_getElem ys 0 (by omega)).symm
  have hyj : ys[i + 1] = ys.getD (i + 1) 0 := (List.getD_eq_getElem ys 0 (by omega)).symm
  rw [hxi] at hlo
  rw [hxj] at hhi
  rw [hxi, hxj, hyi, hyj]
  cases xs with
  | nil => simp at hi
  | cons x0 xs =>
    cases ys with
    | nil => simp at hlen
    | cons y0 ys =>
      have hi2 : i < xs.length := by simpa using hi
      have hlen2 : ys.length = xs.length := by simpa using hlen
      have hne : xs ≠ [] := by intro h; simp [h] at hi2
      rw [getPwlFactor_cons_cons x0 y0 xs ys v dflt hne]
      simp only [List.getD_cons_succ] at hhi ⊢
      exact getPwlFactor_loop_interval v i xs ys x0 y0 _ hlen2 hsorted hi2 hlo hhi

/-- C1, witness: the breakpoints (0, 1.0), (100, 2.0) at 50 give 1.5. -/
theorem getPwlFactor_interpolates_witness :
    getPwlFactor ⟨[0, 100], [1, 2]⟩ 50 0 = 3 / 2 := by
  have h := getPwlFactor_interpolates [0, 100] [1, 2] 50 0 0 rfl (by simp) (by simp)
    (by norm_num) (by norm_num)
  rw [h]
  norm_num

/-- C2. `getPwlFactor` extrapolates above the last breakpoint: for breakpoints
with strictly increasing indices `xs` and ratios `ys` (at least two of them,
the last at position `n + 1`) and a reference value `v ≥ xs[n+1]`, the result
is `ys[n+1] + (ys[n+1] - ys[n]) / (xs[n+1] - xs[n]) * (v - xs[n+1])`. -/
theorem getPwlFactor_extrapolates (xs ys : List ℚ) (v dflt : ℚ) (n : ℕ)
    (hlen : ys.length = xs.length) (hsorted : xs.Sorted (· < ·))
    (hn : xs.length = n + 2) (hv : xs[n + 1] ≤ v) :
    getPwlFactor ⟨xs, ys⟩ v dflt
      = ys[n + 1] + (ys[n + 1] - ys[n]) / (xs[n + 1] - xs[n]) * (v - xs[n + 1]) := by
  have hxi : xs[n] = xs.getD n 0 := (List.getD_eq_getElem xs 0 (by omega)).symm
  have hxj : xs[n + 1] = xs.getD (n + 1) 0 := (List.getD_eq_getElem xs 0 (by omega)).symm
  have hyi : ys[n] = ys.getD n 0 := (List.getD_eq_getElem ys 0 (by omega)).symm
  have hyj : ys[n + 1] = ys.getD (n + 1) 0 := (List.getD_eq_getElem ys 0 (by omega)).symm
  rw [hxj] at hv
  rw [hxi, hxj, hyi, hyj]
  cases xs with
  | nil => simp at hn
  | cons x0 xs =>
    cases ys with
    | nil => simp at hlen
    | cons y0 ys =>
      have hn2 : xs.length = n + 1 := by simpa using hn
      have hlen2 : ys.length = xs.length := by simpa using hlen
      have hne : xs ≠ [] := by intro h; simp [h] at hn2
      have hs2 : xs.Sorted (· < ·) := hsorted.of_cons
      simp only [List.getD_cons_succ] at hv
      have hlast : xs.getD (xs.length - 1) 0 ≤ v := by
        rw [hn2, Nat.add_sub_cancel]; exact hv
      rw [getPwlFactor_cons_cons x0 y0 xs ys v dflt hne,
        getPwlFactor_loop_above v xs ys x0 y0 _ hlen2 hne
          (fun x hx => le_trans (sorted_le_last xs hs2 x hx) hlast)]
      simp only [hn2, Nat.add_sub_cancel]
      ring

/-- C2, witness: the breakpoints (0, 1.0), (100, 2.0) at 150 give 2.5. -/
theorem getPwlFactor_extrapolates_witness :
    getPwlFactor ⟨[0, 100], [1, 2]⟩ 150 0 = 5 / 2 := by
  have h := getPwlFactor_extrapolates [0, 100] [1, 2] 150 0 0 rfl (by simp) rfl (by norm_num)
  rw [h]
  norm_num

/-- C3. With exactly one breakpoint `(x0, y0)`, `getPwlFactor` returns `y0` for
every reference value and every default. -/
theorem getPwlFactor_single (x0 y0 v dflt : ℚ) :
    getPwlFactor ⟨[x0], [y0]⟩ v dflt = y0 := by
  simp [getPwlFactor]

/-- C4. On an empty breakpoint list `getPwlFactor` returns the default, for
every reference value and every default. -/
theorem getPwlFactor_empty (ratios : List ℚ) (v dflt : ℚ) :
    getPwlFactor ⟨[], ratios⟩ v dflt = dflt := by
  simp [getPwlFactor]

/-! ## The layer table -/

/-- Reading back the key just assigned. -/
theorem layer_info_at_assign_self (t : List (dbTechLayer × ANTENNAmodel)) (k : dbTechLayer)
    (m : ANTENNAmodel) : layer_info_at (layer_info_assign t k m) k = m := by
  induction t with
  | nil => simp [layer_info_assign, layer_info_at]
  | cons kv rest ih =>
    by_cases h : kv.1 = k
    · simp [layer_info_assign, layer_info_at, h]
    · simp only [layer_info_assign, if_neg h]
      simp only [layer_info_at, List.find?_cons, decide_eq_true_eq, h, decide_False] at ih ⊢
      exact ih

/-- Assigning one key leaves the other keys as they were. -/
theorem layer_info_at_assign_other (t : List (dbTechLayer × ANTENNAmodel)) (k k2 : dbTechLayer)
    (m : ANTENNAmodel) (hk : k ≠ k2) :
    layer_info_at (layer_info_assign t k m) k2 = layer_info_at t k2 := by
  induction t with
  | nil => simp [layer_info_assign, layer_info_at, hk]
  | cons kv rest ih =>
    by_cases h : kv.1 = k
    · have h2 : ¬ kv.1 = k2 := by rw [h]; exact hk
      simp [layer_info_assign, layer_info_at, h, hk, h2]
    · simp only [layer_info_assign, if_neg h]
      by_cases h2 : kv.1 = k2
      · simp [layer_info_at, h2]
      · simp only [layer_info_at, List.find?_cons, decide_eq_true_eq, h2, decide_False] at ih ⊢
        exact ih

/-- Once the table holds for `layer` the model computed from it,
`loadAntennaRules` keeps it so. -/
theorem loadAntennaRules_keeps (stod : String → Option ℚ) (layer : dbTechLayer)
    (m : ANTENNAmodel) (hm : loadAntennaRules_layer stod layer = some m) :
    ∀ (layers : List dbTechLayer) (t0 t : List (dbTechLayer × ANTENNAmodel)),
      layer_info_at t0 layer = m → loadAntennaRules stod layers t0 = some t →
        layer_info_at t layer = m := by
  intro layers
  induction layers with
  | nil =>
    intro t0 t h0 h
    simp only [loadAntennaRules, Option.some.injEq] at h
    rw [← h]; exact h0
  | cons l rest ih =>
    intro t0 t h0 h
    simp only [loadAntennaRules] at h
    cases hl : loadAntennaRules_layer stod l with
    | none => rw [hl] at h; simp at h
    | some ml =>
      rw [hl] at h
      refine ih _ t ?_ h
      by_cases hk : l = layer
      · subst hk
        rw [layer_info_at_assign_self]
        rw [hl] at hm
        exact Option.some.inj hm
      · rw [layer_info_at_assign_other _ _ _ _ hk]; exact h0

/-- After `loadAntennaRules`, the table holds for every technology layer the
model computed from that layer. -/
theorem loadAntennaRules_at (stod : String → Option ℚ) (layer : dbTechLayer) :
    ∀ (layers : List dbTechLayer) (t0 t : List (dbTechLayer × ANTENNAmodel)),
      layer ∈ layers → loadAntennaRules stod layers t0 = some t →
        loadAntennaRules_layer stod layer = some (layer_info_at t layer) := by
  intro layers
  induction layers with
  | nil => intro t0 t hmem; simp at hmem
  | cons l rest ih =>
    intro t0 t hmem h
    simp only [loadAntennaRules] at h
    cases hl : loadAntennaRules_layer stod l with
    | none => rw [hl] at h; simp at h
    | some ml =>
      rw [hl] at h
      by_cases hk : l = layer
      · subst hk
        rw [hl, loadAntennaRules_keeps stod l ml hl rest _ t (layer_info_at_assign_self _ _ _) h]
      · have : layer ∈ rest := by
          rcases List.mem_cons.mp hmem with h1 | h1
          · exact absurd h1.symm hk
          · exact h1
        exact ih _ t this h

/-- For a layer without a default rule `loadAntennaRules` stores the reduce
factor 1. -/
theorem loadAntennaRules_reduce_no_rule (stod : String → Option ℚ) (layer : dbTechLayer)
    (layers : List dbTechLayer) (t0 t : List (dbTechLayer × ANTENNAmodel))
    (hmem : layer ∈ layers) (h : loadAntennaRules stod layers t0 = some t)
    (hrule : layer.getDefaultAntennaRule = none) :
    (layer_info_at t layer).diff_metal_reduce_factor = 1 := by
  have h1 := loadAntennaRules_at stod layer layers t0 t hmem h
  simp only [loadAntennaRules_layer, hrule, Option.some.injEq] at h1
  rw [← h1]

/-! ## The ratios of a PAR record -/

/-- C5. `calculateParInfo` with zero diffusion area.  With the layer table
built by `loadAntennaRules`, for a record whose gate area is not 0 and whose
diffusion area is 0: PAR = metal_factor * wire_area / gate_area,
PSR = side_metal_factor * side_wire_area / gate_area, and the diffusion
variants are these numerators times `reduce`, over the gate area, where
`reduce` is the area-diff-reduce curve of the layer rule at the diffusion
area, and 1 when the layer has no rule or the curve is empty. -/
theorem calculateParInfo_zero_diff (stod : String → Option ℚ) (tech_layers : List dbTechLayer)
    (layer_info0 : List (dbTechLayer × ANTENNAmodel)) (ck : AntennaChecker) (g : dbWireGraph)
    (it : PARinfo)
    (hload : loadAntennaRules stod tech_layers layer_info0 = some ck.layer_info)
    (hlayer : (g.node it.WirerootNode).layer ∈ tech_layers)
    (hgate : it.iterm_areas.1 ≠ 0) (hdiff : it.iterm_areas.2 = 0) :
    let am := layer_info_at ck.layer_info (g.node it.WirerootNode).layer
    let reduce : ℚ :=
      match (g.node it.WirerootNode).layer.getDefaultAntennaRule with
      | some antenna_rule => getPwlFactor antenna_rule.getAreaDiffReduce it.iterm_areas.2 1
      | none => 1
    let out := calculateParInfo ck g it
    out.PAR_value = am.metal_factor * it.wire_area / it.iterm_areas.1
      ∧ out.PSR_value = am.side_metal_factor * it.side_wire_area / it.iterm_areas.1
      ∧ out.diff_PAR_value = am.metal_factor * it.wire_area * reduce / it.iterm_areas.1
      ∧ out.diff_PSR_value
          = am.side_metal_factor * it.side_wire_area * reduce / it.iterm_areas.1
      ∧ (∀ antenna_rule,
          (g.node it.WirerootNode).layer.getDefaultAntennaRule = some antenna_rule →
            antenna_rule.getAreaDiffReduce.indices = [] → reduce = 1) := by
  intro am reduce out
  have hout : out = calculateParInfo ck g it := rfl
  have hred : reduce = (match (g.node it.WirerootNode).layer.getDefaultAntennaRule with
      | some antenna_rule => getPwlFactor antenna_rule.getAreaDiffReduce it.iterm_areas.2 1
      | none => 1) := rfl
  simp only [calculateParInfo, if_neg hgate, hdiff, ne_eq, not_true_eq_false, if_false] at hout
  cases hrule : (g.node it.WirerootNode).layer.getDefaultAntennaRule with
  | none =>
    have h1 := loadAntennaRules_reduce_no_rule stod _ tech_layers layer_info0 ck.layer_info
      hlayer hload hrule
    rw [hrule] at hout hred
    simp only at hout hred
    rw [h1] at hout
    refine ⟨?_, ?_, ?_, ?_, ?_⟩
    · rw [hout]
    · rw [hout]
    · rw [hout, hred]
    · rw [hout, hred]
    · intro r hr; simp at hr
  | some rule =>
    rw [hrule] at hout hred
    simp only at hout hred
    refine ⟨?_, ?_, ?_, ?_, ?_⟩
    · rw [hout]
    · rw [hout]
    · rw [hout, hred, hdiff]
    · rw [hout, hred, hdiff]
    · intro r hr hidx
      rw [hred]
      have : r = rule := (Option.some.inj hr).symm
      subst this
      simp [getPwlFactor, hidx]

/-- C5, witness: wire area 10 and sidewall area 4 over gate area 5, without
diffusion, on a layer with area factors 1 and no reduce curve, give PAR 2,
PSR 0.8 and the same diffusion variants. -/
theorem calculateParInfo_zero_diff_witness :
    let layer := ex_metal1 (some ex_rule_flat_par)
    let out := calculateParInfo (ex_checker [(layer, ex_model layer)]) (ex_graph_isolated layer)
      (ex_par 5 0)
    out.PAR_value = 2 ∧ out.PSR_value = 4 / 5 ∧ out.diff_PAR_value = 2
      ∧ out.diff_PSR_value = 4 / 5 := by
  intro layer out
  have h := calculateParInfo_zero_diff (fun _ => none) [layer] []
    (ex_checker [(layer, ex_model layer)]) (ex_graph_isolated layer) (ex_par 5 0) rfl
    (by simp [ex_graph_isolated]) (by norm_num [ex_par]) rfl
  obtain ⟨h1, h2, h3, h4, _⟩ := h
  have ham : layer_info_at (ex_checker [(layer, ex_model layer)]).layer_info
      ((ex_graph_isolated layer).node (ex_par 5 0).WirerootNode).layer = ex_model layer := by
    simp [layer_info_at, ex_checker, ex_graph_isolated]
  rw [ham] at h1 h2 h3 h4
  refine ⟨?_, ?_, ?_, ?_⟩
  · rw [h1]; norm_num [ex_model, ex_par]
  · rw [h2]; norm_num [ex_model, ex_par]
  · rw [h3]
    norm_num [ex_model, ex_par, ex_graph_isolated, layer, ex_metal1, ex_rule_flat_par,
      ex_no_curve, getPwlFactor]
  · rw [h4]
    norm_num [ex_model, ex_par, ex_graph_isolated, layer, ex_metal1, ex_rule_flat_par,
      ex_no_curve, getPwlFactor]

/-- C6. `calculateParInfo` with nonzero diffusion area.  For a record whose
gate area and diffusion area are not 0:
PAR = diff_metal_factor * wire_area / gate_area,
PSR = diff_side_metal_factor * side_wire_area / gate_area,
diff_PAR = (diff_metal_factor * wire_area * reduce - minus_diff_factor *
diff_area) / (gate_area + plus_diff_factor * diff_area), and diff_PSR is the
same with diff_side_metal_factor * side_wire_area.  Here `reduce` is the
area-diff-reduce curve of the layer rule at the diffusion area, and the stored
reduce factor of the layer when it has no rule. -/
theorem calculateParInfo_nonzero_diff (ck : AntennaChecker) (g : dbWireGraph) (it : PARinfo)
    (hgate : it.iterm_areas.1 ≠ 0) (hdiff : it.iterm_areas.2 ≠ 0) :
    let am := layer_info_at ck.layer_info (g.node it.WirerootNode).layer
    let reduce : ℚ :=
      match (g.node it.WirerootNode).layer.getDefaultAntennaRule with
      | some antenna_rule => getPwlFactor antenna_rule.getAreaDiffReduce it.iterm_areas.2 1
      | none => am.diff_metal_reduce_factor
    let out := calculateParInfo ck g it
    out.PAR_value = am.diff_metal_factor * it.wire_area / it.iterm_areas.1
      ∧ out.PSR_value = am.diff_side_metal_factor * it.side_wire_area / it.iterm_areas.1
      ∧ out.diff_PAR_value
          = (am.diff_metal_factor * it.wire_area * reduce
              - am.minus_diff_factor * it.iterm_areas.2)
            / (it.iterm_areas.1 + am.plus_diff_factor * it.iterm_areas.2)
      ∧ out.diff_PSR_value
          = (am.diff_side_metal_factor * it.side_wire_area * reduce
              - am.minus_diff_factor * it.iterm_areas.2)
            / (it.iterm_areas.1 + am.plus_diff_factor * it.iterm_areas.2) := by
  intro am reduce out
  have hout : out = calculateParInfo ck g it := rfl
  simp only [calculateParInfo, if_neg hgate, ne_eq, hdiff, not_false_eq_true, if_true] at hout
  refine ⟨?_, ?_, ?_, ?_⟩ <;> rw [hout]

/-- C6, witness: wire area 10 and sidewall area 4 over gate area 5 with
diffusion area 2, on a layer with diffusion factors 1, minus factor 1 and plus
factor 1/2 and no rule: PAR 2, PSR 0.8, diff_PAR (10 - 2) / (5 + 1) and
diff_PSR (4 - 2) / (5 + 1). -/
theorem calculateParInfo_nonzero_diff_witness :
    let layer := ex_metal1 none
    let model : ANTENNAmodel :=
      { ex_model layer with minus_diff_factor := 1, plus_diff_factor := 1 / 2 }
    let out := calculateParInfo (ex_checker [(layer, model)]) (ex_graph_isolated layer)
      (ex_par 5 2)
    out.PAR_value = 2 ∧ out.PSR_value = 4 / 5 ∧ out.diff_PAR_value = 4 / 3
      ∧ out.diff_PSR_value = 1 / 3 := by
  intro layer model out
  have h := calculateParInfo_nonzero_diff (ex_checker [(layer, model)])
    (ex_graph_isolated layer) (ex_par 5 2) (by norm_num [ex_par]) (by norm_num [ex_par])
  obtain ⟨h1, h2, h3, h4⟩ := h
  have ham : layer_info_at (ex_checker [(layer, model)]).layer_info
      ((ex_graph_isolated layer).node (ex_par 5 2).WirerootNode).layer = model := by
    simp [layer_info_at, ex_checker, ex_graph_isolated]
  rw [ham] at h1 h2 h3 h4
  refine ⟨?_, ?_, ?_, ?_⟩
  · rw [h1]; norm_num [model, ex_model, ex_par]
  · rw [h2]; norm_num [model, ex_model, ex_par]
  · rw [h3]
    norm_num [model, ex_model, ex_par, ex_graph_isolated, layer, ex_metal1]
  · rw [h4]
    norm_num [model, ex_model, ex_par, ex_graph_isolated, layer, ex_metal1]

/-! ## The threshold checks -/

/-- The local flags of `checkWirePar` in closed form. -/
theorem checkWirePar_flags_eq (rule : dbTechLayerAntennaRule) (ar : ARinfo) :
    checkWirePar_flags rule ar
      = { par_violation := decide (rule.getPAR ≠ 0 ∧ ar.PAR_value > rule.getPAR)
          diff_par_violation :=
            decide (rule.getPAR = 0 ∧ getPwlFactor rule.getDiffPAR ar.diff_area 0 ≠ 0
              ∧ ar.diff_PAR_value > getPwlFactor rule.getDiffPAR ar.diff_area 0)
          psr_violation := decide (rule.getPSR ≠ 0 ∧ ar.PSR_value > rule.getPSR)
          diff_psr_violation :=
            decide (rule.getPSR = 0 ∧ getPwlFactor rule.getDiffPSR ar.diff_area 0 ≠ 0
              ∧ ar.diff_PSR_value > getPwlFactor rule.getDiffPSR ar.diff_area 0)
          if_violated :=
            decide ((rule.getPAR ≠ 0 ∧ ar.PAR_value > rule.getPAR)
              ∨ (rule.getPAR = 0 ∧ getPwlFactor rule.getDiffPAR ar.diff_area 0 ≠ 0
                ∧ ar.diff_PAR_value > getPwlFactor rule.getDiffPAR ar.diff_area 0)
              ∨ (rule.getPSR ≠ 0 ∧ ar.PSR_value > rule.getPSR)
              ∨ (rule.getPSR = 0 ∧ getPwlFactor rule.getDiffPSR ar.diff_area 0 ≠ 0
                ∧ ar.diff_PSR_value > getPwlFactor rule.getDiffPSR ar.diff_area 0))
          checked :=
            decide ((rule.getPAR = 0 ∧ getPwlFactor rule.getDiffPAR ar.diff_area 0 ≠ 0)
              ∨ (rule.getPSR = 0 ∧ getPwlFactor rule.getDiffPSR ar.diff_area 0 ≠ 0)) } := by
  unfold checkWirePar_flags
  simp only []
  split_ifs <;> simp_all

/-- The local flags of `checkWireCar` in closed form. -/
theorem checkWireCar_flags_eq (rule : dbTechLayerAntennaRule) (ar : ARinfo)
    (par_checked : Bool) :
    checkWireCar_flags rule ar par_checked
      = { car_violation :=
            decide (par_checked = false ∧ rule.getCAR ≠ 0 ∧ ar.CAR_value > rule.getCAR)
          diff_car_violation :=
            decide (par_checked = false ∧ rule.getCAR = 0
              ∧ getPwlFactor rule.getDiffCAR ar.diff_area 0 ≠ 0
              ∧ ar.CAR_value > getPwlFactor rule.getDiffCAR ar.diff_area 0)
          csr_violation :=
            decide (par_checked = false ∧ rule.getCSR ≠ 0 ∧ ar.CSR_value > rule.getCSR)
          diff_csr_violation :=
            decide (par_checked = false ∧ rule.getCSR = 0
              ∧ getPwlFactor rule.getDiffCSR ar.diff_area 0 ≠ 0
              ∧ ar.diff_CSR_value > getPwlFactor rule.getDiffCSR ar.diff_area 0)
          if_violated :=
            decide (par_checked = false
              ∧ ((rule.getCAR ≠ 0 ∧ ar.CAR_value > rule.getCAR)
                ∨ (rule.getCAR = 0 ∧ getPwlFactor rule.getDiffCAR ar.diff_area 0 ≠ 0
                  ∧ ar.CAR_value > getPwlFactor rule.getDiffCAR ar.diff_area 0)
                ∨ (rule.getCSR ≠ 0 ∧ ar.CSR_value > rule.getCSR)
                ∨ (rule.getCSR = 0 ∧ getPwlFactor rule.getDiffCSR ar.diff_area 0 ≠ 0
                  ∧ ar.diff_CSR_value > getPwlFactor rule.getDiffCSR ar.diff_area 0)))
          checked :=
            decide (par_checked = false
              ∧ ((rule.getCAR = 0 ∧ getPwlFactor rule.getDiffCAR ar.diff_area 0 ≠ 0)
                ∨ (rule.getCSR = 0 ∧ getPwlFactor rule.getDiffCSR ar.diff_area 0 ≠ 0))) } := by
  unfold checkWireCar_flags
  cases par_checked
  · simp only [Bool.false_eq_true, if_false]
    split_ifs <;> simp_all
  · simp

/-- The pair returned by `checkWirePar` on a layer with a rule: the flags
`if_violated` and `checked`, for both values of the two report flags. -/
theorem checkWirePar_eq (g : dbWireGraph) (ar : ARinfo) (rule : dbTechLayerAntennaRule)
    (report_violating_nets pr : Bool)
    (hrule : (g.node ar.WirerootNode).layer.getDefaultAntennaRule = some rule) :
    checkWirePar g ar report_violating_nets pr
      = ((checkWirePar_flags rule ar).if_violated, (checkWirePar_flags rule ar).checked) := by
  simp only [checkWirePar, hrule]
  split_ifs <;> rfl

/-- The pair returned by `checkWireCar` on a layer with a rule. -/
theorem checkWireCar_eq (g : dbWireGraph) (ar : ARinfo) (rule : dbTechLayerAntennaRule)
    (par_checked report_violating_nets pr : Bool)
    (hrule : (g.node ar.WirerootNode).layer.getDefaultAntennaRule = some rule) :
    checkWireCar g ar par_checked report_violating_nets pr
      = ((checkWireCar_flags rule ar par_checked).if_violated,
          (checkWireCar_flags rule ar par_checked).checked) := by
  simp only [checkWireCar, hrule]
  split_ifs <;> rfl

/-- The flag returned by `checkViolation` on a layer with a rule, in closed
form. -/
theorem checkViolation_eq (p : PARinfo) (layer : dbTechLayer) (rule : dbTechLayerAntennaRule)
    (hrule : layer.getDefaultAntennaRule = some rule) :
    checkViolation p layer
      = decide ((rule.getPAR ≠ 0 ∧ p.PAR_value > rule.getPAR)
          ∨ (rule.getPAR = 0 ∧ getPwlFactor rule.getDiffPAR p.iterm_areas.2 0 ≠ 0
            ∧ p.diff_PAR_value > getPwlFactor rule.getDiffPAR p.iterm_areas.2 0)
          ∨ (rule.getPSR ≠ 0 ∧ p.PSR_value > rule.getPSR)
          ∨ (rule.getPSR = 0 ∧ getPwlFactor rule.getDiffPSR p.iterm_areas.2 0 ≠ 0
            ∧ p.diff_PSR_value > getPwlFactor rule.getDiffPSR p.iterm_areas.2 0)) := by
  simp only [checkViolation, hrule]
  split_ifs <;> simp_all

/-- C8. Strict exceedance under a flat threshold.  On a layer whose rule has a
nonzero flat PAR threshold `T` and no PSR constraint (flat PSR 0, PSR curve
empty), `checkWirePar` and `checkViolation` flag a record if and only if its
PAR value is greater than `T`; a record with PAR value equal to `T` is not
flagged. -/
theorem flat_par_strict_exceedance (g : dbWireGraph) (ar : ARinfo) (p : PARinfo)
    (layer : dbTechLayer) (rule : dbTechLayerAntennaRule) (report_violating_nets pr : Bool)
    (hnode : (g.node ar.WirerootNode).layer = layer)
    (hrule : layer.getDefaultAntennaRule = some rule)
    (hT : rule.getPAR ≠ 0) (hpsr : rule.getPSR = 0) (hcurve : rule.getDiffPSR.indices = []) :
    ((checkWirePar g ar report_violating_nets pr).1 = true ↔ ar.PAR_value > rule.getPAR)
      ∧ (checkViolation p layer = true ↔ p.PAR_value > rule.getPAR)
      ∧ (ar.PAR_value = rule.getPAR → (checkWirePar g ar report_violating_nets pr).1 = false)
      ∧ (p.PAR_value = rule.getPAR → checkViolation p layer = false) := by
  have hpwl : ∀ a : ℚ, getPwlFactor rule.getDiffPSR a 0 = 0 := by
    intro a; simp [getPwlFactor, hcurve]
  have h1 : (checkWirePar g ar report_violating_nets pr).1 = true
      ↔ ar.PAR_value > rule.getPAR := by
    rw [checkWirePar_eq g ar rule report_violating_nets pr (by rw [hnode]; exact hrule),
      checkWirePar_flags_eq]
    simp [hT, hpsr, hpwl]
  have h2 : checkViolation p layer = true ↔ p.PAR_value > rule.getPAR := by
    rw [checkViolation_eq p layer rule hrule]
    simp [hT, hpsr, hpwl]
  refine ⟨h1, h2, ?_, ?_⟩
  · intro heq
    rw [Bool.eq_false_iff]
    intro h
    exact absurd (h1.mp h) (by rw [heq]; exact lt_irrefl _)
  · intro heq
    rw [Bool.eq_false_iff]
    intro h
    exact absurd (h2.mp h) (by rw [heq]; exact lt_irrefl _)

/-- C8, witness: wire area 10 with metal factor 1 over gate area 5, without
diffusion, under the flat PAR threshold 1.5 gives PAR 2 and is flagged; over
gate area 20 it gives PAR 0.5 and is not flagged. -/
theorem flat_par_strict_exceedance_witness :
    let layer := ex_metal1 (some ex_rule_flat_par)
    let ck := ex_checker [(layer, ex_model layer)]
    let g := ex_graph_isolated layer
    let p5 := calculateParInfo ck g (ex_par 5 0)
    let p20 := calculateParInfo ck g (ex_par 20 0)
    (p5.PAR_value = 2 ∧ checkViolation p5 layer = true
        ∧ (checkWirePar g (ex_ar p5.PAR_value 0) false false).1 = true)
      ∧ (p20.PAR_value = 1 / 2 ∧ checkViolation p20 layer = false
        ∧ (checkWirePar g (ex_ar p20.PAR_value 0) false false).1 = false) := by
  intro layer ck g p5 p20
  have hp5 : p5.PAR_value = 2 := by
    norm_num [p5, calculateParInfo, ex_par, layer_info_at, ck, ex_checker, g,
      ex_graph_isolated, ex_model]
  have hp20 : p20.PAR_value = 1 / 2 := by
    norm_num [p20, calculateParInfo, ex_par, layer_info_at, ck, ex_checker, g,
      ex_graph_isolated, ex_model]
  have h5 := flat_par_strict_exceedance g (ex_ar p5.PAR_value 0) p5 layer ex_rule_flat_par
    false false rfl rfl (by norm_num [ex_rule_flat_par]) rfl rfl
  have h20 := flat_par_strict_exceedance g (ex_ar p20.PAR_value 0) p20 layer ex_rule_flat_par
    false false rfl rfl (by norm_num [ex_rule_flat_par]) rfl rfl
  have hT : ex_rule_flat_par.getPAR = 3 / 2 := rfl
  refine ⟨⟨hp5, h5.2.1.mpr ?_, h5.1.mpr ?_⟩, ⟨hp20, ?_, ?_⟩⟩
  · rw [hp5, hT]; norm_num
  · show p5.PAR_value > ex_rule_flat_par.getPAR
    rw [hp5, hT]; norm_num
  · rw [Bool.eq_false_iff]
    intro h
    have := h20.2.1.mp h
    rw [hp20, hT] at this
    norm_num at this
  · rw [Bool.eq_false_iff]
    intro h
    have : p20.PAR_value > ex_rule_flat_par.getPAR := h20.1.mp h
    rw [hp20, hT] at this
    norm_num at this

/-- C9, as stated, fails for CAR.  Two rules with the same nonzero flat CAR
threshold 1 that differ only in the PWL curve of PAR, and one record with CAR
value 5: after `checkWirePar`, `checkWireCar` reports the CAR violation under
the first rule and none under the second.  At the level of `checkWireCar`
alone, the same record and rule are flagged with `par_checked` false and not
flagged with `par_checked` true. -/
theorem flat_threshold_precedence_counterexample :
    let g1 := ex_graph_isolated (ex_metal1 (some ex_rule_flat_car))
    let g2 := ex_graph_isolated (ex_metal1 (some ex_rule_flat_car_pwl_par))
    let ar := ex_ar 0 5
    ex_rule_flat_car.getCAR = 1
      ∧ ex_rule_flat_car_pwl_par = { ex_rule_flat_car with getDiffPAR := ⟨[0], [100]⟩ }
      ∧ (checkWireCar g1 ar (checkWirePar g1 ar false false).2 false false).1 = true
      ∧ (checkWireCar g2 ar (checkWirePar g2 ar false false).2 false false).1 = false
      ∧ (checkWireCar_flags ex_rule_flat_car ar false).car_violation = true
      ∧ (checkWireCar_flags ex_rule_flat_car ar true).car_violation = false := by
  intro g1 g2 ar
  have hr1 : (g1.node ar.WirerootNode).layer.getDefaultAntennaRule = some ex_rule_flat_car := rfl
  have hr2 : (g2.node ar.WirerootNode).layer.getDefaultAntennaRule
      = some ex_rule_flat_car_pwl_par := rfl
  refine ⟨rfl, rfl, ?_, ?_, ?_, ?_⟩
  · rw [checkWirePar_eq g1 ar _ false false hr1, checkWireCar_eq g1 ar _ _ false false hr1,
      checkWireCar_flags_eq, checkWirePar_flags_eq]
    norm_num [ex_rule_flat_car, ex_rule_none, ex_rule_flat_par, ex_no_curve, ar, ex_ar,
      getPwlFactor]
  · rw [checkWirePar_eq g2 ar _ false false hr2, checkWireCar_eq g2 ar _ _ false false hr2,
      checkWireCar_flags_eq, checkWirePar_flags_eq]
    norm_num [ex_rule_flat_car_pwl_par, ex_rule_flat_car, ex_rule_none, ex_rule_flat_par,
      ex_no_curve, ar, ex_ar, getPwlFactor]
  · rw [checkWireCar_flags_eq]
    norm_num [ex_rule_flat_car, ex_rule_none, ex_rule_flat_par, ar, ex_ar]
  · rw [checkWireCar_flags_eq]
    simp

/-- C9, amended.  Flat threshold precedence.  For PAR and PSR in `checkWirePar`,
and for CAR and CSR in `checkWireCar` called with `par_checked` false: when the
flat threshold of the quantity is nonzero, two runs with the same flat
threshold and the same plain value give the same verdict for that quantity,
whatever the PWL curves, diffusion-adjusted values and diffusion areas of the
two runs, and the verdict is `plain value > flat threshold`. -/
theorem flat_threshold_precedence (rule1 rule2 : dbTechLayerAntennaRule) (ar1 ar2 : ARinfo) :
    (rule1.getPAR = rule2.getPAR → rule1.getPAR ≠ 0 → ar1.PAR_value = ar2.PAR_value →
        ((checkWirePar_flags rule1 ar1).par_violation
            || (checkWirePar_flags rule1 ar1).diff_par_violation)
          = ((checkWirePar_flags rule2 ar2).par_violation
            || (checkWirePar_flags rule2 ar2).diff_par_violation)
        ∧ ((checkWirePar_flags rule1 ar1).par_violation
            || (checkWirePar_flags rule1 ar1).diff_par_violation)
          = decide (ar1.PAR_value > rule1.getPAR))
      ∧ (rule1.getPSR = rule2.getPSR → rule1.getPSR ≠ 0 → ar1.PSR_value = ar2.PSR_value →
        ((checkWirePar_flags rule1 ar1).psr_violation
            || (checkWirePar_flags rule1 ar1).diff_psr_violation)
          = ((checkWirePar_flags rule2 ar2).psr_violation
            || (checkWirePar_flags rule2 ar2).diff_psr_violation)
        ∧ ((checkWirePar_flags rule1 ar1).psr_violation
            || (checkWirePar_flags rule1 ar1).diff_psr_violation)
          = decide (ar1.PSR_value > rule1.getPSR))
      ∧ (rule1.getCAR = rule2.getCAR → rule1.getCAR ≠ 0 → ar1.CAR_value = ar2.CAR_value →
        ((checkWireCar_flags rule1 ar1 false).car_violation
            || (checkWireCar_flags rule1 ar1 false).diff_car_violation)
          = ((checkWireCar_flags rule2 ar2 false).car_violation
            || (checkWireCar_flags rule2 ar2 false).diff_car_violation)
        ∧ ((checkWireCar_flags rule1 ar1 false).car_violation
            || (checkWireCar_flags rule1 ar1 false).diff_car_violation)
          = decide (ar1.CAR_value > rule1.getCAR))
      ∧ (rule1.getCSR = rule2.getCSR → rule1.getCSR ≠ 0 → ar1.CSR_value = ar2.CSR_value →
        ((checkWireCar_flags rule1 ar1 false).csr_violation
            || (checkWireCar_flags rule1 ar1 false).diff_csr_violation)
          = ((checkWireCar_flags rule2 ar2 false).csr_violation
            || (checkWireCar_flags rule2 ar2 false).diff_csr_violation)
        ∧ ((checkWireCar_flags rule1 ar1 false).csr_violation
            || (checkWireCar_flags rule1 ar1 false).diff_csr_violation)
          = decide (ar1.CSR_value > rule1.getCSR)) := by
  simp only [checkWirePar_flags_eq, checkWireCar_flags_eq]
  refine ⟨?_, ?_, ?_, ?_⟩
  · intro h1 h2 h3
    have h2' : rule2.getPAR ≠ 0 := by rw [← h1]; exact h2
    simp [h2, h2', ← h1, ← h3]
  · intro h1 h2 h3
    have h2' : rule2.getPSR ≠ 0 := by rw [← h1]; exact h2
    simp [h2, h2', ← h1, ← h3]
  · intro h1 h2 h3
    have h2' : rule2.getCAR ≠ 0 := by rw [← h1]; exact h2
    simp [h2, h2', ← h1, ← h3]
  · intro h1 h2 h3
    have h2' : rule2.getCSR ≠ 0 := by rw [← h1]; exact h2
    simp [h2, h2', ← h1, ← h3]

/-- C9, witness: under the flat CAR threshold 1, with `par_checked` false, the
CAR verdict of a record with CAR value 5 is the same under the rule with and
without the PWL curve of PAR, and it is a violation. -/
theorem flat_threshold_precedence_witness :
    ((checkWireCar_flags ex_rule_flat_car (ex_ar 0 5) false).car_violation
        || (checkWireCar_flags ex_rule_flat_car (ex_ar 0 5) false).diff_car_violation)
      = ((checkWireCar_flags ex_rule_flat_car_pwl_par (ex_ar 7 5) false).car_violation
        || (checkWireCar_flags ex_rule_flat_car_pwl_par (ex_ar 7 5) false).diff_car_violation)
      ∧ ((checkWireCar_flags ex_rule_flat_car (ex_ar 0 5) false).car_violation
        || (checkWireCar_flags ex_rule_flat_car (ex_ar 0 5) false).diff_car_violation)
      = true := by
  have h := (flat_threshold_precedence ex_rule_flat_car ex_rule_flat_car_pwl_par (ex_ar 0 5)
    (ex_ar 7 5)).2.2.1 rfl (by norm_num [ex_rule_flat_car]) rfl
  refine ⟨h.1, ?_⟩
  rw [h.2]
  norm_num [ex_rule_flat_car, ex_ar]

/-- The flag returned by `checkViaPar` when the via lookup yields a cut layer
with a rule, in closed form. -/
theorem checkViaPar_eq (g : dbWireGraph) (fuel : Nat) (ar : ARinfo) (layer : dbTechLayer)
    (rule : dbTechLayerAntennaRule) (report_violating_nets pr : Bool)
    (hvia : viaLayerOf g fuel ar.WirerootNode = some layer)
    (hrule : layer.getDefaultAntennaRule = some rule) :
    checkViaPar g fuel ar report_violating_nets pr
      = some (decide ((rule.getPAR ≠ 0 ∧ ar.PAR_value > rule.getPAR)
          ∨ (rule.getPAR = 0 ∧ getPwlFactor rule.getDiffPAR ar.diff_area 0 ≠ 0
            ∧ ar.diff_PAR_value > getPwlFactor rule.getDiffPAR ar.diff_area 0))) := by
  simp only [checkViaPar, hvia, Option.map_some', hrule]
  split_ifs <;> simp_all

/-- The flag returned by `checkViaCar` when the via lookup yields a cut layer
with a rule, in closed form. -/
theorem checkViaCar_eq (g : dbWireGraph) (fuel : Nat) (ar : ARinfo) (layer : dbTechLayer)
    (rule : dbTechLayerAntennaRule) (report_violating_nets pr : Bool)
    (hvia : viaLayerOf g fuel ar.WirerootNode = some layer)
    (hrule : layer.getDefaultAntennaRule = some rule) :
    checkViaCar g fuel ar report_violating_nets pr
      = some (decide ((rule.getCAR ≠ 0 ∧ ar.CAR_value > rule.getCAR)
          ∨ (rule.getCAR = 0 ∧ getPwlFactor rule.getDiffCAR ar.diff_area 0 ≠ 0
            ∧ ar.CAR_value > getPwlFactor rule.getDiffCAR ar.diff_area 0))) := by
  simp only [checkViaCar, hvia, Option.map_some', hrule]
  split_ifs <;> simp_all

/-- C10. A zero PWL result means no constraint.  When the flat threshold of a
quantity is 0 and its PWL curve evaluates to 0 at the diffusion area of the
record (as the empty curve does), that quantity is not reported as violated,
whatever the values of the record: both flags of the quantity stay false in
`checkWirePar` and `checkWireCar` (for either value of `par_checked`),
`checkViaPar` and `checkViaCar` return false, and `checkViolation` returns what
the other quantity alone decides. -/
theorem zero_pwl_no_constraint (g : dbWireGraph) (fuel : Nat) (rule : dbTechLayerAntennaRule)
    (ar : ARinfo) (p : PARinfo) (layer : dbTechLayer)
    (par_checked report_violating_nets pr : Bool) :
    (rule.getPAR = 0 → getPwlFactor rule.getDiffPAR ar.diff_area 0 = 0 →
        (checkWirePar_flags rule ar).par_violation = false
          ∧ (checkWirePar_flags rule ar).diff_par_violation = false)
      ∧ (rule.getPSR = 0 → getPwlFactor rule.getDiffPSR ar.diff_area 0 = 0 →
        (checkWirePar_flags rule ar).psr_violation = false
          ∧ (checkWirePar_flags rule ar).diff_psr_violation = false)
      ∧ (rule.getCAR = 0 → getPwlFactor rule.getDiffCAR ar.diff_area 0 = 0 →
        (checkWireCar_flags rule ar par_checked).car_violation = false
          ∧ (checkWireCar_flags rule ar par_checked).diff_car_violation = false)
      ∧ (rule.getCSR = 0 → getPwlFactor rule.getDiffCSR ar.diff_area 0 = 0 →
        (checkWireCar_flags rule ar par_checked).csr_violation = false
          ∧ (checkWireCar_flags rule ar par_checked).diff_csr_violation = false)
      ∧ (viaLayerOf g fuel ar.WirerootNode = some layer →
        layer.getDefaultAntennaRule = some rule →
        rule.getPAR = 0 → getPwlFactor rule.getDiffPAR ar.diff_area 0 = 0 →
        checkViaPar g fuel ar report_violating_nets pr = some false)
      ∧ (viaLayerOf g fuel ar.WirerootNode = some layer →
        layer.getDefaultAntennaRule = some rule →
        rule.getCAR = 0 → getPwlFactor rule.getDiffCAR ar.diff_area 0 = 0 →
        checkViaCar g fuel ar report_violating_nets pr = some false)
      ∧ (layer.getDefaultAntennaRule = some rule →
        rule.getPAR = 0 → getPwlFactor rule.getDiffPAR p.iterm_areas.2 0 = 0 →
        checkViolation p layer
          = decide ((rule.getPSR ≠ 0 ∧ p.PSR_value > rule.getPSR)
              ∨ (rule.getPSR = 0 ∧ getPwlFactor rule.getDiffPSR p.iterm_areas.2 0 ≠ 0
                ∧ p.diff_PSR_value > getPwlFactor rule.getDiffPSR p.iterm_areas.2 0)))
      ∧ (layer.getDefaultAntennaRule = some rule →
        rule.getPSR = 0 → getPwlFactor rule.getDiffPSR p.iterm_areas.2 0 = 0 →
        checkViolation p layer
          = decide ((rule.getPAR ≠ 0 ∧ p.PAR_value > rule.getPAR)
              ∨ (rule.getPAR = 0 ∧ getPwlFactor rule.getDiffPAR p.iterm_areas.2 0 ≠ 0
                ∧ p.diff_PAR_value > getPwlFactor rule.getDiffPAR p.iterm_areas.2 0)))
      ∧ (∀ (ratios : List ℚ) (diff_area : ℚ), getPwlFactor ⟨[], ratios⟩ diff_area 0 = 0) := by
  refine ⟨?_, ?_, ?_, ?_, ?_, ?_, ?_, ?_, ?_⟩
  · intro h1 h2; rw [checkWirePar_flags_eq]; simp [h1, h2]
  · intro h1 h2; rw [checkWirePar_flags_eq]; simp [h1, h2]
  · intro h1 h2; rw [checkWireCar_flags_eq]; simp [h1, h2]
  · intro h1 h2; rw [checkWireCar_flags_eq]; simp [h1, h2]
  · intro hv hr h1 h2
    rw [checkViaPar_eq g fuel ar layer rule report_violating_nets pr hv hr]; simp [h1, h2]
  · intro hv hr h1 h2
    rw [checkViaCar_eq g fuel ar layer rule report_violating_nets pr hv hr]; simp [h1, h2]
  · intro hr h1 h2; rw [checkViolation_eq p layer rule hr]; simp [h1, h2]
  · intro hr h1 h2; rw [checkViolation_eq p layer rule hr]; simp [h1, h2]
  · intro ratios diff_area; simp [getPwlFactor]

/-- C10, witness: under a rule whose flat thresholds are 0 and whose curves are
empty, a record with PAR 7 and CAR 9 is reported by none of the checks; the
via checks run on the net of one via, whose cut layer is found by `findVia`. -/
theorem zero_pwl_no_constraint_witness :
    let g := ex_graph_via (some ex_rule_none)
    let ar := ex_ar 7 9
    let p : PARinfo := { ex_par 5 0 with PAR_value := 7, diff_PAR_value := 7 }
    (checkWirePar_flags ex_rule_none ar).par_violation = false
      ∧ (checkWirePar_flags ex_rule_none ar).diff_par_violation = false
      ∧ (checkWireCar_flags ex_rule_none ar false).car_violation = false
      ∧ (checkWireCar_flags ex_rule_none ar false).diff_car_violation = false
      ∧ checkViaPar g 2 ar false false = some false
      ∧ checkViaCar g 2 ar false false = some false
      ∧ checkViolation p (ex_via1 (some ex_rule_none)) = false := by
  intro g ar p
  have h := zero_pwl_no_constraint g 2 ex_rule_none ar p (ex_via1 (some ex_rule_none))
    false false false
  have hz : ∀ a : ℚ, getPwlFactor ex_no_curve a 0 = 0 := h.2.2.2.2.2.2.2.2 []
  have hvia : viaLayerOf g 2 ar.WirerootNode = some (ex_via1 (some ex_rule_none)) := by
    simp [viaLayerOf, findVia, findVia_loop, getViaLayer, g, ex_graph_via, ar, ex_ar,
      ex_via_edge, ex_metal1, ex_metal2, ex_via1]
  refine ⟨(h.1 rfl (hz _)).1, (h.1 rfl (hz _)).2, (h.2.2.1 rfl (hz _)).1,
    (h.2.2.1 rfl (hz _)).2, h.2.2.2.2.1 hvia rfl rfl (hz _),
    h.2.2.2.2.2.1 hvia rfl rfl (hz _), ?_⟩
  rw [h.2.2.2.2.2.2.1 rfl rfl (hz _)]
  simp [ex_rule_none, ex_rule_flat_par, hz]

/-! ## The PAR table -/

/-- A property that holds of the start state of an `Option`-valued fold and
is kept by every step that returns holds of the result. -/
theorem foldlM_option_invariant {σ ε : Type} (P : σ → Prop) (f : σ → ε → Option σ) :
    ∀ (l : List ε) (init res : σ), l.foldlM f init = some res → P init →
      (∀ st e st2, P st → f st e = some st2 → P st2) → P res := by
  intro l
  induction l with
  | nil =>
    intro init res h hP _
    simp only [List.foldlM, pure, Option.some.injEq] at h
    rw [← h]; exact hP
  | cons e rest ih =>
    intro init res h hP hstep
    simp only [List.foldlM, bind, Option.bind] at h
    cases hf : f init e with
    | none => rw [hf] at h; simp at h
    | some st2 =>
      rw [hf] at h
      exact ih st2 res h (hstep init e st2 hP hf) hstep

/-- Insertion into a set keeps its elements. -/
theorem subset_set_insert (s : List Nat) (a : Nat) : s ⊆ set_insert s a := by
  intro x hx
  unfold set_insert
  split_ifs
  · exact hx
  · exact List.mem_append_left _ hx

/-- One step of the loop of `calculateWireArea` keeps the elements of
`level_nodes`, when the recursive call does. -/
theorem calculateWireArea_edge_level_nodes (ck : AntennaChecker) (g : dbWireGraph)
    (node : Nat) (wire_level : Int) (out_edges_count : Nat)
    (recurse : Nat → List Nat → List Nat → Option WireArea)
    (hrec : ∀ next nv level_nodes res, recurse next nv level_nodes = some res →
      level_nodes ⊆ res.level_nodes)
    (st st2 : WireArea) (edge_info : Edge × EdgeIoType)
    (h : calculateWireArea_edge ck g node wire_level out_edges_count recurse st edge_info
      = some st2) :
    st.level_nodes ⊆ st2.level_nodes := by
  have hadd : ∀ (st0 : WireArea) (next : Nat) (out : WireArea),
      calculateWireArea_add recurse st0 next = some out →
        st0.level_nodes ⊆ out.level_nodes := by
    intro st0 next out hmap
    unfold calculateWireArea_add at hmap
    cases hc : recurse next st0.nv st0.level_nodes with
    | none => rw [hc] at hmap; simp at hmap
    | some areas =>
      rw [hc] at hmap
      simp only [Option.map_some', Option.some.injEq] at hmap
      rw [← hmap]
      exact hrec next st0.nv st0.level_nodes areas hc
  obtain ⟨edge, io⟩ := edge_info
  unfold calculateWireArea_edge at h
  cases io <;> cases hty : edge.type <;> simp only [hty] at h
  all_goals split_ifs at h
  all_goals first
    | (have h2 := hadd _ _ _ h; exact h2)
    | (have h2 := hadd _ _ _ h; exact fun x hx => h2 (subset_set_insert _ _ hx))
    | (simp only [Option.some.injEq] at h; rw [← h]; exact fun x hx => hx)

/-- The set `level_nodes` only grows in `calculateWireArea`. -/
theorem calculateWireArea_level_nodes (ck : AntennaChecker) (g : dbWireGraph) :
    ∀ (fuel node : Nat) (wire_level : Int) (nv level_nodes : List Nat) (res : WireArea),
      calculateWireArea ck g fuel node wire_level nv level_nodes = some res →
        level_nodes ⊆ res.level_nodes := by
  intro fuel
  induction fuel with
  | zero => intro node wire_level nv level_nodes res h; simp [calculateWireArea] at h
  | succ fuel ih =>
    intro node wire_level nv level_nodes res h
    simp only [calculateWireArea] at h
    refine foldlM_option_invariant (fun st => level_nodes ⊆ st.level_nodes) _ _ _ res h
      (fun x hx => hx) ?_
    intro st e st2 hst hstep
    exact fun x hx =>
      calculateWireArea_edge_level_nodes ck g node wire_level _ _
        (fun next nv ln res hr => ih next wire_level nv ln res hr) st st2 e hstep (hst hx)

/-! ### The walks return on well-formed graphs -/

/-- An `Option`-valued fold returns when every step from a state with the
property `P` returns a state with `P`; the result then has `P`. -/
theorem foldlM_option_progress {σ ε : Type} (P : σ → Prop) (f : σ → ε → Option σ) :
    ∀ (l : List ε) (init : σ), P init →
      (∀ st e, e ∈ l → P st → ∃ st2, f st e = some st2 ∧ P st2) →
      ∃ res, l.foldlM f init = some res ∧ P res := by
  intro l
  induction l with
  | nil => intro init hP _; exact ⟨init, rfl, hP⟩
  | cons e rest ih =>
    intro init hP hstep
    obtain ⟨st2, hf, hP2⟩ := hstep init e (List.mem_cons_self _ _) hP
    obtain ⟨res, hres, hPres⟩ :=
      ih st2 hP2 (fun st e2 he2 hst => hstep st e2 (List.mem_cons_of_mem _ he2) hst)
    refine ⟨res, ?_, hPres⟩
    simp only [List.foldlM, bind, Option.bind, hf]
    exact hres

/-- Insertion into a set adds the element. -/
theorem mem_set_insert_self (s : List Nat) (a : Nat) : a ∈ set_insert s a := by
  unfold set_insert
  split_ifs with h
  · exact h
  · simp

/-- A larger visited set leaves no more nodes unvisited. -/
theorem unvisited_mono (nodes nv nv2 : List Nat) (h : nv ⊆ nv2) :
    unvisited nodes nv2 ≤ unvisited nodes nv := by
  unfold unvisited
  induction nodes with
  | nil => simp
  | cons n rest ih =>
    simp only [List.filter_cons]
    by_cases h2 : n ∈ nv2
    · by_cases h1 : n ∈ nv
      · simpa [h1, h2] using ih
      · simp only [h1, h2, not_true_eq_false, not_false_eq_true, decide_True, decide_False,
          if_true, List.length_cons]
        simp at ih ⊢
        omega
    · have h1 : n ∉ nv := fun hn => h2 (h hn)
      simpa [h1, h2] using ih

/-- Visiting a node that was unvisited leaves fewer nodes unvisited. -/
theorem unvisited_lt (nodes nv nv2 : List Nat) (n : Nat) (hn : n ∈ nodes) (hnv : n ∉ nv)
    (h : nv ⊆ nv2) (hn2 : n ∈ nv2) : unvisited nodes nv2 < unvisited nodes nv := by
  induction nodes with
  | nil => simp at hn
  | cons m rest ih =>
    have hmono := unvisited_mono rest nv nv2 h
    unfold unvisited at ih hmono ⊢
    simp only [List.filter_cons]
    by_cases hm : m = n
    · subst hm
      simp only [hnv, hn2, not_true_eq_false, not_false_eq_true, decide_True, decide_False,
        if_true, List.length_cons]
      simp at hmono ⊢
      omega
    · have hrest : n ∈ rest := by
        rcases List.mem_cons.mp hn with h1 | h1
        · exact absurd h1.symm hm
        · exact h1
      have := ih hrest
      by_cases h2 : m ∈ nv2
      · by_cases h1 : m ∈ nv
        · simpa [h1, h2] using this
        · simp only [h1, h2, not_true_eq_false, not_false_eq_true, decide_True, decide_False,
            if_true, List.length_cons]
          simp at this ⊢
          omega
      · have h1 : m ∉ nv := fun hx => h2 (h hx)
        simpa [h1, h2] using this

/-- With more fuel than the depth of the node, `findSegmentStart` returns a
node of the graph that is not deeper. -/
theorem findSegmentStart_returns (g : dbWireGraph) (depth : Nat → Nat)
    (hin : ∀ n ∈ g.nodes, ∀ e, (g.node n).in_edge = some e → e.source ∈ g.nodes)
    (hdepth : ∀ n ∈ g.nodes, ∀ e, (g.node n).in_edge = some e → depth e.source < depth n) :
    ∀ (fuel n : Nat), n ∈ g.nodes → depth n < fuel →
      ∃ m, findSegmentStart g fuel n = some m ∧ m ∈ g.nodes ∧ depth m ≤ depth n := by
  intro fuel
  induction fuel with
  | zero => intro n _ h; omega
  | succ fuel ih =>
    intro n hn hfuel
    unfold findSegmentStart
    cases hin_edge : (g.node n).in_edge with
    | none => exact ⟨n, rfl, hn, le_refl _⟩
    | some e =>
      simp only []
      split_ifs
      · exact ⟨n, rfl, hn, le_refl _⟩
      · have hd := hdepth n hn e hin_edge
        cases hty : e.type <;> simp only []
        · obtain ⟨m, h1, h2, h3⟩ := ih e.source (hin n hn e hin_edge) (by omega)
          exact ⟨m, h1, h2, by omega⟩
        · exact ⟨n, rfl, hn, le_refl _⟩
        · exact ⟨n, rfl, hn, le_refl _⟩
        · obtain ⟨m, h1, h2, h3⟩ := ih e.source (hin n hn e hin_edge) (by omega)
          exact ⟨m, h1, h2, by omega⟩

/-- On a node whose incoming edge is a via, `findSegmentStart` returns the
node itself. -/
theorem findSegmentStart_via (g : dbWireGraph) (fuel n : Nat) (e : Edge)
    (he : (g.node n).in_edge = some e)
    (hty : e.type = EdgeType.VIA ∨ e.type = EdgeType.TECH_VIA) :
    findSegmentStart g (fuel + 1) n = some n := by
  unfold findSegmentStart
  rw [he]
  simp only []
  split_ifs
  · rfl
  · rcases hty with h | h <;> rw [h]


/-- One step of the loop of `calculateWireArea` returns, with a larger set `nv`,
when the recursive call on the far node of the edge does. -/
theorem calculateWireArea_edge_returns (ck : AntennaChecker) (g : dbWireGraph)
    (node : Nat) (wire_level : Int) (out_edges_count : Nat)
    (recurse : Nat → List Nat → List Nat → Option WireArea)
    (st : WireArea) (edge : Edge) (io : EdgeIoType)
    (hrec : ∀ level_nodes, ∃ res,
      recurse (edge_far edge io)
        st.nv level_nodes = some res ∧ st.nv ⊆ res.nv) :
    ∃ st2, calculateWireArea_edge ck g node wire_level out_edges_count recurse st (edge, io)
      = some st2 ∧ st.nv ⊆ st2.nv := by
  have hadd : ∀ (st0 : WireArea), st0.nv = st.nv →
      ∃ st2, calculateWireArea_add recurse st0
          (edge_far edge io)
        = some st2 ∧ st.nv ⊆ st2.nv := by
    intro st0 h0
    obtain ⟨res, h1, h2⟩ := hrec st0.level_nodes
    refine ⟨{ wire_area := st0.wire_area + res.wire_area
              side_wire_area := st0.side_wire_area + res.side_wire_area
              nv := res.nv
              level_nodes := res.level_nodes }, ?_, h2⟩
    unfold calculateWireArea_add
    rw [h0, h1]
    rfl
  unfold calculateWireArea_edge
  cases io <;> cases hty : edge.type <;> simp only [hty, edge_far] at hadd ⊢
  all_goals split_ifs
  all_goals first
    | exact hadd _ rfl
    | exact ⟨_, rfl, fun x hx => hx⟩

/-- The walk of `calculateWireArea` returns on every graph that is closed
under its edges and whose outgoing edges start at their node, once the fuel
exceeds twice the number of unvisited nodes (plus one on a visited node); the
set `nv` grows and holds the node. -/
theorem calculateWireArea_returns (ck : AntennaChecker) (g : dbWireGraph)
    (hin : ∀ n ∈ g.nodes, ∀ e, (g.node n).in_edge = some e → e.source ∈ g.nodes)
    (hout : ∀ n ∈ g.nodes, ∀ e ∈ (g.node n).out_edges, e.source = n ∧ e.target ∈ g.nodes) :
    ∀ (fuel n : Nat) (wire_level : Int) (nv level_nodes : List Nat), n ∈ g.nodes →
      2 * unvisited g.nodes nv + (if n ∈ nv then 1 else 0) < fuel →
      ∃ res, calculateWireArea ck g fuel n wire_level nv level_nodes = some res
        ∧ nv ⊆ res.nv ∧ n ∈ res.nv := by
  intro fuel
  induction fuel with
  | zero => intro n wire_level nv level_nodes _ h; omega
  | succ fuel ih =>
    intro n wire_level nv level_nodes hn hfuel
    simp only [calculateWireArea]
    obtain ⟨res, hres, hP⟩ := foldlM_option_progress
      (fun st : WireArea => set_insert nv n ⊆ st.nv)
      (calculateWireArea_edge ck g n wire_level (calculateWireArea_out_edges_count g n nv)
        (fun next nv level_nodes => calculateWireArea ck g fuel next wire_level nv level_nodes))
      (calculateWireArea_edge_vec g n nv)
      { wire_area := 0, side_wire_area := 0, nv := set_insert nv n, level_nodes := level_nodes }
      (fun x hx => hx) (by
        intro st ei hei hst
        obtain ⟨edge, io⟩ := ei
        -- the far node is a node of the graph, and unvisited when `n` was visited
        have hfar : (edge_far edge io)
              ∈ g.nodes
            ∧ (n ∈ nv →
              (edge_far edge io)
                ∉ nv) := by
          unfold calculateWireArea_edge_vec at hei
          simp only [List.mem_append, List.mem_map, List.mem_filter, decide_eq_true_eq,
            Prod.mk.injEq] at hei
          rcases hei with hei | ⟨e2, ⟨he2, hsrc⟩, heq, hio⟩
          · cases hie : (g.node n).in_edge with
            | none => rw [hie] at hei; simp at hei
            | some e =>
              rw [hie] at hei
              by_cases hs : e.source ∈ nv
              · simp [hs] at hei
              · simp only [hs, not_false_eq_true, if_true, List.mem_singleton,
                  Prod.mk.injEq] at hei
                obtain ⟨h1, h2⟩ := hei
                subst h1 h2
                exact ⟨hin n hn _ hie, fun _ => hs⟩
          · subst heq hio
            have := hout n hn e2 he2
            exact ⟨this.2, fun hnv => absurd (this.1 ▸ hnv) hsrc⟩
        have hnst : n ∈ st.nv := hst (mem_set_insert_self nv n)
        have hsub : nv ⊆ st.nv := fun x hx => hst (subset_set_insert nv n hx)
        have hmono := unvisited_mono g.nodes nv st.nv hsub
        obtain ⟨st2, h1, h2⟩ := calculateWireArea_edge_returns ck g n wire_level
          (calculateWireArea_out_edges_count g n nv)
          (fun next nv level_nodes => calculateWireArea ck g fuel next wire_level nv level_nodes)
          st edge io (by
            intro ln
            have hmeasure : 2 * unvisited g.nodes st.nv
                + (if (edge_far edge io) ∈ st.nv then 1 else 0) < fuel := by
              by_cases hnv : n ∈ nv
              · rw [if_pos hnv] at hfuel
                by_cases hf : (edge_far edge io) ∈ st.nv
                · have := unvisited_lt g.nodes nv st.nv _ hfar.1 (hfar.2 hnv) hsub hf
                  rw [if_pos hf]; omega
                · rw [if_neg hf]; omega
              · rw [if_neg hnv] at hfuel
                have := unvisited_lt g.nodes nv st.nv n hn hnv hsub hnst
                split_ifs <;> omega
            obtain ⟨res, hr1, hr2, _⟩ := ih _ wire_level st.nv ln hfar.1 hmeasure
            exact ⟨res, hr1, hr2⟩)
        exact ⟨st2, h1, fun x hx => h2 (hst hx)⟩)
    exact ⟨res, hres, fun x hx => hP (subset_set_insert nv n hx), hP (mem_set_insert_self nv n)⟩


/-- The part of `findWireBelowIterms` on the incoming edge returns, with a
larger set `nv`, when the calls it makes do. -/
theorem findWireBelowIterms_in_returns (g : dbWireGraph) (node : Nat) (wire_level : Int)
    (start : Nat → Option Nat) (recurse : Nat → BelowIterms → Option BelowIterms)
    (st : BelowIterms)
    (hvia : ∀ e, (g.node node).in_edge = some e →
      (e.type = EdgeType.VIA ∨ e.type = EdgeType.TECH_VIA) → e.source ∉ st.nv →
      ∃ first res, start e.source = some first ∧ recurse first st = some res ∧ st.nv ⊆ res.nv)
    (hseg : ∀ e, (g.node node).in_edge = some e →
      (e.type = EdgeType.SEGMENT ∨ e.type = EdgeType.SHORT) → e.source ∉ st.nv →
      ∃ res, recurse e.source st = some res ∧ st.nv ⊆ res.nv) :
    ∃ st2, findWireBelowIterms_in g node wire_level start recurse st = some st2
      ∧ st.nv ⊆ st2.nv := by
  unfold findWireBelowIterms_in
  cases he : (g.node node).in_edge with
  | none => exact ⟨st, rfl, fun x hx => hx⟩
  | some e =>
    simp only []
    split_ifs with h1 h2 h3
    · obtain ⟨first, res, hs, hr, hsub⟩ := hvia e he h2.1 h2.2
      exact ⟨res, by rw [hs]; exact hr, hsub⟩
    · obtain ⟨res, hr, hsub⟩ := hseg e he h3.1 h3.2
      exact ⟨res, hr, hsub⟩
    · exact ⟨st, rfl, fun x hx => hx⟩
    · exact ⟨st, rfl, fun x hx => hx⟩

/-- One step of the loop of `findWireBelowIterms` over the outgoing edges
returns, with a larger set `nv`, when the calls it makes do. -/
theorem findWireBelowIterms_out_returns (g : dbWireGraph) (wire_level : Int)
    (start : Nat → Option Nat) (recurse : Nat → BelowIterms → Option BelowIterms)
    (st : BelowIterms) (edge : Edge)
    (hvia : (edge.type = EdgeType.VIA ∨ edge.type = EdgeType.TECH_VIA) →
      edge.target ∉ st.nv →
      ∃ first res, start edge.target = some first ∧ recurse first st = some res
        ∧ st.nv ⊆ res.nv)
    (hseg : (edge.type = EdgeType.SEGMENT ∨ edge.type = EdgeType.SHORT) →
      edge.target ∉ st.nv → ∃ res, recurse edge.target st = some res ∧ st.nv ⊆ res.nv) :
    ∃ st2, findWireBelowIterms_out g wire_level start recurse st edge = some st2
      ∧ st.nv ⊆ st2.nv := by
  unfold findWireBelowIterms_out
  split_ifs with h1 h2 h3
  · obtain ⟨first, res, hs, hr, hsub⟩ := hvia h1 h2.2
    exact ⟨res, by rw [hs]; exact hr, hsub⟩
  · exact ⟨st, rfl, fun x hx => hx⟩
  · obtain ⟨res, hr, hsub⟩ := hseg h3.1 h3.2
    exact ⟨res, hr, hsub⟩
  · exact ⟨st, rfl, fun x hx => hx⟩

/-- The walk of `findWireBelowIterms` returns on a well-formed graph once the
fuel exceeds the measure: (unvisited nodes) * (D + 2), plus depth + 1 on a
visited node, where `D` bounds the depth of the nodes.  The set `nv` grows and
holds the node. -/
theorem findWireBelowIterms_returns (ck : AntennaChecker) (g : dbWireGraph)
    (depth : Nat → Nat) (D : Nat)
    (hin : ∀ n ∈ g.nodes, ∀ e, (g.node n).in_edge = some e → e.source ∈ g.nodes)
    (hout : ∀ n ∈ g.nodes, ∀ e ∈ (g.node n).out_edges,
      e.source = n ∧ e.target ∈ g.nodes ∧ (g.node e.target).in_edge = some e)
    (hdepth : ∀ n ∈ g.nodes, ∀ e, (g.node n).in_edge = some e → depth e.source < depth n)
    (hD : ∀ n ∈ g.nodes, depth n ≤ D) :
    ∀ (fuel n : Nat) (wire_level : Int) (st : BelowIterms), n ∈ g.nodes →
      unvisited g.nodes st.nv * (D + 2) + (if n ∈ st.nv then depth n + 1 else 0) < fuel →
      ∃ res, findWireBelowIterms ck g fuel n wire_level st = some res
        ∧ st.nv ⊆ res.nv ∧ n ∈ res.nv := by
  intro fuel
  induction fuel with
  | zero => intro n wire_level st _ h; omega
  | succ fuel ih =>
    intro n wire_level st hn hfuel
    -- the measure of every call made from here is below the fuel that is left
    have hcall : ∀ (nv2 : List Nat) (m : Nat), set_insert st.nv n ⊆ nv2 → m ∈ g.nodes →
        (m ∉ nv2 ∨ n ∉ st.nv ∨ depth m < depth n) →
        unvisited g.nodes nv2 * (D + 2) + (if m ∈ nv2 then depth m + 1 else 0) < fuel := by
      intro nv2 m hsub hm hcase
      have hsub0 : st.nv ⊆ nv2 := fun x hx => hsub (subset_set_insert _ _ hx)
      have hn2 : n ∈ nv2 := hsub (mem_set_insert_self _ _)
      have hmono := unvisited_mono g.nodes st.nv nv2 hsub0
      have hmul := Nat.mul_le_mul_right (D + 2) hmono
      have hmD := hD m hm
      by_cases hnv : n ∈ st.nv
      · rw [if_pos hnv] at hfuel
        rcases hcase with hc | hc | hc
        · rw [if_neg hc]; omega
        · exact absurd hnv hc
        · split_ifs <;> omega
      · rw [if_neg hnv] at hfuel
        have hlt := unvisited_lt g.nodes st.nv nv2 n hn hnv hsub0 hn2
        have hmul2 := Nat.mul_le_mul_right (D + 2) (Nat.succ_le_of_lt hlt)
        have : (unvisited g.nodes nv2 + 1) * (D + 2)
            = unvisited g.nodes nv2 * (D + 2) + (D + 2) := by ring
        rw [Nat.succ_eq_add_one, this] at hmul2
        split_ifs <;> omega
    -- an unvisited node of the graph leaves fuel for `findSegmentStart`
    have hfuel_pos : ∀ (nv2 : List Nat) (m : Nat), st.nv ⊆ nv2 → m ∈ g.nodes → m ∉ nv2 →
        D + 1 < fuel + 1 := by
      intro nv2 m hsub hm hmnv
      have hmst : m ∉ st.nv := fun h => hmnv (hsub h)
      have hpos : 0 < unvisited g.nodes st.nv := by
        have := unvisited_lt g.nodes st.nv (set_insert st.nv m) m hm hmst
          (subset_set_insert _ _) (mem_set_insert_self _ _)
        omega
      have hmul := Nat.mul_le_mul_right (D + 2) (Nat.succ_le_of_lt hpos)
      simp only [Nat.succ_eq_add_one, zero_add, one_mul] at hmul
      omega
    have key : ∀ st1 : BelowIterms, st1.nv = set_insert st.nv n →
        ∃ res,
          ((findWireBelowIterms_in g n wire_level (findSegmentStart g fuel)
              (fun next st => findWireBelowIterms ck g fuel next wire_level st) st1).bind
            fun st2 =>
              (g.node n).out_edges.foldlM
                (findWireBelowIterms_out g wire_level (findSegmentStart g fuel)
                  (fun next st => findWireBelowIterms ck g fuel next wire_level st)) st2)
            = some res
          ∧ st.nv ⊆ res.nv ∧ n ∈ res.nv := by
      intro st1 hst1
      have hsub1 : set_insert st.nv n ⊆ st1.nv := by rw [hst1]; exact fun x hx => hx
      -- the incoming edge
      obtain ⟨st2, hst2, hsub2⟩ := findWireBelowIterms_in_returns g n wire_level
        (findSegmentStart g fuel)
        (fun next st => findWireBelowIterms ck g fuel next wire_level st) st1
        (by
          intro e he _ hsrc
          have hsU := hin n hn e he
          have hd := hdepth n hn e he
          have hDn := hD n hn
          have hf := hfuel_pos st1.nv e.source
            (fun x hx => hsub1 (subset_set_insert _ _ hx)) hsU hsrc
          obtain ⟨first, hs1, hs2, hs3⟩ :=
            findSegmentStart_returns g depth hin hdepth fuel e.source hsU (by omega)
          obtain ⟨res, hr1, hr2, _⟩ := ih first wire_level st1 hs2
            (hcall st1.nv first hsub1 hs2 (Or.inr (Or.inr (by omega))))
          exact ⟨first, res, hs1, hr1, hr2⟩)
        (by
          intro e he _ hsrc
          have hsU := hin n hn e he
          obtain ⟨res, hr1, hr2, _⟩ := ih e.source wire_level st1 hsU
            (hcall st1.nv e.source hsub1 hsU (Or.inl hsrc))
          exact ⟨res, hr1, hr2⟩)
      rw [hst2]
      -- the outgoing edges
      obtain ⟨res, hres, hP⟩ := foldlM_option_progress
        (fun s : BelowIterms => set_insert st.nv n ⊆ s.nv)
        (findWireBelowIterms_out g wire_level (findSegmentStart g fuel)
          (fun next st => findWireBelowIterms ck g fuel next wire_level st))
        (g.node n).out_edges st2 (fun x hx => hsub2 (hsub1 hx)) (by
          intro s e he hs
          obtain ⟨_, htU, htin⟩ := hout n hn e he
          obtain ⟨s2, h1, h2⟩ := findWireBelowIterms_out_returns g wire_level
            (findSegmentStart g fuel)
            (fun next st => findWireBelowIterms ck g fuel next wire_level st) s e
            (by
              intro hty htgt
              have hf := hfuel_pos s.nv e.target
                (fun x hx => hs (subset_set_insert _ _ hx)) htU htgt
              obtain ⟨k, hk⟩ : ∃ k, fuel = k + 1 := ⟨fuel - 1, by omega⟩
              have hstart : findSegmentStart g fuel e.target = some e.target := by
                rw [hk]; exact findSegmentStart_via g k e.target e htin hty
              obtain ⟨res, hr1, hr2, _⟩ := ih e.target wire_level s htU
                (hcall s.nv e.target hs htU (Or.inl htgt))
              exact ⟨e.target, res, hstart, hr1, hr2⟩)
            (by
              intro _ htgt
              obtain ⟨res, hr1, hr2, _⟩ := ih e.target wire_level s htU
                (hcall s.nv e.target hs htU (Or.inl htgt))
              exact ⟨res, hr1, hr2⟩)
          exact ⟨s2, h1, fun x hx => h2 (hs hx)⟩)
      exact ⟨res, hres, fun x hx => hP (subset_set_insert _ _ hx),
        hP (mem_set_insert_self _ _)⟩
    simp only [findWireBelowIterms]
    exact key _ rfl


/-- On a well-formed graph, with enough fuel, the first loop of
`buildWireParTable` returns for wireroots that are nodes of the graph. -/
theorem buildWireParTable_loop_returns (ck : AntennaChecker) (g : dbWireGraph)
    (depth : Nat → Nat) (D : Nat)
    (hin : ∀ n ∈ g.nodes, ∀ e, (g.node n).in_edge = some e → e.source ∈ g.nodes)
    (hout : ∀ n ∈ g.nodes, ∀ e ∈ (g.node n).out_edges,
      e.source = n ∧ e.target ∈ g.nodes ∧ (g.node e.target).in_edge = some e)
    (hdepth : ∀ n ∈ g.nodes, ∀ e, (g.node n).in_edge = some e → depth e.source < depth n)
    (hD : ∀ n ∈ g.nodes, depth n ≤ D) (fuel : Nat)
    (hfuel : unvisited g.nodes [] * (D + 2) + 2 * unvisited g.nodes [] < fuel) :
    ∀ (ws : List Nat), (∀ w ∈ ws, w ∈ g.nodes) → ∀ (st : List PARinfo × List Nat),
      ∃ res, buildWireParTable_loop ck g fuel ws st = some res := by
  intro ws
  induction ws with
  | nil => intro _ st; exact ⟨st, by simp [buildWireParTable_loop]⟩
  | cons w rest ih =>
    intro hws st
    obtain ⟨T, ln⟩ := st
    have hrest : ∀ x ∈ rest, x ∈ g.nodes := fun x hx => hws x (List.mem_cons_of_mem _ hx)
    have hw : w ∈ g.nodes := hws w (List.mem_cons_self _ _)
    simp only [buildWireParTable_loop]
    split_ifs
    · exact ih hrest _
    · obtain ⟨areas, ha, _⟩ := calculateWireArea_returns ck g hin
        (fun n hn e he => ⟨(hout n hn e he).1, (hout n hn e he).2.1⟩) fuel w
        (g.node w).layer.getRoutingLevel [] ln hw (by simp only [List.not_mem_nil, if_false]; omega)
      obtain ⟨below, hb, _⟩ := findWireBelowIterms_returns ck g depth D hin hout hdepth hD fuel
        w (g.node w).layer.getRoutingLevel ⟨(0, 0), [], []⟩ hw
        (by simp only [List.not_mem_nil, if_false]; omega)
      rw [ha, hb]
      exact ih hrest _

/-- The depth of a node is at most the sum of the depths of all nodes. -/
theorem depth_le_sum (depth : Nat → Nat) (nodes : List Nat) (n : Nat) (hn : n ∈ nodes) :
    depth n ≤ (nodes.map depth).sum := by
  induction nodes with
  | nil => simp at hn
  | cons m rest ih =>
    simp only [List.map_cons, List.sum_cons]
    rcases List.mem_cons.mp hn with h | h
    · subst h; omega
    · have := ih h; omega

/-- On a well-formed graph `buildWireParTable` returns a table for wireroots
that are nodes of the graph, for every fuel from some bound on. -/
theorem buildWireParTable_returns (ck : AntennaChecker) (g : dbWireGraph)
    (hwf : g.WellFormed) (wireroots_info : List Nat)
    (hws : ∀ w ∈ wireroots_info, w ∈ g.nodes) (PARtable0 : List PARinfo) :
    ∃ fuel0, ∀ fuel, fuel0 ≤ fuel →
      ∃ PARtable, buildWireParTable ck g fuel PARtable0 wireroots_info = some PARtable := by
  obtain ⟨depth, hdepth⟩ := hwf.acyclic
  refine ⟨unvisited g.nodes [] * ((g.nodes.map depth).sum + 2) + 2 * unvisited g.nodes [] + 1,
    ?_⟩
  intro fuel hfuel
  obtain ⟨res, hres⟩ := buildWireParTable_loop_returns ck g depth (g.nodes.map depth).sum
    hwf.in_source hwf.out_edge hdepth (depth_le_sum depth g.nodes) fuel (by omega)
    wireroots_info hws (PARtable0, [])
  exact ⟨res.1.map (calculateParInfo ck g), by
    simp only [buildWireParTable, hres, Option.map_some']⟩

/-! ### The records of the table -/

/-- The call `calculateParInfo` leaves a record with gate area 0 as it is. -/
theorem calculateParInfo_zero_gate (ck : AntennaChecker) (g : dbWireGraph) (it : PARinfo)
    (h : it.iterm_areas.1 = 0) : calculateParInfo ck g it = it := by
  simp [calculateParInfo, h]

/-- The call `calculateParInfo` changes neither the wireroot nor the terminal
areas of a record. -/
theorem calculateParInfo_keeps (ck : AntennaChecker) (g : dbWireGraph) (it : PARinfo) :
    (calculateParInfo ck g it).WirerootNode = it.WirerootNode
      ∧ (calculateParInfo ck g it).iterm_areas = it.iterm_areas := by
  unfold calculateParInfo
  simp only []
  split_ifs <;> exact ⟨rfl, rfl⟩

/-- What the first loop of `buildWireParTable` appends to the table: one record
with zero ratios for every wireroot that is not in `level_nodes` at its turn,
holding the terminal areas `findWireBelowIterms` sums for it. -/
theorem buildWireParTable_loop_spec (ck : AntennaChecker) (g : dbWireGraph) (fuel : Nat) :
    ∀ (ws : List Nat) (T0 : List PARinfo) (ln0 : List Nat) (T : List PARinfo) (ln : List Nat),
      buildWireParTable_loop ck g fuel ws (T0, ln0) = some (T, ln) →
        ln0 ⊆ ln ∧ ∃ new : List PARinfo, T = T0 ++ new
          ∧ (∀ r ∈ new, r.PAR_value = 0 ∧ r.PSR_value = 0 ∧ r.diff_PAR_value = 0
              ∧ r.diff_PSR_value = 0 ∧ r.WirerootNode ∈ ws
              ∧ ∃ below, findWireBelowIterms ck g fuel r.WirerootNode
                    (g.node r.WirerootNode).layer.getRoutingLevel ⟨(0, 0), [], []⟩ = some below
                  ∧ r.iterm_areas = below.iterm_areas)
          ∧ (∀ w ∈ ws, w ∈ ln ∨ ∃ r ∈ new, r.WirerootNode = w)
          ∧ (∀ w rest, ws = w :: rest → w ∉ ln0 → ∃ r ∈ new, r.WirerootNode = w) := by
  intro ws
  induction ws with
  | nil =>
    intro T0 ln0 T ln h
    simp only [buildWireParTable_loop, Option.some.injEq, Prod.mk.injEq] at h
    obtain ⟨hT, hln⟩ := h
    subst hT hln
    exact ⟨fun x hx => hx, [], by simp, by simp, by simp, by simp⟩
  | cons w rest ih =>
    intro T0 ln0 T ln h
    simp only [buildWireParTable_loop] at h
    by_cases hw : w ∈ ln0
    · rw [if_pos hw] at h
      obtain ⟨hsub, new, hT, hrec, hall, _⟩ := ih T0 ln0 T ln h
      refine ⟨hsub, new, hT, ?_, ?_, ?_⟩
      · intro r hr
        obtain ⟨h1, h2, h3, h4, h5, h6⟩ := hrec r hr
        exact ⟨h1, h2, h3, h4, List.mem_cons_of_mem _ h5, h6⟩
      · intro x hx
        rcases List.mem_cons.mp hx with hx | hx
        · subst hx; exact Or.inl (hsub hw)
        · exact hall x hx
      · intro w2 rest2 heq hnot
        have : w2 = w := by
          have := (List.cons.inj heq).1
          exact this.symm
        subst this
        exact absurd hw hnot
    · rw [if_neg hw] at h
      cases hc : calculateWireArea ck g fuel w (g.node w).layer.getRoutingLevel [] ln0 with
      | none => rw [hc] at h; simp at h
      | some areas =>
        rw [hc] at h
        cases hb : findWireBelowIterms ck g fuel w (g.node w).layer.getRoutingLevel
            ⟨(0, 0), [], []⟩ with
        | none => rw [hb] at h; simp at h
        | some below =>
          rw [hb] at h
          simp only [] at h
          obtain ⟨hsub, new, hT, hrec, hall, _⟩ := ih _ _ T ln h
          have hln : ln0 ⊆ ln := fun x hx =>
            hsub (calculateWireArea_level_nodes ck g fuel w _ [] ln0 areas hc hx)
          refine ⟨hln,
            { WirerootNode := w, iterms := below.iv, wire_area := areas.wire_area,
              side_wire_area := areas.side_wire_area, iterm_areas := below.iterm_areas,
              PAR_value := 0, PSR_value := 0, diff_PAR_value := 0, diff_PSR_value := 0 } :: new,
            by rw [hT]; simp, ?_, ?_, ?_⟩
          · intro r hr
            rcases List.mem_cons.mp hr with hr | hr
            · subst hr
              exact ⟨rfl, rfl, rfl, rfl, List.mem_cons_self _ _, below, hb, rfl⟩
            · obtain ⟨h1, h2, h3, h4, h5, h6⟩ := hrec r hr
              exact ⟨h1, h2, h3, h4, List.mem_cons_of_mem _ h5, h6⟩
          · intro x hx
            rcases List.mem_cons.mp hx with hx | hx
            · subst hx
              exact Or.inr ⟨_, List.mem_cons_self _ _, rfl⟩
            · rcases hall x hx with h1 | ⟨r, hr, hrw⟩
              · exact Or.inl h1
              · exact Or.inr ⟨r, List.mem_cons_of_mem _ hr, hrw⟩
          · intro w2 rest2 heq _
            have : w2 = w := (List.cons.inj heq).1.symm
            subst this
            exact ⟨_, List.mem_cons_self _ _, rfl⟩

/-- The table `buildWireParTable` builds on the net of one wire from node 0 to
node 1 that reaches no terminal. -/
theorem ex_graph_wire_table :
    buildWireParTable
        (ex_checker [(ex_metal1 (some ex_rule_flat_par),
          ex_model (ex_metal1 (some ex_rule_flat_par)))])
        (ex_graph_wire (some ex_rule_flat_par)) 3 [] [0]
      = some [{ WirerootNode := 0, iterms := [], wire_area := 1 / 5, side_wire_area := 0,
                iterm_areas := (0, 0), PAR_value := 0, PSR_value := 0,
                diff_PAR_value := 0, diff_PSR_value := 0 }] := by
  simp [buildWireParTable, buildWireParTable_loop, calculateWireArea,
    calculateWireArea_edge_vec, calculateWireArea_out_edges_count, calculateWireArea_edge,
    calculateWireArea_add, findWireBelowIterms, findWireBelowIterms_in,
    findWireBelowIterms_out, checkIterm, set_insert, calculateParInfo, defDist,
    calculateWireArea_dist, int_wrap, ex_checker, ex_graph_wire, ex_segment, ex_metal1]
  norm_num

/-- The net of one wire is well-formed. -/
theorem ex_graph_wire_wellFormed (rule : Option dbTechLayerAntennaRule) :
    (ex_graph_wire rule).WellFormed := by
  refine ⟨?_, ?_, ⟨fun n => n, ?_⟩⟩
  · intro n hn e he
    simp only [ex_graph_wire, List.mem_cons, List.mem_singleton, List.not_mem_nil,
      or_false] at hn he ⊢
    rcases hn with rfl | rfl
    · simp at he
    · simp only [one_ne_zero, if_false, Option.some.injEq] at he
      subst he
      simp [ex_segment]
  · intro n hn e he
    simp only [ex_graph_wire, List.mem_cons, List.mem_singleton, List.not_mem_nil,
      or_false] at hn he ⊢
    rcases hn with rfl | rfl
    · simp only [if_true, List.mem_singleton] at he
      subst he
      simp [ex_segment]
    · simp at he
  · intro n hn e he
    simp only [ex_graph_wire, List.mem_cons, List.mem_singleton, List.not_mem_nil,
      or_false] at hn he
    rcases hn with rfl | rfl
    · simp at he
    · simp only [one_ne_zero, if_false, Option.some.injEq] at he
      subst he
      simp [ex_segment]

/-- C7, as stated, fails.  On the net of one wire from node 0 to node 1 that
reaches no terminal, node 0 is the only wireroot and `findWireBelowIterms`
sums gate area 0 for it, yet the table built by `buildWireParTable` holds a
record for it: wire area 0.2 and all four ratios 0. -/
theorem buildWireParTable_zero_gate_counterexample :
    let layer := ex_metal1 (some ex_rule_flat_par)
    let ck := ex_checker [(layer, ex_model layer)]
    let g := ex_graph_wire (some ex_rule_flat_par)
    getWireroots g 3 = some [0]
      ∧ (findWireBelowIterms ck g 3 0 1 ⟨(0, 0), [], []⟩).map (fun below => below.iterm_areas.1)
          = some 0
      ∧ buildWireParTable ck g 3 [] [0]
          = some [{ WirerootNode := 0, iterms := [], wire_area := 1 / 5, side_wire_area := 0,
                    iterm_areas := (0, 0), PAR_value := 0, PSR_value := 0,
                    diff_PAR_value := 0, diff_PSR_value := 0 }] := by
  intro layer ck g
  refine ⟨?_, ?_, ex_graph_wire_table⟩
  · simp [getWireroots, findSegmentRoot, g, ex_graph_wire, ex_segment, ex_metal1]
  · simp [findWireBelowIterms, findWireBelowIterms_in, findWireBelowIterms_out, checkIterm,
      set_insert, g, ex_graph_wire, ex_segment, ex_metal1]

/-- The first loop of `buildWireParTable` over a list of wireroots in two parts
is the loop over the first part followed by the loop over the second. -/
theorem buildWireParTable_loop_append (ck : AntennaChecker) (g : dbWireGraph) (fuel : Nat) :
    ∀ (l1 l2 : List Nat) (st : List PARinfo × List Nat),
      buildWireParTable_loop ck g fuel (l1 ++ l2) st
        = (buildWireParTable_loop ck g fuel l1 st).bind (buildWireParTable_loop ck g fuel l2) := by
  intro l1
  induction l1 with
  | nil => intro l2 st; simp [buildWireParTable_loop]
  | cons w rest ih =>
    intro l2 st
    obtain ⟨T, ln⟩ := st
    simp only [List.cons_append, buildWireParTable_loop]
    split_ifs
    · exact ih l2 _
    · cases calculateWireArea ck g fuel w (g.node w).layer.getRoutingLevel [] ln with
      | none => rfl
      | some areas =>
        cases findWireBelowIterms ck g fuel w (g.node w).layer.getRoutingLevel
            ⟨(0, 0), [], []⟩ with
        | none => rfl
        | some below => exact ih l2 _

/-- C7, amended.  A wireroot with gate area 0 keeps its record, with all four
ratios 0.  Whenever `buildWireParTable`, started on an empty table, returns the
table `PARtable`: (1) every record belongs to a wireroot of the list and holds
the terminal areas `findWireBelowIterms` sums for that wireroot, and when the
gate area is 0 its PAR, PSR, diff_PAR and diff_PSR are 0; (2) the first
wireroot of the list has a record, whatever its gate area; (3) at the turn of
a wireroot `w`, after the wireroots `pre` before it have left the table `T_pre`
and the set `level_nodes`: when `w` is not in `level_nodes`, the table has the
record of `w` at the next place, with the terminal areas `findWireBelowIterms`
sums for `w`, and with the four ratios 0 when the gate area is 0; when `w` is
in `level_nodes`, its turn changes neither the table nor the set.  And on a
well-formed graph, for wireroots that are nodes of the graph,
`buildWireParTable` does return a table, for every fuel from some bound on. -/
theorem buildWireParTable_zero_gate (ck : AntennaChecker) (g : dbWireGraph)
    (wireroots_info : List Nat) :
    (∀ (fuel : Nat) (PARtable : List PARinfo),
        buildWireParTable ck g fuel [] wireroots_info = some PARtable →
        (∀ r ∈ PARtable, r.WirerootNode ∈ wireroots_info
            ∧ ∃ below, findWireBelowIterms ck g fuel r.WirerootNode
                  (g.node r.WirerootNode).layer.getRoutingLevel ⟨(0, 0), [], []⟩ = some below
                ∧ r.iterm_areas = below.iterm_areas
                ∧ (below.iterm_areas.1 = 0 →
                    r.PAR_value = 0 ∧ r.PSR_value = 0 ∧ r.diff_PAR_value = 0
                      ∧ r.diff_PSR_value = 0))
          ∧ (∀ w rest, wireroots_info = w :: rest → ∃ r ∈ PARtable, r.WirerootNode = w)
          ∧ (∀ pre w post, wireroots_info = pre ++ w :: post →
              ∃ T_pre level_nodes,
                buildWireParTable_loop ck g fuel pre ([], []) = some (T_pre, level_nodes)
                  ∧ (w ∉ level_nodes →
                      ∃ r below, PARtable[T_pre.length]? = some r ∧ r.WirerootNode = w
                        ∧ findWireBelowIterms ck g fuel w (g.node w).layer.getRoutingLevel
                            ⟨(0, 0), [], []⟩ = some below
                        ∧ r.iterm_areas = below.iterm_areas
                        ∧ (below.iterm_areas.1 = 0 →
                            r.PAR_value = 0 ∧ r.PSR_value = 0 ∧ r.diff_PAR_value = 0
                              ∧ r.diff_PSR_value = 0))
                  ∧ (w ∈ level_nodes →
                      buildWireParTable_loop ck g fuel (pre ++ [w]) ([], [])
                        = some (T_pre, level_nodes))))
      ∧ (g.WellFormed → (∀ w ∈ wireroots_info, w ∈ g.nodes) →
          ∃ fuel0, ∀ fuel, fuel0 ≤ fuel →
            ∃ PARtable, buildWireParTable ck g fuel [] wireroots_info = some PARtable) := by
  refine ⟨?_, fun hwf hws => buildWireParTable_returns ck g hwf wireroots_info hws []⟩
  intro fuel PARtable h
  unfold buildWireParTable at h
  cases hl : buildWireParTable_loop ck g fuel wireroots_info ([], []) with
  | none => rw [hl] at h; simp at h
  | some res =>
    obtain ⟨T0, ln⟩ := res
    rw [hl] at h
    simp only [Option.map_some', Option.some.injEq] at h
    obtain ⟨_, new, hT, hrec, hall, hfirst⟩ :=
      buildWireParTable_loop_spec ck g fuel wireroots_info [] [] T0 ln hl
    simp only [List.nil_append] at hT
    subst hT
    subst h
    refine ⟨?_, ?_, ?_⟩
    · intro r hr
      obtain ⟨r0, hr0, rfl⟩ := List.mem_map.mp hr
      obtain ⟨h1, h2, h3, h4, h5, below, hb, h6⟩ := hrec r0 hr0
      obtain ⟨k1, k2⟩ := calculateParInfo_keeps ck g r0
      refine ⟨by rw [k1]; exact h5, below, by rw [k1]; exact hb, by rw [k2]; exact h6, ?_⟩
      intro hz
      rw [calculateParInfo_zero_gate ck g r0 (by rw [h6]; exact hz)]
      exact ⟨h1, h2, h3, h4⟩
    · intro w rest heq
      obtain ⟨r0, hr0, hw⟩ := hfirst w rest heq (by simp)
      exact ⟨_, List.mem_map_of_mem _ hr0, by rw [(calculateParInfo_keeps ck g r0).1]; exact hw⟩
    · intro pre w post heq
      rw [heq, buildWireParTable_loop_append] at hl
      cases hp : buildWireParTable_loop ck g fuel pre ([], []) with
      | none => rw [hp] at hl; simp at hl
      | some mid =>
        obtain ⟨T_pre, lnp⟩ := mid
        rw [hp, Option.some_bind] at hl
        refine ⟨T_pre, lnp, rfl, ?_, ?_⟩
        · intro hw
          simp only [buildWireParTable_loop] at hl
          rw [if_neg hw] at hl
          cases hc : calculateWireArea ck g fuel w (g.node w).layer.getRoutingLevel [] lnp with
          | none => rw [hc] at hl; simp at hl
          | some areas =>
            rw [hc] at hl
            cases hb : findWireBelowIterms ck g fuel w (g.node w).layer.getRoutingLevel
                ⟨(0, 0), [], []⟩ with
            | none => rw [hb] at hl; simp at hl
            | some below =>
              rw [hb] at hl
              simp only [] at hl
              obtain ⟨_, new2, hT2, _⟩ := buildWireParTable_loop_spec ck g fuel post _ _ _ _ hl
              refine ⟨calculateParInfo ck g
                (⟨w, below.iv, areas.wire_area, areas.side_wire_area, below.iterm_areas,
                  0, 0, 0, 0⟩ : PARinfo), below, ?_, (calculateParInfo_keeps ck g _).1, rfl,
                (calculateParInfo_keeps ck g _).2, ?_⟩
              · rw [hT2, List.getElem?_map, List.append_assoc,
                  List.getElem?_append_right (le_refl _)]
                simp
              · intro hz
                rw [calculateParInfo_zero_gate ck g _ hz]
                exact ⟨rfl, rfl, rfl, rfl⟩
        · intro hw
          rw [buildWireParTable_loop_append, hp, Option.some_bind]
          simp only [buildWireParTable_loop]
          rw [if_pos hw]

/-- C7, witness: on the net of one wire that reaches no terminal, a well-formed
graph, the table has a record for the wireroot 0, with gate area 0 and PAR 0,
and the table is returned for every fuel from some bound on. -/
theorem buildWireParTable_zero_gate_witness :
    let layer := ex_metal1 (some ex_rule_flat_par)
    let ck := ex_checker [(layer, ex_model layer)]
    let g := ex_graph_wire (some ex_rule_flat_par)
    (∃ PARtable, buildWireParTable ck g 3 [] [0] = some PARtable
        ∧ ∃ r ∈ PARtable, r.WirerootNode = 0 ∧ r.iterm_areas.1 = 0 ∧ r.PAR_value = 0)
      ∧ (∃ fuel0, ∀ fuel, fuel0 ≤ fuel →
          ∃ PARtable, buildWireParTable ck g fuel [] [0] = some PARtable) := by
  intro layer ck g
  have hT := ex_graph_wire_table
  obtain ⟨hA, hB⟩ := buildWireParTable_zero_gate ck g [0]
  refine ⟨⟨_, hT, ?_⟩,
    hB (ex_graph_wire_wellFormed _) (by simp [g, ex_graph_wire])⟩
  obtain ⟨_, hfirst, _⟩ := hA 3 _ hT
  obtain ⟨r, hr, hw⟩ := hfirst 0 [] rfl
  refine ⟨r, hr, hw, ?_⟩
  simp only [List.mem_singleton] at hr
  subst hr
  exact ⟨rfl, rfl⟩

/-! ## Rules without effect, suppression and the layer table defaults -/

/-- C11. No rule, no constraint.  For every record whose wireroot layer has no
default antenna rule, `checkWirePar` and `checkWireCar` both return
`(violated, checked) = (false, false)` and `checkViolation` returns false on
that layer, for all ratio values, both values of `par_checked` and of the
report flags. -/
theorem no_rule_no_constraint (g : dbWireGraph) (ar : ARinfo) (p : PARinfo)
    (par_checked report_violating_nets pr : Bool)
    (hrule : (g.node ar.WirerootNode).layer.getDefaultAntennaRule = none) :
    checkWirePar g ar report_violating_nets pr = (false, false)
      ∧ checkWireCar g ar par_checked report_violating_nets pr = (false, false)
      ∧ checkViolation p (g.node ar.WirerootNode).layer = false := by
  simp [checkWirePar, checkWireCar, checkViolation, hrule]

/-- C11, witness: on a node of `ex_metal2`, a layer without a rule, records
with ratios 1000 raise no flag. -/
theorem no_rule_no_constraint_witness :
    (ex_graph_isolated ex_metal2).node (ex_ar 1000 1000).WirerootNode
        = { x := 0, y := 0, layer := ex_metal2, object := none, in_edge := none,
            out_edges := [] }
      ∧ checkWirePar (ex_graph_isolated ex_metal2) (ex_ar 1000 1000) false true = (false, false)
      ∧ checkWireCar (ex_graph_isolated ex_metal2) (ex_ar 1000 1000) false false true
          = (false, false)
      ∧ checkViolation (calculateParInfo (ex_checker []) (ex_graph_isolated ex_metal2)
          (ex_par 1 0)) ex_metal2 = false :=
  ⟨rfl, no_rule_no_constraint (ex_graph_isolated ex_metal2) (ex_ar 1000 1000)
    (calculateParInfo (ex_checker []) (ex_graph_isolated ex_metal2) (ex_par 1 0))
    false false true rfl⟩

/-- C12. CAR/CSR suppression.  For every record on a layer with a rule for
which `checkWirePar` found a violation of the PWL PAR or the PWL PSR
threshold, `checkWirePar` returns `(true, true)`, and `checkWireCar` called
with that record and the returned `checked` flag has all four thresholds
(flat and PWL, CAR and CSR) equal to 0, sets none of its flags and returns
`(false, false)`, whatever the CAR and CSR values of the record. -/
theorem pwl_par_violation_suppresses_car (g : dbWireGraph) (ar : ARinfo)
    (rule : dbTechLayerAntennaRule) (report_violating_nets pr pr2 : Bool)
    (hrule : (g.node ar.WirerootNode).layer.getDefaultAntennaRule = some rule)
    (hviol : (checkWirePar_flags rule ar).diff_par_violation = true
      ∨ (checkWirePar_flags rule ar).diff_psr_violation = true) :
    (checkWirePar g ar report_violating_nets pr).1 = true
      ∧ (checkWirePar g ar report_violating_nets pr).2 = true
      ∧ checkWireCar_thresholds rule ar (checkWirePar g ar report_violating_nets pr).2
          = (0, 0, 0, 0)
      ∧ checkWireCar_flags rule ar (checkWirePar g ar report_violating_nets pr).2
          = ⟨false, false, false, false, false, false⟩
      ∧ checkWireCar g ar (checkWirePar g ar report_violating_nets pr).2
          report_violating_nets pr2 = (false, false) := by
  have hchk : (checkWirePar g ar report_violating_nets pr).2 = true
      ∧ (checkWirePar g ar report_violating_nets pr).1 = true := by
    rw [checkWirePar_eq g ar rule report_violating_nets pr hrule]
    rw [checkWirePar_flags_eq] at hviol ⊢
    simp only [decide_eq_true_eq] at hviol ⊢
    rcases hviol with h | h
    · exact ⟨Or.inl ⟨h.1, h.2.1⟩, Or.inr (Or.inl h)⟩
    · exact ⟨Or.inr ⟨h.1, h.2.1⟩, Or.inr (Or.inr (Or.inr h))⟩
  refine ⟨hchk.2, hchk.1, ?_, ?_, ?_⟩
  · rw [hchk.1]; simp [checkWireCar_thresholds]
  · rw [hchk.1, checkWireCar_flags_eq]; simp
  · rw [hchk.1, checkWireCar_eq g ar rule true report_violating_nets pr2 hrule,
      checkWireCar_flags_eq]
    simp

/-- C12, witness: under the rule with flat CAR threshold 1 and a one-point PAR
curve of ratio 100, a record with diffusion PAR 200 and CAR 1000 violates the
PWL PAR threshold, and `checkWireCar` then reports nothing. -/
theorem pwl_par_violation_suppresses_car_witness :
    (checkWirePar_flags ex_rule_flat_car_pwl_par
        { ex_ar 0 1000 with diff_PAR_value := 200 }).diff_par_violation = true
      ∧ checkWireCar (ex_graph_isolated (ex_metal1 (some ex_rule_flat_car_pwl_par)))
          { ex_ar 0 1000 with diff_PAR_value := 200 }
          (checkWirePar (ex_graph_isolated (ex_metal1 (some ex_rule_flat_car_pwl_par)))
            { ex_ar 0 1000 with diff_PAR_value := 200 } false true).2 false true
        = (false, false) :=
  ⟨by decide!,
    (pwl_par_violation_suppresses_car
      (ex_graph_isolated (ex_metal1 (some ex_rule_flat_car_pwl_par)))
      { ex_ar 0 1000 with diff_PAR_value := 200 } ex_rule_flat_car_pwl_par false true true rfl
      (Or.inl (by decide!))).2.2.2.2⟩

/-- C20. Layer model defaults.  For every technology layer without a default
antenna rule, the table built by `loadAntennaRules` holds the neutral model
for it: the metal, diff-metal, cut, diff-cut, side-metal and diff-side-metal
factors are 1, the minus-diff and plus-diff factors are 0 and the
diff-metal-reduce factor is 1. -/
theorem loadAntennaRules_no_rule_neutral (stod : String → Option ℚ)
    (tech_layers : List dbTechLayer) (layer_info0 layer_info : List (dbTechLayer × ANTENNAmodel))
    (layer : dbTechLayer) (hmem : layer ∈ tech_layers)
    (hload : loadAntennaRules stod tech_layers layer_info0 = some layer_info)
    (hrule : layer.getDefaultAntennaRule = none) :
    layer_info_at layer_info layer
      = { layer := some layer, metal_factor := 1, diff_metal_factor := 1, cut_factor := 1,
          diff_cut_factor := 1, side_metal_factor := 1, diff_side_metal_factor := 1,
          minus_diff_factor := 0, plus_diff_factor := 0, diff_metal_reduce_factor := 1 } := by
  have h1 := loadAntennaRules_at stod layer tech_layers layer_info0 layer_info hmem hload
  simp only [loadAntennaRules_layer, hrule, Option.some.injEq] at h1
  exact h1.symm

/-- C20, witness: loading the layers `ex_metal1` with a rule and `ex_metal2`
without one returns a table, and it holds the neutral model for `ex_metal2`. -/
theorem loadAntennaRules_no_rule_neutral_witness :
    ∃ layer_info,
      loadAntennaRules (fun _ => none) [ex_metal1 (some ex_rule_flat_par), ex_metal2] []
          = some layer_info
        ∧ layer_info_at layer_info ex_metal2 = ex_model ex_metal2 :=
  ⟨_, rfl, loadAntennaRules_no_rule_neutral (fun _ => none)
    [ex_metal1 (some ex_rule_flat_par), ex_metal2] [] _ ex_metal2 (by simp) rfl rfl⟩

/-! ## The gate-plus-diffusion property string -/

/-- The step of the scanning loop of `loadAntennaRules` at position `i`. -/
theorem gate_plus_diff_scan_range_succ (s : List Char) (n : Nat) :
    (List.range (n + 1)).foldl
        (fun (st : Nat × List Char) i =>
          if s.getD i 'x' = ' ' then (i, substr s st.1 ((i : Int) - (st.1 : Int) - 1)) else st)
        (0, [])
      = (fun (st : Nat × List Char) =>
          if s.getD n 'x' = ' ' then (n, substr s st.1 ((n : Int) - (st.1 : Int) - 1)) else st)
        ((List.range n).foldl
          (fun (st : Nat × List Char) i =>
            if s.getD i 'x' = ' ' then (i, substr s st.1 ((i : Int) - (st.1 : Int) - 1))
            else st)
          (0, [])) := by
  rw [List.range_succ, List.foldl_append]
  rfl

/-- Positions without a space leave the state of the scanning loop as it
is. -/
theorem gate_plus_diff_scan_no_space (s : List Char) (m : Nat) :
    ∀ n, m ≤ n → (∀ i, m ≤ i → i < n → s.getD i 'x' ≠ ' ') →
      (List.range n).foldl
          (fun (st : Nat × List Char) i =>
            if s.getD i 'x' = ' ' then (i, substr s st.1 ((i : Int) - (st.1 : Int) - 1))
            else st)
          (0, [])
        = (List.range m).foldl
          (fun (st : Nat × List Char) i =>
            if s.getD i 'x' = ' ' then (i, substr s st.1 ((i : Int) - (st.1 : Int) - 1))
            else st)
          (0, []) := by
  intro n hmn
  induction n, hmn using Nat.le_induction with
  | base => intro _; rfl
  | succ n hmn ih =>
    intro h
    rw [gate_plus_diff_scan_range_succ]
    simp only [if_neg (h n hmn (Nat.lt_succ_self n))]
    exact ih (fun i h1 h2 => h i h1 (Nat.lt_succ_of_lt h2))

/-- C21. Gate-plus-diffusion tokenization.  For every property string whose
last two spaces are at the positions `p < q` with `q - p ≥ 2`, the scanning
loop of `loadAntennaRules` ends with `start = q` and retains as candidate the
`q - p - 1` characters from position `p` on, that is the characters at the
positions `p .. q-2`: the candidate begins with the space at `p` and leaves
out the character at `q - 1`.  This candidate is the text `std::stod` parses
as the plus-diffusion factor of a layer with a rule. -/
theorem gate_plus_diff_scan_last_two_spaces (stod : String → Option ℚ)
    (tech_layer : dbTechLayer) (antenna_rule : dbTechLayerAntennaRule)
    (gate_plus_diff_info : String) (p q : Nat)
    (hrule : tech_layer.getDefaultAntennaRule = some antenna_rule)
    (hprop : tech_layer.LEF57_ANTENNAGATEPLUSDIFF = some gate_plus_diff_info)
    (hpq : p + 2 ≤ q) (hq : q < gate_plus_diff_info.data.length)
    (hp : gate_plus_diff_info.data.getD p 'x' = ' ')
    (hqs : gate_plus_diff_info.data.getD q 'x' = ' ')
    (hbetween : ∀ i, i < q → p < i → gate_plus_diff_info.data.getD i 'x' ≠ ' ')
    (hafter : ∀ i, i < gate_plus_diff_info.data.length → q < i →
      gate_plus_diff_info.data.getD i 'x' ≠ ' ') :
    gate_plus_diff_scan gate_plus_diff_info.data
        = (q, (gate_plus_diff_info.data.drop p).take (q - p - 1))
      ∧ (gate_plus_diff_scan gate_plus_diff_info.data).2
          = (List.range (q - p - 1)).map (fun k => gate_plus_diff_info.data.getD (p + k) 'x')
      ∧ (loadAntennaRules_layer stod tech_layer).map (fun model => model.plus_diff_factor)
          = stod (String.mk ((gate_plus_diff_info.data.drop p).take (q - p - 1))) := by
  have hscan : gate_plus_diff_scan gate_plus_diff_info.data
      = (q, (gate_plus_diff_info.data.drop p).take (q - p - 1)) := by
    unfold gate_plus_diff_scan
    rw [gate_plus_diff_scan_no_space _ (q + 1) _ (by omega)
      (fun i h1 h2 => hafter i h2 (by omega))]
    rw [gate_plus_diff_scan_range_succ]
    simp only [hqs, if_true]
    rw [gate_plus_diff_scan_no_space _ (p + 1) q (by omega)
      (fun i h1 h2 => hbetween i h2 (by omega))]
    rw [gate_plus_diff_scan_range_succ]
    simp only [hp, if_true]
    have hcount : ¬ ((q : Int) - (p : Int) - 1 < 0) := by omega
    have hnat : ((q : Int) - (p : Int) - 1).toNat = q - p - 1 := by omega
    simp only [substr, if_neg hcount, hnat]
  refine ⟨hscan, ?_, ?_⟩
  · rw [hscan]
    apply List.ext_getElem
    · simp only [List.length_take, List.length_drop, List.length_map, List.length_range]
      omega
    · intro k h1 h2
      simp only [List.length_map, List.length_range] at h2
      simp only [List.getElem_take, List.getElem_drop, List.getElem_map, List.getElem_range]
      rw [List.getD_eq_getElem _ _ (by omega)]
  · simp only [loadAntennaRules_layer, hrule, hprop, hscan, Option.map_map]
    cases stod (String.mk ((gate_plus_diff_info.data.drop p).take (q - p - 1))) <;> rfl

/-- C21, witness: in the string "X 2.5 " the last two spaces are at the
positions 1 and 5, and the retained candidate is " 2.", without the 5. -/
theorem gate_plus_diff_scan_last_two_spaces_witness :
    gate_plus_diff_scan "X 2.5 ".data = (5, " 2.".data) :=
  (gate_plus_diff_scan_last_two_spaces (fun _ => none)
    { ex_metal1 (some ex_rule_flat_par) with LEF57_ANTENNAGATEPLUSDIFF := some "X 2.5 " }
    ex_rule_flat_par "X 2.5 " 1 5 rfl rfl (by decide) (by decide) (by decide) (by decide)
    (by decide) (by decide)).1

/-! ## The diode estimate of `getNetAntennaViolations` -/

/-- The call `calculateParInfo` keeps the terminal set of a record. -/
theorem calculateParInfo_iterms (ck : AntennaChecker) (g : dbWireGraph) (it : PARinfo) :
    (calculateParInfo ck g it).iterms = it.iterms := by
  unfold calculateParInfo
  simp only []
  split_ifs <;> rfl

/-- The ratios `calculateParInfo` computes do not depend on the ratios a
record held before: computing them for the diffusion area `a` and then for the
diffusion area `b` gives what computing them for `b` gives. -/
theorem calculateParInfo_again (ck : AntennaChecker) (g : dbWireGraph) (p : PARinfo)
    (a b : ℚ) :
    calculateParInfo ck g
        { calculateParInfo ck g { p with iterm_areas := (p.iterm_areas.1, a) } with
          iterm_areas := (p.iterm_areas.1, b) }
      = calculateParInfo ck g { p with iterm_areas := (p.iterm_areas.1, b) } := by
  by_cases hg : p.iterm_areas.1 = 0
  · simp [calculateParInfo, hg]
  · by_cases ha : a = 0 <;> by_cases hb : b = 0 <;> simp [calculateParInfo, hg, ha, hb]

/-- One more diode on the record with `j` diodes gives the record with `j + 1`
diodes: the loop body of `getNetAntennaViolations` computes the spec-side
record. -/
theorem diode_record_succ (ck : AntennaChecker) (g : dbWireGraph) (d : ℚ) (par : PARinfo)
    (j : Nat) :
    getNetAntennaViolations_add ck g d (diode_record ck g d par j)
      = diode_record ck g d par (j + 1) := by
  by_cases hj : j = 0
  · subst hj
    simp [getNetAntennaViolations_add, diode_record]
  · simp only [getNetAntennaViolations_add, diode_record, if_neg hj, Nat.add_one_ne_zero,
      if_false]
    have hk := calculateParInfo_keeps ck g
      { par with
        iterm_areas :=
          (par.iterm_areas.1,
            par.iterm_areas.2 + (j : ℚ) * (d * (par.iterms.length : ℚ))) }
    have hi := calculateParInfo_iterms ck g
      { par with
        iterm_areas :=
          (par.iterm_areas.1,
            par.iterm_areas.2 + (j : ℚ) * (d * (par.iterms.length : ℚ))) }
    have hsum : par.iterm_areas.2 + (j : ℚ) * (d * (par.iterms.length : ℚ))
          + d * (par.iterms.length : ℚ)
        = par.iterm_areas.2 + ((j + 1 : ℕ) : ℚ) * (d * (par.iterms.length : ℚ)) := by
      push_cast; ring
    rw [← calculateParInfo_again ck g par
      (par.iterm_areas.2 + (j : ℚ) * (d * (par.iterms.length : ℚ)))
      (par.iterm_areas.2 + ((j + 1 : ℕ) : ℚ) * (d * (par.iterms.length : ℚ)))]
    congr 1
    simp only [hk.2, hi, hsum]

/-- What the `while` loop of `getNetAntennaViolations` computes, started on the
record with `j` diodes, the flag `v` and the counter `k`: it adds some number
`i` of diodes, at most `bound`; the flag is then the violation flag of the
record with `j + i` diodes; every record passed on the way violates; and it
stops before `bound` only when the loop condition fails. -/
theorem getNetAntennaViolations_while_spec (ck : AntennaChecker) (g : dbWireGraph)
    (layer : dbTechLayer) (d : ℚ) (par0 : PARinfo) :
    ∀ (bound j k : Nat) (v : Bool),
      ∃ i, (getNetAntennaViolations_while ck g layer d bound (diode_record ck g d par0 j) v
              k).2.2 = k + i
        ∧ i ≤ bound
        ∧ (getNetAntennaViolations_while ck g layer d bound (diode_record ck g d par0 j) v
              k).1 = diode_record ck g d par0 (j + i)
        ∧ (i = 0 → (getNetAntennaViolations_while ck g layer d bound
              (diode_record ck g d par0 j) v k).2.1 = v)
        ∧ (0 < i → (getNetAntennaViolations_while ck g layer d bound
              (diode_record ck g d par0 j) v k).2.1
            = checkViolation (diode_record ck g d par0 (j + i)) layer)
        ∧ (∀ m, 0 < m → m < i → checkViolation (diode_record ck g d par0 (j + m)) layer = true)
        ∧ (0 < i → v = true ∧ k + i ≤ 10)
        ∧ (i < bound → ¬ ((getNetAntennaViolations_while ck g layer d bound
              (diode_record ck g d par0 j) v k).2.1 = true ∧ k + i < 10)) := by
  intro bound
  induction bound with
  | zero =>
    intro j k v
    exact ⟨0, rfl, le_refl _, rfl, fun _ => rfl, fun h => absurd h (lt_irrefl _),
      fun m h1 h2 => absurd (lt_trans h1 h2) (lt_irrefl _), fun h => absurd h (lt_irrefl _),
      fun h => absurd h (lt_irrefl _)⟩
  | succ bound ih =>
    intro j k v
    by_cases hc : v = true ∧ k < 10
    · have hstep : getNetAntennaViolations_while ck g layer d (bound + 1)
            (diode_record ck g d par0 j) v k
          = getNetAntennaViolations_while ck g layer d bound (diode_record ck g d par0 (j + 1))
              (checkViolation (diode_record ck g d par0 (j + 1)) layer) (k + 1) := by
        rw [← diode_record_succ]
        simp only [getNetAntennaViolations_while, if_pos hc, getNetAntennaViolations_add]
      obtain ⟨i, h1, h2, h3, h4, h5, h6, h7, h8⟩ :=
        ih (j + 1) (k + 1) (checkViolation (diode_record ck g d par0 (j + 1)) layer)
      rw [hstep]
      have hji : j + 1 + i = j + (i + 1) := by omega
      rw [hji] at h3 h5
      refine ⟨i + 1, by rw [h1]; omega, by omega, h3, fun h => absurd h (Nat.succ_ne_zero i),
        ?_, ?_, ?_, ?_⟩
      · intro _
        rcases Nat.eq_zero_or_pos i with h0 | h0
        · subst h0; rw [h4 rfl]
        · exact h5 h0
      · intro m hm1 hm2
        rcases Nat.lt_or_ge 1 m with hm | hm
        · have := h6 (m - 1) (by omega) (by omega)
          have hjm : j + 1 + (m - 1) = j + m := by omega
          rw [hjm] at this
          exact this
        · have hm0 : m = 1 := by omega
          subst hm0
          rcases Nat.eq_zero_or_pos i with h0 | h0
          · omega
          · exact (h7 h0).1
      · intro _
        refine ⟨hc.1, ?_⟩
        rcases Nat.eq_zero_or_pos i with h0 | h0
        · subst h0; omega
        · have := (h7 h0).2; omega
      · intro hlt
        have := h8 (by omega)
        intro hcon
        exact this ⟨hcon.1, by omega⟩
    · have hstep : getNetAntennaViolations_while ck g layer d (bound + 1)
            (diode_record ck g d par0 j) v k = (diode_record ck g d par0 j, v, k) := by
        simp only [getNetAntennaViolations_while, if_neg hc]
      rw [hstep]
      exact ⟨0, rfl, Nat.zero_le _, rfl, fun _ => rfl, fun h => absurd h (lt_irrefl _),
        fun m h1 h2 => absurd (lt_trans h1 h2) (lt_irrefl _), fun h => absurd h (lt_irrefl _),
        fun _ => by simpa using hc⟩

/-- The bound 10 of the model of the `while` loop never cuts the loop short:
with any larger bound the loop computes the same. -/
theorem getNetAntennaViolations_while_bound (ck : AntennaChecker) (g : dbWireGraph)
    (layer : dbTechLayer) (d : ℚ) :
    ∀ (bound k : Nat) (par : PARinfo) (v : Bool), 10 ≤ k + bound →
      getNetAntennaViolations_while ck g layer d (bound + 1) par v k
        = getNetAntennaViolations_while ck g layer d bound par v k := by
  intro bound
  induction bound with
  | zero =>
    intro k par v hk
    have hc : ¬ (v = true ∧ k < 10) := fun h => by omega
    simp only [getNetAntennaViolations_while, if_neg hc]
  | succ bound ih =>
    intro k par v hk
    by_cases hc : v = true ∧ k < 10
    · rw [getNetAntennaViolations_while, if_pos hc]
      simp only []
      rw [ih (k + 1) _ _ (by omega)]
      conv_rhs => rw [getNetAntennaViolations_while, if_pos hc]
    · rw [getNetAntennaViolations_while, if_neg hc]
      conv_rhs => rw [getNetAntennaViolations_while, if_neg hc]

/-- The records `getNetAntennaViolations_record` appends. -/
theorem getNetAntennaViolations_record_spec (ck : AntennaChecker) (g : dbWireGraph)
    (fuel : Nat) (antenna_cell_name : String) (d : ℚ) (vs0 vs : List ViolationInfo)
    (par : PARinfo)
    (h : getNetAntennaViolations_record ck g fuel antenna_cell_name d vs0 par = some vs) :
    (checkViolation par (g.node par.WirerootNode).layer = false ∧ vs = vs0)
      ∨ (checkViolation par (g.node par.WirerootNode).layer = true
        ∧ ∃ gates,
          findWirerootIterms ck g fuel par.WirerootNode
              (g.node par.WirerootNode).layer.getRoutingLevel = some gates
            ∧ vs = vs0 ++ [⟨(g.node par.WirerootNode).layer.getRoutingLevel, gates,
                if antenna_cell_name ≠ "" then
                  (getNetAntennaViolations_while ck g (g.node par.WirerootNode).layer d 10 par
                    true 0).2.2
                else 0⟩]) := by
  unfold getNetAntennaViolations_record at h
  simp only [] at h
  by_cases hv : checkViolation par (g.node par.WirerootNode).layer = true
  · rw [if_pos hv] at h
    cases hg : findWirerootIterms ck g fuel par.WirerootNode
        (g.node par.WirerootNode).layer.getRoutingLevel with
    | none => rw [hg] at h; simp at h
    | some gates =>
      rw [hg] at h
      simp only [Option.map_some', Option.some.injEq] at h
      right
      refine ⟨hv, gates, rfl, ?_⟩
      rw [← h, hv]
  · rw [if_neg hv] at h
    left
    exact ⟨by simpa using hv, (Option.some.inj h).symm⟩

/-- C16. Diode-count bound.  For every net, candidate cell and pin, every
`ViolationInfo` that `getNetAntennaViolations` returns has a diode count
between 0 and 10: the recompute loop stops after at most 10 iterations.  The
count is 0 when no candidate cell name is given and at least 1 when one is
given. -/
theorem diode_count_bound (ck : AntennaChecker) (findMTerm : String → String → Option dbMTerm)
    (net : dbNet) (fuel : Nat) (antenna_cell_name cell_pin : String)
    (antenna_violations : List ViolationInfo)
    (h : getNetAntennaViolations ck findMTerm net fuel antenna_cell_name cell_pin
      = some antenna_violations) :
    ∀ v ∈ antenna_violations,
      v.antenna_cell_nums ≤ 10
        ∧ (antenna_cell_name = "" → v.antenna_cell_nums = 0)
        ∧ (antenna_cell_name ≠ "" → 1 ≤ v.antenna_cell_nums) := by
  unfold getNetAntennaViolations at h
  simp only [] at h
  have hnil : ∀ v ∈ ([] : List ViolationInfo),
      v.antenna_cell_nums ≤ 10
        ∧ (antenna_cell_name = "" → v.antenna_cell_nums = 0)
        ∧ (antenna_cell_name ≠ "" → 1 ≤ v.antenna_cell_nums) := by
    intro v hv; simp at hv
  cases hd : (if antenna_cell_name ≠ "" then
      (findMTerm antenna_cell_name cell_pin).map fun mterm =>
        mterm.getDiffArea.foldl (fun max_diff_area p => max max_diff_area p.1) 0
    else some 0) with
  | none => rw [hd] at h; simp at h
  | some d =>
    rw [hd] at h
    simp only [Option.some_bind] at h
    by_cases hs : net.isSpecial = true
    · rw [if_pos hs] at h
      rw [← Option.some.inj h]; exact hnil
    · rw [if_neg hs] at h
      cases hw : net.getWire with
      | none =>
        rw [hw] at h
        rw [← Option.some.inj h]; exact hnil
      | some graph =>
        rw [hw] at h
        simp only [] at h
        cases hr : getWireroots graph fuel with
        | none => rw [hr] at h; simp at h
        | some wireroots_info =>
          rw [hr] at h
          simp only [Option.some_bind] at h
          cases ht : buildWireParTable ck graph fuel [] wireroots_info with
          | none => rw [ht] at h; simp at h
          | some PARtable =>
            rw [ht] at h
            simp only [Option.some_bind] at h
            refine foldlM_option_invariant
              (fun vs : List ViolationInfo => ∀ v ∈ vs,
                v.antenna_cell_nums ≤ 10
                  ∧ (antenna_cell_name = "" → v.antenna_cell_nums = 0)
                  ∧ (antenna_cell_name ≠ "" → 1 ≤ v.antenna_cell_nums))
              _ PARtable [] antenna_violations h hnil ?_
            intro vs0 par vs hvs0 hstep
            rcases getNetAntennaViolations_record_spec ck graph fuel antenna_cell_name d vs0 vs
              par hstep with ⟨_, h1⟩ | ⟨hviol, gates, _, h1⟩
            · rw [h1]; exact hvs0
            · rw [h1]
              intro v hv
              rcases List.mem_append.mp hv with hv | hv
              · exact hvs0 v hv
              · rw [List.mem_singleton] at hv
                subst hv
                obtain ⟨i, e1, e2, _, e4, _, _, _, e8⟩ :=
                  getNetAntennaViolations_while_spec ck graph
                    (graph.node par.WirerootNode).layer d par 10 0 0 true
                have hrec : diode_record ck graph d par 0 = par := by simp [diode_record]
                rw [hrec] at e1 e4 e8
                by_cases hn : antenna_cell_name = ""
                · simp [hn]
                · have hcount : (if antenna_cell_name ≠ "" then
                      (getNetAntennaViolations_while ck graph (graph.node par.WirerootNode).layer
                        d 10 par true 0).2.2
                    else 0) = i := by
                    rw [if_pos hn, e1, Nat.zero_add]
                  simp only [hcount]
                  refine ⟨e2, fun h0 => absurd h0 hn, fun _ => ?_⟩
                  rcases Nat.eq_zero_or_pos i with h0 | h0
                  · subst h0
                    exact absurd ⟨e4 rfl, by omega⟩ (e8 (by omega))
                  · exact h0

/-- C16, witness: on the net of one wire on a gate, under the PAR curve through
(0, 1) and (10, 11), `getNetAntennaViolations` with a diode of diffusion area 2
returns one violation with diode count 2. -/
theorem diode_count_bound_witness :
    getNetAntennaViolations (ex_gate_checker [] (ex_layer_info (some ex_rule_pwl_par)))
        (fun _ _ => some ex_diode_mterm) (ex_net (ex_graph_gate (some ex_rule_pwl_par))) 10
        "ANTENNA" "DIODE"
      = some [⟨1, [0], 2⟩]
    ∧ ∀ v ∈ [(⟨1, [0], 2⟩ : ViolationInfo)],
        v.antenna_cell_nums ≤ 10
          ∧ ("ANTENNA" = "" → v.antenna_cell_nums = 0)
          ∧ ("ANTENNA" ≠ "" → 1 ≤ v.antenna_cell_nums) :=
  ⟨by decide!,
    diode_count_bound (ex_gate_checker [] (ex_layer_info (some ex_rule_pwl_par)))
      (fun _ _ => some ex_diode_mterm) (ex_net (ex_graph_gate (some ex_rule_pwl_par))) 10
      "ANTENNA" "DIODE" [⟨1, [0], 2⟩] (by decide!)⟩

/-! ## Segment roots and wireroots -/

/-- What `findSegmentRoot` returns is the segment root of the spec. -/
theorem findSegmentRoot_sound (g : dbWireGraph) (level : Int) :
    ∀ (fuel n r : Nat), findSegmentRoot g fuel n level = some r → SegmentRoot g level n r := by
  intro fuel
  induction fuel with
  | zero => intro n r h; simp [findSegmentRoot] at h
  | succ fuel ih =>
    intro n r h
    unfold findSegmentRoot at h
    cases he : (g.node n).in_edge with
    | none =>
      rw [he] at h
      simp only [Option.some.injEq] at h
      subst h
      exact SegmentRoot.no_in_edge n he
    | some e =>
      rw [he] at h
      simp only [] at h
      cases hty : e.type <;> rw [hty] at h <;> simp only [] at h
      · exact SegmentRoot.segment n e r he (Or.inl hty) (ih _ _ h)
      · split_ifs at h with hl
        · simp only [Option.some.injEq] at h; subst h
          exact SegmentRoot.via_above n e he (Or.inr hty) hl
        · cases hr : findSegmentRoot g fuel e.source level with
          | none => rw [hr] at h; simp at h
          | some r2 =>
            rw [hr] at h
            simp only [] at h
            split_ifs at h with hl2
            · simp only [Option.some.injEq] at h; subst h
              exact SegmentRoot.via_same n e r2 he (Or.inr hty) (not_lt.mp hl) (ih _ _ hr) hl2
            · simp only [Option.some.injEq] at h; subst h
              exact SegmentRoot.via_other n e r2 he (Or.inr hty) (not_lt.mp hl) (ih _ _ hr) hl2
      · split_ifs at h with hl
        · simp only [Option.some.injEq] at h; subst h
          exact SegmentRoot.via_above n e he (Or.inl hty) hl
        · cases hr : findSegmentRoot g fuel e.source level with
          | none => rw [hr] at h; simp at h
          | some r2 =>
            rw [hr] at h
            simp only [] at h
            split_ifs at h with hl2
            · simp only [Option.some.injEq] at h; subst h
              exact SegmentRoot.via_same n e r2 he (Or.inl hty) (not_lt.mp hl) (ih _ _ hr) hl2
            · simp only [Option.some.injEq] at h; subst h
              exact SegmentRoot.via_other n e r2 he (Or.inl hty) (not_lt.mp hl) (ih _ _ hr) hl2
      · exact SegmentRoot.segment n e r he (Or.inr hty) (ih _ _ h)

/-- The segment root of the spec is unique. -/
theorem SegmentRoot_unique (g : dbWireGraph) (level : Int) (n r1 r2 : Nat)
    (h1 : SegmentRoot g level n r1) (h2 : SegmentRoot g level n r2) : r1 = r2 := by
  induction h1 generalizing r2 with
  | no_in_edge n he =>
    cases h2 with
    | no_in_edge _ _ => rfl
    | via_above _ _ _ _ _ => rfl
    | via_same _ e _ he2 _ _ _ _ => rw [he] at he2; simp at he2
    | via_other _ _ _ _ _ _ _ _ => rfl
    | segment _ e _ he2 _ _ => rw [he] at he2; simp at he2
  | via_above n e he hty hl =>
    cases h2 with
    | no_in_edge _ _ => rfl
    | via_above _ _ _ _ _ => rfl
    | via_same _ e2 _ he2 _ hl2 _ _ =>
      rw [he] at he2; cases he2; exact absurd hl (not_lt.mpr hl2)
    | via_other _ _ _ _ _ _ _ _ => rfl
    | segment _ e2 _ he2 hty2 _ =>
      rw [he] at he2; cases he2
      rcases hty with h | h <;> rcases hty2 with h2 | h2 <;> rw [h] at h2 <;> cases h2
  | via_same n e r he hty hl hr hlr ih =>
    cases h2 with
    | no_in_edge _ he2 => rw [he] at he2; simp at he2
    | via_above _ e2 he2 _ hl2 =>
      rw [he] at he2; cases he2; exact absurd hl2 (not_lt.mpr hl)
    | via_same _ e2 _ he2 _ _ hr2 _ =>
      rw [he] at he2; cases he2; exact ih _ hr2
    | via_other _ e2 r3 he2 _ _ hr2 hlr2 =>
      rw [he] at he2; cases he2
      have := ih _ hr2
      subst this
      exact absurd hlr hlr2
    | segment _ e2 _ he2 hty2 _ =>
      rw [he] at he2; cases he2
      rcases hty with h | h <;> rcases hty2 with h2 | h2 <;> rw [h] at h2 <;> cases h2
  | via_other n e r he hty hl hr hlr ih =>
    cases h2 with
    | no_in_edge _ _ => rfl
    | via_above _ _ _ _ _ => rfl
    | via_same _ e2 r3 he2 _ _ hr2 hlr2 =>
      rw [he] at he2; cases he2
      have := ih _ hr2
      subst this
      exact absurd hlr2 hlr
    | via_other _ _ _ _ _ _ _ _ => rfl
    | segment _ e2 _ he2 hty2 _ =>
      rw [he] at he2; cases he2
      rcases hty with h | h <;> rcases hty2 with h2 | h2 <;> rw [h] at h2 <;> cases h2
  | segment n e r he hty hr ih =>
    cases h2 with
    | no_in_edge _ he2 => rw [he] at he2; simp at he2
    | via_above _ e2 he2 hty2 _ =>
      rw [he] at he2; cases he2
      rcases hty with h | h <;> rcases hty2 with h2 | h2 <;> rw [h] at h2 <;> cases h2
    | via_same _ e2 _ he2 hty2 _ _ _ =>
      rw [he] at he2; cases he2
      rcases hty with h | h <;> rcases hty2 with h2 | h2 <;> rw [h] at h2 <;> cases h2
    | via_other _ e2 _ he2 hty2 _ _ _ =>
      rw [he] at he2; cases he2
      rcases hty with h | h <;> rcases hty2 with h2 | h2 <;> rw [h] at h2 <;> cases h2
    | segment _ e2 _ he2 _ hr2 =>
      rw [he] at he2; cases he2; exact ih _ hr2

/-- With more fuel than the depth of the node, `findSegmentRoot` returns a node
of the graph that is not deeper. -/
theorem findSegmentRoot_returns (g : dbWireGraph) (depth : Nat → Nat) (level : Int)
    (hin : ∀ n ∈ g.nodes, ∀ e, (g.node n).in_edge = some e → e.source ∈ g.nodes)
    (hdepth : ∀ n ∈ g.nodes, ∀ e, (g.node n).in_edge = some e → depth e.source < depth n) :
    ∀ (fuel n : Nat), n ∈ g.nodes → depth n < fuel →
      ∃ r, findSegmentRoot g fuel n level = some r ∧ r ∈ g.nodes ∧ depth r ≤ depth n := by
  intro fuel
  induction fuel with
  | zero => intro n _ h; omega
  | succ fuel ih =>
    intro n hn hfuel
    unfold findSegmentRoot
    cases he : (g.node n).in_edge with
    | none => exact ⟨n, rfl, hn, le_refl _⟩
    | some e =>
      have hd := hdepth n hn e he
      obtain ⟨r, hr, hrn, hrd⟩ := ih e.source (hin n hn e he) (by omega)
      simp only []
      cases hty : e.type <;> simp only []
      · exact ⟨r, hr, hrn, by omega⟩
      · split_ifs with hl
        · exact ⟨n, rfl, hn, le_refl _⟩
        · rw [hr]
          simp only []
          split_ifs
          · exact ⟨r, rfl, hrn, by omega⟩
          · exact ⟨n, rfl, hn, le_refl _⟩
      · split_ifs with hl
        · exact ⟨n, rfl, hn, le_refl _⟩
        · rw [hr]
          simp only []
          split_ifs
          · exact ⟨r, rfl, hrn, by omega⟩
          · exact ⟨n, rfl, hn, le_refl _⟩
      · exact ⟨r, hr, hrn, by omega⟩
/-- C22. `findSegmentRoot` equals its specified recursive definition.  On a
tree-shaped wire graph, for every level and with enough fuel, `findSegmentRoot`
returns on every node `n` a node `r`, and `r` is the one node that the
recursive definition of the spec (`SegmentRoot`) gives for `n`: `n` itself
when `n` has no incoming edge or its incoming edge is a via from above the
level; behind a via from at or below the level, the root of the source when
that root is on the level and `n` otherwise; behind a SEGMENT or SHORT edge the
root of the source. -/
theorem findSegmentRoot_refines (g : dbWireGraph) (hwf : g.WellFormed) (level : Int) :
    ∃ fuel0, ∀ fuel, fuel0 ≤ fuel → ∀ n ∈ g.nodes,
      ∃ r, findSegmentRoot g fuel n level = some r ∧ SegmentRoot g level n r
        ∧ ∀ r2, SegmentRoot g level n r2 → r2 = r := by
  obtain ⟨depth, hdepth⟩ := hwf.acyclic
  refine ⟨(g.nodes.map depth).sum + 1, ?_⟩
  intro fuel hfuel n hn
  have hd := depth_le_sum depth g.nodes n hn
  obtain ⟨r, hr, _, _⟩ :=
    findSegmentRoot_returns g depth level hwf.in_source hdepth fuel n hn (by omega)
  have hs := findSegmentRoot_sound g level fuel n r hr
  exact ⟨r, hr, hs, fun r2 h2 => SegmentRoot_unique g level n r2 r h2 hs⟩

/-- C22, witness: on the net of one wire from node 0 to node 1, the root of
node 1 at level 1 is node 0, behind the segment. -/
theorem findSegmentRoot_refines_witness :
    findSegmentRoot (ex_graph_wire none) 2 1 1 = some 0
      ∧ ∃ fuel0, ∀ fuel, fuel0 ≤ fuel → ∀ n ∈ (ex_graph_wire none).nodes,
        ∃ r, findSegmentRoot (ex_graph_wire none) fuel n 1 = some r
          ∧ SegmentRoot (ex_graph_wire none) 1 n r
          ∧ ∀ r2, SegmentRoot (ex_graph_wire none) 1 n r2 → r2 = r :=
  ⟨by decide, findSegmentRoot_refines (ex_graph_wire none) (ex_graph_wire_wellFormed none) 1⟩

/-- C23, as stated, fails.  On the net of one wire from node 0 to node 1, where
node 1 is on an instance terminal, `ifSegmentRoot` answers true for node 1
while `findSegmentRoot` returns node 0 for it. -/
theorem ifSegmentRoot_iterm_counterexample :
    ifSegmentRoot (ex_graph_sink none) 10 1 1 = some true
      ∧ findSegmentRoot (ex_graph_sink none) 10 1 1 = some 0 := by
  decide

/-- With more fuel than the depth of the node `n`: on a terminal node
`ifSegmentRoot` answers true; on a node that is not on a terminal or has no
incoming edge it answers true if and only if `findSegmentRoot` returns `n`. -/
theorem ifSegmentRoot_iff_of_depth (g : dbWireGraph) (depth : Nat → Nat) (level : Int)
    (hin : ∀ n ∈ g.nodes, ∀ e, (g.node n).in_edge = some e → e.source ∈ g.nodes)
    (hdepth : ∀ n ∈ g.nodes, ∀ e, (g.node n).in_edge = some e → depth e.source < depth n)
    (fuel n : Nat) (hn : n ∈ g.nodes) (hfuel : depth n < fuel) :
    (((g.node n).object.map fun o => o.getObjectType) = some dbObjectType.dbITermObj →
        ifSegmentRoot g fuel n level = some true)
      ∧ ((((g.node n).object.map fun o => o.getObjectType) ≠ some dbObjectType.dbITermObj
            ∨ (g.node n).in_edge = none) →
          ∃ b r, ifSegmentRoot g fuel n level = some b
            ∧ findSegmentRoot g fuel n level = some r ∧ (b = true ↔ r = n)) := by
  constructor
  · intro hobj
    unfold ifSegmentRoot
    cases he : (g.node n).in_edge with
    | none => rfl
    | some e => simp only [hobj, if_true]
  · intro hobj
    obtain ⟨fuel, rfl⟩ : ∃ f, fuel = f + 1 := ⟨fuel - 1, by omega⟩
    cases he : (g.node n).in_edge with
    | none =>
      refine ⟨true, n, ?_, ?_, by simp⟩
      · unfold ifSegmentRoot; rw [he]
      · unfold findSegmentRoot; rw [he]
    | some e =>
      have hnot : ¬ (((g.node n).object.map fun o => o.getObjectType)
          = some dbObjectType.dbITermObj) := by
        rcases hobj with h | h
        · exact h
        · rw [he] at h; simp at h
      have hd := hdepth n hn e he
      have hsrc := hin n hn e he
      obtain ⟨r1, hr1, _, hrd1⟩ :=
        findSegmentRoot_returns g depth level hin hdepth (fuel + 1) e.source hsrc (by omega)
      obtain ⟨r2, hr2, _, hrd2⟩ :=
        findSegmentRoot_returns g depth level hin hdepth fuel e.source hsrc (by omega)
      have heq : r1 = r2 := SegmentRoot_unique g level e.source r1 r2
        (findSegmentRoot_sound g level _ _ _ hr1) (findSegmentRoot_sound g level _ _ _ hr2)
      subst heq
      have hne : r1 ≠ n := by
        intro h; rw [h] at hrd1; omega
      have hF_seg : e.type = EdgeType.SEGMENT ∨ e.type = EdgeType.SHORT →
          findSegmentRoot g (fuel + 1) n level = some r1 := by
        intro h
        rw [findSegmentRoot]
        rcases h with h | h <;> simp only [he, h, hr2]
      have hF_via : e.type = EdgeType.VIA ∨ e.type = EdgeType.TECH_VIA →
          findSegmentRoot g (fuel + 1) n level
            = if (g.node e.source).layer.getRoutingLevel > level then some n
              else if (g.node r1).layer.getRoutingLevel = level then some r1 else some n := by
        intro h
        rw [findSegmentRoot]
        rcases h with h | h <;> simp only [he, h, hr2]
      have hI_seg : e.type = EdgeType.SEGMENT ∨ e.type = EdgeType.SHORT →
          ifSegmentRoot g (fuel + 1) n level = some false := by
        intro h
        unfold ifSegmentRoot
        rcases h with h | h <;> simp only [he, h, if_neg hnot]
      have hI_via : e.type = EdgeType.VIA ∨ e.type = EdgeType.TECH_VIA →
          ifSegmentRoot g (fuel + 1) n level
            = if (g.node e.source).layer.getRoutingLevel ≤ level then
                some (if (g.node r1).layer.getRoutingLevel = level then false else true)
              else some true := by
        intro h
        unfold ifSegmentRoot
        rcases h with h | h <;> simp only [he, h, if_neg hnot, hr1, Option.map_some']
      have hcases : (e.type = EdgeType.SEGMENT ∨ e.type = EdgeType.SHORT)
          ∨ (e.type = EdgeType.VIA ∨ e.type = EdgeType.TECH_VIA) := by
        cases e.type <;> simp
      rcases hcases with h | h
      · exact ⟨false, r1, hI_seg h, hF_seg h, by simp [hne]⟩
      · rw [hI_via h, hF_via h]
        by_cases hl : (g.node e.source).layer.getRoutingLevel ≤ level
        · rw [if_pos hl, if_neg (not_lt.mpr hl)]
          by_cases hl2 : (g.node r1).layer.getRoutingLevel = level
          · rw [if_pos hl2, if_pos hl2]
            exact ⟨false, r1, rfl, rfl, by simp [hne]⟩
          · rw [if_neg hl2, if_neg hl2]
            exact ⟨true, n, rfl, rfl, by simp⟩
        · rw [if_neg hl, if_pos (not_le.mp hl)]
          exact ⟨true, n, rfl, rfl, by simp⟩

/-- C23, amended.  On a tree-shaped wire graph, for every level, with enough
fuel and for every node `n` that is not on an instance terminal or has no
incoming edge: `ifSegmentRoot` answers, `findSegmentRoot` returns, and the
answer is true if and only if the node returned is `n` itself.  On a node that
is on an instance terminal `ifSegmentRoot` always answers true. -/
theorem ifSegmentRoot_iff_findSegmentRoot (g : dbWireGraph) (hwf : g.WellFormed)
    (level : Int) :
    ∃ fuel0, ∀ fuel, fuel0 ≤ fuel → ∀ n ∈ g.nodes,
      (((g.node n).object.map fun o => o.getObjectType) = some dbObjectType.dbITermObj →
          ifSegmentRoot g fuel n level = some true)
        ∧ ((((g.node n).object.map fun o => o.getObjectType) ≠ some dbObjectType.dbITermObj
              ∨ (g.node n).in_edge = none) →
            ∃ b r, ifSegmentRoot g fuel n level = some b
              ∧ findSegmentRoot g fuel n level = some r ∧ (b = true ↔ r = n)) := by
  obtain ⟨depth, hdepth⟩ := hwf.acyclic
  refine ⟨(g.nodes.map depth).sum + 1, ?_⟩
  intro fuel hfuel n hn
  have hd := depth_le_sum depth g.nodes n hn
  exact ifSegmentRoot_iff_of_depth g depth level hwf.in_source hdepth fuel n hn (by omega)

/-- C23, witness: on the net of one wire from node 0 to node 1 without
terminals, `ifSegmentRoot` answers true for node 0, which is its own root, and
false for node 1, whose root is node 0. -/
theorem ifSegmentRoot_iff_findSegmentRoot_witness :
    ifSegmentRoot (ex_graph_wire none) 2 0 1 = some true
      ∧ ifSegmentRoot (ex_graph_wire none) 2 1 1 = some false
      ∧ ∃ fuel0, ∀ fuel, fuel0 ≤ fuel → ∀ n ∈ (ex_graph_wire none).nodes,
        ((((ex_graph_wire none).node n).object.map fun o => o.getObjectType)
              = some dbObjectType.dbITermObj →
            ifSegmentRoot (ex_graph_wire none) fuel n 1 = some true)
          ∧ (((((ex_graph_wire none).node n).object.map fun o => o.getObjectType)
                ≠ some dbObjectType.dbITermObj
                ∨ ((ex_graph_wire none).node n).in_edge = none) →
              ∃ b r, ifSegmentRoot (ex_graph_wire none) fuel n 1 = some b
                ∧ findSegmentRoot (ex_graph_wire none) fuel n 1 = some r
                ∧ (b = true ↔ r = n)) :=
  ⟨by decide, by decide,
    ifSegmentRoot_iff_findSegmentRoot (ex_graph_wire none) (ex_graph_wire_wellFormed none) 1⟩

/-- Inserting the elements of a list one after the other into the empty set
leaves the list without its repetitions, every element at its first
occurrence. -/
theorem foldl_set_insert_eq_dedup (rs : List Nat) :
    rs.foldl set_insert [] = (rs.reverse.dedup).reverse := by
  induction rs using List.reverseRecOn with
  | nil => rfl
  | append_singleton rs a ih =>
    rw [List.foldl_append, List.foldl_cons, List.foldl_nil, ih, List.reverse_append,
      List.reverse_singleton, List.singleton_append]
    unfold set_insert
    by_cases ha : a ∈ rs
    · have h1 : a ∈ (rs.reverse.dedup).reverse := by simp [ha]
      have h2 : a ∈ rs.reverse := by simp [ha]
      rw [if_pos h1, List.dedup_cons_of_mem h2]
    · have h1 : a ∉ (rs.reverse.dedup).reverse := by simp [ha]
      have h2 : a ∉ rs.reverse := by simp [ha]
      rw [if_neg h1, List.dedup_cons_of_not_mem h2, List.reverse_cons]

/-- Two lists related element by element: every element of one has a partner
in the other. -/
theorem forall₂_mem {α β : Type} (R : α → β → Prop) (l1 : List α) (l2 : List β)
    (h : List.Forall₂ R l1 l2) :
    (∀ a ∈ l1, ∃ b ∈ l2, R a b) ∧ (∀ b ∈ l2, ∃ a ∈ l1, R a b) := by
  induction h with
  | nil => exact ⟨fun a ha => by simp at ha, fun b hb => by simp at hb⟩
  | cons hab _ ih =>
    refine ⟨fun a ha => ?_, fun b hb => ?_⟩
    · rcases List.mem_cons.mp ha with h | h
      · subst h; exact ⟨_, List.mem_cons_self _ _, hab⟩
      · obtain ⟨b, hb, hr⟩ := ih.1 a h
        exact ⟨b, List.mem_cons_of_mem _ hb, hr⟩
    · rcases List.mem_cons.mp hb with h | h
      · subst h; exact ⟨_, List.mem_cons_self _ _, hab⟩
      · obtain ⟨a, ha, hr⟩ := ih.2 b h
        exact ⟨a, List.mem_cons_of_mem _ ha, hr⟩

/-- The loop of `getWireroots` inserts, node after node, the segment root of
the node at the level of the node. -/
theorem getWireroots_loop (g : dbWireGraph) (fuel : Nat) :
    ∀ (nodes acc roots : List Nat),
      nodes.foldlM
          (fun (wireroots_info : List Nat) (node : Nat) =>
            (findSegmentRoot g fuel node (g.node node).layer.getRoutingLevel).map
              fun wireroot =>
                if wireroot ∈ wireroots_info then wireroots_info
                else wireroots_info ++ [wireroot])
          acc = some roots →
        ∃ rs, List.Forall₂
            (fun n r => findSegmentRoot g fuel n (g.node n).layer.getRoutingLevel = some r)
            nodes rs
          ∧ roots = rs.foldl set_insert acc := by
  intro nodes
  induction nodes with
  | nil =>
    intro acc roots h
    simp only [List.foldlM, pure, Option.some.injEq] at h
    exact ⟨[], List.Forall₂.nil, h.symm⟩
  | cons n rest ih =>
    intro acc roots h
    simp only [List.foldlM, bind, Option.bind] at h
    cases hr : findSegmentRoot g fuel n (g.node n).layer.getRoutingLevel with
    | none => rw [hr] at h; simp at h
    | some r =>
      rw [hr] at h
      simp only [Option.map_some'] at h
      obtain ⟨rs, h1, h2⟩ := ih _ roots h
      exact ⟨r :: rs, List.Forall₂.cons hr h1, by rw [h2]; rfl⟩

/-- C24. Wireroot deduplication.  For every wire graph, the list returned by
`getWireroots`, which is also the list `wireroots_info` of `getAntennaRatio`,
contains no node twice; every element is `findSegmentRoot(n, level(n))` for
some graph node `n`; the root of every graph node occurs in it; and it lists
the roots of the nodes, taken in the order of the node iteration, each at its
first occurrence.  On a tree-shaped graph `getWireroots` returns for all large
enough fuel. -/
theorem getWireroots_dedup (ck : AntennaChecker) (g : dbWireGraph) :
    (∀ fuel roots, getWireroots g fuel = some roots →
      roots.Nodup
        ∧ (∀ r ∈ roots, ∃ n ∈ g.nodes,
            findSegmentRoot g fuel n (g.node n).layer.getRoutingLevel = some r)
        ∧ (∀ n ∈ g.nodes, ∃ r ∈ roots,
            findSegmentRoot g fuel n (g.node n).layer.getRoutingLevel = some r)
        ∧ (∃ rs, List.Forall₂
              (fun n r => findSegmentRoot g fuel n (g.node n).layer.getRoutingLevel = some r)
              g.nodes rs
            ∧ roots = (rs.reverse.dedup).reverse)
        ∧ (∀ tables, getAntennaRatio_tables ck g fuel = some tables →
            tables.wireroots_info = roots))
      ∧ (g.WellFormed →
          ∃ fuel0, ∀ fuel, fuel0 ≤ fuel → ∃ roots, getWireroots g fuel = some roots) := by
  constructor
  · intro fuel roots h
    obtain ⟨rs, hrs, hroots⟩ := getWireroots_loop g fuel g.nodes [] roots h
    rw [foldl_set_insert_eq_dedup] at hroots
    have hmem := forall₂_mem _ _ _ hrs
    have hiff : ∀ r, r ∈ roots ↔ r ∈ rs := by
      intro r; rw [hroots]; simp
    refine ⟨?_, ?_, ?_, ⟨rs, hrs, hroots⟩, ?_⟩
    · rw [hroots]; exact List.nodup_reverse.mpr (List.nodup_dedup _)
    · intro r hr
      exact hmem.2 r ((hiff r).mp hr)
    · intro n hn
      obtain ⟨r, hr, hR⟩ := hmem.1 n hn
      exact ⟨r, (hiff r).mpr hr, hR⟩
    · intro tables ht
      unfold getAntennaRatio_tables at ht
      rw [h] at ht
      simp only [Option.some_bind] at ht
      cases h1 : buildWireParTable ck g fuel [] roots with
      | none => rw [h1] at ht; simp at ht
      | some PARtable =>
        rw [h1] at ht
        simp only [Option.some_bind] at ht
        cases h2 : buildViaParTable ck g fuel [] roots with
        | none => rw [h2] at ht; simp at ht
        | some VIA_PARtable =>
          rw [h2] at ht
          simp only [Option.some_bind] at ht
          cases h3 : buildWireCarTable g fuel [] PARtable VIA_PARtable
              (getAntennaRatio_gate_iterms ck g) with
          | none => rw [h3] at ht; simp at ht
          | some CARtable =>
            rw [h3] at ht
            simp only [Option.some_bind] at ht
            cases h4 : buildViaCarTable g fuel [] PARtable VIA_PARtable
                (getAntennaRatio_gate_iterms ck g) with
            | none => rw [h4] at ht; simp at ht
            | some VIA_CARtable =>
              rw [h4] at ht
              simp only [Option.map_some', Option.some.injEq] at ht
              rw [← ht]
  · intro hwf
    obtain ⟨depth, hdepth⟩ := hwf.acyclic
    refine ⟨(g.nodes.map depth).sum + 1, ?_⟩
    intro fuel hfuel
    obtain ⟨res, hres, _⟩ := foldlM_option_progress (fun _ : List Nat => True)
      (fun (wireroots_info : List Nat) (node : Nat) =>
        (findSegmentRoot g fuel node (g.node node).layer.getRoutingLevel).map fun wireroot =>
          if wireroot ∈ wireroots_info then wireroots_info else wireroots_info ++ [wireroot])
      g.nodes [] trivial (by
        intro st n hn _
        have hd := depth_le_sum depth g.nodes n hn
        obtain ⟨r, hr, _, _⟩ := findSegmentRoot_returns g depth
          (g.node n).layer.getRoutingLevel hwf.in_source hdepth fuel n hn (by omega)
        exact ⟨if r ∈ st then st else st ++ [r], by simp only [hr, Option.map_some'],
          trivial⟩)
    exact ⟨res, hres⟩

/-- C24, witness: on the net of one wire from node 0 to node 1, both nodes have
the root 0, and `getWireroots` returns the list with node 0 alone. -/
theorem getWireroots_dedup_witness :
    getWireroots (ex_graph_wire none) 2 = some [0]
      ∧ [0].Nodup
      ∧ ∃ fuel0, ∀ fuel, fuel0 ≤ fuel → ∃ roots, getWireroots (ex_graph_wire none) fuel
          = some roots :=
  ⟨by decide,
    ((getWireroots_dedup (ex_checker []) (ex_graph_wire none)).1 2 [0] (by decide)).1,
    (getWireroots_dedup (ex_checker []) (ex_graph_wire none)).2 (ex_graph_wire_wellFormed none)⟩

/-! ## Termination of the wire-area walk -/

/-- C30. Termination by visited set.  On every finite wire graph, cycles
allowed (the graph only has to hold the ends of its edges, and an outgoing
edge has to start at its node), for every start node, level, initial visited
set and initial `level_nodes`, `calculateWireArea` returns once the fuel
exceeds twice the number of nodes plus one: every call records its node in the
visited set, which it only enlarges, and a call on a visited node makes no
further call. -/
theorem calculateWireArea_terminates (ck : AntennaChecker) (g : dbWireGraph)
    (hin : ∀ n ∈ g.nodes, ∀ e, (g.node n).in_edge = some e → e.source ∈ g.nodes)
    (hout : ∀ n ∈ g.nodes, ∀ e ∈ (g.node n).out_edges, e.source = n ∧ e.target ∈ g.nodes)
    (fuel n : Nat) (wire_level : Int) (nv level_nodes : List Nat) (hn : n ∈ g.nodes)
    (hfuel : 2 * g.nodes.length + 1 < fuel) :
    ∃ res, calculateWireArea ck g fuel n wire_level nv level_nodes = some res
      ∧ nv ⊆ res.nv ∧ n ∈ res.nv := by
  have hle : unvisited g.nodes nv ≤ g.nodes.length := List.length_filter_le _ _
  have hif : (if n ∈ nv then 1 else 0) ≤ 1 := by split_ifs <;> omega
  exact calculateWireArea_returns ck g hin hout fuel n wire_level nv level_nodes hn (by omega)

/-- The graph with a cycle holds the ends of its edges, and its outgoing edges
start at their node. -/
theorem ex_graph_cycle_closed :
    (∀ n ∈ ex_graph_cycle.nodes, ∀ e, (ex_graph_cycle.node n).in_edge = some e →
        e.source ∈ ex_graph_cycle.nodes)
      ∧ (∀ n ∈ ex_graph_cycle.nodes, ∀ e ∈ (ex_graph_cycle.node n).out_edges,
        e.source = n ∧ e.target ∈ ex_graph_cycle.nodes) := by
  constructor
  · intro n hn e he
    simp only [ex_graph_cycle, List.mem_cons, List.mem_singleton, List.not_mem_nil,
      or_false] at hn he ⊢
    rcases hn with rfl | rfl
    · simp only [if_true, Option.some.injEq] at he
      subst he; simp [ex_segment_back]
    · simp only [one_ne_zero, if_false, Option.some.injEq] at he
      subst he; simp [ex_segment]
  · intro n hn e he
    simp only [ex_graph_cycle, List.mem_cons, List.mem_singleton, List.not_mem_nil,
      or_false] at hn he ⊢
    rcases hn with rfl | rfl
    · simp only [if_true, List.mem_singleton] at he
      subst he; simp [ex_segment]
    · simp only [one_ne_zero, if_false, List.mem_singleton] at he
      subst he; simp [ex_segment_back]

/-- C30, witness: on the graph with the cycle 0 → 1 → 0, started at node 0 with
empty sets, `calculateWireArea` returns; both nodes are visited then. -/
theorem calculateWireArea_terminates_witness :
    (calculateWireArea (ex_checker []) ex_graph_cycle 6 0 1 [] []).map (fun res => res.nv)
        = some [0, 1]
      ∧ ∃ res, calculateWireArea (ex_checker []) ex_graph_cycle 6 0 1 [] [] = some res
        ∧ [] ⊆ res.nv ∧ 0 ∈ res.nv :=
  ⟨by decide!,
    calculateWireArea_terminates (ex_checker []) ex_graph_cycle ex_graph_cycle_closed.1
      ex_graph_cycle_closed.2 6 0 1 [] [] (by decide) (by decide)⟩

/-! ## The cumulative tables -/

/-- What one step of the loop of `buildWireCarTable` over `car_wireroots` adds
to the sum `car`: the PAR value of the root, and the VIA-PAR value of the root
when the layer of the record's wireroot is flagged "plus cut" and the root is
on a lower level. -/
theorem buildWireCarTable_root_car (g : dbWireGraph) (PARtable VIA_PARtable : List PARinfo)
    (wireroot : Nat) (sums : CarSums) (car_root : Nat) :
    (buildWireCarTable_root g PARtable VIA_PARtable wireroot sums car_root).car
      = sums.car + (par_of PARtable car_root
          + if plus_cut (g.node wireroot).layer = true
              ∧ (g.node car_root).layer.getRoutingLevel
                < (g.node wireroot).layer.getRoutingLevel
            then par_of VIA_PARtable car_root else 0) := by
  unfold buildWireCarTable_root plus_cut par_of
  cases hp : PARtable.find? (fun par_itr => par_itr.WirerootNode = car_root) <;>
    cases hv : VIA_PARtable.find? (fun via_par_itr => via_par_itr.WirerootNode = car_root) <;>
    cases hr : (g.node wireroot).layer.getDefaultAntennaRule <;>
    simp only []
  all_goals split_ifs
  all_goals simp_all
  all_goals ring

/-- The sum `car` after the loop of `buildWireCarTable` over `car_wireroots`. -/
theorem buildWireCarTable_root_fold_car (g : dbWireGraph)
    (PARtable VIA_PARtable : List PARinfo) (wireroot : Nat) :
    ∀ (roots : List Nat) (sums : CarSums),
      (roots.foldl (buildWireCarTable_root g PARtable VIA_PARtable wireroot) sums).car
        = sums.car + (roots.map fun car_root =>
            par_of PARtable car_root
              + if plus_cut (g.node wireroot).layer = true
                  ∧ (g.node car_root).layer.getRoutingLevel
                    < (g.node wireroot).layer.getRoutingLevel
                then par_of VIA_PARtable car_root else 0).sum := by
  intro roots
  induction roots with
  | nil => intro sums; simp
  | cons r rest ih =>
    intro sums
    rw [List.foldl_cons, ih, buildWireCarTable_root_car, List.map_cons, List.sum_cons]
    ring
/-- The record `buildWireCarTable` pushes for a pair of gate and PAR-table
entry between which `findCarPath` finds a path: its CAR value is the sum, over
the segment roots on the path found, of the PAR value of the root, plus the
VIA-PAR value of the root when the layer of the record's wireroot is flagged
"plus cut" and the root is on a lower level. -/
theorem buildWireCarTable_record_car (g : dbWireGraph) (fuel : Nat)
    (PARtable VIA_PARtable : List PARinfo) (gate : Nat) (ar_itr : PARinfo) (path : CarPath)
    (roots : List Nat)
    (hpath : findCarPath g fuel ar_itr.WirerootNode
      (g.node ar_itr.WirerootNode).layer.getRoutingLevel gate ⟨[], []⟩ = some path)
    (hne : path.path_found ≠ [])
    (hroots : car_wireroots g fuel path.path_found = some roots) :
    ∃ new_car, buildWireCarTable_record g fuel PARtable VIA_PARtable gate ar_itr
        = some (some new_car)
      ∧ new_car.WirerootNode = ar_itr.WirerootNode ∧ new_car.GateNode = gate
      ∧ new_car.CAR_value
          = (roots.map fun car_root =>
              par_of PARtable car_root
                + if plus_cut (g.node ar_itr.WirerootNode).layer = true
                    ∧ (g.node car_root).layer.getRoutingLevel
                      < (g.node ar_itr.WirerootNode).layer.getRoutingLevel
                  then par_of VIA_PARtable car_root else 0).sum := by
  unfold buildWireCarTable_record
  simp only [hpath, Option.some_bind, if_pos hne, hroots, Option.map_some']
  refine ⟨_, rfl, rfl, rfl, ?_⟩
  simp only [buildWireCarTable_root_fold_car, zero_add]

/-- The tables of the two-level net with a gate on node 0 alone and without
any rule. -/
theorem ex_two_level_tables (m2 cut : dbTechLayer) (hm2 : m2 = ex_metal2 ∨ m2 = ex_metal2_rule
    (some ex_rule_plus_cut)) (hcut : cut = ex_via1 none ∨ cut = ex_via1 (some ex_rule_plus_cut)) :
    (getAntennaRatio_tables
        (ex_gate_checker [] (ex_loaded [ex_metal1 none, m2, cut]))
        (ex_net_two_level (ex_metal1 none) m2 cut [0]) 10).map
      (fun tables => (tables.wireroots_info, tables.gate_iterms, tables.PARtable,
        tables.VIA_PARtable))
      = some ([0, 2], [0], ex_two_level_PARtable, ex_two_level_VIA_PARtable) := by
  rcases hm2 with rfl | rfl <;> rcases hcut with rfl | rfl <;> decide!

/-- C14, as stated, fails.  On the two-level net with a gate on node 0, the via
from A = node 0's run up to B = node 2 has its cut on a layer whose rule is
flagged "cumulative routing plus cut", and the VIA-PAR table holds 0.2 for it;
the routing layer of B has no rule.  The record of B and the gate in the wire
CAR table has CAR_value 10.3 = PAR(A) + PAR(B): the VIA-PAR value is not
added, because the flag is read from the layer of the record's wireroot. -/
theorem buildWireCarTable_plus_cut_counterexample :
    (getAntennaRatio_tables
        (ex_gate_checker [] (ex_loaded [ex_metal1 none, ex_metal2,
          ex_via1 (some ex_rule_plus_cut)]))
        (ex_net_two_level (ex_metal1 none) ex_metal2 (ex_via1 (some ex_rule_plus_cut)) [0])
        10).map
      (fun tables =>
        (tables.PARtable.map (fun par => (par.WirerootNode, par.PAR_value)),
          tables.VIA_PARtable.map (fun par => (par.WirerootNode, par.PAR_value)),
          (tables.CARtable.filter fun ar => ar.WirerootNode = 2).map
            (fun ar => (ar.GateNode, ar.CAR_value))))
      = some ([(0, 41 / 10), (2, 31 / 5)], [(0, 1 / 5)], [(0, 103 / 10)])
    ∧ (viaLayerOf (ex_net_two_level (ex_metal1 none) ex_metal2
          (ex_via1 (some ex_rule_plus_cut)) [0]) 10 0).map plus_cut = some true := by
  constructor <;> decide!

/-- C14, amended.  Cumulative ratio with the plus-cut flag.  When the rule of
the layer of the record's wireroot (a routing layer, not the cut layer of the
via) is flagged "cumulative routing plus cut" and `findCarPath` finds a path
from that wireroot to a gate, the CAR_value of the record is the sum, over the
segment roots on the path found, of the PAR-table value of the root plus, for
a root on a lower level than the wireroot, the VIA-PAR-table value of that
root.  For B on level 2 above A on level 1, both on the path, this is
PAR(A) + PAR(B) + VIA_PAR(A), the VIA-PAR record of A being the one of the via
from A up to B. -/
theorem buildWireCarTable_car_plus_cut (g : dbWireGraph) (fuel : Nat)
    (PARtable VIA_PARtable : List PARinfo) (gate : Nat) (ar_itr : PARinfo) (path : CarPath)
    (roots : List Nat)
    (hpath : findCarPath g fuel ar_itr.WirerootNode
      (g.node ar_itr.WirerootNode).layer.getRoutingLevel gate ⟨[], []⟩ = some path)
    (hne : path.path_found ≠ [])
    (hroots : car_wireroots g fuel path.path_found = some roots)
    (hflag : plus_cut (g.node ar_itr.WirerootNode).layer = true) :
    ∃ new_car, buildWireCarTable_record g fuel PARtable VIA_PARtable gate ar_itr
        = some (some new_car)
      ∧ new_car.WirerootNode = ar_itr.WirerootNode ∧ new_car.GateNode = gate
      ∧ new_car.CAR_value
          = (roots.map fun car_root =>
              par_of PARtable car_root
                + if (g.node car_root).layer.getRoutingLevel
                    < (g.node ar_itr.WirerootNode).layer.getRoutingLevel
                  then par_of VIA_PARtable car_root else 0).sum := by
  obtain ⟨new_car, h1, h2, h3, h4⟩ :=
    buildWireCarTable_record_car g fuel PARtable VIA_PARtable gate ar_itr path roots hpath hne
      hroots
  refine ⟨new_car, h1, h2, h3, ?_⟩
  rw [h4]
  simp [hflag]

/-- C14, witness: on the two-level net with a gate on node 0 whose level-2
layer is flagged "plus cut", the record of B = node 2 and the gate has
CAR_value = (PAR(B) + 0) + (PAR(A) + VIA_PAR(A)) = 6.2 + 4.1 + 0.2. -/
theorem buildWireCarTable_car_plus_cut_witness :
    (∃ new_car,
      buildWireCarTable_record
          (ex_net_two_level (ex_metal1 none) (ex_metal2_rule (some ex_rule_plus_cut))
            (ex_via1 none) [0])
          10 ex_two_level_PARtable ex_two_level_VIA_PARtable 0 ex_two_level_par_B
        = some (some new_car)
      ∧ new_car.WirerootNode = ex_two_level_par_B.WirerootNode ∧ new_car.GateNode = 0
      ∧ new_car.CAR_value
          = ([2, 0].map fun car_root =>
              par_of ex_two_level_PARtable car_root
                + if ((ex_net_two_level (ex_metal1 none)
                        (ex_metal2_rule (some ex_rule_plus_cut)) (ex_via1 none) [0]).node
                      car_root).layer.getRoutingLevel
                    < ((ex_net_two_level (ex_metal1 none)
                        (ex_metal2_rule (some ex_rule_plus_cut)) (ex_via1 none) [0]).node
                      ex_two_level_par_B.WirerootNode).layer.getRoutingLevel
                  then par_of ex_two_level_VIA_PARtable car_root else 0).sum)
    ∧ (buildWireCarTable_record
          (ex_net_two_level (ex_metal1 none) (ex_metal2_rule (some ex_rule_plus_cut))
            (ex_via1 none) [0])
          10 ex_two_level_PARtable ex_two_level_VIA_PARtable 0 ex_two_level_par_B).map
        (fun record => record.map fun new_car => new_car.CAR_value)
      = some (some (31 / 5 + 41 / 10 + 1 / 5)) :=
  ⟨buildWireCarTable_car_plus_cut
      (ex_net_two_level (ex_metal1 none) (ex_metal2_rule (some ex_rule_plus_cut))
        (ex_via1 none) [0]) 10
      ex_two_level_PARtable ex_two_level_VIA_PARtable 0 ex_two_level_par_B ⟨[], [2, 0]⟩ [2, 0]
      (by decide!) (by decide) (by decide!) (by decide!),
    by decide!⟩

/-- C18, as stated, fails.  On the two-level net with a gate on node 0 whose
terminal has the diffusion area 0.1, the cut layer of the via has the area
factor 2 for diffusion use only: its cut factor is 1 and its diff-cut factor
is 2.  For wireroot 0 the via area is 0.01 and the gate area 0.05, and the
VIA-PAR record holds PAR = 0.4 = diff-cut-factor * via_area / gate_area, not
cut-factor * via_area / gate_area = 0.2. -/
theorem buildViaParTable_cut_factor_counterexample :
    (buildViaParTable
        (ex_gate_checker [(1 / 10, none)]
          (ex_loaded [ex_metal1 none, ex_metal2, ex_via1 (some ex_rule_diff_use_only)]))
        (ex_net_two_level (ex_metal1 none) ex_metal2 (ex_via1 (some ex_rule_diff_use_only)) [0])
        10 [] [0, 2]).map
      (fun table => table.map fun par => (par.WirerootNode, par.PAR_value))
      = some [(0, 2 / 5)]
    ∧ calculateViaArea
        (ex_gate_checker [(1 / 10, none)]
          (ex_loaded [ex_metal1 none, ex_metal2, ex_via1 (some ex_rule_diff_use_only)]))
        (ex_net_two_level (ex_metal1 none) ex_metal2 (ex_via1 (some ex_rule_diff_use_only)) [0])
        10 0 1 = some (1 / 100)
    ∧ (findWireBelowIterms
        (ex_gate_checker [(1 / 10, none)]
          (ex_loaded [ex_metal1 none, ex_metal2, ex_via1 (some ex_rule_diff_use_only)]))
        (ex_net_two_level (ex_metal1 none) ex_metal2 (ex_via1 (some ex_rule_diff_use_only)) [0])
        10 0 1 ⟨(0, 0), [], []⟩).map (fun below => below.iterm_areas)
      = some (1 / 20, 1 / 10)
    ∧ (viaLayerOf
        (ex_net_two_level (ex_metal1 none) ex_metal2 (ex_via1 (some ex_rule_diff_use_only)) [0])
        10 0).map
      (fun layer =>
        ((layer_info_at (ex_loaded [ex_metal1 none, ex_metal2,
            ex_via1 (some ex_rule_diff_use_only)]) layer).cut_factor,
          (layer_info_at (ex_loaded [ex_metal1 none, ex_metal2,
            ex_via1 (some ex_rule_diff_use_only)]) layer).diff_cut_factor))
      = some (1, 2) := by
  refine ⟨?_, ?_, ?_, ?_⟩ <;> decide!

/-- C18, amended.  VIA-PAR emission.  For every wireroot for which
`calculateViaArea(wireroot, level(wireroot))` returns `via_area` and
`findWireBelowIterms` returns the terminal areas: `buildViaParTable` emits no
record for it when the via area or the gate area is 0; when both are nonzero
it emits one record (provided the via lookup `findVia` yields a cut layer),
whose PAR is diff-cut-factor * via_area / gate_area when the diffusion area of
the wireroot is nonzero and cut-factor * via_area / gate_area when it is 0, the
factors being those of the antenna model of that cut layer. -/
theorem buildViaParTable_record_emits (ck : AntennaChecker) (g : dbWireGraph) (fuel : Nat)
    (wireroot : Nat) (via_area : ℚ) (below : BelowIterms)
    (hvia : calculateViaArea ck g fuel wireroot (g.node wireroot).layer.getRoutingLevel
      = some via_area)
    (hbelow : findWireBelowIterms ck g fuel wireroot (g.node wireroot).layer.getRoutingLevel
      ⟨(0, 0), [], []⟩ = some below) :
    ((via_area = 0 ∨ below.iterm_areas.1 = 0) →
        buildViaParTable_record ck g fuel wireroot = some none
          ∧ ∀ VIA_PARtable, buildViaParTable ck g fuel VIA_PARtable [wireroot]
              = some VIA_PARtable)
      ∧ ((via_area ≠ 0 ∧ below.iterm_areas.1 ≠ 0) → ∀ layer,
          viaLayerOf g fuel wireroot = some layer →
          ∃ new_par, buildViaParTable_record ck g fuel wireroot = some (some new_par)
            ∧ (∀ VIA_PARtable, buildViaParTable ck g fuel VIA_PARtable [wireroot]
                = some (VIA_PARtable ++ [new_par]))
            ∧ new_par.WirerootNode = wireroot
            ∧ new_par.PAR_value
                = (if below.iterm_areas.2 ≠ 0 then
                      (layer_info_at ck.layer_info layer).diff_cut_factor
                    else (layer_info_at ck.layer_info layer).cut_factor)
                  * via_area / below.iterm_areas.1) := by
  constructor
  · intro h0
    have hc : ¬ (via_area ≠ 0 ∧ below.iterm_areas.1 ≠ 0) := by
      rcases h0 with h | h
      · exact fun hc => hc.1 h
      · exact fun hc => hc.2 h
    have hrec : buildViaParTable_record ck g fuel wireroot = some none := by
      unfold buildViaParTable_record
      simp only [hvia, hbelow, Option.some_bind, if_neg hc]
    refine ⟨hrec, fun T => ?_⟩
    simp only [buildViaParTable, List.foldlM, hrec, Option.map_some', bind, Option.bind, pure]
  · intro hc layer hlayer
    have hrec : buildViaParTable_record ck g fuel wireroot
        = some (some
            { WirerootNode := wireroot
              iterms := below.iv
              wire_area := 0
              side_wire_area := 0
              iterm_areas := (0, 0)
              PAR_value :=
                if below.iterm_areas.2 ≠ 0 then
                  ((layer_info_at ck.layer_info layer).diff_cut_factor * via_area)
                    / below.iterm_areas.1
                else ((layer_info_at ck.layer_info layer).cut_factor * via_area)
                  / below.iterm_areas.1
              PSR_value := 0
              diff_PAR_value :=
                if below.iterm_areas.2 ≠ 0 then
                  ((layer_info_at ck.layer_info layer).diff_cut_factor * via_area
                      * (match layer.getDefaultAntennaRule with
                        | some antenna_rule =>
                          getPwlFactor antenna_rule.getAreaDiffReduce below.iterm_areas.2 1
                        | none => (layer_info_at ck.layer_info layer).diff_metal_reduce_factor)
                      - (layer_info_at ck.layer_info layer).minus_diff_factor
                        * below.iterm_areas.2)
                    / (below.iterm_areas.1
                      + (layer_info_at ck.layer_info layer).plus_diff_factor
                        * below.iterm_areas.2)
                else
                  ((layer_info_at ck.layer_info layer).cut_factor * via_area
                      * (match layer.getDefaultAntennaRule with
                        | some antenna_rule =>
                          getPwlFactor antenna_rule.getAreaDiffReduce below.iterm_areas.2 1
                        | none => (layer_info_at ck.layer_info layer).diff_metal_reduce_factor)
                      - (layer_info_at ck.layer_info layer).minus_diff_factor
                        * below.iterm_areas.2)
                    / (below.iterm_areas.1
                      + (layer_info_at ck.layer_info layer).plus_diff_factor
                        * below.iterm_areas.2)
              diff_PSR_value := 0 }) := by
      unfold buildViaParTable_record
      simp only [hvia, hbelow, Option.some_bind, if_pos hc, hlayer, Option.map_some']
      try rfl
    refine ⟨_, hrec, fun T => ?_, rfl, ?_⟩
    · simp only [buildViaParTable, List.foldlM, hrec, Option.map_some', bind, Option.bind,
        pure]
    · simp only []
      split_ifs <;> rfl

/-- C18, witness: on the two-level net with a gate on node 0 and the diffusion
area 0.1, wireroot 0 has via area 0.01 and gate area 0.05, and its VIA-PAR
record holds PAR = 2 * 0.01 / 0.05. -/
theorem buildViaParTable_record_emits_witness :
    (buildViaParTable_record
        (ex_gate_checker [(1 / 10, none)]
          (ex_loaded [ex_metal1 none, ex_metal2, ex_via1 (some ex_rule_diff_use_only)]))
        (ex_net_two_level (ex_metal1 none) ex_metal2 (ex_via1 (some ex_rule_diff_use_only)) [0])
        10 0).map (fun record => record.map fun new_par => new_par.PAR_value)
      = some (some (2 * (1 / 100) / (1 / 20)))
    ∧ ∃ new_par,
      buildViaParTable_record
          (ex_gate_checker [(1 / 10, none)]
            (ex_loaded [ex_metal1 none, ex_metal2, ex_via1 (some ex_rule_diff_use_only)]))
          (ex_net_two_level (ex_metal1 none) ex_metal2 (ex_via1 (some ex_rule_diff_use_only))
            [0])
          10 0 = some (some new_par)
        ∧ new_par.WirerootNode = 0 :=
  ⟨by decide!, by
    obtain ⟨new_par, h1, _, h3, _⟩ :=
      (buildViaParTable_record_emits
        (ex_gate_checker [(1 / 10, none)]
          (ex_loaded [ex_metal1 none, ex_metal2, ex_via1 (some ex_rule_diff_use_only)]))
        (ex_net_two_level (ex_metal1 none) ex_metal2 (ex_via1 (some ex_rule_diff_use_only)) [0])
        10 0 (1 / 100) ⟨(1 / 20, 1 / 10), [0], [0, 1]⟩ (by decide!) (by decide!)).2
        ⟨by decide!, by decide!⟩ (ex_via1 (some ex_rule_diff_use_only)) (by decide!)
    exact ⟨new_par, h1, h3⟩⟩

/-- A property that holds of the start state of an `Option`-valued fold and
is kept by every step on an element of the list holds of the result. -/
theorem foldlM_option_invariant_mem {σ ε : Type} (P : σ → Prop) (f : σ → ε → Option σ) :
    ∀ (l : List ε) (init res : σ), l.foldlM f init = some res → P init →
      (∀ st e st2, e ∈ l → P st → f st e = some st2 → P st2) → P res := by
  intro l
  induction l with
  | nil =>
    intro init res h hP _
    simp only [List.foldlM, pure, Option.some.injEq] at h
    rw [← h]; exact hP
  | cons e rest ih =>
    intro init res h hP hstep
    simp only [List.foldlM, bind, Option.bind] at h
    cases hf : f init e with
    | none => rw [hf] at h; simp at h
    | some st2 =>
      rw [hf] at h
      exact ih st2 res h (hstep init e st2 (List.mem_cons_self _ _) hP hf)
        (fun st e2 st3 he2 => hstep st e2 st3 (List.mem_cons_of_mem _ he2))

/-- The double loop of the cumulative table builders, over the gates and over
a table of PAR records: a property of the records pushed holds of the whole
table built. -/
theorem car_table_loop (step : Nat → PARinfo → Option (Option ARinfo)) (Q : ARinfo → Prop)
    (table : List PARinfo)
    (hstep : ∀ gate p new_car, p ∈ table → step gate p = some (some new_car) → Q new_car)
    (gates : List Nat) (table0 result : List ARinfo)
    (h : gates.foldlM
        (fun (CARtable : List ARinfo) (gate : Nat) =>
          table.foldlM
            (fun (CARtable : List ARinfo) (ar_itr : PARinfo) =>
              (step gate ar_itr).map (push_record CARtable))
            CARtable)
        table0 = some result)
    (h0 : ∀ r ∈ table0, Q r) : ∀ r ∈ result, Q r := by
  refine foldlM_option_invariant (fun C : List ARinfo => ∀ r ∈ C, Q r) _ gates table0 result h
    h0 ?_
  intro C gate C2 hC hinner
  refine foldlM_option_invariant_mem (fun C : List ARinfo => ∀ r ∈ C, Q r) _ table C C2 hinner
    hC ?_
  intro C3 p C4 hp hC3 hpush
  cases hs : step gate p with
  | none => rw [hs] at hpush; simp at hpush
  | some record =>
    rw [hs] at hpush
    simp only [Option.map_some', Option.some.injEq] at hpush
    subst hpush
    cases record with
    | none => exact hC3
    | some new_car =>
      intro r hr
      simp only [push_record, List.mem_append, List.mem_singleton] at hr
      rcases hr with hr | hr
      · exact hC3 r hr
      · subst hr; exact hstep gate p _ hp hs

/-- Every record of the table built by `buildViaParTable` holds the terminal
areas `{0.0, 0.0}`. -/
theorem buildViaParTable_areas_zero (ck : AntennaChecker) (g : dbWireGraph) (fuel : Nat)
    (wireroots_info : List Nat) (VIA_PARtable0 VIA_PARtable : List PARinfo)
    (h : buildViaParTable ck g fuel VIA_PARtable0 wireroots_info = some VIA_PARtable)
    (h0 : ∀ p ∈ VIA_PARtable0, p.iterm_areas = (0, 0)) :
    ∀ p ∈ VIA_PARtable, p.iterm_areas = (0, 0) := by
  refine foldlM_option_invariant (fun T : List PARinfo => ∀ p ∈ T, p.iterm_areas = (0, 0)) _
    wireroots_info VIA_PARtable0 VIA_PARtable h h0 ?_
  intro T w T2 hT hstep
  cases hrec : buildViaParTable_record ck g fuel w with
  | none => simp only [hrec, Option.map_none'] at hstep; simp at hstep
  | some record =>
    simp only [hrec, Option.map_some', Option.some.injEq] at hstep
    subst hstep
    cases record with
    | none => exact hT
    | some new_par =>
      intro p hp
      simp only [List.mem_append, List.mem_singleton] at hp
      rcases hp with hp | hp
      · exact hT p hp
      · subst hp
        unfold buildViaParTable_record at hrec
        cases h1 : calculateViaArea ck g fuel w (g.node w).layer.getRoutingLevel with
        | none => rw [h1] at hrec; simp at hrec
        | some via_area =>
          rw [h1] at hrec
          simp only [Option.some_bind] at hrec
          cases h2 : findWireBelowIterms ck g fuel w (g.node w).layer.getRoutingLevel
              ⟨(0, 0), [], []⟩ with
          | none => rw [h2] at hrec; simp at hrec
          | some below =>
            rw [h2] at hrec
            simp only [Option.some_bind] at hrec
            by_cases hc : via_area ≠ 0 ∧ below.iterm_areas.1 ≠ 0
            · rw [if_pos hc] at hrec
              cases h3 : viaLayerOf g fuel w with
              | none => rw [h3] at hrec; simp at hrec
              | some layer =>
                rw [h3] at hrec
                simp only [Option.map_some', Option.some.injEq] at hrec
                rw [← hrec]
            · rw [if_neg hc] at hrec
              simp at hrec

/-- The record `buildViaCarTable` pushes for an entry of the VIA-PAR table
carries the diffusion area stored in that entry. -/
theorem buildViaCarTable_record_diff_area (g : dbWireGraph) (fuel : Nat)
    (PARtable VIA_PARtable : List PARinfo) (gate : Nat) (ar_itr : PARinfo) (new_car : ARinfo)
    (h : buildViaCarTable_record g fuel PARtable VIA_PARtable gate ar_itr
      = some (some new_car)) :
    new_car.WirerootNode = ar_itr.WirerootNode ∧ new_car.diff_area = ar_itr.iterm_areas.2 := by
  unfold buildViaCarTable_record at h
  simp only [] at h
  cases h1 : findCarPath g fuel ar_itr.WirerootNode
      (g.node ar_itr.WirerootNode).layer.getRoutingLevel gate ⟨[], []⟩ with
  | none => rw [h1] at h; simp at h
  | some path =>
    rw [h1] at h
    simp only [Option.some_bind] at h
    by_cases hne : path.path_found ≠ []
    · rw [if_pos hne] at h
      cases h2 : car_wireroots g fuel path.path_found with
      | none => rw [h2] at h; simp at h
      | some roots =>
        rw [h2] at h
        simp only [Option.some_bind] at h
        cases h3 : roots.foldlM
            (buildViaCarTable_root g fuel PARtable VIA_PARtable ar_itr.WirerootNode)
            ⟨0, 0, 0, 0⟩ with
        | none => rw [h3] at h; simp at h
        | some sums =>
          rw [h3] at h
          simp only [Option.map_some', Option.some.injEq] at h
          rw [← h]
          exact ⟨rfl, rfl⟩
    · rw [if_neg hne] at h
      simp at h

/-- The record `buildWireCarTable` pushes for an entry of the PAR table carries
the diffusion area stored in that entry. -/
theorem buildWireCarTable_record_diff_area (g : dbWireGraph) (fuel : Nat)
    (PARtable VIA_PARtable : List PARinfo) (gate : Nat) (ar_itr : PARinfo) (new_car : ARinfo)
    (h : buildWireCarTable_record g fuel PARtable VIA_PARtable gate ar_itr
      = some (some new_car)) :
    new_car.WirerootNode = ar_itr.WirerootNode ∧ new_car.diff_area = ar_itr.iterm_areas.2 := by
  unfold buildWireCarTable_record at h
  simp only [] at h
  cases h1 : findCarPath g fuel ar_itr.WirerootNode
      (g.node ar_itr.WirerootNode).layer.getRoutingLevel gate ⟨[], []⟩ with
  | none => rw [h1] at h; simp at h
  | some path =>
    rw [h1] at h
    simp only [Option.some_bind] at h
    by_cases hne : path.path_found ≠ []
    · rw [if_pos hne] at h
      cases h2 : car_wireroots g fuel path.path_found with
      | none => rw [h2] at h; simp at h
      | some roots =>
        rw [h2] at h
        simp only [Option.map_some', Option.some.injEq] at h
        rw [← h]
        exact ⟨rfl, rfl⟩
    · rw [if_neg hne] at h
      simp at h

/-- C19, the divergence of the code.  In the via CAR table built by
`buildViaCarTable` from the table of `buildViaParTable`, every record has
`diff_area` 0, whatever diffusion area `findWireBelowIterms` sums for its
wireroot: `buildViaParTable` stores the terminal areas `{0.0, 0.0}` in its
records and `buildViaCarTable` copies `iterm_areas[1]` from them.  In the wire
CAR table every record carries the diffusion area of the PAR-table entry of
its wireroot. -/
theorem buildViaCarTable_diff_area_zero (ck : AntennaChecker) (g : dbWireGraph) (fuel : Nat)
    (wireroots_info gate_iterms : List Nat) (PARtable VIA_PARtable : List PARinfo)
    (CARtable VIA_CARtable : List ARinfo)
    (hvia : buildViaParTable ck g fuel [] wireroots_info = some VIA_PARtable)
    (hwire_car : buildWireCarTable g fuel [] PARtable VIA_PARtable gate_iterms
      = some CARtable)
    (hvia_car : buildViaCarTable g fuel [] PARtable VIA_PARtable gate_iterms
      = some VIA_CARtable) :
    (∀ via_ar ∈ VIA_CARtable, via_ar.diff_area = 0)
      ∧ (∀ ar ∈ CARtable, ∃ par ∈ PARtable,
          ar.WirerootNode = par.WirerootNode ∧ ar.diff_area = par.iterm_areas.2) := by
  have hzero := buildViaParTable_areas_zero ck g fuel wireroots_info [] VIA_PARtable hvia
    (fun p hp => by simp at hp)
  constructor
  · refine car_table_loop (buildViaCarTable_record g fuel PARtable VIA_PARtable)
      (fun r => r.diff_area = 0) VIA_PARtable ?_ gate_iterms [] VIA_CARtable hvia_car
      (fun r hr => by simp at hr)
    intro gate p new_car hp hrec
    have h1 := (buildViaCarTable_record_diff_area g fuel PARtable VIA_PARtable gate p
      new_car hrec).2
    rw [h1, hzero p hp]
  · refine car_table_loop (buildWireCarTable_record g fuel PARtable VIA_PARtable)
      (fun r => ∃ par ∈ PARtable,
        r.WirerootNode = par.WirerootNode ∧ r.diff_area = par.iterm_areas.2)
      PARtable ?_ gate_iterms [] CARtable hwire_car (fun r hr => by simp at hr)
    intro gate p new_car hp hrec
    exact ⟨p, hp, buildWireCarTable_record_diff_area g fuel PARtable VIA_PARtable gate p
      new_car hrec⟩

/-- C19, failing input: on the two-level net with a gate on node 0 whose
terminal has the diffusion area 0.1, `findWireBelowIterms` sums the diffusion
area 0.1 for wireroot 0, and the record of wireroot 0 in the via CAR table has
`diff_area` 0; the records of the wire CAR table have `diff_area` 0.1. -/
theorem buildViaCarTable_diff_area_zero_witness :
    (findWireBelowIterms ex_diff_checker ex_diff_net 10 0 1 ⟨(0, 0), [], []⟩).map
        (fun below => below.iterm_areas.2) = some (1 / 10)
    ∧ (getAntennaRatio_tables ex_diff_checker ex_diff_net 10).map
      (fun tables =>
        (tables.VIA_CARtable.map (fun ar => (ar.WirerootNode, ar.GateNode, ar.diff_area)),
          tables.CARtable.map (fun ar => (ar.WirerootNode, ar.GateNode, ar.diff_area))))
      = some ([(0, 0, 0)], [(0, 0, 1 / 10), (2, 0, 1 / 10)])
    ∧ ex_diff_VIA_CARtable ≠ []
    ∧ ∀ via_ar ∈ ex_diff_VIA_CARtable, via_ar.diff_area = 0 :=
  ⟨by decide!, by decide!, by decide!,
    (buildViaCarTable_diff_area_zero ex_diff_checker ex_diff_net 10 [0, 2] [0]
      ex_diff_PARtable ex_diff_VIA_PARtable ex_diff_CARtable ex_diff_VIA_CARtable
      (by decide!) (by decide!) (by decide!)).1⟩

/-! ## The counts of `getAntennaRatio` -/

/-- The loop of `getAntennaRatio` over the wire CAR table, for one gate: the
flag `if_violated_wire` is set when a record of the gate is violating. -/
theorem getAntennaRatio_wire_fold (g : dbWireGraph) (report_violating_nets : Bool)
    (gate : Nat) :
    ∀ (table : List ARinfo) (st : NetViolations),
      (table.foldl (getAntennaRatio_wire g report_violating_nets gate) st).if_violated_wire
          = (st.if_violated_wire
            || table.any fun ar =>
              decide (ar.GateNode = gate) && wire_record_violates g report_violating_nets ar)
        ∧ (table.foldl (getAntennaRatio_wire g report_violating_nets gate) st).if_violated_VIA
          = st.if_violated_VIA := by
  intro table
  induction table with
  | nil => intro st; simp
  | cons ar rest ih =>
    intro st
    rw [List.foldl_cons, (ih _).1, (ih _).2, List.any_cons]
    unfold getAntennaRatio_wire wire_record_violates
    by_cases hg : ar.GateNode = gate
    · simp only [hg, if_true, decide_True, Bool.true_and]
      split_ifs with hv
      · simp [hv]
      · constructor
        · have hv2 : ((checkWirePar g ar report_violating_nets true).1
              || (checkWireCar g ar (checkWirePar g ar report_violating_nets true).2
                report_violating_nets true).1) = false := by simpa using hv
          rw [hv2, Bool.false_or]
        · rfl
    · simp [hg]

/-- The loop of `getAntennaRatio` over the via CAR table, for one gate: the
flag `if_violated_VIA` is set when a record of the gate is violating. -/
theorem getAntennaRatio_via_fold (g : dbWireGraph) (fuel : Nat) (report_violating_nets : Bool)
    (gate : Nat) :
    ∀ (table : List ARinfo) (st res : NetViolations),
      table.foldlM (getAntennaRatio_via g fuel report_violating_nets gate) st = some res →
        res.if_violated_VIA
            = (st.if_violated_VIA
              || table.any fun via_ar =>
                decide (via_ar.GateNode = gate)
                  && via_record_violates g fuel report_violating_nets via_ar)
          ∧ res.if_violated_wire = st.if_violated_wire := by
  intro table
  induction table with
  | nil =>
    intro st res h
    simp only [List.foldlM, pure, Option.some.injEq] at h
    subst h; simp
  | cons via_ar rest ih =>
    intro st res h
    simp only [List.foldlM, bind, Option.bind] at h
    cases hs : getAntennaRatio_via g fuel report_violating_nets gate st via_ar with
    | none => rw [hs] at h; simp at h
    | some st2 =>
      rw [hs] at h
      obtain ⟨h1, h2⟩ := ih st2 res h
      rw [h1, h2, List.any_cons]
      unfold getAntennaRatio_via at hs
      by_cases hg : via_ar.GateNode = gate
      · rw [if_pos hg] at hs
        cases ha : checkViaPar g fuel via_ar report_violating_nets true with
        | none => rw [ha] at hs; simp at hs
        | some a =>
          cases hb : checkViaCar g fuel via_ar report_violating_nets true with
          | none => rw [ha, hb] at hs; simp at hs
          | some b =>
            rw [ha, hb] at hs
            simp only [Option.some_bind, Option.map_some', Option.some.injEq] at hs
            subst hs
            cases a <;> cases b <;> simp [via_record_violates, ha, hb, hg]
      · rw [if_neg hg] at hs
        simp only [Option.some.injEq] at hs
        subst hs
        simp [hg]

/-- The loop of `getAntennaRatio` over the gates of one net: afterwards one of
the two flags is set if and only if one was set before or a gate has a
violating wire or via cumulative record. -/
theorem getAntennaRatio_gate_fold (g : dbWireGraph) (fuel : Nat) (report_violating_nets : Bool)
    (tables : NetTables) :
    ∀ (gates : List Nat) (st res : NetViolations),
      gates.foldlM (getAntennaRatio_gate g fuel report_violating_nets tables) st = some res →
        (res.if_violated_wire || res.if_violated_VIA)
          = ((st.if_violated_wire || st.if_violated_VIA)
            || gates.any fun gate =>
              (tables.CARtable.any fun ar =>
                decide (ar.GateNode = gate) && wire_record_violates g report_violating_nets ar)
              || (tables.VIA_CARtable.any fun via_ar =>
                decide (via_ar.GateNode = gate)
                  && via_record_violates g fuel report_violating_nets via_ar)) := by
  intro gates
  induction gates with
  | nil =>
    intro st res h
    simp only [List.foldlM, pure, Option.some.injEq] at h
    subst h; simp
  | cons gate rest ih =>
    intro st res h
    simp only [List.foldlM, bind, Option.bind] at h
    cases hs : getAntennaRatio_gate g fuel report_violating_nets tables st gate with
    | none => rw [hs] at h; simp at h
    | some st2 =>
      rw [hs] at h
      rw [ih st2 res h, List.any_cons]
      unfold getAntennaRatio_gate at hs
      obtain ⟨h1, h2⟩ := getAntennaRatio_via_fold g fuel report_violating_nets gate _ _ _ hs
      obtain ⟨h3, h4⟩ := getAntennaRatio_wire_fold g report_violating_nets gate
        tables.CARtable st
      rw [h1, h2, h3, h4]
      cases st.if_violated_wire <;> cases st.if_violated_VIA <;>
        cases (tables.CARtable.any fun ar =>
          decide (ar.GateNode = gate) && wire_record_violates g report_violating_nets ar) <;>
        cases (tables.VIA_CARtable.any fun via_ar =>
          decide (via_ar.GateNode = gate)
            && via_record_violates g fuel report_violating_nets via_ar) <;>
        simp
/-- One step of the loop of `getAntennaRatio` over the nets counts the net as
violated exactly when it is violated in the sense of the spec, and as a net
exactly when it is not special. -/
theorem getAntennaRatio_step_count (ck : AntennaChecker) (fuel : Nat)
    (report_violating_nets : Bool) (counts counts2 : NetCounts) (net : dbNet)
    (h : getAntennaRatio_step ck fuel report_violating_nets counts net = some counts2) :
    counts2.num_violated_net
        = counts.num_violated_net
          + (if net_violated ck fuel report_violating_nets net = true then 1 else 0)
      ∧ counts2.num_total_net
        = counts.num_total_net + (if net.isSpecial = true then 0 else 1) := by
  unfold getAntennaRatio_step at h
  unfold net_violated
  by_cases hs : net.isSpecial = true
  · rw [if_pos hs] at h
    simp only [Option.some.injEq] at h
    subst h
    simp [hs]
  · rw [if_neg hs] at h
    have hs2 : net.isSpecial = false := by simpa using hs
    cases hw : net.getWire with
    | none =>
      rw [hw] at h
      simp only [Option.some.injEq] at h
      subst h
      simp [hs2]
    | some graph =>
      rw [hw] at h
      simp only [] at h
      cases hn : getAntennaRatio_net ck graph fuel report_violating_nets with
      | none => rw [hn] at h; simp at h
      | some st =>
        rw [hn] at h
        simp only [Option.map_some', Option.some.injEq] at h
        unfold getAntennaRatio_net at hn
        cases ht : getAntennaRatio_tables ck graph fuel with
        | none => rw [ht] at hn; simp at hn
        | some tables =>
          rw [ht] at hn
          simp only [Option.some_bind] at hn
          have hflags := getAntennaRatio_gate_fold graph fuel report_violating_nets tables
            tables.gate_iterms ⟨false, false, []⟩ st hn
          simp only [Bool.or_self, Bool.false_or] at hflags
          simp only [hs2, ht, Bool.not_false, Bool.true_and, has_violated_gate]
          rw [← hflags]
          subst h
          by_cases hv : (st.if_violated_wire || st.if_violated_VIA) = true
          · simp [hv]
          · simp [hv]

/-- The counts of a run of `getAntennaRatio` that returns, with the report file
opened: the second count is the number of nets that are not special, have a
wire, and contain a gate terminal with a violating wire or via cumulative
record; the third count is the number of nets that are not special. -/
theorem getAntennaRatio_counts (ck : AntennaChecker) (nets : List dbNet) (fuel : Nat)
    (report_violating_nets : Bool) (counts : NetCounts)
    (h : getAntennaRatio ck true nets fuel report_violating_nets = some counts) :
    counts.num_violated_net
        = nets.countP (fun net => net_violated ck fuel report_violating_nets net)
      ∧ counts.num_total_net = nets.countP (fun net => !net.isSpecial) := by
  have key : ∀ (l : List dbNet) (c0 c : NetCounts),
      l.foldlM (getAntennaRatio_step ck fuel report_violating_nets) c0 = some c →
        c.num_violated_net
            = c0.num_violated_net
              + l.countP (fun net => net_violated ck fuel report_violating_nets net)
          ∧ c.num_total_net = c0.num_total_net + l.countP (fun net => !net.isSpecial) := by
    intro l
    induction l with
    | nil =>
      intro c0 c hc
      simp only [List.foldlM, pure, Option.some.injEq] at hc
      subst hc; simp
    | cons net rest ih =>
      intro c0 c hc
      simp only [List.foldlM, bind, Option.bind] at hc
      cases hs : getAntennaRatio_step ck fuel report_violating_nets c0 net with
      | none => rw [hs] at hc; simp at hc
      | some c1 =>
        rw [hs] at hc
        obtain ⟨h1, h2⟩ := ih c1 c hc
        obtain ⟨h3, h4⟩ := getAntennaRatio_step_count ck fuel report_violating_nets c0 c1 net hs
        rw [h1, h2, h3, h4, List.countP_cons, List.countP_cons]
        constructor
        · split_ifs <;> omega
        · cases net.isSpecial
          all_goals simp
          all_goals omega
  unfold getAntennaRatio at h
  simp only [if_true] at h
  by_cases hn : nets.length = 0
  · rw [if_pos hn] at h
    simp only [Option.some.injEq] at h
    have : nets = [] := List.length_eq_zero.mp hn
    subst this; subst h
    simp
  · rw [if_neg hn] at h
    have := key nets ⟨0, 0, 0⟩ counts h
    simpa using this

/-! ## The path search `findCarPath` -/

/-- A piece that does nothing keeps the contract. -/
theorem CarStep_id (goal : Nat) (cp : List Nat) (hd : Option Nat) :
    CarStep goal cp hd False (fun st => some st) := by
  intro st res hcp h
  simp only [Option.some.injEq] at h
  subst h
  exact ⟨hcp, ⟨[], by simp⟩, fun h => h, fun h1 h2 => h1 h2, fun h1 h2 => absurd h1 h2,
    by simp⟩

/-- Two pieces in sequence keep the contract. -/
theorem CarStep_bind (goal : Nat) (cp : List Nat) (hd : Option Nat) (r1 r2 : Prop)
    (f1 f2 : CarPath → Option CarPath) (h1 : CarStep goal cp hd r1 f1)
    (h2 : CarStep goal cp hd r2 f2) :
    CarStep goal cp hd (r1 ∨ r2) (fun st => (f1 st).bind f2) := by
  intro st res hcp h
  cases hm : f1 st with
  | none => simp only [hm, Option.none_bind] at h; simp at h
  | some mid =>
    simp only [hm, Option.some_bind] at h
    obtain ⟨a1, ⟨ext1, a2⟩, a3, a4, a5, a6⟩ := h1 st mid hcp hm
    obtain ⟨b1, ⟨ext2, b2⟩, b3, b4, b5, b6⟩ := h2 mid res a1 h
    refine ⟨b1, ⟨ext1 ++ ext2, by rw [b2, a2, List.append_assoc]⟩, fun hn => b3 (a3 hn),
      fun hg => b4 (a4 hg), ?_, ?_⟩
    · intro hst hres
      by_cases hmid : mid.path_found = []
      · exact b5 hmid hres
      · have hh := a5 hst hmid
        rw [b2]
        rw [List.head?_append_of_ne_nil _ hmid]
        exact hh
    · rw [b6, a6]
      constructor
      · rintro ((h | h) | h)
        · exact Or.inl h
        · exact Or.inr (Or.inl h)
        · exact Or.inr (Or.inr h)
      · rintro (h | h | h)
        · exact Or.inl (Or.inl h)
        · exact Or.inl (Or.inr h)
        · exact Or.inr h

/-- A piece keeps the contract under an equivalent reach condition. -/
theorem CarStep_congr (goal : Nat) (cp : List Nat) (hd : Option Nat) (r1 r2 : Prop)
    (f : CarPath → Option CarPath) (h : CarStep goal cp hd r1 f) (hr : r1 ↔ r2) :
    CarStep goal cp hd r2 f := by
  intro st res hcp hf
  obtain ⟨a1, a2, a3, a4, a5, a6⟩ := h st res hcp hf
  exact ⟨a1, a2, a3, a4, a5, by rw [a6, hr]⟩

/-- A loop of pieces keeps the contract; it reaches the goal when one of its
pieces does. -/
theorem CarStep_foldlM (goal : Nat) (cp : List Nat) (hd : Option Nat) {ε : Type}
    (r : ε → Prop) (f : CarPath → ε → Option CarPath) :
    ∀ (l : List ε), (∀ e ∈ l, CarStep goal cp hd (r e) (fun st => f st e)) →
      CarStep goal cp hd (∃ e ∈ l, r e) (fun st => l.foldlM f st) := by
  intro l
  induction l with
  | nil =>
    intro _
    refine CarStep_congr goal cp hd False _ _ ?_ (by simp)
    exact CarStep_id goal cp hd
  | cons e rest ih =>
    intro h
    have h1 := h e (List.mem_cons_self _ _)
    have h2 := ih (fun e2 he2 => h e2 (List.mem_cons_of_mem _ he2))
    have h3 := CarStep_bind goal cp hd _ _ _ _ h1 h2
    refine CarStep_congr goal cp hd (r e ∨ ∃ e2 ∈ rest, r e2) _ _ ?_ (by simp)
    intro st res hcp hf
    refine h3 st res hcp ?_
    simpa only [List.foldlM] using hf
/-- The merge of the path stack into the found list appends to the found
list, keeps it free of repetitions and brings in every node of the stack. -/
theorem findCarPath_merge_spec :
    ∀ (current_path path_found : List Nat),
      (∃ ext, findCarPath_merge current_path path_found = path_found ++ ext)
        ∧ (path_found.Nodup → (findCarPath_merge current_path path_found).Nodup)
        ∧ (∀ c ∈ current_path, c ∈ findCarPath_merge current_path path_found) := by
  intro current_path
  induction current_path with
  | nil => intro pf; exact ⟨⟨[], by simp [findCarPath_merge]⟩, fun h => h, fun c hc => by simp at hc⟩
  | cons c rest ih =>
    intro pf
    have hunf : findCarPath_merge (c :: rest) pf
        = findCarPath_merge rest (if c ∈ pf then pf else pf ++ [c]) := rfl
    rw [hunf]
    obtain ⟨⟨ext, h1⟩, h2, h3⟩ := ih (if c ∈ pf then pf else pf ++ [c])
    refine ⟨?_, ?_, ?_⟩
    · by_cases hc : c ∈ pf
      · rw [if_pos hc] at h1 ⊢; exact ⟨ext, h1⟩
      · rw [if_neg hc] at h1 ⊢
        exact ⟨[c] ++ ext, by rw [h1, List.append_assoc]⟩
    · intro hn
      apply h2
      by_cases hc : c ∈ pf
      · rw [if_pos hc]; exact hn
      · rw [if_neg hc]
        exact List.nodup_append.mpr ⟨hn, List.nodup_singleton c, by
          intro a ha hb
          rw [List.mem_singleton] at hb
          subst hb
          exact hc ha⟩
    · intro x hx
      rcases List.mem_cons.mp hx with hx | hx
      · subst hx
        rw [h1]
        apply List.mem_append_left
        by_cases hc : x ∈ pf
        · rw [if_pos hc]; exact hc
        · rw [if_neg hc]; simp
      · exact h3 x hx

/-- Merged into an empty found list, a non-empty path stack gives a found list
that starts with the first node of the stack. -/
theorem findCarPath_merge_head (current_path : List Nat) (h : current_path ≠ []) :
    (findCarPath_merge current_path []).head? = current_path.head? := by
  cases current_path with
  | nil => exact absurd rfl h
  | cons c rest =>
    have hunf : findCarPath_merge (c :: rest) [] = findCarPath_merge rest [c] := rfl
    obtain ⟨⟨ext, h1⟩, _, _⟩ := findCarPath_merge_spec rest [c]
    rw [hunf, h1]
    rfl

/-- The walk of `findCarPath` keeps the contract `CarStep`: started on a state
with the path stack `cp`, it returns with the stack `cp`, and its found list is
non-empty afterwards if and only if it was before or the walk reaches the
goal. -/
theorem findCarPath_step (g : dbWireGraph) (goal : Nat) :
    ∀ (fuel node : Nat) (wire_level : Int) (cp : List Nat),
      CarStep goal cp (cp ++ [node]).head? (CarReaches g goal fuel node wire_level)
        (fun st => findCarPath g fuel node wire_level goal st) := by
  intro fuel
  induction fuel with
  | zero =>
    intro node wire_level cp st res _ h
    simp [findCarPath] at h
  | succ fuel ih =>
    intro node wire_level cp st res hcp h
    unfold findCarPath at h
    simp only [] at h
    by_cases hgoal : node = goal
    · rw [if_pos hgoal] at h
      simp only [Option.map_some', Option.some.injEq] at h
      subst h
      subst hgoal
      obtain ⟨⟨ext, m1⟩, m2, m3⟩ :=
        findCarPath_merge_spec (st.current_path ++ [node]) st.path_found
      have hmem : node ∈ findCarPath_merge (st.current_path ++ [node]) st.path_found :=
        m3 node (by simp)
      refine ⟨by simp [hcp], ⟨ext, m1⟩, m2, fun _ _ => hmem, ?_, ?_⟩
      · intro hst _
        simp only []
        rw [hst, findCarPath_merge_head _ (by simp), hcp]
      · simp only []
        constructor
        · intro _; exact Or.inr (CarReaches.here fuel wire_level)
        · intro _ hnil; rw [hnil] at hmem; simp at hmem
    · rw [if_neg hgoal] at h
      -- the stack after the push
      have hcp1 : ({ st with current_path := st.current_path ++ [node] } : CarPath).current_path
          = cp ++ [node] := by simp [hcp]
      have hne : cp ++ [node] ≠ [] := by simp
      have hhd : ∀ next : Nat, ((cp ++ [node]) ++ [next]).head? = (cp ++ [node]).head? :=
        fun next => List.head?_append_of_ne_nil _ hne
      -- the part on the incoming edge
      have hin : CarStep goal (cp ++ [node]) (cp ++ [node]).head?
          (∃ e root, (g.node node).in_edge = some e
            ∧ (e.type = EdgeType.VIA ∨ e.type = EdgeType.TECH_VIA)
            ∧ (g.node e.source).layer.getRoutingLevel < (g.node e.target).layer.getRoutingLevel
            ∧ findSegmentRoot g fuel e.source (g.node e.source).layer.getRoutingLevel
                = some root
            ∧ CarReaches g goal fuel root (g.node e.source).layer.getRoutingLevel)
          (findCarPath_in g node (findSegmentRoot g fuel)
            (fun next level st => findCarPath g fuel next level goal st)) := by
        unfold findCarPath_in
        cases he : (g.node node).in_edge with
        | none =>
          refine CarStep_congr goal _ _ False _ _ (CarStep_id goal _ _) ?_
          simp
        | some e =>
          simp only []
          by_cases hc : (e.type = EdgeType.VIA ∨ e.type = EdgeType.TECH_VIA)
              ∧ (g.node e.source).layer.getRoutingLevel
                < (g.node e.target).layer.getRoutingLevel
          · simp only [if_pos hc]
            cases hr : findSegmentRoot g fuel e.source
                (g.node e.source).layer.getRoutingLevel with
            | none =>
              intro st2 res2 _ h2
              simp at h2
            | some root =>
              simp only [Option.some_bind]
              have hrec := ih root (g.node e.source).layer.getRoutingLevel (cp ++ [node])
              rw [hhd] at hrec
              refine CarStep_congr goal _ _ _ _ _ hrec ?_
              constructor
              · intro hreach
                exact ⟨e, root, rfl, hc.1, hc.2, hr, hreach⟩
              · rintro ⟨e2, root2, he2, _, _, hr2, hreach⟩
                have : e2 = e := (Option.some.inj he2).symm
                subst this
                rw [hr] at hr2
                have : root2 = root := (Option.some.inj hr2).symm
                subst this
                exact hreach
          · simp only [if_neg hc]
            refine CarStep_congr goal _ _ False _ _ (CarStep_id goal _ _) ?_
            constructor
            · intro hf; exact hf.elim
            · rintro ⟨e2, root2, he2, h1, h2, _, _⟩
              have : e2 = e := (Option.some.inj he2).symm
              subst this
              exact hc ⟨h1, h2⟩
      -- the loop over the outgoing edges
      have hout : ∀ e ∈ (g.node node).out_edges,
          CarStep goal (cp ++ [node]) (cp ++ [node]).head?
            (((e.type = EdgeType.VIA ∨ e.type = EdgeType.TECH_VIA)
                ∧ (g.node e.target).layer.getRoutingLevel ≤ wire_level
                ∧ ∃ first, findSegmentStart g fuel e.target = some first
                  ∧ CarReaches g goal fuel first wire_level)
              ∨ ((e.type = EdgeType.SEGMENT ∨ e.type = EdgeType.SHORT)
                ∧ CarReaches g goal fuel e.target wire_level))
            (fun st =>
              findCarPath_out g wire_level (findSegmentStart g fuel)
                (fun next level st => findCarPath g fuel next level goal st) st e) := by
        intro e _
        have hseg : (e.type = EdgeType.SEGMENT ∨ e.type = EdgeType.SHORT) →
            CarStep goal (cp ++ [node]) (cp ++ [node]).head?
              (((e.type = EdgeType.VIA ∨ e.type = EdgeType.TECH_VIA)
                  ∧ (g.node e.target).layer.getRoutingLevel ≤ wire_level
                  ∧ ∃ first, findSegmentStart g fuel e.target = some first
                    ∧ CarReaches g goal fuel first wire_level)
                ∨ ((e.type = EdgeType.SEGMENT ∨ e.type = EdgeType.SHORT)
                  ∧ CarReaches g goal fuel e.target wire_level))
              (fun st => findCarPath g fuel e.target wire_level goal st) := by
          intro hty
          have hrec := ih e.target wire_level (cp ++ [node])
          rw [hhd] at hrec
          refine CarStep_congr goal _ _ _ _ _ hrec ?_
          constructor
          · intro hreach; exact Or.inr ⟨hty, hreach⟩
          · rintro (⟨h1, _⟩ | ⟨_, h2⟩)
            · rcases hty with h | h <;> rcases h1 with h3 | h3 <;> rw [h] at h3 <;> cases h3
            · exact h2
        have hvia : (e.type = EdgeType.VIA ∨ e.type = EdgeType.TECH_VIA) →
            CarStep goal (cp ++ [node]) (cp ++ [node]).head?
              (((e.type = EdgeType.VIA ∨ e.type = EdgeType.TECH_VIA)
                  ∧ (g.node e.target).layer.getRoutingLevel ≤ wire_level
                  ∧ ∃ first, findSegmentStart g fuel e.target = some first
                    ∧ CarReaches g goal fuel first wire_level)
                ∨ ((e.type = EdgeType.SEGMENT ∨ e.type = EdgeType.SHORT)
                  ∧ CarReaches g goal fuel e.target wire_level))
              (fun st =>
                if (g.node e.target).layer.getRoutingLevel ≤ wire_level then
                  (findSegmentStart g fuel e.target).bind fun first =>
                    findCarPath g fuel first wire_level goal st
                else some st) := by
          intro hty
          have hnoseg : ¬ ((e.type = EdgeType.SEGMENT ∨ e.type = EdgeType.SHORT)
              ∧ CarReaches g goal fuel e.target wire_level) := by
            rintro ⟨h1, _⟩
            rcases hty with h | h <;> rcases h1 with h3 | h3 <;> rw [h] at h3 <;> cases h3
          by_cases hl : (g.node e.target).layer.getRoutingLevel ≤ wire_level
          · simp only [if_pos hl]
            cases hs : findSegmentStart g fuel e.target with
            | none =>
              intro st2 res2 _ h2
              simp at h2
            | some first =>
              simp only [Option.some_bind]
              have hrec := ih first wire_level (cp ++ [node])
              rw [hhd] at hrec
              refine CarStep_congr goal _ _ _ _ _ hrec ?_
              constructor
              · intro hreach; exact Or.inl ⟨hty, hl, first, rfl, hreach⟩
              · rintro (⟨_, _, first2, hf2, hreach⟩ | h)
                · have : first2 = first := (Option.some.inj hf2).symm
                  subst this
                  exact hreach
                · exact absurd h hnoseg
          · simp only [if_neg hl]
            refine CarStep_congr goal _ _ False _ _ (CarStep_id goal _ _) ?_
            constructor
            · intro hf; exact hf.elim
            · rintro (⟨_, h2, _⟩ | h)
              · exact hl h2
              · exact hnoseg h
        have hfun_seg : (e.type = EdgeType.SEGMENT ∨ e.type = EdgeType.SHORT) →
            (fun st : CarPath =>
              findCarPath_out g wire_level (findSegmentStart g fuel)
                (fun next level st => findCarPath g fuel next level goal st) st e)
              = fun st => findCarPath g fuel e.target wire_level goal st := by
          intro hty
          funext st2
          unfold findCarPath_out
          rcases hty with h | h <;> simp only [h]
        have hfun_via : (e.type = EdgeType.VIA ∨ e.type = EdgeType.TECH_VIA) →
            (fun st : CarPath =>
              findCarPath_out g wire_level (findSegmentStart g fuel)
                (fun next level st => findCarPath g fuel next level goal st) st e)
              = fun st =>
                if (g.node e.target).layer.getRoutingLevel ≤ wire_level then
                  (findSegmentStart g fuel e.target).bind fun first =>
                    findCarPath g fuel first wire_level goal st
                else some st := by
          intro hty
          funext st2
          unfold findCarPath_out
          rcases hty with h | h <;> simp only [h]
        have hcases : (e.type = EdgeType.SEGMENT ∨ e.type = EdgeType.SHORT)
            ∨ (e.type = EdgeType.VIA ∨ e.type = EdgeType.TECH_VIA) := by
          cases e.type <;> simp
        rcases hcases with hty | hty
        · rw [hfun_seg hty]; exact hseg hty
        · rw [hfun_via hty]; exact hvia hty
      have hloop := CarStep_foldlM goal (cp ++ [node]) (cp ++ [node]).head? _
        (findCarPath_out g wire_level (findSegmentStart g fuel)
          (fun next level st => findCarPath g fuel next level goal st))
        (g.node node).out_edges hout
      have hboth := CarStep_bind goal (cp ++ [node]) (cp ++ [node]).head? _ _ _ _ hin hloop
      -- the call as a whole
      cases hsearch : (findCarPath_in g node (findSegmentRoot g fuel)
          (fun next level st => findCarPath g fuel next level goal st)
          { st with current_path := st.current_path ++ [node] }).bind
          (fun st2 => (g.node node).out_edges.foldlM
            (findCarPath_out g wire_level (findSegmentStart g fuel)
              (fun next level st => findCarPath g fuel next level goal st)) st2) with
      | none => rw [hsearch] at h; simp at h
      | some st3 =>
        rw [hsearch] at h
        simp only [Option.map_some', Option.some.injEq] at h
        subst h
        obtain ⟨a1, a2, a3, a4, a5, a6⟩ := hboth _ st3 hcp1 hsearch
        refine ⟨by simp [a1], a2, a3, a4, a5, ?_⟩
        simp only [] at a6 ⊢
        rw [a6]
        constructor
        · rintro (h | ⟨e, root, h1, h2, h3, h4, h5⟩ | ⟨e, he, h⟩)
          · exact Or.inl h
          · exact Or.inr (CarReaches.via_in fuel node wire_level e root hgoal h1 h2 h3 h4 h5)
          · rcases h with ⟨h1, h2, first, h3, h4⟩ | ⟨h1, h2⟩
            · exact Or.inr
                (CarReaches.via_out fuel node wire_level e first hgoal he h1 h2 h3 h4)
            · exact Or.inr (CarReaches.segment_out fuel node wire_level e hgoal he h1 h2)
        · rintro (h | h)
          · exact Or.inl h
          · right
            cases h with
            | here _ _ => exact absurd rfl hgoal
            | via_in _ _ _ e root _ h1 h2 h3 h4 h5 =>
              exact Or.inl ⟨e, root, h1, h2, h3, h4, h5⟩
            | via_out _ _ _ e first _ he h1 h2 h3 h4 =>
              exact Or.inr ⟨e, he, Or.inl ⟨h1, h2, first, h3, h4⟩⟩
            | segment_out _ _ _ e _ he h1 h2 =>
              exact Or.inr ⟨e, he, Or.inr ⟨h1, h2⟩⟩

/-- C29. The found path has no repeats.  For every wire graph, start node,
level and goal, when `findCarPath`, started with an empty path stack and an
empty found list, returns: the path stack is empty again; the found list
contains no node twice; it is non-empty if and only if the walk reached the
goal (`CarReaches`); and then its first element is the start node and it
contains the goal. -/
theorem findCarPath_found_path (g : dbWireGraph) (fuel start : Nat) (wire_level : Int)
    (goal : Nat) (res : CarPath)
    (h : findCarPath g fuel start wire_level goal ⟨[], []⟩ = some res) :
    res.current_path = []
      ∧ res.path_found.Nodup
      ∧ (res.path_found ≠ [] ↔ CarReaches g goal fuel start wire_level)
      ∧ (res.path_found ≠ [] → res.path_found.head? = some start ∧ goal ∈ res.path_found) := by
  obtain ⟨a1, _, a3, a4, a5, a6⟩ :=
    findCarPath_step g goal fuel start wire_level [] ⟨[], []⟩ res rfl h
  refine ⟨a1, a3 List.nodup_nil, ?_, fun hne => ⟨?_, ?_⟩⟩
  · rw [a6]; simp
  · have := a5 rfl hne
    simpa using this
  · exact a4 (fun hh => absurd rfl hh) hne

/-- C29, witness: on the two-level net with gates on node 0 and node 3, the
walk from node 2 at level 2 to the goal node 3 returns the found list [2, 3];
the walk from node 0 at level 1 does not reach node 3 and returns an empty
found list. -/
theorem findCarPath_found_path_witness :
    findCarPath (ex_net_two_level (ex_metal1 none) ex_metal2 (ex_via1 none) [0, 3]) 10 2 2 3
        ⟨[], []⟩ = some ⟨[], [2, 3]⟩
      ∧ findCarPath (ex_net_two_level (ex_metal1 none) ex_metal2 (ex_via1 none) [0, 3]) 10 0 1 3
        ⟨[], []⟩ = some ⟨[], []⟩
      ∧ ([2, 3] : List Nat).Nodup
      ∧ (([2, 3] : List Nat) ≠ [] ↔
          CarReaches (ex_net_two_level (ex_metal1 none) ex_metal2 (ex_via1 none) [0, 3]) 3 10 2
            2) :=
  ⟨by decide, by decide,
    (findCarPath_found_path (ex_net_two_level (ex_metal1 none) ex_metal2 (ex_via1 none) [0, 3])
      10 2 2 3 ⟨[], [2, 3]⟩ (by decide)).2.1,
    (findCarPath_found_path (ex_net_two_level (ex_metal1 none) ex_metal2 (ex_via1 none) [0, 3])
      10 2 2 3 ⟨[], [2, 3]⟩ (by decide)).2.2.1⟩

/-! ## The via area of a wireroot -/

/-- An outgoing edge is either followed or a via to above the level. -/
theorem via_followed_iff (g : dbWireGraph) (level : Int) (e : Edge) :
    via_followed g level e ↔ via_above g level e = false := by
  unfold via_followed via_above
  cases e.type <;> simp

/-- One step of the loop of `calculateViaArea` adds the cut area of a via to
above the level, and what the recursive call returns on a followed edge. -/
theorem calculateViaArea_edge_eq (ck : AntennaChecker) (g : dbWireGraph) (level : Int)
    (recurse : Nat → Option ℚ) (via_area : ℚ) (e : Edge) :
    calculateViaArea_edge ck g level recurse via_area e
      = if via_above g level e = true then some (via_area + getViaArea ck e)
        else (recurse e.target).map fun below => via_area + below := by
  unfold calculateViaArea_edge via_above
  cases e.type <;> simp only []
  all_goals split_ifs
  all_goals try simp_all
  all_goals exfalso; omega

/-- On a tree-shaped graph, a step along an outgoing edge goes to a deeper
node of the graph, whose incoming edge is that edge. -/
theorem ViaReach_nodes (g : dbWireGraph) (level : Int) (depth : Nat → Nat)
    (hout : ∀ n ∈ g.nodes, ∀ e ∈ (g.node n).out_edges,
      e.source = n ∧ e.target ∈ g.nodes ∧ (g.node e.target).in_edge = some e)
    (hdepth : ∀ n ∈ g.nodes, ∀ e, (g.node n).in_edge = some e → depth e.source < depth n)
    (a m : Nat) (ha : a ∈ g.nodes) (h : ViaReach g level a m) :
    m ∈ g.nodes ∧ depth a ≤ depth m := by
  induction h with
  | refl => exact ⟨ha, le_refl _⟩
  | tail _ hstep ih =>
    obtain ⟨e, he, ht, _⟩ := hstep
    obtain ⟨h1, h2, h3⟩ := hout _ ih.1 e he
    subst ht
    have := hdepth _ h2 e h3
    rw [h1] at this
    exact ⟨h2, by omega⟩

/-- On a tree-shaped graph, of two nodes from which the same node is reached,
the one that is not deeper reaches the other. -/
theorem ViaReach_chain (g : dbWireGraph) (level : Int) (depth : Nat → Nat)
    (hout : ∀ n ∈ g.nodes, ∀ e ∈ (g.node n).out_edges,
      e.source = n ∧ e.target ∈ g.nodes ∧ (g.node e.target).in_edge = some e)
    (hdepth : ∀ n ∈ g.nodes, ∀ e, (g.node n).in_edge = some e → depth e.source < depth n)
    (a b m : Nat) (ha : a ∈ g.nodes) (hb : b ∈ g.nodes)
    (h1 : ViaReach g level a m) (h2 : ViaReach g level b m) (hd : depth a ≤ depth b) :
    ViaReach g level a b := by
  induction h2 generalizing a with
  | refl => exact h1
  | @tail p m2 hbp hstep ih =>
    have hp := ViaReach_nodes g level depth hout hdepth b p hb hbp
    obtain ⟨e, he, ht, _⟩ := hstep
    obtain ⟨e1, e2, e3⟩ := hout p hp.1 e he
    subst ht
    have hdp : depth p < depth e.target := by
      have := hdepth _ e2 e e3
      rw [e1] at this
      exact this
    rcases Relation.ReflTransGen.cases_tail h1 with heq | ⟨q, haq, hstep2⟩
    · -- `a` is the node reached itself: it is deeper than `b`
      subst heq
      omega
    · obtain ⟨e', he', ht', _⟩ := hstep2
      have hq := ViaReach_nodes g level depth hout hdepth a q ha haq
      obtain ⟨f1, _, f3⟩ := hout q hq.1 e' he'
      rw [ht', e3] at f3
      have : e' = e := (Option.some.inj f3).symm
      subst this
      rw [f1] at e1
      subst e1
      exact ih a ha haq hd

/-- On a tree-shaped graph whose edge lists hold no edge twice, no node is
reached from the targets of two distinct outgoing edges of one node. -/
theorem ViaReach_disjoint (g : dbWireGraph) (level : Int) (depth : Nat → Nat)
    (hout : ∀ n ∈ g.nodes, ∀ e ∈ (g.node n).out_edges,
      e.source = n ∧ e.target ∈ g.nodes ∧ (g.node e.target).in_edge = some e)
    (hdepth : ∀ n ∈ g.nodes, ∀ e, (g.node n).in_edge = some e → depth e.source < depth n)
    (n : Nat) (hn : n ∈ g.nodes) (e1 e2 : Edge) (h1 : e1 ∈ (g.node n).out_edges)
    (h2 : e2 ∈ (g.node n).out_edges) (hne : e1 ≠ e2) (m : Nat)
    (hr1 : ViaReach g level e1.target m) (hr2 : ViaReach g level e2.target m) : False := by
  obtain ⟨a1, a2, a3⟩ := hout n hn e1 h1
  obtain ⟨b1, b2, b3⟩ := hout n hn e2 h2
  have hd1 : depth n < depth e1.target := by
    have := hdepth _ a2 e1 a3; rw [a1] at this; exact this
  have hd2 : depth n < depth e2.target := by
    have := hdepth _ b2 e2 b3; rw [b1] at this; exact this
  have key : ∀ (x y : Edge), x ∈ (g.node n).out_edges → y ∈ (g.node n).out_edges → x ≠ y →
      depth n < depth x.target → ViaReach g level x.target y.target → False := by
    intro x y hx hy hxy hdx hreach
    obtain ⟨x1, x2, x3⟩ := hout n hn x hx
    obtain ⟨y1, y2, y3⟩ := hout n hn y hy
    rcases Relation.ReflTransGen.cases_tail hreach with heq | ⟨q, hxq, hstep⟩
    · rw [heq, x3] at y3
      exact hxy (Option.some.inj y3)
    · obtain ⟨e', he', ht', _⟩ := hstep
      have hq := ViaReach_nodes g level depth hout hdepth x.target q x2 hxq
      obtain ⟨f1, _, f3⟩ := hout q hq.1 e' he'
      rw [ht', y3] at f3
      have : e' = y := (Option.some.inj f3).symm
      subst this
      rw [y1] at f1
      subst f1
      have := hq.2
      omega
  rcases Nat.le_total (depth e1.target) (depth e2.target) with hd | hd
  · exact key e1 e2 h1 h2 hne hd1
      (ViaReach_chain g level depth hout hdepth _ _ m a2 b2 hr1 hr2 hd)
  · exact key e2 e1 h2 h1 (fun h => hne h.symm) hd2
      (ViaReach_chain g level depth hout hdepth _ _ m b2 a2 hr2 hr1 hd)
/-- The loop of `calculateViaArea` over a part of the outgoing edges of a node
of a tree-shaped graph: it adds the cut areas of the vias to above the level
and, for the nodes reached through the followed edges, the cut areas summed at
these nodes; `hrec` is what the recursive calls are known to return. -/
theorem calculateViaArea_loop (ck : AntennaChecker) (g : dbWireGraph) (level : Int)
    (depth : Nat → Nat)
    (hout : ∀ n ∈ g.nodes, ∀ e ∈ (g.node n).out_edges,
      e.source = n ∧ e.target ∈ g.nodes ∧ (g.node e.target).in_edge = some e)
    (hdepth : ∀ n ∈ g.nodes, ∀ e, (g.node n).in_edge = some e → depth e.source < depth n)
    (recurse : Nat → Option ℚ) (n : Nat) (hn : n ∈ g.nodes)
    (hrec : ∀ e ∈ (g.node n).out_edges, via_followed g level e →
      ∃ reached : List Nat, reached.Nodup ∧ (∀ m, m ∈ reached ↔ ViaReach g level e.target m)
        ∧ recurse e.target = some ((reached.map (via_node_area ck g level)).sum)) :
    ∀ (l : List Edge), (∀ e ∈ l, e ∈ (g.node n).out_edges) → l.Nodup →
      ∃ R : List Nat, R.Nodup
        ∧ (∀ m, m ∈ R ↔ ∃ e ∈ l, via_followed g level e ∧ ViaReach g level e.target m)
        ∧ ∀ acc : ℚ, l.foldlM (calculateViaArea_edge ck g level recurse) acc
          = some (acc + ((l.filter (via_above g level)).map (getViaArea ck)).sum
              + (R.map (via_node_area ck g level)).sum) := by
  intro l
  induction l with
  | nil =>
    intro _ _
    exact ⟨[], List.nodup_nil, by simp, fun acc => by simp [List.foldlM]⟩
  | cons e rest ih =>
    intro hsub hnd
    have he : e ∈ (g.node n).out_edges := hsub e (List.mem_cons_self _ _)
    have hsub2 : ∀ e2 ∈ rest, e2 ∈ (g.node n).out_edges :=
      fun e2 h2 => hsub e2 (List.mem_cons_of_mem _ h2)
    have hnd2 : rest.Nodup := (List.nodup_cons.mp hnd).2
    have hnotin : e ∉ rest := (List.nodup_cons.mp hnd).1
    by_cases habove : via_above g level e = true
    · have hnf : ¬ via_followed g level e := by
        rw [via_followed_iff, habove]; simp
      obtain ⟨R, h1, h2, h3⟩ := ih hsub2 hnd2
      refine ⟨R, h1, ?_, ?_⟩
      · intro m
        rw [h2]
        constructor
        · rintro ⟨e2, he2, hf, hr⟩
          exact ⟨e2, List.mem_cons_of_mem _ he2, hf, hr⟩
        · rintro ⟨e2, he2, hf, hr⟩
          rcases List.mem_cons.mp he2 with h | h
          · subst h; exact absurd hf hnf
          · exact ⟨e2, h, hf, hr⟩
      · intro acc
        simp only [List.foldlM, calculateViaArea_edge_eq, if_pos habove, bind, Option.bind]
        rw [h3, List.filter_cons_of_pos habove, List.map_cons, List.sum_cons]
        congr 1
        ring
    · have hf : via_followed g level e := by
        rw [via_followed_iff]; simpa using habove
      obtain ⟨reached, r1, r2, r3⟩ := hrec e he hf
      obtain ⟨R, h1, h2, h3⟩ := ih hsub2 hnd2
      refine ⟨reached ++ R, ?_, ?_, ?_⟩
      · refine List.nodup_append.mpr ⟨r1, h1, ?_⟩
        intro m hm1 hm2
        obtain ⟨e2, he2, _, hr2⟩ := (h2 m).mp hm2
        have hne : e ≠ e2 := fun h => hnotin (h ▸ he2)
        exact ViaReach_disjoint g level depth hout hdepth n hn e e2 he (hsub2 e2 he2) hne m
          ((r2 m).mp hm1) hr2
      · intro m
        rw [List.mem_append, r2, h2]
        constructor
        · rintro (h | ⟨e2, he2, hf2, hr⟩)
          · exact ⟨e, List.mem_cons_self _ _, hf, h⟩
          · exact ⟨e2, List.mem_cons_of_mem _ he2, hf2, hr⟩
        · rintro ⟨e2, he2, hf2, hr⟩
          rcases List.mem_cons.mp he2 with h | h
          · subst h; exact Or.inl hr
          · exact Or.inr ⟨e2, h, hf2, hr⟩
      · intro acc
        simp only [List.foldlM, calculateViaArea_edge_eq, if_neg habove, r3, Option.map_some',
          bind, Option.bind]
        rw [h3, List.filter_cons_of_neg habove, List.map_append, List.sum_append]
        congr 1
        ring

/-- On a tree-shaped graph whose edge lists hold no edge twice,
`calculateViaArea` returns, with enough fuel, the sum of the cut areas summed
at the nodes reached from its node, each of them taken once. -/
theorem calculateViaArea_sum (ck : AntennaChecker) (g : dbWireGraph) (level : Int)
    (depth : Nat → Nat) (D : Nat)
    (hout : ∀ n ∈ g.nodes, ∀ e ∈ (g.node n).out_edges,
      e.source = n ∧ e.target ∈ g.nodes ∧ (g.node e.target).in_edge = some e)
    (hdepth : ∀ n ∈ g.nodes, ∀ e, (g.node n).in_edge = some e → depth e.source < depth n)
    (hD : ∀ n ∈ g.nodes, depth n ≤ D)
    (hnodup : ∀ n ∈ g.nodes, (g.node n).out_edges.Nodup) :
    ∀ (fuel n : Nat), n ∈ g.nodes → D - depth n < fuel →
      ∃ reached : List Nat, reached.Nodup ∧ (∀ m, m ∈ reached ↔ ViaReach g level n m)
        ∧ calculateViaArea ck g fuel n level
          = some ((reached.map (via_node_area ck g level)).sum) := by
  intro fuel
  induction fuel with
  | zero => intro n _ h; omega
  | succ fuel ih =>
    intro n hn hfuel
    have hrec : ∀ e ∈ (g.node n).out_edges, via_followed g level e →
        ∃ reached : List Nat, reached.Nodup
          ∧ (∀ m, m ∈ reached ↔ ViaReach g level e.target m)
          ∧ calculateViaArea ck g fuel e.target level
            = some ((reached.map (via_node_area ck g level)).sum) := by
      intro e he _
      obtain ⟨h1, h2, h3⟩ := hout n hn e he
      have hd := hdepth _ h2 e h3
      rw [h1] at hd
      have := hD _ h2
      exact ih e.target h2 (by omega)
    obtain ⟨R, h1, h2, h3⟩ := calculateViaArea_loop ck g level depth hout hdepth
      (fun next => calculateViaArea ck g fuel next level) n hn hrec (g.node n).out_edges
      (fun e he => he) (hnodup n hn)
    refine ⟨n :: R, ?_, ?_, ?_⟩
    · refine List.nodup_cons.mpr ⟨?_, h1⟩
      intro hmem
      obtain ⟨e, he, _, hr⟩ := (h2 n).mp hmem
      obtain ⟨e1, e2, e3⟩ := hout n hn e he
      have hd := hdepth _ e2 e e3
      rw [e1] at hd
      have := (ViaReach_nodes g level depth hout hdepth e.target n e2 hr).2
      omega
    · intro m
      rw [List.mem_cons, h2]
      constructor
      · rintro (h | ⟨e, he, hf, hr⟩)
        · subst h; exact Relation.ReflTransGen.refl
        · exact Relation.ReflTransGen.head ⟨e, he, rfl, hf⟩ hr
      · intro h
        rcases Relation.ReflTransGen.cases_head h with heq | ⟨b, ⟨e, he, ht, hf⟩, hr⟩
        · exact Or.inl heq.symm
        · subst ht
          exact Or.inr ⟨e, he, hf, hr⟩
    · rw [calculateViaArea, h3, List.map_cons, List.sum_cons]
      congr 1
      unfold via_node_area
      cases (g.node n).in_edge with
      | none => simp only []
      | some in_edge =>
        simp only []
        split_ifs <;> ring

/-- The two-level net is tree-shaped, and its edge lists hold no edge twice. -/
theorem ex_net_two_level_wellFormed (m1 m2 cut : dbTechLayer) (gates : List Nat) :
    (ex_net_two_level m1 m2 cut gates).WellFormed
      ∧ ∀ n ∈ (ex_net_two_level m1 m2 cut gates).nodes,
          ((ex_net_two_level m1 m2 cut gates).node n).out_edges.Nodup := by
  have hnodes : ∀ n, n ∈ (ex_net_two_level m1 m2 cut gates).nodes ↔
      n = 0 ∨ n = 1 ∨ n = 2 ∨ n = 3 := by
    intro n; simp [ex_net_two_level]
  refine ⟨⟨?_, ?_, ⟨fun n => n, ?_⟩⟩, ?_⟩
  · intro n hn e he
    rw [hnodes] at hn ⊢
    rcases hn with rfl | rfl | rfl | rfl <;> simp [ex_net_two_level] at he <;> subst he <;>
      simp [ex_segment, ex_via_up, ex_segment_top]
  · intro n hn e he
    rw [hnodes] at hn
    rw [hnodes]
    rcases hn with rfl | rfl | rfl | rfl <;> simp [ex_net_two_level] at he <;> subst he <;>
      simp [ex_net_two_level, ex_segment, ex_via_up, ex_segment_top]
  · intro n hn e he
    rw [hnodes] at hn
    rcases hn with rfl | rfl | rfl | rfl <;> simp [ex_net_two_level] at he <;> subst he <;>
      simp [ex_segment, ex_via_up, ex_segment_top]
  · intro n hn
    rw [hnodes] at hn
    rcases hn with rfl | rfl | rfl | rfl <;> simp [ex_net_two_level]

/-- C28. `calculateViaArea` sums the cut areas above the level.  On a
tree-shaped wire graph (whose edge lists hold no edge twice), for every level
`L` and with enough fuel, `calculateViaArea(n, L)` returns the sum, over the
nodes reached from `n` by following outgoing SEGMENT/SHORT edges and outgoing
vias whose target level is at or below `L` (`n` included, every node once), of
the cut areas found at the node: that of its incoming via when the source of
the via is above `L`, and those of its outgoing vias whose target is above
`L`.  It returns 0 when no such via exists. -/
theorem calculateViaArea_sums_cut_areas (ck : AntennaChecker) (g : dbWireGraph)
    (hwf : g.WellFormed) (hnodup : ∀ n ∈ g.nodes, (g.node n).out_edges.Nodup) (level : Int) :
    ∃ fuel0, ∀ fuel, fuel0 ≤ fuel → ∀ n ∈ g.nodes,
      ∃ reached : List Nat, reached.Nodup ∧ (∀ m, m ∈ reached ↔ ViaReach g level n m)
        ∧ calculateViaArea ck g fuel n level
          = some ((reached.map (via_node_area ck g level)).sum)
        ∧ ((∀ m, ViaReach g level n m → via_node_area ck g level m = 0) →
            calculateViaArea ck g fuel n level = some 0) := by
  obtain ⟨depth, hdepth⟩ := hwf.acyclic
  refine ⟨(g.nodes.map depth).sum + 1, ?_⟩
  intro fuel hfuel n hn
  obtain ⟨reached, h1, h2, h3⟩ := calculateViaArea_sum ck g level depth (g.nodes.map depth).sum
    hwf.out_edge hdepth (depth_le_sum depth g.nodes) hnodup fuel n hn (by omega)
  refine ⟨reached, h1, h2, h3, ?_⟩
  intro hzero
  rw [h3]
  congr 1
  apply List.sum_eq_zero
  intro x hx
  obtain ⟨m, hm, rfl⟩ := List.mem_map.mp hx
  exact hzero m ((h2 m).mp hm)

/-- C28, witness: on the two-level net, from node 0 at level 1 the nodes 0 and
1 are reached, and the one cut found is that of the via from node 1 up to
level 2, of area 0.01. -/
theorem calculateViaArea_sums_cut_areas_witness :
    calculateViaArea (ex_checker [])
        (ex_net_two_level (ex_metal1 none) ex_metal2 (ex_via1 none) []) 10 0 1 = some (1 / 100)
      ∧ ([0, 1].map (via_node_area (ex_checker [])
          (ex_net_two_level (ex_metal1 none) ex_metal2 (ex_via1 none) []) 1)).sum = 1 / 100
      ∧ ∃ fuel0, ∀ fuel, fuel0 ≤ fuel →
        ∀ n ∈ (ex_net_two_level (ex_metal1 none) ex_metal2 (ex_via1 none) []).nodes,
        ∃ reached : List Nat, reached.Nodup
          ∧ (∀ m, m ∈ reached ↔
              ViaReach (ex_net_two_level (ex_metal1 none) ex_metal2 (ex_via1 none) []) 1 n m)
          ∧ calculateViaArea (ex_checker [])
              (ex_net_two_level (ex_metal1 none) ex_metal2 (ex_via1 none) []) fuel n 1
            = some ((reached.map (via_node_area (ex_checker [])
                (ex_net_two_level (ex_metal1 none) ex_metal2 (ex_via1 none) []) 1)).sum)
          ∧ ((∀ m, ViaReach (ex_net_two_level (ex_metal1 none) ex_metal2 (ex_via1 none) []) 1
                n m →
              via_node_area (ex_checker [])
                (ex_net_two_level (ex_metal1 none) ex_metal2 (ex_via1 none) []) 1 m = 0) →
            calculateViaArea (ex_checker [])
              (ex_net_two_level (ex_metal1 none) ex_metal2 (ex_via1 none) []) fuel n 1
              = some 0) :=
  ⟨by decide!, by decide!,
    calculateViaArea_sums_cut_areas (ex_checker [])
      (ex_net_two_level (ex_metal1 none) ex_metal2 (ex_via1 none) [])
      (ex_net_two_level_wellFormed _ _ _ _).1 (ex_net_two_level_wellFormed _ _ _ _).2 1⟩

/-! ## Below the first breakpoint -/

/-- The loop of `getPwlFactor` after its first iteration, with the previous
breakpoint `(px, py)`: when `v` is below `px` and below every remaining index,
no interval holds `v`, and the loop returns the line through the last two of
the breakpoints `px :: xs`. -/
theorem getPwlFactor_loop_below (v : ℚ) :
    ∀ (xs ys : List ℚ) (px py slope : ℚ) (_ : ys.length = xs.length) (_ : xs ≠ [])
      (_ : v < px) (_ : ∀ x ∈ xs, v < x),
      getPwlFactor_loop v false xs ys px py slope
        = ((py :: ys).getD xs.length 0 - (py :: ys).getD (xs.length - 1) 0)
            / ((px :: xs).getD xs.length 0 - (px :: xs).getD (xs.length - 1) 0)
            * (v - (px :: xs).getD xs.length 0)
          + (py :: ys).getD xs.length 0 := by
  intro xs
  induction xs with
  | nil => intro ys px py slope _ hne; exact absurd rfl hne
  | cons x xs ih =>
    intro ys px py slope hlen _ hpx hv
    match ys, hlen with
    | y :: ys, hlen =>
      have hlen2 : ys.length = xs.length := by simpa using hlen
      have hx : v < x := hv x (by simp)
      simp only [getPwlFactor_loop, Bool.false_eq_true, if_false]
      rw [if_neg (fun h => absurd h.1 (not_le.mpr hpx))]
      cases xs with
      | nil =>
        have : ys = [] := by simpa using hlen2
        subst this
        simp [getPwlFactor_loop]
      | cons x2 xs2 =>
        rw [ih ys x y _ hlen2 (by simp) hx (fun z hz => hv z (by simp [hz]))]
        simp only [List.length_cons, List.getD_cons_succ, Nat.add_sub_cancel]

/-- C35. `getPwlFactor` below the first breakpoint: for breakpoints with
strictly increasing indices `xs` and ratios `ys` (at least two of them, the
last at position `n + 1`) and a reference value `v < xs[0]`, the result is
`ys[n+1] + (ys[n+1] - ys[n]) / (xs[n+1] - xs[n]) * (v - xs[n+1])`: the line of
the last interval extended backwards. -/
theorem getPwlFactor_below_first (xs ys : List ℚ) (v dflt : ℚ) (n : ℕ)
    (hlen : ys.length = xs.length) (hsorted : xs.Sorted (· < ·))
    (hn : xs.length = n + 2) (hv : v < xs[0]) :
    getPwlFactor ⟨xs, ys⟩ v dflt
      = ys[n + 1] + (ys[n + 1] - ys[n]) / (xs[n + 1] - xs[n]) * (v - xs[n + 1]) := by
  have hxi : xs[n] = xs.getD n 0 := (List.getD_eq_getElem xs 0 (by omega)).symm
  have hxj : xs[n + 1] = xs.getD (n + 1) 0 := (List.getD_eq_getElem xs 0 (by omega)).symm
  have hyi : ys[n] = ys.getD n 0 := (List.getD_eq_getElem ys 0 (by omega)).symm
  have hyj : ys[n + 1] = ys.getD (n + 1) 0 := (List.getD_eq_getElem ys 0 (by omega)).symm
  rw [hxi, hxj, hyi, hyj]
  cases xs with
  | nil => simp at hn
  | cons x0 xs =>
    cases ys with
    | nil => simp at hlen
    | cons y0 ys =>
      have hn2 : xs.length = n + 1 := by simpa using hn
      have hlen2 : ys.length = xs.length := by simpa using hlen
      have hne : xs ≠ [] := by intro h; simp [h] at hn2
      have hv0 : v < x0 := by simpa using hv
      rw [getPwlFactor_cons_cons x0 y0 xs ys v dflt hne,
        getPwlFactor_loop_below v xs ys x0 y0 _ hlen2 hne hv0
          (fun x hx => lt_trans hv0 (List.rel_of_sorted_cons hsorted x hx))]
      simp only [hn2, Nat.add_sub_cancel]
      ring

/-- C35, witness: the breakpoints (0, 1), (100, 2), (200, 5) at -50 give
5 + 3/100 * (-250) = -2.5; the line of the first interval would give 0.5 and
the default is 0. -/
theorem getPwlFactor_below_first_witness :
    getPwlFactor ⟨[0, 100, 200], [1, 2, 5]⟩ (-50) 0 = -5 / 2
      ∧ (1 : ℚ) + (2 - 1) / (100 - 0) * (-50 - 0) = 1 / 2 := by
  have h := getPwlFactor_below_first [0, 100, 200] [1, 2, 5] (-50) 0 1 rfl (by norm_num) rfl
    (by norm_num)
  rw [h]
  norm_num

/-! ## The checks compared -/

/-- C36. The PWL cumulative check uses the plain CAR.  For a record on a layer
whose rule has the flat CAR threshold 0, with `par_checked` false and a PWL CAR
threshold `P ≠ 0` at the diffusion area of the record: `checkWireCar` sets its
CAR flag if and only if `CAR_value > P`; neither its flags nor its result
change with `diff_CAR_value`; the PWL CSR flag, under a flat CSR threshold 0
and a nonzero PWL CSR threshold, is set if and only if `diff_CSR_value` exceeds
that threshold; and without a CSR threshold the function reports a violation
if and only if `CAR_value > P`. -/
theorem checkWireCar_pwl_plain_car (g : dbWireGraph) (ar : ARinfo)
    (rule : dbTechLayerAntennaRule) (report_violating_nets pr : Bool)
    (hrule : (g.node ar.WirerootNode).layer.getDefaultAntennaRule = some rule)
    (hflat : rule.getCAR = 0) (hP : getPwlFactor rule.getDiffCAR ar.diff_area 0 ≠ 0) :
    ((checkWireCar_flags rule ar false).diff_car_violation = true
        ↔ ar.CAR_value > getPwlFactor rule.getDiffCAR ar.diff_area 0)
      ∧ (∀ d, checkWireCar_flags rule { ar with diff_CAR_value := d } false
          = checkWireCar_flags rule ar false)
      ∧ (∀ d, checkWireCar g { ar with diff_CAR_value := d } false report_violating_nets pr
          = checkWireCar g ar false report_violating_nets pr)
      ∧ (rule.getCSR = 0 → getPwlFactor rule.getDiffCSR ar.diff_area 0 ≠ 0 →
          ((checkWireCar_flags rule ar false).diff_csr_violation = true
            ↔ ar.diff_CSR_value > getPwlFactor rule.getDiffCSR ar.diff_area 0))
      ∧ (rule.getCSR = 0 → getPwlFactor rule.getDiffCSR ar.diff_area 0 = 0 →
          ((checkWireCar g ar false report_violating_nets pr).1 = true
            ↔ ar.CAR_value > getPwlFactor rule.getDiffCAR ar.diff_area 0)) := by
  refine ⟨?_, ?_, ?_, ?_, ?_⟩
  · rw [checkWireCar_flags_eq]
    simp [hflat, hP]
  · intro d
    rw [checkWireCar_flags_eq, checkWireCar_flags_eq]
  · intro d
    have hrule2 : (g.node ({ ar with diff_CAR_value := d } : ARinfo).WirerootNode).layer.getDefaultAntennaRule
        = some rule := hrule
    rw [checkWireCar_eq g _ rule false report_violating_nets pr hrule2,
      checkWireCar_eq g ar rule false report_violating_nets pr hrule,
      checkWireCar_flags_eq, checkWireCar_flags_eq]
  · intro hcsr hQ
    rw [checkWireCar_flags_eq]
    simp [hcsr, hQ]
  · intro hcsr hQ
    rw [checkWireCar_eq g ar rule false report_violating_nets pr hrule, checkWireCar_flags_eq]
    simp [hflat, hP, hcsr, hQ]

/-- C36, witness: under the one-point CAR curve of ratio 3, the record with CAR
4 and diff-CAR 1 is reported, the record with CAR 2 and diff-CAR 5 is not. -/
theorem checkWireCar_pwl_plain_car_witness :
    (checkWireCar (ex_graph_isolated (ex_metal1 (some ex_rule_pwl_car)))
        { ex_ar 0 4 with diff_CAR_value := 1 } false false true).1 = true
      ∧ (checkWireCar (ex_graph_isolated (ex_metal1 (some ex_rule_pwl_car)))
        { ex_ar 0 2 with diff_CAR_value := 5 } false false true).1 = false
      ∧ ((checkWireCar_flags ex_rule_pwl_car (ex_ar 0 4) false).diff_car_violation = true
        ↔ (ex_ar 0 4).CAR_value
            > getPwlFactor ex_rule_pwl_car.getDiffCAR (ex_ar 0 4).diff_area 0) :=
  ⟨by decide!, by decide!,
    (checkWireCar_pwl_plain_car (ex_graph_isolated (ex_metal1 (some ex_rule_pwl_car)))
      (ex_ar 0 4) ex_rule_pwl_car false true rfl rfl (by decide!)).1⟩

/-- C37. `checkViolation` and `checkWirePar` agree: for every PAR record `p`
and layer, `checkViolation(p, layer)` is the violation flag of `checkWirePar`
on a cumulative record with the same PAR, PSR, diff-PAR and diff-PSR values,
the diffusion area of `p` and a wireroot on that layer, for both values of the
report and print flags. -/
theorem checkViolation_eq_checkWirePar (g : dbWireGraph) (p : PARinfo) (ar : ARinfo)
    (layer : dbTechLayer) (report_violating_nets pr : Bool)
    (hlayer : (g.node ar.WirerootNode).layer = layer)
    (hpar : ar.PAR_value = p.PAR_value) (hpsr : ar.PSR_value = p.PSR_value)
    (hdpar : ar.diff_PAR_value = p.diff_PAR_value)
    (hdpsr : ar.diff_PSR_value = p.diff_PSR_value)
    (harea : ar.diff_area = p.iterm_areas.2) :
    checkViolation p layer = (checkWirePar g ar report_violating_nets pr).1 := by
  cases hrule : layer.getDefaultAntennaRule with
  | none =>
    have h1 : checkViolation p layer = false := by simp [checkViolation, hrule]
    have h2 : checkWirePar g ar report_violating_nets pr = (false, false) := by
      simp [checkWirePar, hlayer, hrule]
    rw [h1, h2]
  | some rule =>
    rw [checkViolation_eq p layer rule hrule,
      checkWirePar_eq g ar rule report_violating_nets pr (by rw [hlayer]; exact hrule),
      checkWirePar_flags_eq]
    simp only [hpar, hpsr, hdpar, hdpsr, harea]

/-- C37, witness: under the flat PAR threshold 1.5 the record with PAR 4 of the
wire on a gate violates for both functions. -/
theorem checkViolation_eq_checkWirePar_witness :
    checkViolation ex_par_gate (ex_metal1 (some ex_rule_flat_par)) = true
      ∧ checkViolation ex_par_gate (ex_metal1 (some ex_rule_flat_par))
        = (checkWirePar (ex_graph_isolated (ex_metal1 (some ex_rule_flat_par)))
            { ex_ar 4 0 with diff_PAR_value := 4 } false true).1 :=
  ⟨by decide!,
    checkViolation_eq_checkWirePar (ex_graph_isolated (ex_metal1 (some ex_rule_flat_par)))
      ex_par_gate { ex_ar 4 0 with diff_PAR_value := 4 } (ex_metal1 (some ex_rule_flat_par))
      false true rfl rfl rfl rfl rfl rfl⟩

/-- C32. Suppression without a violation.  `checkWirePar` returns `checked =
true` whenever a PWL PAR or PSR threshold was applied (flat threshold 0 and PWL
value nonzero), whether or not it was exceeded.  So a record that passes the
PAR check under a PWL threshold, on a layer without PSR threshold, is not
reported by `checkWirePar` followed by `checkWireCar`, as `getAntennaRatio`
combines them, whatever its CAR value and the CAR thresholds of the rule; and
there are a rule and a record whose CAR value exceeds the nonzero flat CAR
threshold of the rule and that are not reported. -/
theorem checkWirePar_checked_without_violation (g : dbWireGraph) (ar : ARinfo)
    (rule : dbTechLayerAntennaRule) (report_violating_nets pr : Bool)
    (hrule : (g.node ar.WirerootNode).layer.getDefaultAntennaRule = some rule)
    (happlied : (rule.getPAR = 0 ∧ getPwlFactor rule.getDiffPAR ar.diff_area 0 ≠ 0)
      ∨ (rule.getPSR = 0 ∧ getPwlFactor rule.getDiffPSR ar.diff_area 0 ≠ 0)) :
    (checkWirePar g ar report_violating_nets pr).2 = true
      ∧ ((checkWirePar g ar report_violating_nets true).1 = false →
          ∀ st, getAntennaRatio_wire g report_violating_nets ar.GateNode st ar = st)
      ∧ ∃ (g2 : dbWireGraph) (ar2 : ARinfo) (rule2 : dbTechLayerAntennaRule),
          (g2.node ar2.WirerootNode).layer.getDefaultAntennaRule = some rule2
            ∧ rule2.getPAR = 0 ∧ getPwlFactor rule2.getDiffPAR ar2.diff_area 0 ≠ 0
            ∧ ¬ ar2.diff_PAR_value > getPwlFactor rule2.getDiffPAR ar2.diff_area 0
            ∧ rule2.getCAR ≠ 0 ∧ ar2.CAR_value > rule2.getCAR
            ∧ (checkWirePar g2 ar2 report_violating_nets true).1 = false
            ∧ (checkWireCar g2 ar2 (checkWirePar g2 ar2 report_violating_nets true).2
                report_violating_nets true).1 = false
            ∧ ∀ st, getAntennaRatio_wire g2 report_violating_nets ar2.GateNode st ar2 = st := by
  have hchecked : ∀ q, (checkWirePar g ar report_violating_nets q).2 = true := by
    intro q
    rw [checkWirePar_eq g ar rule report_violating_nets q hrule, checkWirePar_flags_eq]
    simpa using happlied
  refine ⟨hchecked pr, ?_, ?_⟩
  · intro hpass st
    have hcar : (checkWireCar g ar true report_violating_nets true).1 = false := by
      rw [checkWireCar_eq g ar rule true report_violating_nets true hrule,
        checkWireCar_flags_eq]
      simp
    simp only [getAntennaRatio_wire, if_true, hchecked true, hpass, hcar, Bool.or_self,
      Bool.false_eq_true, if_false]
  · refine ⟨ex_graph_isolated (ex_metal1 (some ex_rule_flat_car_pwl_par)), ex_ar 0 2,
      ex_rule_flat_car_pwl_par, rfl, rfl, by decide!, by decide!, by decide!, by decide!, ?_, ?_,
      ?_⟩
    · cases report_violating_nets <;> decide!
    · cases report_violating_nets <;> decide!
    · intro st
      have h1 : (checkWirePar (ex_graph_isolated (ex_metal1 (some ex_rule_flat_car_pwl_par)))
          (ex_ar 0 2) report_violating_nets true) = (false, true) := by
        cases report_violating_nets <;> decide!
      have h2 : (checkWireCar (ex_graph_isolated (ex_metal1 (some ex_rule_flat_car_pwl_par)))
          (ex_ar 0 2) true report_violating_nets true) = (false, false) := by
        cases report_violating_nets <;> decide!
      simp only [getAntennaRatio_wire, if_true, h1, h2, Bool.or_self, Bool.false_eq_true,
        if_false]

/-- C32, witness: under the flat CAR threshold 1 and the one-point PAR curve of
ratio 100, the record with diff-PAR 0 and CAR 2 passes the PAR check, is marked
checked, and is not reported although its CAR exceeds 1. -/
theorem checkWirePar_checked_without_violation_witness :
    checkWirePar (ex_graph_isolated (ex_metal1 (some ex_rule_flat_car_pwl_par))) (ex_ar 0 2)
        false true = (false, true)
      ∧ (ex_ar 0 2).CAR_value > ex_rule_flat_car_pwl_par.getCAR
      ∧ getAntennaRatio_wire (ex_graph_isolated (ex_metal1 (some ex_rule_flat_car_pwl_par)))
          false 1 ⟨false, false, []⟩ (ex_ar 0 2) = ⟨false, false, []⟩
      ∧ (checkWirePar (ex_graph_isolated (ex_metal1 (some ex_rule_flat_car_pwl_par)))
          (ex_ar 0 2) false true).2 = true :=
  ⟨by decide!, by decide!, by decide!,
    (checkWirePar_checked_without_violation
      (ex_graph_isolated (ex_metal1 (some ex_rule_flat_car_pwl_par))) (ex_ar 0 2)
      ex_rule_flat_car_pwl_par false true rfl (Or.inl ⟨rfl, by decide!⟩)).1⟩

/-! ## Diodes and a flat PAR threshold -/

/-- On a layer whose two metal factors are equal, the PAR value that
`calculateParInfo` computes does not depend on the diffusion area. -/
theorem calculateParInfo_PAR_diff (ck : AntennaChecker) (g : dbWireGraph) (p : PARinfo)
    (a : ℚ)
    (hfactor : (layer_info_at ck.layer_info (g.node p.WirerootNode).layer).metal_factor
      = (layer_info_at ck.layer_info (g.node p.WirerootNode).layer).diff_metal_factor) :
    PARinfo.PAR_value (calculateParInfo ck g
        { calculateParInfo ck g p with
          iterm_areas := ((calculateParInfo ck g p).iterm_areas.1, a) })
      = (calculateParInfo ck g p).PAR_value := by
  by_cases hg : p.iterm_areas.1 = 0
  · simp [calculateParInfo, hg]
  · by_cases ha : a = 0 <;> by_cases hb : p.iterm_areas.2 = 0 <;>
      simp [calculateParInfo, hg, ha, hb, hfactor]

/-- Under the same condition, every record with diodes has the PAR value of the
record without. -/
theorem diode_record_PAR (ck : AntennaChecker) (g : dbWireGraph) (d : ℚ) (p : PARinfo)
    (hfactor : (layer_info_at ck.layer_info (g.node p.WirerootNode).layer).metal_factor
      = (layer_info_at ck.layer_info (g.node p.WirerootNode).layer).diff_metal_factor)
    (j : Nat) :
    (diode_record ck g d (calculateParInfo ck g p) j).PAR_value
      = (calculateParInfo ck g p).PAR_value := by
  by_cases hj : j = 0
  · simp [diode_record, hj]
  · simp only [diode_record, if_neg hj]
    exact calculateParInfo_PAR_diff ck g p _ hfactor

/-- For a layer with a rule whose area factor is not for diffusion use only,
`loadAntennaRules` stores equal metal factors. -/
theorem loadAntennaRules_metal_factor (stod : String → Option ℚ) (layer : dbTechLayer)
    (layers : List dbTechLayer) (t0 t : List (dbTechLayer × ANTENNAmodel))
    (rule : dbTechLayerAntennaRule)
    (hmem : layer ∈ layers) (h : loadAntennaRules stod layers t0 = some t)
    (hrule : layer.getDefaultAntennaRule = some rule)
    (huse : rule.isAreaFactorDiffUseOnly = false) :
    (layer_info_at t layer).metal_factor = (layer_info_at t layer).diff_metal_factor := by
  have h1 := loadAntennaRules_at stod layer layers t0 t hmem h
  simp only [loadAntennaRules_layer, hrule] at h1
  obtain ⟨f, _, hf⟩ := Option.map_eq_some'.mp h1
  rw [← hf]
  simp [huse]

/-! ## Idempotence of `findSegmentRoot` -/

/-- What `findSegmentRoot` returns is the node itself or what it returns on
the source of the incoming edge. -/
theorem findSegmentRoot_cases (g : dbWireGraph) (level : Int) (fuel n r : Nat)
    (h : findSegmentRoot g (fuel + 1) n level = some r) :
    r = n ∨ ∃ e, (g.node n).in_edge = some e ∧ findSegmentRoot g fuel e.source level = some r := by
  unfold findSegmentRoot at h
  cases he : (g.node n).in_edge with
  | none =>
    rw [he] at h
    simp only [Option.some.injEq] at h
    exact Or.inl h.symm
  | some e =>
    rw [he] at h
    simp only [] at h
    cases hty : e.type <;> rw [hty] at h <;> simp only [] at h
    · exact Or.inr ⟨e, rfl, h⟩
    · split_ifs at h with hl
      · exact Or.inl (Option.some.inj h).symm
      · cases hr : findSegmentRoot g fuel e.source level with
        | none => rw [hr] at h; simp at h
        | some r2 =>
          rw [hr] at h
          simp only [] at h
          split_ifs at h
          · exact Or.inr ⟨e, rfl, by rw [← Option.some.inj h]; exact hr⟩
          · exact Or.inl (Option.some.inj h).symm
    · split_ifs at h with hl
      · exact Or.inl (Option.some.inj h).symm
      · cases hr : findSegmentRoot g fuel e.source level with
        | none => rw [hr] at h; simp at h
        | some r2 =>
          rw [hr] at h
          simp only [] at h
          split_ifs at h
          · exact Or.inr ⟨e, rfl, by rw [← Option.some.inj h]; exact hr⟩
          · exact Or.inl (Option.some.inj h).symm
    · exact Or.inr ⟨e, rfl, h⟩

/-- More fuel does not change what `findSegmentRoot` returns. -/
theorem findSegmentRoot_fuel_succ (g : dbWireGraph) (level : Int) :
    ∀ (fuel n r : Nat), findSegmentRoot g fuel n level = some r →
      findSegmentRoot g (fuel + 1) n level = some r := by
  intro fuel
  induction fuel with
  | zero => intro n r h; simp [findSegmentRoot] at h
  | succ fuel ih =>
    intro n r h
    rw [findSegmentRoot] at h ⊢
    cases he : (g.node n).in_edge with
    | none => rw [he] at h; exact h
    | some e =>
      rw [he] at h
      simp only [] at h ⊢
      cases hty : e.type <;> rw [hty] at h <;> simp only [] at h ⊢
      · exact ih _ _ h
      · split_ifs at h ⊢ with hl
        · exact h
        · cases hr : findSegmentRoot g fuel e.source level with
          | none => rw [hr] at h; simp at h
          | some r2 =>
            rw [hr] at h
            rw [ih _ _ hr]
            exact h
      · split_ifs at h ⊢ with hl
        · exact h
        · cases hr : findSegmentRoot g fuel e.source level with
          | none => rw [hr] at h; simp at h
          | some r2 =>
            rw [hr] at h
            rw [ih _ _ hr]
            exact h
      · exact ih _ _ h

/-- On what it returns, `findSegmentRoot` returns the same node again. -/
theorem findSegmentRoot_idem (g : dbWireGraph) (level : Int) :
    ∀ (fuel n r : Nat), findSegmentRoot g fuel n level = some r →
      findSegmentRoot g fuel r level = some r := by
  intro fuel
  induction fuel with
  | zero => intro n r h; simp [findSegmentRoot] at h
  | succ fuel ih =>
    intro n r h
    rcases findSegmentRoot_cases g level fuel n r h with h1 | ⟨e, _, h1⟩
    · rw [h1]; rw [h1] at h; exact h
    · exact findSegmentRoot_fuel_succ g level fuel r r (ih _ _ h1)

/-- When the SEGMENT and SHORT edges join nodes of the same routing level, the
node `findSegmentRoot` returns for a node at the level of this node is on that
level. -/
theorem findSegmentRoot_level (g : dbWireGraph)
    (hin : ∀ n ∈ g.nodes, ∀ e, (g.node n).in_edge = some e → e.source ∈ g.nodes)
    (hseg : ∀ n ∈ g.nodes, ∀ e, (g.node n).in_edge = some e →
      (e.type = EdgeType.SEGMENT ∨ e.type = EdgeType.SHORT) →
        (g.node e.source).layer.getRoutingLevel = (g.node n).layer.getRoutingLevel)
    (level : Int) :
    ∀ (fuel n r : Nat), n ∈ g.nodes → (g.node n).layer.getRoutingLevel = level →
      findSegmentRoot g fuel n level = some r → (g.node r).layer.getRoutingLevel = level := by
  intro fuel
  induction fuel with
  | zero => intro n r _ _ h; simp [findSegmentRoot] at h
  | succ fuel ih =>
    intro n r hn hl h
    unfold findSegmentRoot at h
    cases he : (g.node n).in_edge with
    | none =>
      rw [he] at h
      simp only [Option.some.injEq] at h
      rw [← h]; exact hl
    | some e =>
      rw [he] at h
      simp only [] at h
      have hsrc := hin n hn e he
      cases hty : e.type <;> rw [hty] at h <;> simp only [] at h
      · exact ih _ _ hsrc ((hseg n hn e he (Or.inl hty)).trans hl) h
      · split_ifs at h with hl2
        · rw [← Option.some.inj h]; exact hl
        · cases hr : findSegmentRoot g fuel e.source level with
          | none => rw [hr] at h; simp at h
          | some r2 =>
            rw [hr] at h
            simp only [] at h
            split_ifs at h with h3
            · rw [← Option.some.inj h]; exact h3
            · rw [← Option.some.inj h]; exact hl
      · split_ifs at h with hl2
        · rw [← Option.some.inj h]; exact hl
        · cases hr : findSegmentRoot g fuel e.source level with
          | none => rw [hr] at h; simp at h
          | some r2 =>
            rw [hr] at h
            simp only [] at h
            split_ifs at h with h3
            · rw [← Option.some.inj h]; exact h3
            · rw [← Option.some.inj h]; exact hl
      · exact ih _ _ hsrc ((hseg n hn e he (Or.inr hty)).trans hl) h

/-- C40. `findSegmentRoot` is idempotent.  On a tree-shaped wire graph, for
every level `L` and with enough fuel, `findSegmentRoot` returns on every node
`n` a node `r`, and on `r` it returns `r` again; and when the SEGMENT and SHORT
edges join nodes of the same routing level and `L` is the level of `n`, the
node `r` is on the level of `n`. -/
theorem findSegmentRoot_idempotent (g : dbWireGraph) (hwf : g.WellFormed) (level : Int) :
    ∃ fuel0, ∀ fuel, fuel0 ≤ fuel → ∀ n ∈ g.nodes,
      ∃ r, findSegmentRoot g fuel n level = some r
        ∧ findSegmentRoot g fuel r level = some r
        ∧ ((∀ m ∈ g.nodes, ∀ e, (g.node m).in_edge = some e →
              (e.type = EdgeType.SEGMENT ∨ e.type = EdgeType.SHORT) →
                (g.node e.source).layer.getRoutingLevel = (g.node m).layer.getRoutingLevel) →
            level = (g.node n).layer.getRoutingLevel →
              (g.node r).layer.getRoutingLevel = (g.node n).layer.getRoutingLevel) := by
  obtain ⟨depth, hdepth⟩ := hwf.acyclic
  refine ⟨(g.nodes.map depth).sum + 1, ?_⟩
  intro fuel hfuel n hn
  have hd := depth_le_sum depth g.nodes n hn
  obtain ⟨r, hr, _, _⟩ :=
    findSegmentRoot_returns g depth level hwf.in_source hdepth fuel n hn (by omega)
  refine ⟨r, hr, findSegmentRoot_idem g level fuel n r hr, ?_⟩
  intro hseg hl
  have := findSegmentRoot_level g hwf.in_source hseg level fuel n r hn hl.symm hr
  rw [this, hl]

/-- C40, witness: on the two-level net the root of node 3 at level 2 is node
2, which is its own root, and on level 2. -/
theorem findSegmentRoot_idempotent_witness :
    findSegmentRoot (ex_net_two_level (ex_metal1 none) ex_metal2 (ex_via1 none) []) 10 3 2
        = some 2
      ∧ findSegmentRoot (ex_net_two_level (ex_metal1 none) ex_metal2 (ex_via1 none) []) 10 2 2
        = some 2
      ∧ ∃ fuel0, ∀ fuel, fuel0 ≤ fuel →
        ∀ n ∈ (ex_net_two_level (ex_metal1 none) ex_metal2 (ex_via1 none) []).nodes,
        ∃ r, findSegmentRoot (ex_net_two_level (ex_metal1 none) ex_metal2 (ex_via1 none) [])
              fuel n 2 = some r
          ∧ findSegmentRoot (ex_net_two_level (ex_metal1 none) ex_metal2 (ex_via1 none) [])
              fuel r 2 = some r
          ∧ ((∀ m ∈ (ex_net_two_level (ex_metal1 none) ex_metal2 (ex_via1 none) []).nodes,
                ∀ e, ((ex_net_two_level (ex_metal1 none) ex_metal2 (ex_via1 none) []).node
                    m).in_edge = some e →
                (e.type = EdgeType.SEGMENT ∨ e.type = EdgeType.SHORT) →
                  ((ex_net_two_level (ex_metal1 none) ex_metal2 (ex_via1 none) []).node
                      e.source).layer.getRoutingLevel
                    = ((ex_net_two_level (ex_metal1 none) ex_metal2 (ex_via1 none) []).node
                      m).layer.getRoutingLevel) →
              2 = ((ex_net_two_level (ex_metal1 none) ex_metal2 (ex_via1 none) []).node
                  n).layer.getRoutingLevel →
                ((ex_net_two_level (ex_metal1 none) ex_metal2 (ex_via1 none) []).node
                    r).layer.getRoutingLevel
                  = ((ex_net_two_level (ex_metal1 none) ex_metal2 (ex_via1 none) []).node
                    n).layer.getRoutingLevel) :=
  ⟨by decide, by decide,
    findSegmentRoot_idempotent (ex_net_two_level (ex_metal1 none) ex_metal2 (ex_via1 none) [])
      (ex_net_two_level_wellFormed _ _ _ _).1 2⟩

/-! ## `findVia` and the via area -/

/-- A via counted from the target of a followed edge is counted from its
source node. -/
theorem via_counted_step (g : dbWireGraph) (level : Int) (n : Nat) (e v : Edge)
    (he : e ∈ (g.node n).out_edges) (hf : via_followed g level e)
    (h : via_counted g level e.target v) : via_counted g level n v := by
  obtain ⟨hty, m, hm, hcase⟩ := h
  exact ⟨hty, m, Relation.ReflTransGen.head ⟨e, he, rfl, hf⟩ hm, hcase⟩

/-- The loops of `calculateViaArea` and `findVia` over the same edges, run side
by side: when the sum has changed, the search has found an edge. -/
theorem findVia_loop_of_area (ck : AntennaChecker) (g : dbWireGraph) (level : Int) (n : Nat)
    (recurse : Nat → Option ℚ) (step : Edge → Option (Option Edge))
    (hstep : ∀ e ∈ (g.node n).out_edges, ∀ acc acc1,
      calculateViaArea_edge ck g level recurse acc e = some acc1 →
        ∃ r1, step e = some r1 ∧ (acc1 ≠ acc → r1 ≠ none)
          ∧ ∀ v, r1 = some v → via_counted g level n v) :
    ∀ (l : List Edge), (∀ e ∈ l, e ∈ (g.node n).out_edges) → ∀ acc a,
      l.foldlM (calculateViaArea_edge ck g level recurse) acc = some a →
        ∃ r, findVia_loop step l = some r ∧ (a ≠ acc → r ≠ none)
          ∧ ∀ v, r = some v → via_counted g level n v := by
  intro l
  induction l with
  | nil =>
    intro _ acc a h
    simp only [List.foldlM_nil] at h
    refine ⟨none, rfl, ?_, ?_⟩
    · intro hne
      exact absurd (Option.some.inj h).symm hne
    · intro v hv; simp at hv
  | cons e rest ih =>
    intro hl acc a h
    simp only [List.foldlM_cons] at h
    obtain ⟨acc1, h1, h2⟩ := Option.bind_eq_some.mp h
    obtain ⟨r1, hr1, hne1, hc1⟩ := hstep e (hl e (by simp)) acc acc1 h1
    cases r1 with
    | some v =>
      refine ⟨some v, ?_, fun _ => by simp, hc1⟩
      simp only [findVia_loop, hr1]
    | none =>
      have hacc : acc1 = acc := by
        by_contra hcon
        exact hne1 hcon rfl
      subst hacc
      obtain ⟨r, hr, hne, hc⟩ := ih (fun x hx => hl x (by simp [hx])) acc1 a h2
      refine ⟨r, ?_, hne, hc⟩
      simp only [findVia_loop, hr1]
      exact hr

/-- Whenever `calculateViaArea` returns, `findVia` returns with the same fuel;
it returns an edge when the area is not 0, and every edge it returns is a via
counted in the area. -/
theorem findVia_of_area (ck : AntennaChecker) (g : dbWireGraph) (level : Int) :
    ∀ (fuel n : Nat) (a : ℚ), calculateViaArea ck g fuel n level = some a →
      ∃ r, findVia g fuel n level = some r ∧ (a ≠ 0 → r ≠ none)
        ∧ ∀ v, r = some v → via_counted g level n v := by
  intro fuel
  induction fuel with
  | zero => intro n a h; simp [calculateViaArea] at h
  | succ fuel ih =>
    intro n a h
    rw [calculateViaArea] at h
    rw [findVia]
    have hstep : ∀ step : Edge → Option (Option Edge),
        (∀ e, ((e.type = EdgeType.SEGMENT ∨ e.type = EdgeType.SHORT) →
              step e = findVia g fuel e.target level)
            ∧ ((e.type = EdgeType.VIA ∨ e.type = EdgeType.TECH_VIA) →
              (g.node e.target).layer.getRoutingLevel > level → step e = some (some e))
            ∧ ((e.type = EdgeType.VIA ∨ e.type = EdgeType.TECH_VIA) →
              ¬ (g.node e.target).layer.getRoutingLevel > level →
                step e = findVia g fuel e.target level)) →
        ∀ e ∈ (g.node n).out_edges, ∀ acc0 acc1,
          calculateViaArea_edge ck g level
              (fun next => calculateViaArea ck g fuel next level) acc0 e = some acc1 →
            ∃ r1, step e = some r1 ∧ (acc1 ≠ acc0 → r1 ≠ none)
              ∧ ∀ v, r1 = some v → via_counted g level n v := by
      intro step hS e he acc0 acc1 h1
      obtain ⟨hS1, hS2, hS3⟩ := hS e
      have hrec : ∀ below, calculateViaArea ck g fuel e.target level = some below →
          acc1 = acc0 + below → via_followed g level e →
          ∃ r1, findVia g fuel e.target level = some r1 ∧ (acc1 ≠ acc0 → r1 ≠ none)
            ∧ ∀ v, r1 = some v → via_counted g level n v := by
        intro below hb hsum hf
        obtain ⟨r1, hr1, hne1, hc1⟩ := ih e.target below hb
        refine ⟨r1, hr1, ?_, fun v hv => via_counted_step g level n e v he hf (hc1 v hv)⟩
        intro hne
        apply hne1
        intro h0
        apply hne
        rw [hsum, h0, add_zero]
      unfold calculateViaArea_edge at h1
      cases hty : e.type <;> rw [hty] at h1 <;> simp only [] at h1
      · obtain ⟨below, hb, hsum⟩ := Option.map_eq_some'.mp h1
        rw [hS1 (Or.inl hty)]
        exact hrec below hb hsum.symm (Or.inl (Or.inl hty))
      · split_ifs at h1 with hl
        · rw [hS2 (Or.inr hty) hl]
          exact ⟨some e, rfl, fun _ => by simp,
            fun v hv => by
              rw [← Option.some.inj hv]
              exact ⟨Or.inr hty, n, Relation.ReflTransGen.refl, Or.inr ⟨he, hl⟩⟩⟩
        · obtain ⟨below, hb, hsum⟩ := Option.map_eq_some'.mp h1
          rw [hS3 (Or.inr hty) hl]
          exact hrec below hb hsum.symm (Or.inr ⟨Or.inr hty, not_lt.mp hl⟩)
      · split_ifs at h1 with hl
        · rw [hS2 (Or.inl hty) hl]
          exact ⟨some e, rfl, fun _ => by simp,
            fun v hv => by
              rw [← Option.some.inj hv]
              exact ⟨Or.inl hty, n, Relation.ReflTransGen.refl, Or.inr ⟨he, hl⟩⟩⟩
        · obtain ⟨below, hb, hsum⟩ := Option.map_eq_some'.mp h1
          rw [hS3 (Or.inl hty) hl]
          exact hrec below hb hsum.symm (Or.inr ⟨Or.inl hty, not_lt.mp hl⟩)
      · obtain ⟨below, hb, hsum⟩ := Option.map_eq_some'.mp h1
        rw [hS1 (Or.inr hty)]
        exact hrec below hb hsum.symm (Or.inl (Or.inr hty))
    cases hie : (g.node n).in_edge with
    | none =>
      rw [hie] at h
      simp only [] at h ⊢
      refine findVia_loop_of_area ck g level n _ _ (hstep _ ?_) _ (fun e he => he) 0 a h
      intro e
      refine ⟨fun hh => ?_, fun hh hl => ?_, fun hh hl => ?_⟩
      · rcases hh with hh | hh <;> simp [hh]
      · rcases hh with hh | hh <;> simp [hh, hl]
      · rcases hh with hh | hh <;> simp [hh, hl]
    | some ie =>
      rw [hie] at h
      simp only [] at h ⊢
      by_cases hc : (ie.type = EdgeType.VIA ∨ ie.type = EdgeType.TECH_VIA)
          ∧ (g.node ie.source).layer.getRoutingLevel > level
      · rw [if_pos hc]
        exact ⟨some ie, rfl, fun _ => by simp,
          fun v hv => by
            rw [← Option.some.inj hv]
            exact ⟨hc.1, n, Relation.ReflTransGen.refl, Or.inl ⟨hie, hc.2⟩⟩⟩
      · rw [if_neg hc] at h ⊢
        simp only [] at h ⊢
        refine findVia_loop_of_area ck g level n _ _ (hstep _ ?_) _ (fun e he => he) 0 a h
        intro e
        refine ⟨fun hh => ?_, fun hh hl => ?_, fun hh hl => ?_⟩
        · rcases hh with hh | hh <;> simp [hh]
        · rcases hh with hh | hh <;> simp [hh, hl]
        · rcases hh with hh | hh <;> simp [hh, hl]

/-- On a tree-shaped graph `calculateViaArea` returns with more fuel than the
height left below its node. -/
theorem calculateViaArea_returns (ck : AntennaChecker) (g : dbWireGraph) (level : Int)
    (depth : Nat → Nat) (D : Nat)
    (hout : ∀ n ∈ g.nodes, ∀ e ∈ (g.node n).out_edges,
      e.source = n ∧ e.target ∈ g.nodes ∧ (g.node e.target).in_edge = some e)
    (hdepth : ∀ n ∈ g.nodes, ∀ e, (g.node n).in_edge = some e → depth e.source < depth n)
    (hD : ∀ n ∈ g.nodes, depth n ≤ D) :
    ∀ (fuel n : Nat), n ∈ g.nodes → D - depth n < fuel →
      ∃ a, calculateViaArea ck g fuel n level = some a := by
  intro fuel
  induction fuel with
  | zero => intro n _ h; omega
  | succ fuel ih =>
    intro n hn hfuel
    rw [calculateViaArea]
    have key := fun init : ℚ => foldlM_option_progress (fun _ : ℚ => True)
      (calculateViaArea_edge ck g level fun next => calculateViaArea ck g fuel next level)
      (g.node n).out_edges init trivial
      (by
        intro acc e he _
        obtain ⟨h1, h2, h3⟩ := hout n hn e he
        have hd := hdepth e.target h2 e h3
        rw [h1] at hd
        have hDt := hD e.target h2
        obtain ⟨below, hb⟩ := ih e.target h2 (by omega)
        unfold calculateViaArea_edge
        cases e.type <;> simp only [hb, Option.map_some']
        · exact ⟨_, rfl, trivial⟩
        · split_ifs
          · exact ⟨_, rfl, trivial⟩
          · exact ⟨_, rfl, trivial⟩
        · split_ifs
          · exact ⟨_, rfl, trivial⟩
          · exact ⟨_, rfl, trivial⟩
        · exact ⟨_, rfl, trivial⟩)
    exact (key _).imp fun res h => h.1

/-- C38. `findVia` is defined wherever a via area exists.  On a tree-shaped
wire graph, for every level `L` and with enough fuel, `calculateViaArea` and
`findVia` both return on every node `n`; when the area is not 0, `findVia`
returns an edge and not the null pointer; and every edge it returns is a VIA or
TECH_VIA that is the incoming edge, with source level above `L`, or an outgoing
edge, with target level above `L`, of `n` or of a node reached from `n`.  So
`findVia` on a wireroot at its level returns an edge whenever the via area of
the wireroot is not 0, which is where `buildViaParTable` looks up the via
layer. -/
theorem findVia_defined (ck : AntennaChecker) (g : dbWireGraph) (hwf : g.WellFormed)
    (level : Int) :
    ∃ fuel0, ∀ fuel, fuel0 ≤ fuel → ∀ n ∈ g.nodes,
      ∃ a r, calculateViaArea ck g fuel n level = some a ∧ findVia g fuel n level = some r
        ∧ (a ≠ 0 → ∃ e, r = some e)
        ∧ ∀ e, r = some e → via_counted g level n e := by
  obtain ⟨depth, hdepth⟩ := hwf.acyclic
  refine ⟨(g.nodes.map depth).sum + 1, ?_⟩
  intro fuel hfuel n hn
  obtain ⟨a, ha⟩ := calculateViaArea_returns ck g level depth (g.nodes.map depth).sum
    hwf.out_edge hdepth (depth_le_sum depth g.nodes) fuel n hn (by omega)
  obtain ⟨r, hr, hne, hc⟩ := findVia_of_area ck g level fuel n a ha
  refine ⟨a, r, ha, hr, ?_, hc⟩
  intro h0
  cases r with
  | none => exact absurd rfl (hne h0)
  | some e => exact ⟨e, rfl⟩

/-- C38, witness: on the two-level net the via area of node 0 at level 1 is
0.01, and `findVia` returns the via from node 1 up to node 2. -/
theorem findVia_defined_witness :
    calculateViaArea (ex_checker [])
        (ex_net_two_level (ex_metal1 none) ex_metal2 (ex_via1 none) []) 10 0 1 = some (1 / 100)
      ∧ findVia (ex_net_two_level (ex_metal1 none) ex_metal2 (ex_via1 none) []) 10 0 1
        = some (some (ex_via_up (ex_via1 none)))
      ∧ ∃ fuel0, ∀ fuel, fuel0 ≤ fuel →
        ∀ n ∈ (ex_net_two_level (ex_metal1 none) ex_metal2 (ex_via1 none) []).nodes,
        ∃ a r, calculateViaArea (ex_checker [])
              (ex_net_two_level (ex_metal1 none) ex_metal2 (ex_via1 none) []) fuel n 1 = some a
          ∧ findVia (ex_net_two_level (ex_metal1 none) ex_metal2 (ex_via1 none) []) fuel n 1
            = some r
          ∧ (a ≠ 0 → ∃ e, r = some e)
          ∧ ∀ e, r = some e →
            via_counted (ex_net_two_level (ex_metal1 none) ex_metal2 (ex_via1 none) []) 1 n e :=
  ⟨by decide!, by decide,
    findVia_defined (ex_checker [])
      (ex_net_two_level (ex_metal1 none) ex_metal2 (ex_via1 none) [])
      (ex_net_two_level_wellFormed _ _ _ _).1 1⟩

/-! ## Termination of the path search -/

/-- A predicate that implies another and fails on an element on which the
other holds is counted on fewer elements. -/
theorem countP_lt_countP {α : Type} (p q : α → Bool) :
    ∀ (l : List α), (∀ x ∈ l, p x = true → q x = true) →
      (∃ x ∈ l, p x = false ∧ q x = true) → l.countP p < l.countP q := by
  intro l
  induction l with
  | nil => intro _ h; obtain ⟨x, hx, _⟩ := h; simp at hx
  | cons a rest ih =>
    intro hpq hex
    have hle : rest.countP p ≤ rest.countP q :=
      List.countP_mono_left fun x hx h => hpq x (List.mem_cons_of_mem _ hx) h
    obtain ⟨x, hx, hpx, hqx⟩ := hex
    rcases List.mem_cons.mp hx with h1 | h1
    · subst h1
      rw [List.countP_cons_of_neg _ _ (by simp [hpx]), List.countP_cons_of_pos _ _ hqx]
      omega
    · have hlt := ih (fun y hy h => hpq y (List.mem_cons_of_mem _ hy) h) ⟨x, h1, hpx, hqx⟩
      by_cases hpa : p a = true
      · rw [List.countP_cons_of_pos _ _ hpa,
          List.countP_cons_of_pos _ _ (hpq a (List.mem_cons_self _ _) hpa)]
        omega
      · rw [List.countP_cons_of_neg _ _ hpa]
        by_cases hqa : q a = true
        · rw [List.countP_cons_of_pos _ _ hqa]; omega
        · rw [List.countP_cons_of_neg _ _ hqa]; exact hlt

/-- The rank of a level is at most the number of nodes. -/
theorem level_rank_le (g : dbWireGraph) (wire_level : Int) :
    level_rank g wire_level ≤ g.nodes.length :=
  List.countP_le_length _

/-- The level of a node below `wire_level` has a smaller rank. -/
theorem level_rank_lt (g : dbWireGraph) (wire_level : Int) (s : Nat) (hs : s ∈ g.nodes)
    (hlt : (g.node s).layer.getRoutingLevel < wire_level) :
    level_rank g (g.node s).layer.getRoutingLevel < level_rank g wire_level := by
  apply countP_lt_countP
  · intro x _ hx
    simp only [decide_eq_true_eq] at hx ⊢
    omega
  · exact ⟨s, hs, by simp, by simpa using hlt⟩

/-- The measure of a call of smaller rank is smaller. -/
theorem measure_lt_of_rank_lt (r1 r2 D x1 x2 : Nat) (h : r1 < r2) (hx : x1 ≤ D) :
    r1 * (D + 1) + x1 < r2 * (D + 1) + x2 := by
  have h2 := Nat.mul_le_mul_right (D + 1) (Nat.succ_le_of_lt h)
  rw [Nat.succ_mul] at h2
  omega

/-- The measure of a call of at most the same rank and less height is
smaller. -/
theorem measure_lt_of_height_lt (r1 r2 D x1 x2 : Nat) (h : r1 ≤ r2) (hx : x1 < x2) :
    r1 * (D + 1) + x1 < r2 * (D + 1) + x2 := by
  have h2 := Nat.mul_le_mul_right (D + 1) h
  omega

/-- On a tree-shaped graph whose SEGMENT and SHORT edges keep the routing
level, `findCarPath` returns with more fuel than the measure of its call. -/
theorem findCarPath_returns (g : dbWireGraph) (goal : Nat) (depth : Nat → Nat) (D : Nat)
    (hin : ∀ n ∈ g.nodes, ∀ e, (g.node n).in_edge = some e → e.source ∈ g.nodes)
    (hout : ∀ n ∈ g.nodes, ∀ e ∈ (g.node n).out_edges,
      e.source = n ∧ e.target ∈ g.nodes ∧ (g.node e.target).in_edge = some e)
    (hdepth : ∀ n ∈ g.nodes, ∀ e, (g.node n).in_edge = some e → depth e.source < depth n)
    (hD : ∀ n ∈ g.nodes, depth n ≤ D)
    (htarget : ∀ n ∈ g.nodes, ∀ e, (g.node n).in_edge = some e → e.target = n)
    (hseg : ∀ n ∈ g.nodes, ∀ e, (g.node n).in_edge = some e →
      (e.type = EdgeType.SEGMENT ∨ e.type = EdgeType.SHORT) →
        (g.node e.source).layer.getRoutingLevel = (g.node n).layer.getRoutingLevel) :
    ∀ (fuel n : Nat) (wire_level : Int) (st : CarPath), n ∈ g.nodes →
      findCarPath_measure g depth D n wire_level + D + 1 < fuel →
        ∃ res, findCarPath g fuel n wire_level goal st = some res := by
  intro fuel
  induction fuel with
  | zero => intro n _ _ _ h; omega
  | succ fuel ih =>
    intro n wire_level st hn hfuel
    have hDn := hD n hn
    have hrankle : (if (g.node n).layer.getRoutingLevel ≤ wire_level then level_rank g wire_level
        else g.nodes.length + 1) ≤ g.nodes.length + 1 := by
      split_ifs
      · have := level_rank_le g wire_level; omega
      · exact le_refl _
    have h_in : ∀ st1, ∃ st2, findCarPath_in g n (findSegmentRoot g fuel)
        (fun next level st => findCarPath g fuel next level goal st) st1 = some st2 := by
      intro st1
      unfold findCarPath_in
      cases hie : (g.node n).in_edge with
      | none => exact ⟨st1, rfl⟩
      | some e =>
        simp only []
        by_cases hc : (e.type = EdgeType.VIA ∨ e.type = EdgeType.TECH_VIA)
            ∧ (g.node e.source).layer.getRoutingLevel < (g.node e.target).layer.getRoutingLevel
        · rw [if_pos hc]
          have hs := hin n hn e hie
          have hds := hdepth n hn e hie
          have hlt : (g.node e.source).layer.getRoutingLevel
              < (g.node n).layer.getRoutingLevel := by
            have := hc.2
            rw [htarget n hn e hie] at this
            exact this
          obtain ⟨r, hr, hrn, hrd⟩ := findSegmentRoot_returns g depth
            (g.node e.source).layer.getRoutingLevel hin hdepth fuel e.source hs
            (by unfold findCarPath_measure at hfuel; omega)
          have hlr := findSegmentRoot_level g hin hseg _ fuel e.source r hs rfl hr
          rw [hr]
          simp only [Option.some_bind]
          apply ih r _ st1 hrn
          have hm : findCarPath_measure g depth D r (g.node e.source).layer.getRoutingLevel
              < findCarPath_measure g depth D n wire_level := by
            unfold findCarPath_measure
            rw [if_pos (le_of_eq hlr)]
            apply measure_lt_of_rank_lt _ _ _ _ _ _ (Nat.sub_le _ _)
            split_ifs with hle
            · exact level_rank_lt g wire_level e.source hs (lt_of_lt_of_le hlt hle)
            · have := level_rank_le g (g.node e.source).layer.getRoutingLevel
              omega
          omega
        · rw [if_neg hc]
          exact ⟨st1, rfl⟩
    have h_out : ∀ st2, ∃ st3, (g.node n).out_edges.foldlM
        (findCarPath_out g wire_level (findSegmentStart g fuel)
          (fun next level st => findCarPath g fuel next level goal st)) st2 = some st3 := by
      intro st2
      obtain ⟨res, hres, _⟩ := foldlM_option_progress (fun _ : CarPath => True)
        (findCarPath_out g wire_level (findSegmentStart g fuel)
          (fun next level st => findCarPath g fuel next level goal st))
        (g.node n).out_edges st2 trivial
        (by
          intro st e he _
          obtain ⟨h1, h2, h3⟩ := hout n hn e he
          have hd := hdepth e.target h2 e h3
          rw [h1] at hd
          have hDt := hD e.target h2
          have hseg_case : (e.type = EdgeType.SEGMENT ∨ e.type = EdgeType.SHORT) →
              ∃ st2, findCarPath g fuel e.target wire_level goal st = some st2 ∧ True := by
            intro hty
            have hl := hseg e.target h2 e h3 hty
            rw [h1] at hl
            obtain ⟨res, hres⟩ := ih e.target wire_level st h2 (by
              have hm : findCarPath_measure g depth D e.target wire_level
                  < findCarPath_measure g depth D n wire_level := by
                unfold findCarPath_measure
                rw [hl]
                exact measure_lt_of_height_lt _ _ _ _ _ (le_refl _) (by omega)
              omega)
            exact ⟨res, hres, trivial⟩
          have hvia_case : (e.type = EdgeType.VIA ∨ e.type = EdgeType.TECH_VIA) →
              (g.node e.target).layer.getRoutingLevel ≤ wire_level →
              ∃ st2, ((findSegmentStart g fuel e.target).bind fun first =>
                findCarPath g fuel first wire_level goal st) = some st2 ∧ True := by
            intro hty hl
            have hfuel1 : fuel = (fuel - 1) + 1 := by
              unfold findCarPath_measure at hfuel; omega
            have hstart : findSegmentStart g fuel e.target = some e.target := by
              rw [hfuel1]
              exact findSegmentStart_via g _ e.target e h3 hty
            rw [hstart]
            simp only [Option.some_bind]
            obtain ⟨res, hres⟩ := ih e.target wire_level st h2 (by
              have hm : findCarPath_measure g depth D e.target wire_level
                  < findCarPath_measure g depth D n wire_level := by
                unfold findCarPath_measure
                rw [if_pos hl]
                apply measure_lt_of_height_lt _ _ _ _ _ _ (by omega)
                split_ifs
                · exact le_refl _
                · have := level_rank_le g wire_level; omega
              omega)
            exact ⟨res, hres, trivial⟩
          unfold findCarPath_out
          cases hty : e.type <;> simp only []
          · exact hseg_case (Or.inl hty)
          · split_ifs with hl
            · exact hvia_case (Or.inr hty) hl
            · exact ⟨st, rfl, trivial⟩
          · split_ifs with hl
            · exact hvia_case (Or.inl hty) hl
            · exact ⟨st, rfl, trivial⟩
          · exact hseg_case (Or.inr hty))
      exact ⟨res, hres⟩
    rw [findCarPath]
    simp only []
    by_cases hg : n = goal
    · rw [if_pos hg]
      exact ⟨_, rfl⟩
    · rw [if_neg hg]
      obtain ⟨st2, h2⟩ := h_in { st with current_path := st.current_path ++ [n] }
      rw [h2]
      simp only [Option.some_bind]
      obtain ⟨st3, h3⟩ := h_out st2
      rw [h3]
      exact ⟨_, rfl⟩

/-- The incoming edges of the two-level net end at their node, and its
segments keep the layer. -/
theorem ex_net_two_level_edges (m1 m2 cut : dbTechLayer) (gates : List Nat) :
    (∀ n ∈ (ex_net_two_level m1 m2 cut gates).nodes, ∀ e,
        ((ex_net_two_level m1 m2 cut gates).node n).in_edge = some e → e.target = n)
      ∧ ∀ n ∈ (ex_net_two_level m1 m2 cut gates).nodes, ∀ e,
          ((ex_net_two_level m1 m2 cut gates).node n).in_edge = some e →
          (e.type = EdgeType.SEGMENT ∨ e.type = EdgeType.SHORT) →
            ((ex_net_two_level m1 m2 cut gates).node e.source).layer
              = ((ex_net_two_level m1 m2 cut gates).node n).layer := by
  have hnodes : ∀ n, n ∈ (ex_net_two_level m1 m2 cut gates).nodes ↔
      n = 0 ∨ n = 1 ∨ n = 2 ∨ n = 3 := by
    intro n; simp [ex_net_two_level]
  constructor
  · intro n hn e he
    rw [hnodes] at hn
    rcases hn with rfl | rfl | rfl | rfl <;> simp [ex_net_two_level] at he <;> subst he <;>
      simp [ex_segment, ex_via_up, ex_segment_top]
  · intro n hn e he hty
    rw [hnodes] at hn
    rcases hn with rfl | rfl | rfl | rfl <;> simp [ex_net_two_level] at he <;> subst he <;>
      simp [ex_net_two_level, ex_segment, ex_via_up, ex_segment_top] at hty ⊢

/-- C39. The path search terminates without a visited set.  On a finite
tree-shaped wire graph (every incoming edge ends at its node, no cycles) whose
SEGMENT and SHORT edges join nodes of the same routing level, with enough fuel,
`findCarPath` returns for every start node, level, goal and pair of vectors,
and the path stack on return is the path stack at entry. -/
theorem findCarPath_terminates (g : dbWireGraph) (hwf : g.WellFormed)
    (htarget : ∀ n ∈ g.nodes, ∀ e, (g.node n).in_edge = some e → e.target = n)
    (hseg : ∀ n ∈ g.nodes, ∀ e, (g.node n).in_edge = some e →
      (e.type = EdgeType.SEGMENT ∨ e.type = EdgeType.SHORT) →
        (g.node e.source).layer.getRoutingLevel = (g.node n).layer.getRoutingLevel) :
    ∃ fuel0, ∀ fuel, fuel0 ≤ fuel → ∀ start ∈ g.nodes, ∀ (wire_level : Int) (goal : Nat)
      (st : CarPath),
      ∃ res, findCarPath g fuel start wire_level goal st = some res
        ∧ res.current_path = st.current_path := by
  obtain ⟨depth, hdepth⟩ := hwf.acyclic
  refine ⟨(g.nodes.length + 1) * ((g.nodes.map depth).sum + 1) + (g.nodes.map depth).sum
    + (g.nodes.map depth).sum + 2, ?_⟩
  intro fuel hfuel start hstart wire_level goal st
  have hm : findCarPath_measure g depth (g.nodes.map depth).sum start wire_level
      ≤ (g.nodes.length + 1) * ((g.nodes.map depth).sum + 1) + (g.nodes.map depth).sum := by
    unfold findCarPath_measure
    have h1 : (if (g.node start).layer.getRoutingLevel ≤ wire_level then level_rank g wire_level
        else g.nodes.length + 1) ≤ g.nodes.length + 1 := by
      split_ifs
      · have := level_rank_le g wire_level; omega
      · exact le_refl _
    have h2 := Nat.mul_le_mul_right ((g.nodes.map depth).sum + 1) h1
    omega
  obtain ⟨res, hres⟩ := findCarPath_returns g goal depth (g.nodes.map depth).sum
    hwf.in_source hwf.out_edge hdepth (depth_le_sum depth g.nodes) htarget hseg fuel start
    wire_level st hstart (by omega)
  exact ⟨res, hres, (findCarPath_step g goal fuel start wire_level st.current_path st res rfl
    hres).1⟩

/-- C39, witness: on the two-level net the search from node 0 at level 1 for
the goal 3 returns with an empty stack; it has not found the goal, which is
above the level. -/
theorem findCarPath_terminates_witness :
    findCarPath (ex_net_two_level (ex_metal1 none) ex_metal2 (ex_via1 none) []) 10 0 1 3
        ⟨[], []⟩ = some ⟨[], []⟩
      ∧ ∃ fuel0, ∀ fuel, fuel0 ≤ fuel →
        ∀ start ∈ (ex_net_two_level (ex_metal1 none) ex_metal2 (ex_via1 none) []).nodes,
        ∀ (wire_level : Int) (goal : Nat) (st : CarPath),
          ∃ res, findCarPath (ex_net_two_level (ex_metal1 none) ex_metal2 (ex_via1 none) [])
                fuel start wire_level goal st = some res
            ∧ res.current_path = st.current_path :=
  ⟨by decide,
    findCarPath_terminates (ex_net_two_level (ex_metal1 none) ex_metal2 (ex_via1 none) [])
      (ex_net_two_level_wellFormed _ _ _ _).1 (ex_net_two_level_edges _ _ _ _).1
      (fun n hn e he hty => by rw [(ex_net_two_level_edges _ _ _ _).2 n hn e he hty])⟩

/-! ## Every cumulative record includes its own wireroot -/

/-- What `findSegmentRoot` returns is a node of the graph that is not deeper
than the node it was called on. -/
theorem findSegmentRoot_depth (g : dbWireGraph) (depth : Nat → Nat) (level : Int)
    (hin : ∀ n ∈ g.nodes, ∀ e, (g.node n).in_edge = some e → e.source ∈ g.nodes)
    (hdepth : ∀ n ∈ g.nodes, ∀ e, (g.node n).in_edge = some e → depth e.source < depth n) :
    ∀ (fuel n r : Nat), n ∈ g.nodes → findSegmentRoot g fuel n level = some r →
      r ∈ g.nodes ∧ depth r ≤ depth n := by
  intro fuel
  induction fuel with
  | zero => intro n r _ h; simp [findSegmentRoot] at h
  | succ fuel ih =>
    intro n r hn h
    rcases findSegmentRoot_cases g level fuel n r h with h1 | ⟨e, he, h1⟩
    · rw [h1]; exact ⟨hn, le_refl _⟩
    · have := ih e.source r (hin n hn e he) h1
      have hd := hdepth n hn e he
      exact ⟨this.1, by omega⟩

/-- A node that is its own segment root is classified as a segment root. -/
theorem ifSegmentRoot_of_self (g : dbWireGraph) (depth : Nat → Nat) (level : Int)
    (hin : ∀ n ∈ g.nodes, ∀ e, (g.node n).in_edge = some e → e.source ∈ g.nodes)
    (hdepth : ∀ n ∈ g.nodes, ∀ e, (g.node n).in_edge = some e → depth e.source < depth n)
    (fuel n : Nat) (b : Bool) (hn : n ∈ g.nodes)
    (hself : findSegmentRoot g fuel n level = some n)
    (hb : ifSegmentRoot g fuel n level = some b) : b = true := by
  cases fuel with
  | zero => simp [findSegmentRoot] at hself
  | succ f =>
    unfold ifSegmentRoot at hb
    unfold findSegmentRoot at hself
    cases he : (g.node n).in_edge with
    | none =>
      rw [he] at hb
      exact (Option.some.inj hb).symm
    | some e =>
      rw [he] at hb hself
      simp only [] at hb hself
      have hs := hin n hn e he
      have hd := hdepth n hn e he
      by_cases hobj : ((g.node n).object.map fun o => o.getObjectType)
          = some dbObjectType.dbITermObj
      · rw [if_pos hobj] at hb
        exact (Option.some.inj hb).symm
      · rw [if_neg hobj] at hb
        have hvia : (g.node e.source).layer.getRoutingLevel ≤ level →
            (match findSegmentRoot g f e.source level with
              | none => none
              | some new_root =>
                if (g.node new_root).layer.getRoutingLevel = level then some new_root
                else some n) = some n →
            ((findSegmentRoot g (f + 1) e.source level).map fun new_root =>
                if (g.node new_root).layer.getRoutingLevel = level then false else true)
              = some b → b = true := by
          intro _ h1 h2
          cases hr : findSegmentRoot g f e.source level with
          | none => rw [hr] at h1; simp at h1
          | some r =>
            rw [hr] at h1
            rw [findSegmentRoot_fuel_succ g level f e.source r hr] at h2
            simp only [Option.map_some', Option.some.injEq] at h2
            simp only [] at h1
            split_ifs at h1 h2 with hl
            · have hrd := (findSegmentRoot_depth g depth level hin hdepth f e.source r hs hr).2
              rw [Option.some.inj h1] at hrd
              omega
            · exact h2.symm
        cases hty : e.type <;> rw [hty] at hb hself <;> simp only [] at hb hself
        · have := (findSegmentRoot_depth g depth level hin hdepth f e.source n hs hself).2
          omega
        · by_cases hl : (g.node e.source).layer.getRoutingLevel ≤ level
          · rw [if_pos hl] at hb
            rw [if_neg (not_lt.mpr hl)] at hself
            exact hvia hl hself hb
          · rw [if_neg hl] at hb
            exact (Option.some.inj hb).symm
        · by_cases hl : (g.node e.source).layer.getRoutingLevel ≤ level
          · rw [if_pos hl] at hb
            rw [if_neg (not_lt.mpr hl)] at hself
            exact hvia hl hself hb
          · rw [if_neg hl] at hb
            exact (Option.some.inj hb).symm
        · have := (findSegmentRoot_depth g depth level hin hdepth f e.source n hs hself).2
          omega

/-- The vector `car_wireroots` holds the nodes of the path found that are
classified as segment roots, in the order of the path; when it is returned,
`ifSegmentRoot` has returned on every node of the path. -/
theorem car_wireroots_spec (g : dbWireGraph) (fuel : Nat) :
    ∀ (l acc roots : List Nat),
      l.foldlM
          (fun (roots : List Nat) (node : Nat) =>
            (ifSegmentRoot g fuel node (g.node node).layer.getRoutingLevel).map fun is_root =>
              if is_root then roots ++ [node] else roots)
          acc = some roots →
        (roots = acc ++ l.filter fun node =>
          decide (ifSegmentRoot g fuel node (g.node node).layer.getRoutingLevel = some true))
        ∧ ∀ x ∈ l, ∃ b, ifSegmentRoot g fuel x (g.node x).layer.getRoutingLevel = some b := by
  intro l
  induction l with
  | nil =>
    intro acc roots h
    have h2 : acc = roots := Option.some.inj h
    simp [h2]
  | cons x rest ih =>
    intro acc roots h
    simp only [List.foldlM_cons] at h
    obtain ⟨acc1, h1, h2⟩ := Option.bind_eq_some.mp h
    obtain ⟨b, hb, hacc⟩ := Option.map_eq_some'.mp h1
    obtain ⟨ih1, ih2⟩ := ih acc1 roots h2
    constructor
    · rw [ih1, ← hacc]
      cases b <;> simp [hb, List.filter_cons]
    · intro y hy
      rcases List.mem_cons.mp hy with h3 | h3
      · rw [h3]; exact ⟨b, hb⟩
      · exact ih2 y h3

/-- The wireroots of the records that the first loop of `buildWireParTable`
appends are taken from the wireroots in their order. -/
theorem buildWireParTable_loop_sublist (ck : AntennaChecker) (g : dbWireGraph) (fuel : Nat) :
    ∀ (ws : List Nat) (T0 : List PARinfo) (ln0 : List Nat) (T : List PARinfo) (ln : List Nat),
      buildWireParTable_loop ck g fuel ws (T0, ln0) = some (T, ln) →
        ∃ new : List PARinfo, T = T0 ++ new
          ∧ (new.map fun r => r.WirerootNode).Sublist ws := by
  intro ws
  induction ws with
  | nil =>
    intro T0 ln0 T ln h
    simp only [buildWireParTable_loop, Option.some.injEq, Prod.mk.injEq] at h
    exact ⟨[], by simp [h.1], by simp⟩
  | cons w rest ih =>
    intro T0 ln0 T ln h
    rw [buildWireParTable_loop] at h
    by_cases hw : w ∈ ln0
    · rw [if_pos hw] at h
      obtain ⟨new, h1, h2⟩ := ih T0 ln0 T ln h
      exact ⟨new, h1, List.Sublist.cons _ h2⟩
    · rw [if_neg hw] at h
      cases ha : calculateWireArea ck g fuel w (g.node w).layer.getRoutingLevel [] ln0 with
      | none => rw [ha] at h; simp at h
      | some areas =>
        rw [ha] at h
        simp only [] at h
        cases hb : findWireBelowIterms ck g fuel w (g.node w).layer.getRoutingLevel
            ⟨(0, 0), [], []⟩ with
        | none => rw [hb] at h; simp at h
        | some below =>
          rw [hb] at h
          simp only [] at h
          obtain ⟨new, h1, h2⟩ := ih _ _ T ln h
          refine ⟨(⟨w, below.iv, areas.wire_area, areas.side_wire_area, below.iterm_areas, 0, 0,
            0, 0⟩ : PARinfo) :: new, by rw [h1]; simp, ?_⟩
          simp only [List.map_cons]
          exact List.Sublist.cons₂ _ h2

/-- In a table whose records have distinct wireroots, the search for the
wireroot of a record finds that record. -/
theorem find_wireroot_of_nodup :
    ∀ (table : List PARinfo), (table.map fun r => r.WirerootNode).Nodup →
      ∀ p ∈ table, table.find? (fun par_itr => par_itr.WirerootNode = p.WirerootNode) = some p := by
  intro table
  induction table with
  | nil => intro _ p hp; simp at hp
  | cons a rest ih =>
    intro hnd p hp
    simp only [List.map_cons, List.nodup_cons] at hnd
    rcases List.mem_cons.mp hp with h1 | h1
    · subst h1
      simp [List.find?_cons]
    · have hne : a.WirerootNode ≠ p.WirerootNode := by
        intro heq
        apply hnd.1
        rw [heq]
        exact List.mem_map.mpr ⟨p, h1, rfl⟩
      simp only [List.find?_cons, hne, decide_False]
      exact ih hnd.2 p h1

/-- What one step of the loop of `buildWireCarTable` over `car_wireroots` adds
to the sum `csr`: the PSR value of the root. -/
theorem buildWireCarTable_root_csr (g : dbWireGraph) (PARtable VIA_PARtable : List PARinfo)
    (wireroot : Nat) (sums : CarSums) (car_root : Nat) :
    (buildWireCarTable_root g PARtable VIA_PARtable wireroot sums car_root).csr
      = sums.csr + psr_of PARtable car_root := by
  unfold buildWireCarTable_root psr_of
  cases hp : PARtable.find? (fun par_itr => par_itr.WirerootNode = car_root) <;>
    cases hv : VIA_PARtable.find? (fun via_par_itr => via_par_itr.WirerootNode = car_root) <;>
    cases hr : (g.node wireroot).layer.getDefaultAntennaRule <;>
    simp only []
  all_goals split_ifs
  all_goals simp_all
  all_goals split_ifs
  all_goals rfl

/-- The sum `csr` after the loop of `buildWireCarTable` over `car_wireroots`. -/
theorem buildWireCarTable_root_fold_csr (g : dbWireGraph)
    (PARtable VIA_PARtable : List PARinfo) (wireroot : Nat) :
    ∀ (roots : List Nat) (sums : CarSums),
      (roots.foldl (buildWireCarTable_root g PARtable VIA_PARtable wireroot) sums).csr
        = sums.csr + (roots.map (psr_of PARtable)).sum := by
  intro roots
  induction roots with
  | nil => intro sums; simp
  | cons r rest ih =>
    intro sums
    rw [List.foldl_cons, ih, buildWireCarTable_root_csr, List.map_cons, List.sum_cons]
    ring

/-- What a record pushed by `buildWireCarTable` comes from: a path found from
its wireroot to its gate, and the segment roots on that path. -/
theorem buildWireCarTable_record_inv (g : dbWireGraph) (fuel : Nat)
    (PARtable VIA_PARtable : List PARinfo) (gate : Nat) (ar_itr : PARinfo) (ar : ARinfo)
    (h : buildWireCarTable_record g fuel PARtable VIA_PARtable gate ar_itr = some (some ar)) :
    ∃ path roots,
      findCarPath g fuel ar_itr.WirerootNode (g.node ar_itr.WirerootNode).layer.getRoutingLevel
          gate ⟨[], []⟩ = some path
        ∧ path.path_found ≠ []
        ∧ car_wireroots g fuel path.path_found = some roots
        ∧ ar.WirerootNode = ar_itr.WirerootNode ∧ ar.GateNode = gate
        ∧ ar.PAR_value = ar_itr.PAR_value ∧ ar.PSR_value = ar_itr.PSR_value
        ∧ ar.CAR_value
            = (roots.map fun car_root =>
                par_of PARtable car_root
                  + if plus_cut (g.node ar_itr.WirerootNode).layer = true
                      ∧ (g.node car_root).layer.getRoutingLevel
                        < (g.node ar_itr.WirerootNode).layer.getRoutingLevel
                    then par_of VIA_PARtable car_root else 0).sum
        ∧ ar.CSR_value = (roots.map (psr_of PARtable)).sum := by
  unfold buildWireCarTable_record at h
  simp only [] at h
  obtain ⟨path, hpath, h2⟩ := Option.bind_eq_some.mp h
  by_cases hne : path.path_found ≠ []
  · rw [if_pos hne] at h2
    obtain ⟨roots, hroots, h3⟩ := Option.map_eq_some'.mp h2
    have h4 := Option.some.inj h3
    refine ⟨path, roots, hpath, hne, hroots, ?_, ?_, ?_, ?_, ?_, ?_⟩
    · rw [← h4]
    · rw [← h4]
    · rw [← h4]
    · rw [← h4]
    · rw [← h4]
      simp only [buildWireCarTable_root_fold_car, zero_add]
    · rw [← h4]
      simp only [buildWireCarTable_root_fold_csr, zero_add]
  · rw [if_neg hne] at h2
    simp at h2

/-- The list `getWireroots` returns holds no node twice, and each of its nodes
is the segment root of a graph node at the level of that node. -/
theorem getWireroots_mem (g : dbWireGraph) (fuel : Nat) (roots : List Nat)
    (h : getWireroots g fuel = some roots) :
    roots.Nodup ∧ ∀ r ∈ roots, ∃ n ∈ g.nodes,
      findSegmentRoot g fuel n (g.node n).layer.getRoutingLevel = some r := by
  unfold getWireroots at h
  obtain ⟨rs, hrs, hroots⟩ := getWireroots_loop g fuel g.nodes [] roots h
  rw [foldl_set_insert_eq_dedup] at hroots
  have hmem := forall₂_mem _ _ _ hrs
  constructor
  · rw [hroots]; exact List.nodup_reverse.mpr (List.nodup_dedup _)
  · intro r hr
    apply hmem.2 r
    rw [hroots] at hr
    simpa using hr

/-- The PAR and PSR values looked up in a table without negative values are
not negative. -/
theorem par_of_nonneg (table : List PARinfo)
    (h : ∀ p ∈ table, 0 ≤ p.PAR_value ∧ 0 ≤ p.PSR_value) (root : Nat) :
    0 ≤ par_of table root ∧ 0 ≤ psr_of table root := by
  unfold par_of psr_of
  cases hf : table.find? (fun par_itr => par_itr.WirerootNode = root) with
  | none => exact ⟨le_refl _, le_refl _⟩
  | some p => exact h p (List.mem_of_find?_eq_some hf)

/-- In a table whose records have distinct wireroots, the values looked up for
the wireroot of a record are those of the record. -/
theorem par_of_self (table : List PARinfo) (hnd : (table.map fun r => r.WirerootNode).Nodup)
    (p : PARinfo) (hp : p ∈ table) :
    par_of table p.WirerootNode = p.PAR_value ∧ psr_of table p.WirerootNode = p.PSR_value := by
  unfold par_of psr_of
  rw [find_wireroot_of_nodup table hnd p hp]
  exact ⟨rfl, rfl⟩

/-- C31. Every cumulative record includes its own wireroot.  On a tree-shaped
graph whose SEGMENT and SHORT edges join nodes of the same layer, for every
record of the wire CAR table built from the wireroots of `getWireroots` and
their PAR table: the wireroot `w` of the record is on the path found to its
gate and is classified as a segment root, so it is in `car_wireroots`, and
CAR_value = PAR_value + (the contributions of the other roots on the path),
CSR_value = PSR_value + (their PSR values).  Hence when no PAR or PSR value of
the PAR table is negative and the layer of `w` is not flagged "plus cut",
CAR_value ≥ PAR_value and CSR_value ≥ PSR_value. -/
theorem car_record_includes_wireroot (ck : AntennaChecker) (g : dbWireGraph) (fuel : Nat)
    (wireroots_info : List Nat) (PARtable VIA_PARtable : List PARinfo)
    (gate_iterms : List Nat) (CARtable : List ARinfo)
    (hwf : g.WellFormed)
    (hseg : ∀ n ∈ g.nodes, ∀ e, (g.node n).in_edge = some e →
      (e.type = EdgeType.SEGMENT ∨ e.type = EdgeType.SHORT) →
        (g.node e.source).layer = (g.node n).layer)
    (hroots : getWireroots g fuel = some wireroots_info)
    (hpar : buildWireParTable ck g fuel [] wireroots_info = some PARtable)
    (hcar : buildWireCarTable g fuel [] PARtable VIA_PARtable gate_iterms = some CARtable) :
    ∀ ar ∈ CARtable, ∃ path roots,
      findCarPath g fuel ar.WirerootNode (g.node ar.WirerootNode).layer.getRoutingLevel
          ar.GateNode ⟨[], []⟩ = some path
        ∧ car_wireroots g fuel path.path_found = some roots
        ∧ ar.WirerootNode ∈ path.path_found
        ∧ ifSegmentRoot g fuel ar.WirerootNode (g.node ar.WirerootNode).layer.getRoutingLevel
            = some true
        ∧ ar.WirerootNode ∈ roots
        ∧ ar.CAR_value
            = ar.PAR_value + ((roots.erase ar.WirerootNode).map fun car_root =>
                par_of PARtable car_root
                  + if plus_cut (g.node ar.WirerootNode).layer = true
                      ∧ (g.node car_root).layer.getRoutingLevel
                        < (g.node ar.WirerootNode).layer.getRoutingLevel
                    then par_of VIA_PARtable car_root else 0).sum
        ∧ ar.CSR_value
            = ar.PSR_value + ((roots.erase ar.WirerootNode).map (psr_of PARtable)).sum
        ∧ ((∀ p ∈ PARtable, 0 ≤ p.PAR_value ∧ 0 ≤ p.PSR_value) →
            plus_cut (g.node ar.WirerootNode).layer = false →
              ar.PAR_value ≤ ar.CAR_value ∧ ar.PSR_value ≤ ar.CSR_value) := by
  obtain ⟨depth, hdepth⟩ := hwf.acyclic
  have hseg2 : ∀ n ∈ g.nodes, ∀ e, (g.node n).in_edge = some e →
      (e.type = EdgeType.SEGMENT ∨ e.type = EdgeType.SHORT) →
        (g.node e.source).layer.getRoutingLevel = (g.node n).layer.getRoutingLevel := by
    intro n hn e he hty
    rw [hseg n hn e he hty]
  -- the wireroots
  obtain ⟨hwnd, hwmem⟩ := getWireroots_mem g fuel wireroots_info hroots
  -- the PAR table
  unfold buildWireParTable at hpar
  obtain ⟨st, hst, hT⟩ := Option.map_eq_some'.mp hpar
  obtain ⟨new, hnew, hsub⟩ := buildWireParTable_loop_sublist ck g fuel wireroots_info [] []
    st.1 st.2 hst
  rw [List.nil_append] at hnew
  have hmap : (PARtable.map fun r => r.WirerootNode) = new.map fun r => r.WirerootNode := by
    rw [← hT, hnew, List.map_map]
    apply List.map_congr_left
    intro r _
    exact (calculateParInfo_keeps ck g r).1
  have hTsub : (PARtable.map fun r => r.WirerootNode).Sublist wireroots_info := by
    rw [hmap]; exact hsub
  have hTnd : (PARtable.map fun r => r.WirerootNode).Nodup := hwnd.sublist hTsub
  -- the records
  unfold buildWireCarTable at hcar
  have hrec := car_table_loop (buildWireCarTable_record g fuel PARtable VIA_PARtable)
    (fun ar => ∃ gate p, p ∈ PARtable
      ∧ buildWireCarTable_record g fuel PARtable VIA_PARtable gate p = some (some ar))
    PARtable (fun gate p new_car hp h => ⟨gate, p, hp, h⟩) gate_iterms [] CARtable hcar
    (fun r hr => by simp at hr)
  intro ar har
  obtain ⟨gate, p, hp, hstep⟩ := hrec ar har
  obtain ⟨path, roots, hpath, hne, hcw, hw, hgate, hPAR, hPSR, hCAR, hCSR⟩ :=
    buildWireCarTable_record_inv g fuel PARtable VIA_PARtable gate p ar hstep
  -- the wireroot of the record is its own segment root
  have hpw : p.WirerootNode ∈ wireroots_info :=
    hTsub.subset (List.mem_map.mpr ⟨p, hp, rfl⟩)
  obtain ⟨n, hn, hroot⟩ := hwmem p.WirerootNode hpw
  have hwn := (findSegmentRoot_depth g depth _ hwf.in_source hdepth fuel n p.WirerootNode hn
    hroot).1
  have hlev := findSegmentRoot_level g hwf.in_source hseg2 _ fuel n p.WirerootNode hn rfl hroot
  have hself := findSegmentRoot_idem g _ fuel n p.WirerootNode hroot
  rw [← hlev] at hself
  -- it is on the path found
  have hhead := (findCarPath_step g gate fuel p.WirerootNode
    (g.node p.WirerootNode).layer.getRoutingLevel [] ⟨[], []⟩ path rfl hpath).2.2.2.2.1 rfl hne
  have honpath : p.WirerootNode ∈ path.path_found := by
    apply List.mem_of_mem_head?
    rw [hhead]
    simp
  -- it is classified as a segment root
  unfold car_wireroots at hcw
  obtain ⟨hfilter, hret⟩ := car_wireroots_spec g fuel path.path_found [] roots hcw
  obtain ⟨b, hb⟩ := hret p.WirerootNode honpath
  have hbt := ifSegmentRoot_of_self g depth _ hwf.in_source hdepth fuel p.WirerootNode b hwn
    hself hb
  rw [hbt] at hb
  have hinroots : p.WirerootNode ∈ roots := by
    rw [hfilter, List.nil_append]
    exact List.mem_filter.mpr ⟨honpath, by simpa using hb⟩
  -- the sums
  obtain ⟨hpar_self, hpsr_self⟩ := par_of_self PARtable hTnd p hp
  have hcar_split : ar.CAR_value
      = ar.PAR_value + ((roots.erase ar.WirerootNode).map fun car_root =>
          par_of PARtable car_root
            + if plus_cut (g.node ar.WirerootNode).layer = true
                ∧ (g.node car_root).layer.getRoutingLevel
                  < (g.node ar.WirerootNode).layer.getRoutingLevel
              then par_of VIA_PARtable car_root else 0).sum := by
    rw [hCAR, hw, hPAR, ← List.sum_map_erase _ hinroots, hpar_self]
    simp
  have hcsr_split : ar.CSR_value
      = ar.PSR_value + ((roots.erase ar.WirerootNode).map (psr_of PARtable)).sum := by
    rw [hCSR, hw, hPSR, ← List.sum_map_erase _ hinroots, hpsr_self]
  rw [← hw] at hpath honpath hb hinroots
  rw [← hgate] at hpath
  refine ⟨path, roots, hpath, hcw, honpath, hb, hinroots, hcar_split, hcsr_split, ?_⟩
  intro hnonneg hflag
  constructor
  · rw [hcar_split]
    apply le_add_of_nonneg_right
    apply List.sum_nonneg
    intro x hx
    obtain ⟨r, _, rfl⟩ := List.mem_map.mp hx
    simp only [hflag, Bool.false_eq_true, false_and, if_false, add_zero]
    exact (par_of_nonneg PARtable hnonneg r).1
  · rw [hcsr_split]
    apply le_add_of_nonneg_right
    apply List.sum_nonneg
    intro x hx
    obtain ⟨r, _, rfl⟩ := List.mem_map.mp hx
    exact (par_of_nonneg PARtable hnonneg r).2

/-- C31, witness: on the two-level net with a gate on node 0, the record of
wireroot 0 has PAR = CAR = 4.1 and the record of wireroot 2 has PAR 6.2 and
CAR 10.3 = 6.2 + 4.1; in both, CAR is at least PAR. -/
theorem car_record_includes_wireroot_witness :
    ex_diff_CARtable.map (fun ar => (ar.WirerootNode, ar.GateNode, ar.PAR_value, ar.CAR_value))
        = [(0, 0, 41 / 10, 41 / 10), (2, 0, 31 / 5, 103 / 10)]
      ∧ ∀ ar ∈ ex_diff_CARtable, ar.PAR_value ≤ ar.CAR_value ∧ ar.PSR_value ≤ ar.CSR_value :=
  ⟨by decide!, fun ar har => by
    obtain ⟨_, _, _, _, _, _, _, _, _, h⟩ :=
      car_record_includes_wireroot ex_diff_checker ex_diff_net 10 [0, 2] ex_diff_PARtable
        ex_diff_VIA_PARtable [0] ex_diff_CARtable (ex_net_two_level_wellFormed _ _ _ _).1
        (ex_net_two_level_edges _ _ _ _).2 (by decide) (by decide!) (by decide!) ar har
    refine h (by decide!) ?_
    simp only [ex_diff_net, ex_net_two_level, plus_cut]
    split_ifs <;> rfl⟩

/-! ## The terminals below a wireroot -/

/-- C27, as stated, fails.  On the wire whose two nodes are on the same
terminal, of gate area 0.05, `findWireBelowIterms` adds the gate area at both
nodes: the gate-area sum is 0.1, while the returned terminal set holds the one
terminal, whose gate area is 0.05. -/
theorem findWireBelowIterms_two_pins_counterexample :
    findWireBelowIterms (ex_gate_checker [] []) ex_graph_two_pins 10 0 1 ⟨(0, 0), [], []⟩
        = some ⟨(1 / 10, 0), [0], [0, 1]⟩
      ∧ ([0].map fun id => iterm_gate_area ((ex_gate_checker [] []).getITerm id)).sum = 1 / 20 := by
  constructor <;> decide!

/-- What `checkIterm` returns: the flag says whether the node is on a terminal,
and the areas of the node are added to the two sums. -/
theorem checkIterm_eq (ck : AntennaChecker) (g : dbWireGraph) (node : Nat) (a : ℚ × ℚ) :
    checkIterm ck g node a
      = ((node_iterm g node).isSome, (a.1 + node_gate_area ck g node,
          a.2 + node_diff_area ck g node)) := by
  unfold checkIterm node_gate_area node_diff_area node_iterm iterm_gate_area iterm_diff_area
  cases hobj : (g.node node).object with
  | none => simp
  | some object =>
    simp only []
    by_cases hty : object.getObjectType = dbObjectType.dbITermObj
    · simp only [if_pos hty, Option.isSome_some]
      cases (ck.getITerm object.getId).getMTerm.getDefaultAntennaModel <;> simp
    · simp [if_neg hty]

/-- A state extends itself. -/
theorem BelowExt_refl (ck : AntennaChecker) (g : dbWireGraph) (st : BelowIterms) :
    BelowExt ck g st st :=
  ⟨[], by simp, List.nodup_nil, fun v hv => by simp at hv, by simp, by simp, by simp⟩

/-- Extensions compose. -/
theorem BelowExt_trans (ck : AntennaChecker) (g : dbWireGraph) (st1 st2 st3 : BelowIterms)
    (h12 : BelowExt ck g st1 st2) (h23 : BelowExt ck g st2 st3) : BelowExt ck g st1 st3 := by
  obtain ⟨new1, a1, a2, a3, a4, a5, a6⟩ := h12
  obtain ⟨new2, b1, b2, b3, b4, b5, b6⟩ := h23
  refine ⟨new1 ++ new2, ?_, ?_, ?_, ?_, ?_, ?_⟩
  · rw [b1, a1, List.append_assoc]
  · rw [List.nodup_append]
    refine ⟨a2, b2, ?_⟩
    intro v hv1 hv2
    exact b3 v hv2 (by rw [a1]; exact List.mem_append_right _ hv1)
  · intro v hv
    rcases List.mem_append.mp hv with h | h
    · exact a3 v h
    · intro hc
      exact b3 v h (by rw [a1]; exact List.mem_append_left _ hc)
  · rw [b4, a4, List.map_append, List.sum_append]; ring
  · rw [b5, a5, List.map_append, List.sum_append]; ring
  · rw [b6, a6, List.filterMap_append, List.foldl_append]

/-- The visit of a node that is not yet visited extends the state by that
node. -/
theorem BelowExt_visit (ck : AntennaChecker) (g : dbWireGraph) (st : BelowIterms) (node : Nat)
    (hnode : node ∉ st.nv) :
    BelowExt ck g st
      ⟨(checkIterm ck g node st.iterm_areas).2,
        if (checkIterm ck g node st.iterm_areas).1 then
          match (g.node node).object with
          | some object => set_insert st.iv object.getId
          | none => st.iv
        else st.iv,
        set_insert st.nv node⟩ := by
  refine ⟨[node], ?_, List.nodup_singleton _, ?_, ?_, ?_, ?_⟩
  · simp [set_insert, hnode]
  · intro v hv
    rw [List.mem_singleton.mp hv]; exact hnode
  · rw [checkIterm_eq]; simp
  · rw [checkIterm_eq]; simp
  · rw [checkIterm_eq]
    simp only [List.filterMap_cons, List.filterMap_nil]
    unfold node_iterm
    cases hobj : (g.node node).object with
    | none => simp
    | some object =>
      simp only []
      by_cases hty : object.getObjectType = dbObjectType.dbITermObj
      · simp [if_pos hty]
      · simp [if_neg hty]

/-- What `findSegmentStart` returns is a node of the graph that is not deeper
than the node it was called on. -/
theorem findSegmentStart_depth (g : dbWireGraph) (depth : Nat → Nat)
    (hin : ∀ n ∈ g.nodes, ∀ e, (g.node n).in_edge = some e → e.source ∈ g.nodes)
    (hdepth : ∀ n ∈ g.nodes, ∀ e, (g.node n).in_edge = some e → depth e.source < depth n) :
    ∀ (fuel n p : Nat), n ∈ g.nodes → findSegmentStart g fuel n = some p →
      p ∈ g.nodes ∧ depth p ≤ depth n := by
  intro fuel
  induction fuel with
  | zero => intro n p _ h; simp [findSegmentStart] at h
  | succ fuel ih =>
    intro n p hn h
    unfold findSegmentStart at h
    cases he : (g.node n).in_edge with
    | none =>
      rw [he] at h
      rw [← Option.some.inj h]; exact ⟨hn, le_refl _⟩
    | some e =>
      rw [he] at h
      simp only [] at h
      by_cases hobj : ((g.node n).object.map fun o => o.getObjectType)
          = some dbObjectType.dbITermObj
      · rw [if_pos hobj] at h
        rw [← Option.some.inj h]; exact ⟨hn, le_refl _⟩
      · rw [if_neg hobj] at h
        have hd := hdepth n hn e he
        cases hty : e.type <;> rw [hty] at h <;> simp only [] at h
        · have := ih e.source p (hin n hn e he) h
          exact ⟨this.1, by omega⟩
        · rw [← Option.some.inj h]; exact ⟨hn, le_refl _⟩
        · rw [← Option.some.inj h]; exact ⟨hn, le_refl _⟩
        · have := ih e.source p (hin n hn e he) h
          exact ⟨this.1, by omega⟩

/-- Behind a via, `findSegmentStart` returns the node itself. -/
theorem findSegmentStart_via_eq (g : dbWireGraph) (fuel n p : Nat) (e : Edge)
    (he : (g.node n).in_edge = some e)
    (hty : e.type = EdgeType.VIA ∨ e.type = EdgeType.TECH_VIA)
    (h : findSegmentStart g fuel n = some p) : p = n := by
  cases fuel with
  | zero => simp [findSegmentStart] at h
  | succ f =>
    rw [findSegmentStart_via g f n e he hty] at h
    exact (Option.some.inj h).symm

/-- The part of `findWireBelowIterms` on the incoming edge extends the state,
when the recursive call does on every node above all visited nodes. -/
theorem findWireBelowIterms_in_ext (ck : AntennaChecker) (g : dbWireGraph) (depth : Nat → Nat)
    (hin : ∀ n ∈ g.nodes, ∀ e, (g.node n).in_edge = some e → e.source ∈ g.nodes)
    (hdepth : ∀ n ∈ g.nodes, ∀ e, (g.node n).in_edge = some e → depth e.source < depth n)
    (node : Nat) (wire_level : Int) (start : Nat → Option Nat)
    (recurse : Nat → BelowIterms → Option BelowIterms) (st1 st2 : BelowIterms)
    (hnode : node ∈ g.nodes)
    (hstart : ∀ x p, x ∈ g.nodes → start x = some p → p ∈ g.nodes ∧ depth p ≤ depth x)
    (hrec : ∀ p res, p ∈ g.nodes → (∀ v ∈ st1.nv, depth p < depth v) →
      recurse p st1 = some res → BelowExt ck g st1 res)
    (hvalid : (∀ v ∈ st1.nv, depth node ≤ depth v)
      ∨ ∃ e, (g.node node).in_edge = some e ∧ e.source ∈ st1.nv)
    (h : findWireBelowIterms_in g node wire_level start recurse st1 = some st2) :
    BelowExt ck g st1 st2 := by
  unfold findWireBelowIterms_in at h
  cases he : (g.node node).in_edge with
  | none =>
    rw [he] at h
    rw [← Option.some.inj h]; exact BelowExt_refl ck g st1
  | some e =>
    rw [he] at h
    simp only [] at h
    have hs := hin node hnode e he
    have hd := hdepth node hnode e he
    by_cases hsrc : e.source ∈ st1.nv
    · have h1 : ¬ ((e.type = EdgeType.VIA ∨ e.type = EdgeType.TECH_VIA) ∧ e.source ∉ st1.nv) :=
        fun hc => hc.2 hsrc
      have h2 : ¬ ((e.type = EdgeType.SEGMENT ∨ e.type = EdgeType.SHORT)
          ∧ e.source ∉ st1.nv) := fun hc => hc.2 hsrc
      rw [if_neg h1, if_neg h2] at h
      simp only [ite_self] at h
      rw [← Option.some.inj h]; exact BelowExt_refl ck g st1
    · have hup : ∀ v ∈ st1.nv, depth node ≤ depth v := by
        rcases hvalid with hv | ⟨e2, he2, hsrc2⟩
        · exact hv
        · rw [he] at he2
          rw [← Option.some.inj he2] at hsrc2
          exact absurd hsrc2 hsrc
      by_cases hl : (g.node e.source).layer.getRoutingLevel ≤ wire_level
      · rw [if_pos hl] at h
        by_cases hvia : e.type = EdgeType.VIA ∨ e.type = EdgeType.TECH_VIA
        · rw [if_pos ⟨hvia, hsrc⟩] at h
          obtain ⟨first, hfirst, hcall⟩ := Option.bind_eq_some.mp h
          obtain ⟨hf1, hf2⟩ := hstart e.source first hs hfirst
          exact hrec first st2 hf1 (fun v hv => by have := hup v hv; omega) hcall
        · rw [if_neg (fun hc => hvia hc.1)] at h
          by_cases hseg : e.type = EdgeType.SEGMENT ∨ e.type = EdgeType.SHORT
          · rw [if_pos ⟨hseg, hsrc⟩] at h
            exact hrec e.source st2 hs (fun v hv => by have := hup v hv; omega) h
          · rw [if_neg (fun hc => hseg hc.1)] at h
            rw [← Option.some.inj h]; exact BelowExt_refl ck g st1
      · rw [if_neg hl] at h
        rw [← Option.some.inj h]; exact BelowExt_refl ck g st1

/-- The body of the loop of `findWireBelowIterms` over the outgoing edges
extends the state, when the recursive call does on every unvisited node whose
incoming edge comes from a visited node. -/
theorem findWireBelowIterms_out_ext (ck : AntennaChecker) (g : dbWireGraph)
    (hout : ∀ n ∈ g.nodes, ∀ e ∈ (g.node n).out_edges,
      e.source = n ∧ e.target ∈ g.nodes ∧ (g.node e.target).in_edge = some e)
    (node : Nat) (wire_level : Int) (start : Nat → Option Nat)
    (recurse : Nat → BelowIterms → Option BelowIterms) (cur nxt : BelowIterms) (edge : Edge)
    (hnode : node ∈ g.nodes) (hedge : edge ∈ (g.node node).out_edges)
    (hcur : node ∈ cur.nv)
    (hstart : ∀ t e p, (g.node t).in_edge = some e →
      (e.type = EdgeType.VIA ∨ e.type = EdgeType.TECH_VIA) → start t = some p → p = t)
    (hrec : ∀ t res, t ∈ g.nodes → t ∉ cur.nv →
      (∃ e, (g.node t).in_edge = some e ∧ e.source ∈ cur.nv) →
      recurse t cur = some res → BelowExt ck g cur res)
    (h : findWireBelowIterms_out g wire_level start recurse cur edge = some nxt) :
    BelowExt ck g cur nxt := by
  obtain ⟨h1, h2, h3⟩ := hout node hnode edge hedge
  have hdown : ∃ e, (g.node edge.target).in_edge = some e ∧ e.source ∈ cur.nv :=
    ⟨edge, h3, by rw [h1]; exact hcur⟩
  unfold findWireBelowIterms_out at h
  by_cases hvia : edge.type = EdgeType.VIA ∨ edge.type = EdgeType.TECH_VIA
  · rw [if_pos hvia] at h
    by_cases hc : (g.node edge.target).layer.getRoutingLevel ≤ wire_level
        ∧ edge.target ∉ cur.nv
    · rw [if_pos hc] at h
      obtain ⟨first, hfirst, hcall⟩ := Option.bind_eq_some.mp h
      rw [hstart edge.target edge first h3 hvia hfirst] at hcall
      exact hrec edge.target nxt h2 hc.2 hdown hcall
    · rw [if_neg hc] at h
      rw [← Option.some.inj h]; exact BelowExt_refl ck g cur
  · rw [if_neg hvia] at h
    by_cases hc : (edge.type = EdgeType.SEGMENT ∨ edge.type = EdgeType.SHORT)
        ∧ edge.target ∉ cur.nv
    · rw [if_pos hc] at h
      exact hrec edge.target nxt h2 hc.2 hdown h
    · rw [if_neg hc] at h
      rw [← Option.some.inj h]; exact BelowExt_refl ck g cur

/-- On a tree-shaped graph, a call of `findWireBelowIterms` on a node above all
visited nodes, or on an unvisited node behind a visited one, extends the state
by visits of new nodes, each visited once. -/
theorem findWireBelowIterms_ext (ck : AntennaChecker) (g : dbWireGraph) (depth : Nat → Nat)
    (wire_level : Int)
    (hin : ∀ n ∈ g.nodes, ∀ e, (g.node n).in_edge = some e → e.source ∈ g.nodes)
    (hout : ∀ n ∈ g.nodes, ∀ e ∈ (g.node n).out_edges,
      e.source = n ∧ e.target ∈ g.nodes ∧ (g.node e.target).in_edge = some e)
    (hdepth : ∀ n ∈ g.nodes, ∀ e, (g.node n).in_edge = some e → depth e.source < depth n) :
    ∀ (fuel node : Nat) (st res : BelowIterms), node ∈ g.nodes →
      BelowValid g depth node st.nv →
      findWireBelowIterms ck g fuel node wire_level st = some res → BelowExt ck g st res := by
  intro fuel
  induction fuel with
  | zero => intro node st res _ _ h; simp [findWireBelowIterms] at h
  | succ fuel ih =>
    intro node st res hnode hvalid h
    have hfresh : node ∉ st.nv := by
      rcases hvalid with hv | hv
      · intro hc
        exact absurd (hv node hc) (lt_irrefl _)
      · exact hv.1
    rw [findWireBelowIterms] at h
    obtain ⟨st2, hin2, hfold⟩ := Option.bind_eq_some.mp h
    have hvisit := BelowExt_visit ck g st node hfresh
    have hnv1 : ∀ v, v ∈ set_insert st.nv node ↔ v ∈ st.nv ∨ v = node := by
      intro v
      simp [set_insert, hfresh]
    have h_in := findWireBelowIterms_in_ext ck g depth hin hdepth node wire_level _ _ _ st2 hnode
      (fun x p hx hp => findSegmentStart_depth g depth hin hdepth fuel x p hx hp)
      (fun p res2 hp hup hcall => ih p _ res2 hp (Or.inl hup) hcall)
      (by
        rcases hvalid with hv | ⟨_, e, he, hsrc⟩
        · left
          intro v hv2
          rcases (hnv1 v).mp hv2 with h1 | h1
          · exact le_of_lt (hv v h1)
          · rw [h1]
        · right
          exact ⟨e, he, (hnv1 _).mpr (Or.inl hsrc)⟩)
      hin2
    have h12 := BelowExt_trans ck g _ _ _ hvisit h_in
    have hP := foldlM_option_invariant_mem
      (fun cur : BelowIterms => BelowExt ck g st2 cur) _ (g.node node).out_edges st2 res hfold
      (BelowExt_refl ck g st2)
      (by
        intro cur edge nxt hedge hcur hstep
        have hmem : node ∈ cur.nv := by
          obtain ⟨new1, a1, _⟩ := h_in
          obtain ⟨new2, b1, _⟩ := hcur
          rw [b1, a1]
          exact List.mem_append_left _ (List.mem_append_left _ ((hnv1 node).mpr (Or.inr rfl)))
        exact BelowExt_trans ck g _ _ _ hcur
          (findWireBelowIterms_out_ext ck g hout node wire_level _ _ cur nxt edge hnode hedge
            hmem
            (fun t e p he hty hp => findSegmentStart_via_eq g fuel t p e he hty hp)
            (fun t res2 ht hfr hdown hcall => ih t _ res2 ht (Or.inr ⟨hfr, hdown⟩) hcall)
            hstep))
    exact BelowExt_trans ck g _ _ _ h12 hP

/-- Membership in a set built by insertions. -/
theorem mem_foldl_set_insert (l : List Nat) :
    ∀ (acc : List Nat) (x : Nat), x ∈ l.foldl set_insert acc ↔ x ∈ acc ∨ x ∈ l := by
  induction l with
  | nil => intro acc x; simp
  | cons a rest ih =>
    intro acc x
    rw [List.foldl_cons, ih]
    unfold set_insert
    by_cases ha : a ∈ acc
    · rw [if_pos ha]
      constructor
      · rintro (h | h)
        · exact Or.inl h
        · exact Or.inr (List.mem_cons_of_mem _ h)
      · rintro (h | h)
        · exact Or.inl h
        · rcases List.mem_cons.mp h with h1 | h1
          · rw [h1]; exact Or.inl ha
          · exact Or.inr h1
    · rw [if_neg ha]
      simp only [List.mem_append, List.mem_singleton, List.mem_cons]
      tauto

/-- Inserting the elements of a list without repetition into the empty set
gives the list. -/
theorem foldl_set_insert_nodup (l : List Nat) (h : l.Nodup) : l.foldl set_insert [] = l := by
  rw [foldl_set_insert_eq_dedup, (List.nodup_reverse.mpr h).dedup, List.reverse_reverse]

/-- When no two nodes of a list without repetition are on the same terminal,
the terminals of its nodes are listed without repetition. -/
theorem filterMap_node_iterm_nodup (g : dbWireGraph) :
    ∀ (nv : List Nat), nv.Nodup →
      (∀ v ∈ nv, ∀ w ∈ nv, ∀ id, node_iterm g v = some id → node_iterm g w = some id → v = w) →
      (nv.filterMap (node_iterm g)).Nodup := by
  intro nv
  induction nv with
  | nil => intro _ _; simp
  | cons a rest ih =>
    intro hnd hinj
    have hrest := ih (List.nodup_cons.mp hnd).2
      (fun v hv w hw => hinj v (List.mem_cons_of_mem _ hv) w (List.mem_cons_of_mem _ hw))
    cases ha : node_iterm g a with
    | none => rw [List.filterMap_cons_none ha]; exact hrest
    | some id =>
      rw [List.filterMap_cons_some ha, List.nodup_cons]
      refine ⟨?_, hrest⟩
      intro hmem
      obtain ⟨w, hw, hwid⟩ := List.mem_filterMap.mp hmem
      have := hinj a (List.mem_cons_self _ _) w (List.mem_cons_of_mem _ hw) id ha hwid
      rw [← this] at hw
      exact (List.nodup_cons.mp hnd).1 hw

/-- The gate and diffusion areas of the terminals of a list of nodes sum to the
areas of the nodes. -/
theorem sum_filterMap_node_iterm (ck : AntennaChecker) (g : dbWireGraph) :
    ∀ (nv : List Nat),
      ((nv.filterMap (node_iterm g)).map fun id => iterm_gate_area (ck.getITerm id)).sum
          = (nv.map (node_gate_area ck g)).sum
        ∧ ((nv.filterMap (node_iterm g)).map fun id => iterm_diff_area (ck.getITerm id)).sum
          = (nv.map (node_diff_area ck g)).sum := by
  intro nv
  induction nv with
  | nil => simp
  | cons a rest ih =>
    cases ha : node_iterm g a with
    | none =>
      rw [List.filterMap_cons_none ha]
      simp only [List.map_cons, List.sum_cons, node_gate_area, node_diff_area, ha, zero_add]
      exact ih
    | some id =>
      rw [List.filterMap_cons_some ha]
      simp only [List.map_cons, List.sum_cons, ha]
      constructor
      · rw [ih.1]; simp only [node_gate_area, ha]
      · rw [ih.2]; simp only [node_diff_area, ha]

/-- C27, amended.  Each node contributes once.  On a tree-shaped wire graph,
for every level and with enough fuel, `findWireBelowIterms` started with empty
sets on a node returns; it has visited no node twice; the gate-area and
diffusion-area sums are the sums, over the visited nodes, of the maximum gate
area and maximum diffusion area of the terminal of the node (0 for a node on no
terminal); the terminal set holds the terminals of the visited nodes; and when
no two visited nodes are on the same terminal, the sums are the sums over the
terminals of the returned terminal set. -/
theorem findWireBelowIterms_each_node_once (ck : AntennaChecker) (g : dbWireGraph)
    (hwf : g.WellFormed) (wire_level : Int) :
    ∃ fuel0, ∀ fuel, fuel0 ≤ fuel → ∀ n ∈ g.nodes,
      ∃ res, findWireBelowIterms ck g fuel n wire_level ⟨(0, 0), [], []⟩ = some res
        ∧ res.nv.Nodup
        ∧ res.iterm_areas.1 = (res.nv.map (node_gate_area ck g)).sum
        ∧ res.iterm_areas.2 = (res.nv.map (node_diff_area ck g)).sum
        ∧ (∀ id, id ∈ res.iv ↔ ∃ v ∈ res.nv, node_iterm g v = some id)
        ∧ ((∀ v ∈ res.nv, ∀ w ∈ res.nv, ∀ id,
              node_iterm g v = some id → node_iterm g w = some id → v = w) →
            res.iterm_areas.1 = (res.iv.map fun id => iterm_gate_area (ck.getITerm id)).sum
              ∧ res.iterm_areas.2
                = (res.iv.map fun id => iterm_diff_area (ck.getITerm id)).sum) := by
  obtain ⟨depth, hdepth⟩ := hwf.acyclic
  refine ⟨unvisited g.nodes [] * ((g.nodes.map depth).sum + 2) + 1, ?_⟩
  intro fuel hfuel n hn
  obtain ⟨res, hres, _, _⟩ := findWireBelowIterms_returns ck g depth (g.nodes.map depth).sum
    hwf.in_source hwf.out_edge hdepth (depth_le_sum depth g.nodes) fuel n wire_level
    ⟨(0, 0), [], []⟩ hn (by simp only [List.not_mem_nil, if_false]; omega)
  obtain ⟨new, h1, h2, _, h4, h5, h6⟩ := findWireBelowIterms_ext ck g depth wire_level
    hwf.in_source hwf.out_edge hdepth fuel n ⟨(0, 0), [], []⟩ res hn
    (Or.inl (fun v hv => by simp at hv)) hres
  simp only [List.nil_append, zero_add] at h1 h4 h5
  rw [← h1] at h2 h4 h5 h6
  refine ⟨res, hres, h2, h4, h5, ?_, ?_⟩
  · intro id
    rw [h6, mem_foldl_set_insert]
    simp only [List.not_mem_nil, false_or, List.mem_filterMap]
  · intro hinj
    have hnd := filterMap_node_iterm_nodup g res.nv h2 hinj
    rw [foldl_set_insert_nodup _ hnd] at h6
    rw [h6, h4, h5]
    exact ⟨(sum_filterMap_node_iterm ck g res.nv).1.symm,
      (sum_filterMap_node_iterm ck g res.nv).2.symm⟩

/-- C27, witness: on the two-level net with gates on node 0 and node 3,
`findWireBelowIterms` from node 2 at level 2 visits the nodes 2, 0, 1, 3, each
once, finds the terminals 0 and 3 and sums their gate areas to 0.1. -/
theorem findWireBelowIterms_each_node_once_witness :
    findWireBelowIterms (ex_gate_checker [] [])
        (ex_net_two_level (ex_metal1 none) ex_metal2 (ex_via1 none) [0, 3]) 10 2 2
        ⟨(0, 0), [], []⟩ = some ⟨(1 / 10, 0), [0, 3], [2, 0, 1, 3]⟩
      ∧ ∃ fuel0, ∀ fuel, fuel0 ≤ fuel →
        ∀ n ∈ (ex_net_two_level (ex_metal1 none) ex_metal2 (ex_via1 none) [0, 3]).nodes,
        ∃ res, findWireBelowIterms (ex_gate_checker [] [])
              (ex_net_two_level (ex_metal1 none) ex_metal2 (ex_via1 none) [0, 3]) fuel n 2
              ⟨(0, 0), [], []⟩ = some res
          ∧ res.nv.Nodup
          ∧ res.iterm_areas.1
            = (res.nv.map (node_gate_area (ex_gate_checker [] [])
                (ex_net_two_level (ex_metal1 none) ex_metal2 (ex_via1 none) [0, 3]))).sum
          ∧ res.iterm_areas.2
            = (res.nv.map (node_diff_area (ex_gate_checker [] [])
                (ex_net_two_level (ex_metal1 none) ex_metal2 (ex_via1 none) [0, 3]))).sum
          ∧ (∀ id, id ∈ res.iv ↔ ∃ v ∈ res.nv,
              node_iterm (ex_net_two_level (ex_metal1 none) ex_metal2 (ex_via1 none) [0, 3]) v
                = some id)
          ∧ ((∀ v ∈ res.nv, ∀ w ∈ res.nv, ∀ id,
                node_iterm (ex_net_two_level (ex_metal1 none) ex_metal2 (ex_via1 none) [0, 3])
                    v = some id →
                node_iterm (ex_net_two_level (ex_metal1 none) ex_metal2 (ex_via1 none) [0, 3])
                    w = some id → v = w) →
              res.iterm_areas.1
                  = (res.iv.map fun id =>
                      iterm_gate_area ((ex_gate_checker [] []).getITerm id)).sum
                ∧ res.iterm_areas.2
                  = (res.iv.map fun id =>
                      iterm_diff_area ((ex_gate_checker [] []).getITerm id)).sum) :=
  ⟨by decide!,
    findWireBelowIterms_each_node_once (ex_gate_checker [] [])
      (ex_net_two_level (ex_metal1 none) ex_metal2 (ex_via1 none) [0, 3])
      (ex_net_two_level_wellFormed _ _ _ _).1 2⟩

/-! ## The wire area of a run -/

/-- A state extends itself by nothing. -/
theorem WireExt_refl (ck : AntennaChecker) (g : dbWireGraph) (wire_level : Int)
    (P : Nat → Prop) (st res : WireArea) (extra : ℚ × ℚ) (hnv : res.nv = st.nv)
    (harea : (res.wire_area, res.side_wire_area)
      = (st.wire_area, st.side_wire_area) + extra) :
    WireExt ck g wire_level P st res extra :=
  ⟨[], [], by simp [hnv], List.nodup_nil, fun v hv => by simp at hv, List.Sublist.slnil,
    fun u hu => by simp at hu, fun v hv => by simp at hv, fun v hv => by simp at hv,
    by simp [harea]⟩

/-- Extensions compose. -/
theorem WireExt_trans (ck : AntennaChecker) (g : dbWireGraph) (wire_level : Int)
    (P : Nat → Prop) (st1 st2 st3 : WireArea) (x1 x2 : ℚ × ℚ)
    (h12 : WireExt ck g wire_level P st1 st2 x1) (h23 : WireExt ck g wire_level P st2 st3 x2) :
    WireExt ck g wire_level P st1 st3 (x1 + x2) := by
  obtain ⟨new1, ups1, a1, a2, a3, a4, a5, a8, a6, a7⟩ := h12
  obtain ⟨new2, ups2, b1, b2, b3, b4, b5, b8, b6, b7⟩ := h23
  refine ⟨new1 ++ new2, ups1 ++ ups2, ?_, ?_, ?_, a4.append b4, ?_, ?_, ?_, ?_⟩
  · rw [b1, a1, List.append_assoc]
  · rw [List.nodup_append]
    refine ⟨a2, b2, ?_⟩
    intro v hv1 hv2
    exact b3 v hv2 (by rw [a1]; exact List.mem_append_right _ hv1)
  · intro v hv
    rcases List.mem_append.mp hv with h | h
    · exact a3 v h
    · intro hc
      exact b3 v h (by rw [a1]; exact List.mem_append_left _ hc)
  · intro u hu
    rcases List.mem_append.mp hu with h | h
    · exact a5 u h
    · exact b5 u h
  · intro v hv
    rcases List.mem_append.mp hv with h | h
    · exact a8 v h
    · exact b8 v h
  · intro v hv e he hf
    rcases List.mem_append.mp hv with h | h
    · rw [b1]; exact List.mem_append_left _ (a6 v h e he hf)
    · exact b6 v h e he hf
  · rw [b7, a7, List.map_append, List.sum_append, List.map_append, List.sum_append]
    abel

/-- The statements of `calculateWireArea` that add the areas of a recursive
call extend the state, when the call extends the visited set. -/
theorem calculateWireArea_add_ext (ck : AntennaChecker) (g : dbWireGraph) (wire_level : Int)
    (P : Nat → Prop) (recurse : Nat → List Nat → List Nat → Option WireArea)
    (st nxt : WireArea) (next : Nat)
    (hrec : ∀ res, recurse next st.nv st.level_nodes = some res →
      WireExt ck g wire_level P ⟨0, 0, st.nv, st.level_nodes⟩ res 0 ∧ next ∈ res.nv)
    (h : calculateWireArea_add recurse st next = some nxt) :
    WireExt ck g wire_level P st nxt 0 ∧ next ∈ nxt.nv := by
  unfold calculateWireArea_add at h
  obtain ⟨areas, ha, hnxt⟩ := Option.map_eq_some'.mp h
  obtain ⟨⟨new, ups, a1, a2, a3, a4, a5, a8, a6, a7⟩, hmem⟩ := hrec areas ha
  rw [← hnxt]
  refine ⟨⟨new, ups, a1, a2, a3, a4, a5, a8, a6, ?_⟩, hmem⟩
  have h1 := congrArg Prod.fst a7
  have h2 := congrArg Prod.snd a7
  simp only [Prod.fst_add, Prod.snd_add, Prod.fst_zero, Prod.snd_zero, zero_add, add_zero]
    at h1 h2
  apply Prod.ext
  · simp only [Prod.fst_add, Prod.fst_zero, add_zero, h1]
    ring
  · simp only [Prod.snd_add, Prod.snd_zero, add_zero, h2]
    ring

/-- One step of the loop of `calculateWireArea` adds the terms of the entry and
extends the state as the recursive call on the far node does; the far node of
an entry that is followed is visited afterwards. -/
theorem calculateWireArea_edge_ext (ck : AntennaChecker) (g : dbWireGraph) (wire_level : Int)
    (P : Nat → Prop) (node : Nat) (out_edges_count : Nat)
    (recurse : Nat → List Nat → List Nat → Option WireArea)
    (st0 nxt : WireArea) (edge : Edge) (io : EdgeIoType)
    (hrec : wire_edge_follows g wire_level (edge, io) = true →
      ∀ (level_nodes : List Nat) (res : WireArea),
        recurse (edge_far edge io) st0.nv level_nodes = some res →
        WireExt ck g wire_level P ⟨0, 0, st0.nv, level_nodes⟩ res 0
          ∧ edge_far edge io ∈ res.nv)
    (h : calculateWireArea_edge ck g node wire_level out_edges_count recurse st0 (edge, io)
      = some nxt) :
    WireExt ck g wire_level P st0 nxt
        (wire_edge_term ck g node wire_level out_edges_count (edge, io))
      ∧ (wire_edge_follows g wire_level (edge, io) = true → edge_far edge io ∈ nxt.nv) := by
  have hadd : ∀ (st1 : WireArea) (term : ℚ × ℚ) (c : Prop),
      calculateWireArea_add recurse st1 (edge_far edge io) = some nxt → st1.nv = st0.nv →
      (st1.wire_area, st1.side_wire_area) = (st0.wire_area, st0.side_wire_area) + term →
      wire_edge_follows g wire_level (edge, io) = true →
      WireExt ck g wire_level P st0 nxt term ∧ (c → edge_far edge io ∈ nxt.nv) := by
    intro st1 term c hcall hnv harea hf
    obtain ⟨hext, hmem⟩ := calculateWireArea_add_ext ck g wire_level P recurse st1 nxt
      (edge_far edge io) (fun res hres => by
        have := hrec hf st1.level_nodes res (by rw [← hnv]; exact hres)
        rw [← hnv] at this
        exact this) hcall
    have := WireExt_trans ck g wire_level P st0 st1 nxt term 0
      (WireExt_refl ck g wire_level P st0 st1 term hnv harea) hext
    rw [add_zero] at this
    exact ⟨this, fun _ => hmem⟩
  have hstop : ∀ (st1 : WireArea) (term : ℚ × ℚ) (c : Prop), some st1 = some nxt →
      st1.nv = st0.nv →
      (st1.wire_area, st1.side_wire_area) = (st0.wire_area, st0.side_wire_area) + term →
      ¬ c → WireExt ck g wire_level P st0 nxt term ∧ (c → edge_far edge io ∈ nxt.nv) := by
    intro st1 term c heq hnv harea hc
    rw [← Option.some.inj heq]
    exact ⟨WireExt_refl ck g wire_level P st0 st1 term hnv harea, fun h => absurd h hc⟩
  unfold calculateWireArea_edge at h
  unfold wire_edge_term
  unfold wire_edge_follows at hadd ⊢
  cases io <;> cases hty : edge.type <;> simp only [hty, edge_far] at h hadd hstop ⊢
  all_goals split_ifs at h ⊢
  all_goals first
    | exact hadd _ _ _ h rfl (by simp)
        (by first | trivial | (simp only [decide_eq_true_eq]; assumption))
    | exact hstop _ _ _ h rfl (by simp) (by simp only [decide_eq_true_eq]; assumption)

/-- The loop of `calculateWireArea` over the outgoing edges of a visited node
adds the terms of these edges and extends the state by the new nodes below
them; the targets of the edges followed are visited afterwards. -/
theorem calculateWireArea_out_fold (ck : AntennaChecker) (g : dbWireGraph) (wire_level : Int)
    (P : Nat → Prop) (node : Nat) (out_edges_count : Nat)
    (recurse : Nat → List Nat → List Nat → Option WireArea)
    (hout : ∀ e ∈ (g.node node).out_edges,
      e.source = node ∧ e.target ∈ g.nodes ∧ (g.node e.target).in_edge = some e)
    (hrec : ∀ (t : Nat) (nv level_nodes : List Nat) (res : WireArea), t ∈ g.nodes →
      (∃ e, (g.node t).in_edge = some e ∧ e.source ∈ nv) →
      recurse t nv level_nodes = some res →
      WireExt ck g wire_level P ⟨0, 0, nv, level_nodes⟩ res 0 ∧ t ∈ res.nv) :
    ∀ (l : List Edge), (∀ e ∈ l, e ∈ (g.node node).out_edges) →
      ∀ (cur res : WireArea), node ∈ cur.nv →
      (l.map fun e => (e, EdgeIoType.OUT)).foldlM
          (calculateWireArea_edge ck g node wire_level out_edges_count recurse) cur = some res →
      WireExt ck g wire_level P cur res
          (l.map fun e =>
            wire_edge_term ck g node wire_level out_edges_count (e, EdgeIoType.OUT)).sum
        ∧ ∀ e ∈ l, wire_edge_follows g wire_level (e, EdgeIoType.OUT) = true →
            e.target ∈ res.nv := by
  intro l
  induction l with
  | nil =>
    intro _ cur res _ h
    have h2 : cur = res := Option.some.inj h
    rw [← h2]
    exact ⟨WireExt_refl ck g wire_level P cur cur _ rfl (by simp), fun e he => by simp at he⟩
  | cons e rest ih =>
    intro hl cur res hcur h
    simp only [List.map_cons, List.foldlM_cons] at h
    obtain ⟨nxt, h1, h2⟩ := Option.bind_eq_some.mp h
    obtain ⟨ho1, ho2, ho3⟩ := hout e (hl e (List.mem_cons_self _ _))
    obtain ⟨hext1, hfar⟩ := calculateWireArea_edge_ext ck g wire_level P node out_edges_count
      recurse cur nxt e EdgeIoType.OUT
      (fun _ level_nodes res2 hcall =>
        hrec e.target cur.nv level_nodes res2 ho2 ⟨e, ho3, by rw [ho1]; exact hcur⟩ hcall) h1
    have hsub : ∀ v, v ∈ cur.nv → v ∈ nxt.nv := by
      intro v hv
      obtain ⟨new, _, a1, _⟩ := hext1
      rw [a1]; exact List.mem_append_left _ hv
    obtain ⟨hext2, hfar2⟩ := ih (fun x hx => hl x (List.mem_cons_of_mem _ hx)) nxt res
      (hsub node hcur) h2
    have hsub2 : ∀ v, v ∈ nxt.nv → v ∈ res.nv := by
      intro v hv
      obtain ⟨new, _, a1, _⟩ := hext2
      rw [a1]; exact List.mem_append_left _ hv
    refine ⟨?_, ?_⟩
    · have := WireExt_trans ck g wire_level P cur nxt res _ _ hext1 hext2
      simpa only [List.map_cons, List.sum_cons] using this
    · intro x hx hf
      rcases List.mem_cons.mp hx with h3 | h3
      · rw [h3] at hf ⊢
        exact hsub2 _ (hfar hf)
      · exact hfar2 x h3 hf

/-- The first visit of a node: when the state after the loop over `edge_vec`
extends the state in which the node has been inserted, by the terms of the
edges of the node, the state after the call extends the state before it. -/
theorem WireExt_visit (ck : AntennaChecker) (g : dbWireGraph) (wire_level : Int)
    (P : Nat → Prop) (node : Nat) (nv level_nodes ln1 : List Nat) (res : WireArea)
    (up : Bool) (hgraph : node ∈ g.nodes) (hnode : node ∉ nv) (hP : up = true → P node)
    (hext : WireExt ck g wire_level P ⟨0, 0, nv ++ [node], ln1⟩ res
      ((if up then wire_in_term ck g wire_level node else 0)
        + wire_out_terms ck g wire_level node))
    (hclosed : ∀ e ∈ (g.node node).out_edges,
      wire_edge_follows g wire_level (e, EdgeIoType.OUT) = true → e.target ∈ res.nv) :
    WireExt ck g wire_level P ⟨0, 0, nv, level_nodes⟩ res 0 ∧ node ∈ res.nv := by
  obtain ⟨new, ups, a1, a2, a3, a4, a5, a8, a6, a7⟩ := hext
  simp only [] at a1 a3 a7
  have hmem : node ∈ res.nv := by
    rw [a1]; exact List.mem_append_left _ (List.mem_append_right _ (List.mem_singleton_self _))
  have hfresh : node ∉ new := fun hc =>
    a3 node hc (List.mem_append_right _ (List.mem_singleton_self _))
  refine ⟨⟨node :: new, if up then node :: ups else ups, ?_, ?_, ?_, ?_, ?_, ?_, ?_, ?_⟩,
    hmem⟩
  · rw [a1]; simp
  · exact List.nodup_cons.mpr ⟨hfresh, a2⟩
  · intro v hv
    rcases List.mem_cons.mp hv with h | h
    · rw [h]; exact hnode
    · intro hc
      exact a3 v h (List.mem_append_left _ hc)
  · cases up
    · exact List.Sublist.cons _ a4
    · exact List.Sublist.cons₂ _ a4
  · intro u hu
    cases up
    · exact a5 u hu
    · rcases List.mem_cons.mp hu with h | h
      · rw [h]; exact hP rfl
      · exact a5 u h
  · intro v hv
    rcases List.mem_cons.mp hv with h | h
    · rw [h]; exact hgraph
    · exact a8 v h
  · intro v hv e he hf
    rcases List.mem_cons.mp hv with h | h
    · rw [h] at he; exact hclosed e he hf
    · exact a6 v h e he hf
  · rw [a7]
    cases up <;> simp only [List.map_cons, List.sum_cons, Bool.false_eq_true, if_false, if_true]
      <;> abel

/-- The terms of an incoming edge do not depend on `out_edges_count`. -/
theorem wire_edge_term_in (ck : AntennaChecker) (g : dbWireGraph) (node : Nat)
    (wire_level : Int) (count : Nat) (e : Edge) :
    wire_edge_term ck g node wire_level count (e, EdgeIoType.IN)
      = wire_edge_term ck g node wire_level 0 (e, EdgeIoType.IN) := by
  unfold wire_edge_term
  cases e.type <;> rfl

/-- On a tree-shaped graph, a call of `calculateWireArea` that moves up to a
node above all visited nodes, or down to a node behind a visited node, extends
the state: it visits new nodes, each once, and returns the terms of their
outgoing edges and the terms of the incoming edges of the nodes it has come to
from below. -/
theorem calculateWireArea_ext (ck : AntennaChecker) (g : dbWireGraph) (depth : Nat → Nat)
    (wire_level : Int) (P : Nat → Prop)
    (hin : ∀ n ∈ g.nodes, ∀ e, (g.node n).in_edge = some e → e.source ∈ g.nodes)
    (hout : ∀ n ∈ g.nodes, ∀ e ∈ (g.node n).out_edges,
      e.source = n ∧ e.target ∈ g.nodes ∧ (g.node e.target).in_edge = some e)
    (hdepth : ∀ n ∈ g.nodes, ∀ e, (g.node n).in_edge = some e → depth e.source < depth n)
    (hP : ∀ c ∈ g.nodes, ∀ e, P c → (g.node c).in_edge = some e →
      wire_edge_follows g wire_level (e, EdgeIoType.IN) = true → P e.source) :
    ∀ (fuel node : Nat) (nv level_nodes : List Nat) (res : WireArea), node ∈ g.nodes →
      WireValid g depth P node nv →
      calculateWireArea ck g fuel node wire_level nv level_nodes = some res →
      WireExt ck g wire_level P ⟨0, 0, nv, level_nodes⟩ res 0 ∧ node ∈ res.nv := by
  intro fuel
  induction fuel with
  | zero => intro node nv ln res _ _ h; simp [calculateWireArea] at h
  | succ fuel ih =>
    intro node nv ln res hnode hvalid h
    rw [calculateWireArea] at h
    have hsrc : ∀ e ∈ (g.node node).out_edges, e.source = node :=
      fun e he => (hout node hnode e he).1
    have hdown : ∀ (t : Nat) (nv2 ln2 : List Nat) (res2 : WireArea), t ∈ g.nodes →
        (∃ e, (g.node t).in_edge = some e ∧ e.source ∈ nv2) →
        calculateWireArea ck g fuel t wire_level nv2 ln2 = some res2 →
        WireExt ck g wire_level P ⟨0, 0, nv2, ln2⟩ res2 0 ∧ t ∈ res2.nv :=
      fun t nv2 ln2 res2 ht hd hcall => ih t nv2 ln2 res2 ht (Or.inr hd) hcall
    by_cases hvis : node ∈ nv
    · -- a second visit: nothing is added
      have hd : ∃ e, (g.node node).in_edge = some e ∧ e.source ∈ nv := by
        rcases hvalid with ⟨hv, _⟩ | hv
        · exact absurd (hv node hvis) (lt_irrefl _)
        · exact hv
      obtain ⟨e, he, hes⟩ := hd
      have hvec : calculateWireArea_edge_vec g node nv = [] := by
        unfold calculateWireArea_edge_vec
        simp only [he, hes, not_true_eq_false, if_false, List.nil_append, List.map_eq_nil_iff,
          List.filter_eq_nil_iff, decide_eq_true_eq, not_not]
        intro a ha
        rw [hsrc a ha]; exact hvis
      rw [hvec] at h
      have h2 := Option.some.inj h
      have hins : set_insert nv node = nv := by simp [set_insert, hvis]
      rw [← h2]
      exact ⟨WireExt_refl ck g wire_level P _ _ 0 hins (by simp), by rw [hins]; exact hvis⟩
    · -- the first visit
      have hfilter : ((g.node node).out_edges.filter fun edge => edge.source ∉ nv)
          = (g.node node).out_edges := by
        rw [List.filter_eq_self]
        intro a ha
        rw [hsrc a ha]
        simpa using hvis
      have hcount : calculateWireArea_out_edges_count g node nv
          = (g.node node).out_edges.length := by
        unfold calculateWireArea_out_edges_count
        rw [hfilter]
      have hins : set_insert nv node = nv ++ [node] := by simp [set_insert, hvis]
      rw [hcount, hins] at h
      have hself : node ∈ nv ++ [node] :=
        List.mem_append_right _ (List.mem_singleton_self _)
      have houts : ∀ (cur : WireArea), node ∈ cur.nv →
          ((g.node node).out_edges.map fun e => (e, EdgeIoType.OUT)).foldlM
            (calculateWireArea_edge ck g node wire_level (g.node node).out_edges.length
              fun next nv level_nodes =>
                calculateWireArea ck g fuel next wire_level nv level_nodes) cur = some res →
          WireExt ck g wire_level P cur res (wire_out_terms ck g wire_level node)
            ∧ ∀ e ∈ (g.node node).out_edges,
                wire_edge_follows g wire_level (e, EdgeIoType.OUT) = true → e.target ∈ res.nv :=
        fun cur hcur hfold =>
          calculateWireArea_out_fold ck g wire_level P node _ _ (hout node hnode) hdown
            (g.node node).out_edges (fun e he => he) cur res hcur hfold
      by_cases hup : ∃ e, (g.node node).in_edge = some e ∧ e.source ∉ nv
      · -- the incoming edge is in `edge_vec`: the call moves up
        obtain ⟨e, he, hes⟩ := hup
        obtain ⟨hdeep, hPn⟩ : (∀ v ∈ nv, depth node < depth v) ∧ P node := by
          rcases hvalid with hv | ⟨e2, he2, hes2⟩
          · exact hv
          · rw [he] at he2
            rw [← Option.some.inj he2] at hes2
            exact absurd hes2 hes
        have hvec : calculateWireArea_edge_vec g node nv
            = (e, EdgeIoType.IN)
              :: (g.node node).out_edges.map fun e => (e, EdgeIoType.OUT) := by
          unfold calculateWireArea_edge_vec
          simp only [he, hes, not_false_eq_true, if_true, hfilter, List.singleton_append]
        rw [hvec, List.foldlM_cons] at h
        obtain ⟨mid, h1, h2⟩ := Option.bind_eq_some.mp h
        have hs := hin node hnode e he
        have hd := hdepth node hnode e he
        obtain ⟨hext1, _⟩ := calculateWireArea_edge_ext ck g wire_level P node _ _
          ⟨0, 0, nv ++ [node], ln⟩ mid e EdgeIoType.IN
          (fun hf ln2 res2 hcall =>
            ih e.source (nv ++ [node]) ln2 res2 hs
              (Or.inl ⟨fun v hv => by
                rcases List.mem_append.mp hv with h3 | h3
                · have := hdeep v h3; omega
                · rw [List.mem_singleton.mp h3]; exact hd,
                hP node hnode e hPn he hf⟩) hcall) h1
        have hmid : node ∈ mid.nv := by
          obtain ⟨new, _, a1, _⟩ := hext1
          rw [a1]; exact List.mem_append_left _ hself
        obtain ⟨hext2, hclosed⟩ := houts mid hmid h2
        have hext := WireExt_trans ck g wire_level P _ _ _ _ _ hext1 hext2
        rw [wire_edge_term_in] at hext
        refine WireExt_visit ck g wire_level P node nv ln ln res true hnode hvis (fun _ => hPn) ?_
          hclosed
        simp only [if_true]
        unfold wire_in_term
        rw [he]
        exact hext
      · -- only the outgoing edges are in `edge_vec`
        have hvec : calculateWireArea_edge_vec g node nv
            = (g.node node).out_edges.map fun e => (e, EdgeIoType.OUT) := by
          unfold calculateWireArea_edge_vec
          rw [hfilter]
          cases he : (g.node node).in_edge with
          | none => simp
          | some e =>
            have : ¬ e.source ∉ nv := fun hc => hup ⟨e, he, hc⟩
            simp only [this, if_false, List.nil_append]
        rw [hvec] at h
        obtain ⟨hext, hclosed⟩ := houts ⟨0, 0, nv ++ [node], ln⟩ hself h
        refine WireExt_visit ck g wire_level P node nv ln ln res false hnode hvis
          (fun hc => by simp at hc) ?_ hclosed
        simp only [Bool.false_eq_true, if_false, zero_add]
        exact hext

/-! ### A single-layer run -/

/-- A value in the range of a 32-bit `int` is held as it is. -/
theorem int_wrap_of_fits (value : Int) (h1 : -2147483648 ≤ value) (h2 : value < 2147483648) :
    int_wrap value = value := by
  unfold int_wrap
  omega

/-- When the Manhattan distance of two points is below 2^31, the `int`
expression of `calculateWireArea` is that distance. -/
theorem calculateWireArea_dist_of_fits (start_x start_y end_x end_y : Int)
    (h : |end_x - start_x| + |end_y - start_y| < 2147483648) :
    calculateWireArea_dist start_x start_y end_x end_y
      = |end_x - start_x| + |end_y - start_y| := by
  have a1 := abs_nonneg (end_x - start_x)
  have a2 := le_abs_self (end_x - start_x)
  have a3 := neg_abs_le (end_x - start_x)
  have b1 := abs_nonneg (end_y - start_y)
  have b2 := le_abs_self (end_y - start_y)
  have b3 := neg_abs_le (end_y - start_y)
  unfold calculateWireArea_dist
  rw [int_wrap_of_fits (end_x - start_x) (by omega) (by omega),
    int_wrap_of_fits (end_y - start_y) (by omega) (by omega),
    int_wrap_of_fits |end_x - start_x| (by omega) (by omega),
    int_wrap_of_fits |end_y - start_y| (by omega) (by omega),
    int_wrap_of_fits _ (by omega) (by omega)]

/-- On a node of the level `wire_level` whose outgoing edges are SEGMENT or
SHORT edges of a length below 2^31 database units, the terms of the outgoing
edges are the length and sidewall terms of these edges. -/
theorem wire_out_terms_segments (ck : AntennaChecker) (g : dbWireGraph) (wire_level : Int)
    (node : Nat)
    (hsrc : ∀ e ∈ (g.node node).out_edges, e.source = node)
    (hseg : ∀ e ∈ (g.node node).out_edges,
      e.type = EdgeType.SEGMENT ∨ e.type = EdgeType.SHORT)
    (hfit : ∀ e ∈ (g.node node).out_edges, edge_dbu g e < 2147483648)
    (hlevel : (g.node node).layer.getRoutingLevel = wire_level) :
    wire_out_terms ck g wire_level node
      = (defDist ck (g.node node).layer.getWidth
            * ((g.node node).out_edges.map (edge_length ck g)).sum,
          ((g.node node).out_edges.map fun e =>
            (edge_length ck g e + defDist ck (g.node node).layer.getWidth)
              * defDist ck ((g.node node).layer.getThickness.getD 0 : Nat) * 2).sum) := by
  unfold wire_out_terms
  generalize (g.node node).out_edges.length = count
  have key : ∀ (l : List Edge), (∀ e ∈ l, e ∈ (g.node node).out_edges) →
      (l.map fun edge => wire_edge_term ck g node wire_level count (edge, EdgeIoType.OUT)).sum
        = (defDist ck (g.node node).layer.getWidth * (l.map (edge_length ck g)).sum,
            (l.map fun e =>
              (edge_length ck g e + defDist ck (g.node node).layer.getWidth)
                * defDist ck ((g.node node).layer.getThickness.getD 0 : Nat) * 2).sum) := by
    intro l
    induction l with
    | nil => intro _; simp
    | cons e rest ih =>
      intro hl
      have he := hl e (List.mem_cons_self _ _)
      rw [List.map_cons, List.sum_cons, ih (fun x hx => hl x (List.mem_cons_of_mem _ hx))]
      have hdist : calculateWireArea_dist (g.node node).x (g.node node).y (g.node e.target).x
          (g.node e.target).y = edge_dbu g e := by
        have := hfit e he
        unfold edge_dbu at this ⊢
        rw [hsrc e he] at this ⊢
        exact calculateWireArea_dist_of_fits _ _ _ _ this
      have hterm : wire_edge_term ck g node wire_level count (e, EdgeIoType.OUT)
          = (edge_length ck g e * defDist ck (g.node node).layer.getWidth,
              (edge_length ck g e + defDist ck (g.node node).layer.getWidth)
                * defDist ck ((g.node node).layer.getThickness.getD 0 : Nat) * 2) := by
        unfold wire_edge_term edge_length
        rcases hseg e he with hty | hty <;> simp only [hty, hlevel, if_true, edge_far, hdist]
      rw [hterm]
      simp only [List.map_cons, List.sum_cons, Prod.mk_add_mk]
      congr 1
      ring
  exact key _ (fun e he => he)

/-- The sums over the edges of the graph are the sums, over the nodes, of the
sums over the outgoing edges of the node. -/
theorem sum_graph_edges (g : dbWireGraph) (f : Edge → ℚ) :
    ((graph_edges g).map f).sum
      = (g.nodes.map fun n => ((g.node n).out_edges.map f).sum).sum := by
  unfold graph_edges
  induction g.nodes with
  | nil => simp
  | cons n rest ih =>
    simp only [List.map_cons, List.flatten_cons, List.map_append, List.sum_append, List.sum_cons,
      ih]

/-- The wire between far end points is tree-shaped. -/
theorem ex_graph_far_wellFormed (layer : dbTechLayer) : (ex_graph_far layer).WellFormed := by
  refine ⟨?_, ?_, ⟨fun n => n, ?_⟩⟩
  · intro n hn e he
    simp only [ex_graph_far, List.mem_cons, List.mem_singleton, List.not_mem_nil,
      or_false] at hn he ⊢
    rcases hn with rfl | rfl
    · simp at he
    · simp only [one_ne_zero, if_false, Option.some.injEq] at he
      subst he
      simp [ex_segment]
  · intro n hn e he
    simp only [ex_graph_far, List.mem_cons, List.mem_singleton, List.not_mem_nil,
      or_false] at hn he ⊢
    rcases hn with rfl | rfl
    · simp only [if_true, List.mem_singleton] at he
      subst he
      simp [ex_segment]
    · simp at he
  · intro n hn e he
    simp only [ex_graph_far, List.mem_cons, List.mem_singleton, List.not_mem_nil,
      or_false] at hn he
    rcases hn with rfl | rfl
    · simp at he
    · simp only [one_ne_zero, if_false, Option.some.injEq] at he
      subst he
      simp [ex_segment]

/-- C26, as stated, fails.  The wire `ex_graph_far` on a layer of level 1 and
width 0.1 is tree-shaped, its one edge is a SEGMENT from the root, node 0 at
(0, 0), to node 1 at (2000000000, 1000000000), and the database has 1000 units
per micron.  The Manhattan distance of the end points is 3000000000 units, so
`w` times the converted distance is 0.1 * 3000000 = 300000; the code adds the
two absolute values in a 32-bit `int`, which holds -1294967296, and
`calculateWireArea(0, 1)` returns the wire area 0.1 * -1294967.296. -/
theorem calculateWireArea_far_counterexample :
    (ex_graph_far (ex_metal_thick 1)).WellFormed
      ∧ graph_edges (ex_graph_far (ex_metal_thick 1)) = [ex_segment]
      ∧ edge_dbu (ex_graph_far (ex_metal_thick 1)) ex_segment = 3000000000
      ∧ calculateWireArea_dist 0 0 2000000000 1000000000 = -1294967296
      ∧ defDist (ex_checker []) (ex_metal_thick 1).getWidth
          * ((graph_edges (ex_graph_far (ex_metal_thick 1))).map
              (edge_length (ex_checker []) (ex_graph_far (ex_metal_thick 1)))).sum = 300000
      ∧ (calculateWireArea (ex_checker []) (ex_graph_far (ex_metal_thick 1)) 3 0 1 [] []).map
          (fun res => res.wire_area) = some (-1294967296 / 10000) :=
  ⟨ex_graph_far_wellFormed _, by decide, by decide, by decide, by decide!, by decide!⟩

/-- C26, amended.  The wire area of a single-layer run.  On a tree-shaped graph
whose edges are all SEGMENT or SHORT edges of a Manhattan length below 2^31
database units and whose nodes all lie on one layer, of routing level `L`,
width `w` and thickness `t` (both converted by `defDist`), with the root `r`, a
node without incoming edge from which every node is reached,
`calculateWireArea(r, L)` with empty visited sets returns, with enough fuel,
wire_area = `w` times the sum over all edges of the converted Manhattan
distance between the end points of the edge, and side_wire_area = the sum over
all edges of (converted Manhattan distance + `w`) * `t` * 2. -/
theorem calculateWireArea_single_layer (ck : AntennaChecker) (g : dbWireGraph)
    (layer : dbTechLayer) (r : Nat)
    (hwf : g.WellFormed) (hnodes : g.nodes.Nodup)
    (hseg : ∀ n ∈ g.nodes, ∀ e ∈ (g.node n).out_edges,
      e.type = EdgeType.SEGMENT ∨ e.type = EdgeType.SHORT)
    (hfit : ∀ n ∈ g.nodes, ∀ e ∈ (g.node n).out_edges, edge_dbu g e < 2147483648)
    (hlayer : ∀ n ∈ g.nodes, (g.node n).layer = layer)
    (hr : r ∈ g.nodes) (hroot : (g.node r).in_edge = none)
    (hreach : ∀ n ∈ g.nodes,
      Relation.ReflTransGen (fun a b => ∃ e ∈ (g.node a).out_edges, e.target = b) r n) :
    ∃ fuel0, ∀ fuel, fuel0 ≤ fuel →
      ∃ res, calculateWireArea ck g fuel r layer.getRoutingLevel [] [] = some res
        ∧ res.wire_area
          = defDist ck layer.getWidth * ((graph_edges g).map (edge_length ck g)).sum
        ∧ res.side_wire_area
          = ((graph_edges g).map fun e =>
              (edge_length ck g e + defDist ck layer.getWidth)
                * defDist ck (layer.getThickness.getD 0 : Nat) * 2).sum := by
  obtain ⟨depth, hdepth⟩ := hwf.acyclic
  refine ⟨2 * unvisited g.nodes [] + 1, ?_⟩
  intro fuel hfuel
  obtain ⟨res, hres, _, _⟩ := calculateWireArea_returns ck g hwf.in_source
    (fun n hn e he => ⟨(hwf.out_edge n hn e he).1, (hwf.out_edge n hn e he).2.1⟩) fuel r
    layer.getRoutingLevel [] [] hr (by simp only [List.not_mem_nil, if_false]; omega)
  refine ⟨res, hres, ?_⟩
  obtain ⟨⟨new, ups, a1, a2, _, a4, a5, a8, a6, a7⟩, _⟩ := calculateWireArea_ext ck g depth
    layer.getRoutingLevel (fun u => (g.node u).in_edge = none) hwf.in_source hwf.out_edge hdepth
    (fun c _ e hc he _ => by rw [hc] at he; simp at he) fuel r [] [] res hr
    (Or.inl ⟨fun v hv => by simp at hv, hroot⟩) hres
  simp only [List.nil_append] at a1
  -- every node is visited
  have hcover : ∀ n ∈ g.nodes, n ∈ new := by
    have key : ∀ n, Relation.ReflTransGen
        (fun a b => ∃ e ∈ (g.node a).out_edges, e.target = b) r n → n ∈ g.nodes ∧ n ∈ new := by
      intro n hrn
      induction hrn with
      | refl =>
        have : r ∈ res.nv := by assumption
        rw [a1] at this
        exact ⟨hr, this⟩
      | tail _ hbc ih =>
        obtain ⟨e, he, ht⟩ := hbc
        have := a6 _ ih.2 e he (by
          unfold wire_edge_follows
          rcases hseg _ ih.1 e he with hty | hty <;> simp only [hty])
        rw [a1, ht] at this
        exact ⟨ht ▸ (hwf.out_edge _ ih.1 e he).2.1, this⟩
    exact fun n hn => (key n (hreach n hn)).2
  have hperm : new.Perm g.nodes :=
    (List.perm_ext_iff_of_nodup a2 hnodes).mpr fun n => ⟨a8 n, hcover n⟩
  -- the terms of the nodes
  have hin_zero : (ups.map (wire_in_term ck g layer.getRoutingLevel)).sum = 0 := by
    apply List.sum_eq_zero
    intro x hx
    obtain ⟨u, hu, rfl⟩ := List.mem_map.mp hx
    unfold wire_in_term
    rw [a5 u hu]
    rfl
  have hout : ∀ n ∈ g.nodes, wire_out_terms ck g layer.getRoutingLevel n
      = (defDist ck layer.getWidth * ((g.node n).out_edges.map (edge_length ck g)).sum,
          ((g.node n).out_edges.map fun e =>
            (edge_length ck g e + defDist ck layer.getWidth)
              * defDist ck (layer.getThickness.getD 0 : Nat) * 2).sum) := by
    intro n hn
    have := wire_out_terms_segments ck g layer.getRoutingLevel n
      (fun e he => (hwf.out_edge n hn e he).1) (hseg n hn) (hfit n hn) (by rw [hlayer n hn])
    rw [hlayer n hn] at this
    exact this
  have hsum : (new.map (wire_out_terms ck g layer.getRoutingLevel)).sum
      = (g.nodes.map fun n =>
          (defDist ck layer.getWidth * ((g.node n).out_edges.map (edge_length ck g)).sum,
            ((g.node n).out_edges.map fun e =>
              (edge_length ck g e + defDist ck layer.getWidth)
                * defDist ck (layer.getThickness.getD 0 : Nat) * 2).sum)).sum := by
    rw [(hperm.map _).sum_eq]
    congr 1
    exact List.map_congr_left hout
  rw [hin_zero, hsum] at a7
  simp only [add_zero] at a7
  have hfst : ∀ (l : List Nat) (f1 f2 : Nat → ℚ),
      (l.map fun n => (f1 n, f2 n)).sum = ((l.map f1).sum, (l.map f2).sum) := by
    intro l f1 f2
    induction l with
    | nil => rfl
    | cons n rest ih => simp only [List.map_cons, List.sum_cons, ih, Prod.mk_add_mk]
  rw [hfst] at a7
  have h1 := congrArg Prod.fst a7
  have h2 := congrArg Prod.snd a7
  simp only [Prod.fst_add, Prod.snd_add, Prod.fst_zero, Prod.snd_zero, zero_add] at h1 h2
  constructor
  · rw [h1, sum_graph_edges, ← List.sum_map_mul_left]
  · rw [h2, sum_graph_edges]

/-- The fork is tree-shaped. -/
theorem ex_graph_fork_wellFormed (layer : dbTechLayer) : (ex_graph_fork layer).WellFormed := by
  have hnodes : ∀ n, n ∈ (ex_graph_fork layer).nodes ↔ n = 0 ∨ n = 1 ∨ n = 2 := by
    intro n; simp [ex_graph_fork]
  refine ⟨?_, ?_, ⟨fun n => n, ?_⟩⟩
  · intro n hn e he
    rw [hnodes] at hn ⊢
    rcases hn with rfl | rfl | rfl <;> simp [ex_graph_fork] at he <;> subst he <;>
      simp [ex_segment, ex_short_side]
  · intro n hn e he
    rw [hnodes] at hn
    rw [hnodes]
    rcases hn with rfl | rfl | rfl <;> simp [ex_graph_fork] at he
    rcases he with rfl | rfl <;> simp [ex_graph_fork, ex_segment, ex_short_side]
  · intro n hn e he
    rw [hnodes] at hn
    rcases hn with rfl | rfl | rfl <;> simp [ex_graph_fork] at he <;> subst he <;>
      simp [ex_segment, ex_short_side]

/-- C26, witness: on the fork on a layer of level 1, width 0.1 and thickness
0.5, with edges of length 1 and 2 (1000 and 2000 database units), `calculateWireArea(0, 1)` returns the wire
area 0.1 * 3 and the side area (1 + 0.1) * 0.5 * 2 + (2 + 0.1) * 0.5 * 2. -/
theorem calculateWireArea_single_layer_witness :
    calculateWireArea (ex_checker []) (ex_graph_fork (ex_metal_thick 1)) 7 0 1 [] []
        = some ⟨3 / 10, 16 / 5, [0, 1, 2], [0]⟩
      ∧ ∃ fuel0, ∀ fuel, fuel0 ≤ fuel →
        ∃ res, calculateWireArea (ex_checker []) (ex_graph_fork (ex_metal_thick 1)) fuel 0
              (ex_metal_thick 1).getRoutingLevel [] [] = some res
          ∧ res.wire_area
            = defDist (ex_checker []) (ex_metal_thick 1).getWidth
              * ((graph_edges (ex_graph_fork (ex_metal_thick 1))).map
                  (edge_length (ex_checker []) (ex_graph_fork (ex_metal_thick 1)))).sum
          ∧ res.side_wire_area
            = ((graph_edges (ex_graph_fork (ex_metal_thick 1))).map fun e =>
                (edge_length (ex_checker []) (ex_graph_fork (ex_metal_thick 1)) e
                    + defDist (ex_checker []) (ex_metal_thick 1).getWidth)
                  * defDist (ex_checker []) ((ex_metal_thick 1).getThickness.getD 0 : Nat)
                  * 2).sum :=
  ⟨by decide!,
    calculateWireArea_single_layer (ex_checker []) (ex_graph_fork (ex_metal_thick 1))
      (ex_metal_thick 1) 0 (ex_graph_fork_wellFormed _) (by decide)
      (fun n hn e he => by
        simp only [ex_graph_fork, List.mem_cons, List.mem_singleton, List.not_mem_nil,
          or_false] at hn
        rcases hn with rfl | rfl | rfl <;> simp [ex_graph_fork] at he
        rcases he with rfl | rfl <;> simp [ex_segment, ex_short_side])
      (fun n hn e he => by
        simp only [ex_graph_fork, List.mem_cons, List.mem_singleton, List.not_mem_nil,
          or_false] at hn
        rcases hn with rfl | rfl | rfl <;> simp [ex_graph_fork] at he
        rcases he with rfl | rfl <;> decide)
      (fun n hn => by
        simp only [ex_graph_fork, List.mem_cons, List.mem_singleton, List.not_mem_nil,
          or_false] at hn
        rcases hn with rfl | rfl | rfl <;> simp [ex_graph_fork])
      (by decide) rfl
      (fun n hn => by
        simp only [ex_graph_fork, List.mem_cons, List.mem_singleton, List.not_mem_nil,
          or_false] at hn
        rcases hn with rfl | rfl | rfl
        · exact Relation.ReflTransGen.refl
        · exact Relation.ReflTransGen.single ⟨ex_segment, by simp [ex_graph_fork], rfl⟩
        · exact Relation.ReflTransGen.single ⟨ex_short_side, by simp [ex_graph_fork], rfl⟩)⟩


/-! ### The accumulator `level_nodes` -/

/-- Two runs of an `Option`-valued fold from related states: when every step
that returns on the first state returns on the second, with related results,
the second run returns when the first does, with related results. -/
theorem foldlM_option_sim {σ ε : Type} (R : σ → σ → Prop) (f : σ → ε → Option σ) :
    ∀ (l : List ε) (a b res : σ), R a b →
      (∀ st1 st2 e res1, e ∈ l → R st1 st2 → f st1 e = some res1 →
        ∃ res2, f st2 e = some res2 ∧ R res1 res2) →
      l.foldlM f a = some res → ∃ res2, l.foldlM f b = some res2 ∧ R res res2 := by
  intro l
  induction l with
  | nil =>
    intro a b res hR _ h
    simp only [List.foldlM, pure, Option.some.injEq] at h
    exact ⟨b, rfl, h ▸ hR⟩
  | cons e rest ih =>
    intro a b res hR hstep h
    simp only [List.foldlM, bind, Option.bind] at h
    cases hf : f a e with
    | none => rw [hf] at h; simp at h
    | some a2 =>
      rw [hf] at h
      obtain ⟨b2, hb2, hR2⟩ := hstep a b e a2 (List.mem_cons_self _ _) hR hf
      obtain ⟨res2, hres2, hR3⟩ := ih a2 b2 res hR2
        (fun st1 st2 e2 res1 he2 => hstep st1 st2 e2 res1 (List.mem_cons_of_mem _ he2)) h
      refine ⟨res2, ?_, hR3⟩
      simp only [List.foldlM, bind, Option.bind, hb2]
      exact hres2

/-- The statements that add the areas of a recursive call keep the sums and
`nv` independent of `level_nodes`. -/
theorem calculateWireArea_add_sim (recurse : Nat → List Nat → List Nat → Option WireArea)
    (hrec : ∀ next nv ln1 ln2 res1, recurse next nv ln1 = some res1 →
      ∃ res2, recurse next nv ln2 = some res2 ∧ res1.same_areas res2)
    (st1 st2 res1 : WireArea) (next : Nat) (hR : st1.same_areas st2)
    (h : calculateWireArea_add recurse st1 next = some res1) :
    ∃ res2, calculateWireArea_add recurse st2 next = some res2 ∧ res1.same_areas res2 := by
  unfold calculateWireArea_add at h ⊢
  obtain ⟨areas, ha, hres⟩ := Option.map_eq_some'.mp h
  obtain ⟨areas2, ha2, hsame⟩ := hrec next st1.nv st1.level_nodes st2.level_nodes areas ha
  rw [hR.2.2] at ha2
  refine ⟨_, by rw [ha2]; rfl, ?_⟩
  rw [← hres]
  exact ⟨by simp only [hR.1, hsame.1], by simp only [hR.2.1, hsame.2.1], hsame.2.2⟩

/-- The loop body of `calculateWireArea` keeps the sums and `nv` independent
of `level_nodes`. -/
theorem calculateWireArea_edge_sim (ck : AntennaChecker) (g : dbWireGraph) (node : Nat)
    (wire_level : Int) (out_edges_count : Nat)
    (recurse : Nat → List Nat → List Nat → Option WireArea)
    (hrec : ∀ next nv ln1 ln2 res1, recurse next nv ln1 = some res1 →
      ∃ res2, recurse next nv ln2 = some res2 ∧ res1.same_areas res2)
    (st1 st2 res1 : WireArea) (edge_info : Edge × EdgeIoType) (hR : st1.same_areas st2)
    (h : calculateWireArea_edge ck g node wire_level out_edges_count recurse st1 edge_info
      = some res1) :
    ∃ res2, calculateWireArea_edge ck g node wire_level out_edges_count recurse st2 edge_info
        = some res2 ∧ res1.same_areas res2 := by
  obtain ⟨h1, h2, h3⟩ := hR
  obtain ⟨edge, io⟩ := edge_info
  unfold calculateWireArea_edge at h ⊢
  simp only [] at h ⊢
  cases hty : edge.type <;> rw [hty] at h <;> simp only [] at h ⊢ <;>
    cases io <;> simp only [] at h ⊢ <;> split_ifs at h ⊢ <;>
    first
    | (refine calculateWireArea_add_sim recurse hrec _ _ res1 _ ?_ h
       exact ⟨by simp only [h1], by simp only [h2], h3⟩)
    | exact ⟨_, rfl, by rw [← Option.some.inj h]; exact
        ⟨by simp only [h1], by simp only [h2], h3⟩⟩

/-- The areas `calculateWireArea` returns and the set `nv` it leaves do not
depend on the contents of `level_nodes`. -/
theorem calculateWireArea_level_nodes_indep (ck : AntennaChecker) (g : dbWireGraph)
    (wire_level : Int) :
    ∀ (fuel node : Nat) (nv ln1 ln2 : List Nat) (res1 : WireArea),
      calculateWireArea ck g fuel node wire_level nv ln1 = some res1 →
      ∃ res2, calculateWireArea ck g fuel node wire_level nv ln2 = some res2
        ∧ res1.same_areas res2 := by
  intro fuel
  induction fuel with
  | zero => intro node nv ln1 ln2 res1 h; simp [calculateWireArea] at h
  | succ fuel ih =>
    intro node nv ln1 ln2 res1 h
    simp only [calculateWireArea] at h ⊢
    refine foldlM_option_sim WireArea.same_areas _ _
      ⟨0, 0, set_insert nv node, ln1⟩ ⟨0, 0, set_insert nv node, ln2⟩ res1 ⟨rfl, rfl, rfl⟩
      (fun st1 st2 e r1 _ hR hf => calculateWireArea_edge_sim ck g node wire_level _ _
        (fun next nv ln1 ln2 r hr => ih next nv ln1 ln2 r hr) st1 st2 r1 e hR hf) h

/-! ### No length term twice -/

/-- When `calculateWireArea` follows the incoming edge of a node up, what
`findSegmentRoot` returns on the node is what it returns on the source of the
edge, or it is the node itself and what it returns on the source is not on
`level`. -/
theorem findSegmentRoot_up (g : dbWireGraph) (level : Int) (fuel c r2 : Nat) (e : Edge)
    (he : (g.node c).in_edge = some e)
    (hfollow : wire_edge_follows g level (e, EdgeIoType.IN) = true)
    (h : findSegmentRoot g (fuel + 1) c level = some r2) :
    ∃ nr, findSegmentRoot g fuel e.source level = some nr
      ∧ (r2 = nr ∨ (r2 = c ∧ (g.node nr).layer.getRoutingLevel ≠ level)) := by
  unfold findSegmentRoot at h
  rw [he] at h
  simp only [] at h
  unfold wire_edge_follows edge_far at hfollow
  simp only [] at hfollow
  cases hty : e.type <;> rw [hty] at h hfollow <;> simp only [] at h hfollow
  · exact ⟨r2, h, Or.inl rfl⟩
  · rw [decide_eq_true_eq] at hfollow
    rw [if_neg (not_lt.mpr hfollow)] at h
    cases hr : findSegmentRoot g fuel e.source level with
    | none => rw [hr] at h; simp at h
    | some nr =>
      rw [hr] at h
      simp only [] at h
      split_ifs at h with hl
      · exact ⟨nr, rfl, Or.inl (Option.some.inj h).symm⟩
      · exact ⟨nr, rfl, Or.inr ⟨(Option.some.inj h).symm, hl⟩⟩
  · rw [decide_eq_true_eq] at hfollow
    rw [if_neg (not_lt.mpr hfollow)] at h
    cases hr : findSegmentRoot g fuel e.source level with
    | none => rw [hr] at h; simp at h
    | some nr =>
      rw [hr] at h
      simp only [] at h
      split_ifs at h with hl
      · exact ⟨nr, rfl, Or.inl (Option.some.inj h).symm⟩
      · exact ⟨nr, rfl, Or.inr ⟨(Option.some.inj h).symm, hl⟩⟩
  · exact ⟨r2, h, Or.inl rfl⟩

/-- C25.  No double counting in the wire-area walk.  On a tree-shaped graph,
whose SEGMENT and SHORT edges join nodes of one routing level, for a wireroot
`r` that `getWireroots` returns, `calculateWireArea(r, level(r))` started with
empty sets returns, with enough fuel, and visits every node of `nv` once.  The
two areas are the sum, over the visited nodes, of the terms of their outgoing
edges, each node and so each edge once, plus the terms of the incoming edges
of the nodes `ups` that the walk has come to from below.  A SEGMENT or SHORT
edge climbed in this way adds no term, neither at its target nor at its source:
the length term of an edge is added at most once, at its source, on the way
down to a node not yet visited.  The areas do not depend on the contents of
`level_nodes`. -/
theorem calculateWireArea_no_double_count (ck : AntennaChecker) (g : dbWireGraph)
    (hwf : g.WellFormed)
    (hseg : ∀ n ∈ g.nodes, ∀ e, (g.node n).in_edge = some e →
      (e.type = EdgeType.SEGMENT ∨ e.type = EdgeType.SHORT) →
        (g.node e.source).layer.getRoutingLevel = (g.node n).layer.getRoutingLevel)
    (fuel_r : Nat) (roots : List Nat) (hroots : getWireroots g fuel_r = some roots)
    (r : Nat) (hr : r ∈ roots) :
    ∃ fuel0, ∀ fuel, fuel0 ≤ fuel →
      ∃ res, calculateWireArea ck g fuel r (g.node r).layer.getRoutingLevel [] [] = some res
        ∧ res.nv.Nodup
        ∧ (∃ ups : List Nat, ups.Sublist res.nv
            ∧ (∀ u ∈ ups, ∀ e, (g.node u).in_edge = some e →
                (e.type = EdgeType.SEGMENT ∨ e.type = EdgeType.SHORT) →
                wire_in_term ck g (g.node r).layer.getRoutingLevel u = (0, 0)
                  ∧ ∀ count, wire_edge_term ck g e.source (g.node r).layer.getRoutingLevel
                      count (e, EdgeIoType.OUT) = (0, 0))
            ∧ (res.wire_area, res.side_wire_area)
                = (res.nv.map (wire_out_terms ck g (g.node r).layer.getRoutingLevel)).sum
                  + (ups.map (wire_in_term ck g (g.node r).layer.getRoutingLevel)).sum)
        ∧ ∀ level_nodes, ∃ res2,
            calculateWireArea ck g fuel r (g.node r).layer.getRoutingLevel [] level_nodes
                = some res2
              ∧ res2.wire_area = res.wire_area ∧ res2.side_wire_area = res.side_wire_area := by
  obtain ⟨depth, hdepth⟩ := hwf.acyclic
  obtain ⟨n, hn, hfn⟩ := (getWireroots_mem g fuel_r roots hroots).2 r hr
  have hrn := findSegmentRoot_depth g depth _ hwf.in_source hdepth fuel_r n r hn hfn
  have hlev := findSegmentRoot_level g hwf.in_source hseg _ fuel_r n r hn rfl hfn
  rw [← hlev] at hfn
  have hself := findSegmentRoot_idem g _ fuel_r n r hfn
  generalize hL : (g.node r).layer.getRoutingLevel = L at hfn hself ⊢
  clear hfn hlev
  -- above the wireroot, the segment root is not on the level
  have hr_up : ∀ e, (g.node r).in_edge = some e →
      wire_edge_follows g L (e, EdgeIoType.IN) = true →
      ∃ f nr, findSegmentRoot g f e.source L = some nr
        ∧ (g.node nr).layer.getRoutingLevel ≠ L := by
    intro e he hfol
    cases fuel_r with
    | zero => simp [findSegmentRoot] at hself
    | succ f =>
      obtain ⟨nr, hnr, hcase⟩ := findSegmentRoot_up g L f r r e he hfol hself
      rcases hcase with h1 | ⟨_, h2⟩
      · exfalso
        have h3 := (findSegmentRoot_depth g depth L hwf.in_source hdepth f e.source nr
          (hwf.in_source r hrn.1 e he) hnr).2
        have h4 := hdepth r hrn.1 e he
        rw [← h1] at h3
        omega
      · exact ⟨f, nr, hnr, h2⟩
  have hP : ∀ c ∈ g.nodes, ∀ e,
      (c = r ∨ ∃ f r2, findSegmentRoot g f c L = some r2
        ∧ (g.node r2).layer.getRoutingLevel ≠ L) →
      (g.node c).in_edge = some e →
      wire_edge_follows g L (e, EdgeIoType.IN) = true →
      (e.source = r ∨ ∃ f r2, findSegmentRoot g f e.source L = some r2
        ∧ (g.node r2).layer.getRoutingLevel ≠ L) := by
    intro c _ e hPc he hfol
    rcases hPc with h1 | ⟨f, r2, hf, hl⟩
    · rw [h1] at he
      exact Or.inr (hr_up e he hfol)
    · cases f with
      | zero => simp [findSegmentRoot] at hf
      | succ f =>
        obtain ⟨nr, hnr, hcase⟩ := findSegmentRoot_up g L f c r2 e he hfol hf
        rcases hcase with h1 | ⟨_, h2⟩
        · exact Or.inr ⟨f, nr, hnr, h1 ▸ hl⟩
        · exact Or.inr ⟨f, nr, hnr, h2⟩
  refine ⟨2 * unvisited g.nodes [] + 1, ?_⟩
  intro fuel hfuel
  obtain ⟨res, hres, _, _⟩ := calculateWireArea_returns ck g hwf.in_source
    (fun n hn e he => ⟨(hwf.out_edge n hn e he).1, (hwf.out_edge n hn e he).2.1⟩) fuel r
    L [] [] hrn.1 (by simp only [List.not_mem_nil, if_false]; omega)
  obtain ⟨⟨new, ups, a1, a2, _, a4, a5, a8, _, a7⟩, _⟩ := calculateWireArea_ext ck g depth L
    (fun u => u = r ∨ ∃ f r2, findSegmentRoot g f u L = some r2
      ∧ (g.node r2).layer.getRoutingLevel ≠ L)
    hwf.in_source hwf.out_edge hdepth hP fuel r [] [] res hrn.1
    (Or.inl ⟨fun v hv => by simp at hv, Or.inl rfl⟩) hres
  simp only [List.nil_append] at a1
  refine ⟨res, hres, a1 ▸ a2, ⟨ups, a1 ▸ a4, ?_, ?_⟩, ?_⟩
  · intro u hu e he hty
    have hug : u ∈ g.nodes := a8 u (a4.subset hu)
    have hne : (g.node u).layer.getRoutingLevel ≠ L := by
      intro hl
      rcases a5 u hu with h1 | ⟨f, r2, hf, hl2⟩
      · rw [h1] at he
        obtain ⟨f, nr, hnr, hl2⟩ := hr_up e he (by
          unfold wire_edge_follows
          rcases hty with h | h <;> simp only [h])
        exact hl2 (findSegmentRoot_level g hwf.in_source hseg L f e.source nr
          (hwf.in_source r hrn.1 e he) ((hseg r hrn.1 e he hty).trans hL) hnr)
      · exact hl2 (findSegmentRoot_level g hwf.in_source hseg L f u r2 hug hl hf)
    have hne2 : (g.node e.source).layer.getRoutingLevel ≠ L := by
      rw [hseg u hug e he hty]; exact hne
    constructor
    · unfold wire_in_term
      rw [he]
      unfold wire_edge_term
      rcases hty with h | h <;> simp only [h, if_neg hne]
    · intro count
      unfold wire_edge_term
      rcases hty with h | h <;> simp only [h, if_neg hne2]
  · rw [a1]; simpa using a7
  · intro level_nodes
    obtain ⟨res2, hres2, h1, h2, _⟩ :=
      calculateWireArea_level_nodes_indep ck g L fuel r [] [] level_nodes res hres
    exact ⟨res2, hres2, h1.symm, h2.symm⟩

/-- C25, witness: on the two-level net with layers of thickness 0.5, node 2
is a wireroot at level 2; `calculateWireArea(2, 2)` visits the nodes 2, 1, 0
and 3 once and returns the areas 0.31 and 3.2, whatever `level_nodes`
holds. -/
theorem calculateWireArea_no_double_count_witness :
    getWireroots (ex_net_two_level (ex_metal_thick 1) (ex_metal_thick 2) (ex_via1 none) []) 4
        = some [0, 2]
      ∧ calculateWireArea (ex_checker [])
          (ex_net_two_level (ex_metal_thick 1) (ex_metal_thick 2) (ex_via1 none) []) 9 2 2 [] []
        = some ⟨31 / 100, 16 / 5, [2, 1, 0, 3], [2]⟩
      ∧ ∃ fuel0, ∀ fuel, fuel0 ≤ fuel →
        ∃ res, calculateWireArea (ex_checker [])
              (ex_net_two_level (ex_metal_thick 1) (ex_metal_thick 2) (ex_via1 none) []) fuel 2
              ((ex_net_two_level (ex_metal_thick 1) (ex_metal_thick 2) (ex_via1 none) []).node
                2).layer.getRoutingLevel [] [] = some res
          ∧ res.nv.Nodup
          ∧ (∃ ups : List Nat, ups.Sublist res.nv
              ∧ (∀ u ∈ ups, ∀ e,
                  ((ex_net_two_level (ex_metal_thick 1) (ex_metal_thick 2) (ex_via1 none)
                    []).node u).in_edge = some e →
                  (e.type = EdgeType.SEGMENT ∨ e.type = EdgeType.SHORT) →
                  wire_in_term (ex_checker [])
                    (ex_net_two_level (ex_metal_thick 1) (ex_metal_thick 2) (ex_via1 none) [])
                    ((ex_net_two_level (ex_metal_thick 1) (ex_metal_thick 2) (ex_via1 none)
                      []).node 2).layer.getRoutingLevel u = (0, 0)
                    ∧ ∀ count, wire_edge_term (ex_checker [])
                        (ex_net_two_level (ex_metal_thick 1) (ex_metal_thick 2) (ex_via1 none)
                          []) e.source
                        ((ex_net_two_level (ex_metal_thick 1) (ex_metal_thick 2) (ex_via1 none)
                          []).node 2).layer.getRoutingLevel count (e, EdgeIoType.OUT) = (0, 0))
              ∧ (res.wire_area, res.side_wire_area)
                  = (res.nv.map (wire_out_terms (ex_checker [])
                      (ex_net_two_level (ex_metal_thick 1) (ex_metal_thick 2) (ex_via1 none) [])
                      ((ex_net_two_level (ex_metal_thick 1) (ex_metal_thick 2) (ex_via1 none)
                        []).node 2).layer.getRoutingLevel)).sum
                    + (ups.map (wire_in_term (ex_checker [])
                      (ex_net_two_level (ex_metal_thick 1) (ex_metal_thick 2) (ex_via1 none) [])
                      ((ex_net_two_level (ex_metal_thick 1) (ex_metal_thick 2) (ex_via1 none)
                        []).node 2).layer.getRoutingLevel)).sum)
          ∧ ∀ level_nodes, ∃ res2,
              calculateWireArea (ex_checker [])
                  (ex_net_two_level (ex_metal_thick 1) (ex_metal_thick 2) (ex_via1 none) []) fuel
                  2 ((ex_net_two_level (ex_metal_thick 1) (ex_metal_thick 2) (ex_via1 none)
                    []).node 2).layer.getRoutingLevel [] level_nodes = some res2
                ∧ res2.wire_area = res.wire_area
                ∧ res2.side_wire_area = res.side_wire_area :=
  ⟨by decide, by decide!,
    calculateWireArea_no_double_count (ex_checker [])
      (ex_net_two_level (ex_metal_thick 1) (ex_metal_thick 2) (ex_via1 none) [])
      (ex_net_two_level_wellFormed _ _ _ _).1
      (fun n hn e he hty =>
        congrArg dbTechLayer.getRoutingLevel ((ex_net_two_level_edges _ _ _ _).2 n hn e he hty))
      4 [0, 2] (by decide) 2 (by decide)⟩

/-! ## The report of `getNetAntennaViolations` -/

/-- On a tree-shaped graph, with more fuel than the depth of every node,
`getWireroots` returns, and its roots are nodes of the graph. -/
theorem getWireroots_returns (g : dbWireGraph) (depth : Nat → Nat) (D : Nat)
    (hin : ∀ n ∈ g.nodes, ∀ e, (g.node n).in_edge = some e → e.source ∈ g.nodes)
    (hdepth : ∀ n ∈ g.nodes, ∀ e, (g.node n).in_edge = some e → depth e.source < depth n)
    (hD : ∀ n ∈ g.nodes, depth n ≤ D) (fuel : Nat) (hfuel : D < fuel) :
    ∃ roots, getWireroots g fuel = some roots ∧ ∀ r ∈ roots, r ∈ g.nodes := by
  unfold getWireroots
  refine foldlM_option_progress (fun roots : List Nat => ∀ r ∈ roots, r ∈ g.nodes) _ g.nodes []
    (fun r hr => by simp at hr) ?_
  intro st n hn hst
  have hd := hD n hn
  obtain ⟨r, hr, hrn, _⟩ := findSegmentRoot_returns g depth
    (g.node n).layer.getRoutingLevel hin hdepth fuel n hn (by omega)
  refine ⟨if r ∈ st then st else st ++ [r], by simp only [hr, Option.map_some'], ?_⟩
  intro x hx
  split_ifs at hx
  · exact hst x hx
  · rcases List.mem_append.mp hx with hx | hx
    · exact hst x hx
    · rw [List.mem_singleton] at hx
      rw [hx]; exact hrn

/-- The records of the table of `buildWireParTable`: each is computed by
`calculateParInfo` for a wireroot of the list, from the terminal areas that
`findWireBelowIterms` sums for that wireroot. -/
theorem buildWireParTable_records (ck : AntennaChecker) (g : dbWireGraph) (fuel : Nat)
    (wireroots_info : List Nat) (PARtable : List PARinfo)
    (h : buildWireParTable ck g fuel [] wireroots_info = some PARtable) :
    ∀ r ∈ PARtable, r.WirerootNode ∈ wireroots_info
      ∧ (∃ r0, r = calculateParInfo ck g r0)
      ∧ ∃ below, findWireBelowIterms ck g fuel r.WirerootNode
            (g.node r.WirerootNode).layer.getRoutingLevel ⟨(0, 0), [], []⟩ = some below
          ∧ r.iterm_areas = below.iterm_areas := by
  unfold buildWireParTable at h
  obtain ⟨⟨T0, ln⟩, hl, hmap⟩ := Option.map_eq_some'.mp h
  obtain ⟨_, new, hT, hrec, _⟩ :=
    buildWireParTable_loop_spec ck g fuel wireroots_info [] [] T0 ln hl
  simp only [List.nil_append] at hT
  subst hT
  intro r hr
  rw [← hmap] at hr
  obtain ⟨r0, hr0, rfl⟩ := List.mem_map.mp hr
  obtain ⟨_, _, _, _, h5, below, hb, h6⟩ := hrec r0 hr0
  obtain ⟨k1, k2⟩ := calculateParInfo_keeps ck g r0
  exact ⟨by rw [k1]; exact h5, ⟨r0, rfl⟩, below, by rw [k1]; exact hb, by rw [k2]; exact h6⟩

/-- The loop of `getNetAntennaViolations` over a table whose records have
their terminals found: it returns, and it appends one `ViolationInfo` for every
violating record of the table, in the order of the table, with the level of
the wireroot, the terminals found, and the diode count of the `while` loop (0
without a candidate cell name). -/
theorem getNetAntennaViolations_fold (ck : AntennaChecker) (g : dbWireGraph) (fuel : Nat)
    (antenna_cell_name : String) (d : ℚ) :
    ∀ (table : List PARinfo),
      (∀ r ∈ table, ∃ gates, findWirerootIterms ck g fuel r.WirerootNode
        (g.node r.WirerootNode).layer.getRoutingLevel = some gates) →
      ∀ vs0, ∃ vs,
        table.foldlM (getNetAntennaViolations_record ck g fuel antenna_cell_name d) vs0
            = some (vs0 ++ vs)
          ∧ List.Forall₂
              (fun (par : PARinfo) (v : ViolationInfo) =>
                ∃ gates, findWirerootIterms ck g fuel par.WirerootNode
                    (g.node par.WirerootNode).layer.getRoutingLevel = some gates
                  ∧ v = ⟨(g.node par.WirerootNode).layer.getRoutingLevel, gates,
                      if antenna_cell_name ≠ "" then
                        (getNetAntennaViolations_while ck g (g.node par.WirerootNode).layer d 10
                          par true 0).2.2
                      else 0⟩)
              (table.filter fun par => checkViolation par (g.node par.WirerootNode).layer)
              vs := by
  intro table
  induction table with
  | nil => intro _ vs0; exact ⟨[], by simp, List.Forall₂.nil⟩
  | cons par rest ih =>
    intro hg vs0
    obtain ⟨gates, hgates⟩ := hg par (List.mem_cons_self _ _)
    have hrest := fun r hr => hg r (List.mem_cons_of_mem _ hr)
    by_cases hv : checkViolation par (g.node par.WirerootNode).layer = true
    · have hstep : ∃ v0 : ViolationInfo,
          getNetAntennaViolations_record ck g fuel antenna_cell_name d vs0 par
            = some (vs0 ++ [v0])
          ∧ v0 = ⟨(g.node par.WirerootNode).layer.getRoutingLevel, gates,
              if antenna_cell_name ≠ "" then
                (getNetAntennaViolations_while ck g (g.node par.WirerootNode).layer d 10
                  par true 0).2.2
              else 0⟩ := by
        refine ⟨_, ?_, rfl⟩
        unfold getNetAntennaViolations_record
        simp only [hv, if_true, hgates, Option.map_some']
      obtain ⟨v0, hstep, hv0⟩ := hstep
      obtain ⟨vs, hvs, hall⟩ := ih hrest (vs0 ++ [v0])
      refine ⟨v0 :: vs, ?_, ?_⟩
      · simp only [List.foldlM, bind, Option.bind, hstep]
        rw [hvs, List.append_assoc]
        rfl
      · simp only [List.filter_cons, hv, if_true]
        exact List.Forall₂.cons ⟨gates, hgates, hv0⟩ hall
    · have hstep : getNetAntennaViolations_record ck g fuel antenna_cell_name d vs0 par
          = some vs0 := by
        unfold getNetAntennaViolations_record
        simp only [hv]
        rfl
      obtain ⟨vs, hvs, hall⟩ := ih hrest vs0
      refine ⟨vs, ?_, ?_⟩
      · simp only [List.foldlM, bind, Option.bind, hstep]
        exact hvs
      · simp only [List.filter_cons, hv]
        exact hall

/-- The report of `getNetAntennaViolations` on a net with a tree-shaped wire
graph: with enough fuel, `getWireroots`, `buildWireParTable` and
`getNetAntennaViolations` return, the records of the table are computed by
`calculateParInfo`, and the report holds one `ViolationInfo` for every violating
record of the table, in the order of the table, with the diode count of the
`while` loop on that record. -/
theorem getNetAntennaViolations_report (ck : AntennaChecker)
    (findMTerm : String → String → Option dbMTerm) (net : dbNet) (graph : dbWireGraph)
    (antenna_cell_name cell_pin : String) (d : ℚ)
    (hspecial : net.isSpecial = false) (hwire : net.getWire = some graph)
    (hwf : graph.WellFormed)
    (hd : (if antenna_cell_name ≠ "" then
        (findMTerm antenna_cell_name cell_pin).map fun mterm =>
          mterm.getDiffArea.foldl (fun max_diff_area p => max max_diff_area p.1) 0
      else some 0) = some d) :
    ∃ fuel0, ∀ fuel, fuel0 ≤ fuel →
      ∃ wireroots_info PARtable antenna_violations,
        getWireroots graph fuel = some wireroots_info
          ∧ buildWireParTable ck graph fuel [] wireroots_info = some PARtable
          ∧ getNetAntennaViolations ck findMTerm net fuel antenna_cell_name cell_pin
              = some antenna_violations
          ∧ (∀ r ∈ PARtable, ∃ r0, r = calculateParInfo ck graph r0)
          ∧ List.Forall₂
              (fun (par : PARinfo) (v : ViolationInfo) =>
                v.routing_level = (graph.node par.WirerootNode).layer.getRoutingLevel
                  ∧ v.antenna_cell_nums
                    = if antenna_cell_name ≠ "" then
                        (getNetAntennaViolations_while ck graph
                          (graph.node par.WirerootNode).layer d 10 par true 0).2.2
                      else 0)
              (PARtable.filter fun par =>
                checkViolation par (graph.node par.WirerootNode).layer)
              antenna_violations := by
  obtain ⟨depth, hdepth⟩ := hwf.acyclic
  refine ⟨unvisited graph.nodes [] * ((graph.nodes.map depth).sum + 2)
    + 2 * unvisited graph.nodes [] + (graph.nodes.map depth).sum + 1, ?_⟩
  intro fuel hfuel
  obtain ⟨roots, hroots, hnodes⟩ := getWireroots_returns graph depth (graph.nodes.map depth).sum
    hwf.in_source hdepth (depth_le_sum depth graph.nodes) fuel (by omega)
  obtain ⟨res, hres⟩ := buildWireParTable_loop_returns ck graph depth
    (graph.nodes.map depth).sum hwf.in_source hwf.out_edge hdepth
    (depth_le_sum depth graph.nodes) fuel (by omega) roots hnodes ([], [])
  have htable : buildWireParTable ck graph fuel [] roots
      = some (res.1.map (calculateParInfo ck graph)) := by
    simp only [buildWireParTable, hres, Option.map_some']
  have hrecs := buildWireParTable_records ck graph fuel roots _ htable
  obtain ⟨vs, hvs, hall⟩ := getNetAntennaViolations_fold ck graph fuel antenna_cell_name d
    (res.1.map (calculateParInfo ck graph)) (by
      intro r hr
      obtain ⟨_, _, below, hb, _⟩ := hrecs r hr
      exact ⟨below.iv, by simp only [findWirerootIterms, hb, Option.map_some']⟩) []
  refine ⟨roots, _, vs, hroots, htable, ?_, fun r hr => (hrecs r hr).2.1, ?_⟩
  · unfold getNetAntennaViolations
    simp only [hd, Option.some_bind, hspecial, hwire, hroots, htable]
    simpa using hvs
  · refine hall.imp ?_
    rintro par v ⟨gates, _, rfl⟩
    exact ⟨rfl, rfl⟩

/-- A relation that holds along two lists is passed on to a relation it
implies on the elements of the first list. -/
theorem forall₂_imp_mem {α β : Type} (R S : α → β → Prop) :
    ∀ (l1 : List α) (l2 : List β), List.Forall₂ R l1 l2 →
      (∀ a b, a ∈ l1 → R a b → S a b) → List.Forall₂ S l1 l2 := by
  intro l1 l2 h
  induction h with
  | nil => intro _; exact List.Forall₂.nil
  | cons hab _ ih =>
    intro himp
    exact List.Forall₂.cons (himp _ _ (List.mem_cons_self _ _) hab)
      (ih fun a b ha => himp a b (List.mem_cons_of_mem _ ha))

/-- The diode count of the `while` loop on a violating record: it is between 1
and 10, and when it is below 10 the record with that many diodes does not
violate, while every record with fewer diodes does. -/
theorem getNetAntennaViolations_while_least (ck : AntennaChecker) (g : dbWireGraph)
    (layer : dbTechLayer) (d : ℚ) (par : PARinfo) (hviol : checkViolation par layer = true) :
    1 ≤ (getNetAntennaViolations_while ck g layer d 10 par true 0).2.2
      ∧ (getNetAntennaViolations_while ck g layer d 10 par true 0).2.2 ≤ 10
      ∧ ((getNetAntennaViolations_while ck g layer d 10 par true 0).2.2 < 10 →
          checkViolation (diode_record ck g d par
              (getNetAntennaViolations_while ck g layer d 10 par true 0).2.2) layer = false
            ∧ ∀ j, j < (getNetAntennaViolations_while ck g layer d 10 par true 0).2.2 →
                checkViolation (diode_record ck g d par j) layer = true) := by
  obtain ⟨i, e1, e2, _, e4, e5, e6, _, e8⟩ :=
    getNetAntennaViolations_while_spec ck g layer d par 10 0 0 true
  have hrec : diode_record ck g d par 0 = par := by simp [diode_record]
  rw [hrec] at e1 e4 e5 e8
  simp only [Nat.zero_add] at e1 e5 e6 e8
  rw [e1]
  have hpos : 0 < i := by
    rcases Nat.eq_zero_or_pos i with h0 | h0
    · subst h0
      exact absurd ⟨e4 rfl, by omega⟩ (e8 (by omega))
    · exact h0
  refine ⟨hpos, e2, ?_⟩
  intro hlt
  have hexit := e8 hlt
  rw [e5 hpos] at hexit
  refine ⟨?_, ?_⟩
  · cases hc : checkViolation (diode_record ck g d par i) layer with
    | false => rfl
    | true => exact absurd ⟨hc, hlt⟩ hexit
  · intro j hj
    rcases Nat.eq_zero_or_pos j with h0 | h0
    · subst h0; rw [hrec]; exact hviol
    · exact e6 j h0 hj

/-- C17. The diode count is the least clearing count.  On a net with a
tree-shaped wire graph, for a candidate cell that is given and found, with
enough fuel `getNetAntennaViolations` returns a report that holds one
`ViolationInfo` for every violating record of the PAR table of the net, in the
order of the table; if the diode count `k` reported for a record is below 10,
the record recomputed with its diffusion area increased by `k` times (diode
diffusion area times number of terminals of the record) does not violate under
`checkViolation`, and for every `j < k` the record with `j` such increments
still violates. -/
theorem diode_count_least (ck : AntennaChecker) (findMTerm : String → String → Option dbMTerm)
    (net : dbNet) (graph : dbWireGraph) (antenna_cell_name cell_pin : String)
    (mterm : dbMTerm)
    (hspecial : net.isSpecial = false) (hwire : net.getWire = some graph)
    (hwf : graph.WellFormed) (hname : antenna_cell_name ≠ "")
    (hcell : findMTerm antenna_cell_name cell_pin = some mterm) :
    ∃ fuel0, ∀ fuel, fuel0 ≤ fuel →
      ∃ wireroots_info PARtable antenna_violations,
        getWireroots graph fuel = some wireroots_info
          ∧ buildWireParTable ck graph fuel [] wireroots_info = some PARtable
          ∧ getNetAntennaViolations ck findMTerm net fuel antenna_cell_name cell_pin
              = some antenna_violations
          ∧ List.Forall₂
              (fun (par : PARinfo) (v : ViolationInfo) =>
                v.routing_level = (graph.node par.WirerootNode).layer.getRoutingLevel
                  ∧ 1 ≤ v.antenna_cell_nums ∧ v.antenna_cell_nums ≤ 10
                  ∧ (v.antenna_cell_nums < 10 →
                      checkViolation
                          (diode_record ck graph
                            (mterm.getDiffArea.foldl (fun max_diff_area p => max max_diff_area p.1)
                              0) par v.antenna_cell_nums)
                          (graph.node par.WirerootNode).layer = false
                        ∧ ∀ j, j < v.antenna_cell_nums →
                            checkViolation
                              (diode_record ck graph
                                (mterm.getDiffArea.foldl
                                  (fun max_diff_area p => max max_diff_area p.1) 0) par j)
                              (graph.node par.WirerootNode).layer = true))
              (PARtable.filter fun par =>
                checkViolation par (graph.node par.WirerootNode).layer)
              antenna_violations := by
  obtain ⟨fuel0, h⟩ := getNetAntennaViolations_report ck findMTerm net graph antenna_cell_name
    cell_pin (mterm.getDiffArea.foldl (fun max_diff_area p => max max_diff_area p.1) 0)
    hspecial hwire hwf (by simp only [if_pos hname, hcell, Option.map_some'])
  refine ⟨fuel0, fun fuel hfuel => ?_⟩
  obtain ⟨roots, PARtable, vs, h1, h2, h3, _, h5⟩ := h fuel hfuel
  refine ⟨roots, PARtable, vs, h1, h2, h3, ?_⟩
  refine forall₂_imp_mem _ _ _ _ h5 ?_
  rintro par v hpar ⟨hlevel, hcount⟩
  rw [if_pos hname] at hcount
  rw [hcount]
  exact ⟨hlevel, getNetAntennaViolations_while_least ck graph _ _ par
    (List.mem_filter.mp hpar).2⟩

/-- A `while` loop of `getNetAntennaViolations` on a record that violates with
every number of diodes runs 10 times. -/
theorem getNetAntennaViolations_while_ten (ck : AntennaChecker) (g : dbWireGraph)
    (layer : dbTechLayer) (d : ℚ) (par : PARinfo)
    (hall : ∀ j, checkViolation (diode_record ck g d par j) layer = true) :
    (getNetAntennaViolations_while ck g layer d 10 par true 0).2.2 = 10 := by
  obtain ⟨h1, h2, h3⟩ := getNetAntennaViolations_while_least ck g layer d par (by
    have := hall 0
    simpa [diode_record] using this)
  rcases Nat.lt_or_ge (getNetAntennaViolations_while ck g layer d 10 par true 0).2.2 10
    with hlt | hge
  · have := (h3 hlt).1
    rw [hall] at this
    simp at this
  · omega

/-- C33. Diodes never cure a flat-PAR violation.  With the layer table built by
`loadAntennaRules`, on a net with a tree-shaped wire graph and for a candidate
cell that is given and found, whatever its diffusion area, with enough fuel
`getNetAntennaViolations` returns a report that holds one `ViolationInfo` for
every violating record of the PAR table of the net, in the order of the table.
A record whose PAR value exceeds the nonzero flat PAR threshold of its layer
violates, and when the area factor of the layer is not for diffusion use only,
the diode count reported for it is 10: the PAR value of the record recomputed
with any number of diodes is the same. -/
theorem diode_flat_par_ten (stod : String → Option ℚ) (tech_layers : List dbTechLayer)
    (layer_info0 : List (dbTechLayer × ANTENNAmodel)) (ck : AntennaChecker)
    (findMTerm : String → String → Option dbMTerm) (net : dbNet) (graph : dbWireGraph)
    (antenna_cell_name cell_pin : String) (mterm : dbMTerm)
    (hload : loadAntennaRules stod tech_layers layer_info0 = some ck.layer_info)
    (hspecial : net.isSpecial = false) (hwire : net.getWire = some graph)
    (hwf : graph.WellFormed) (hname : antenna_cell_name ≠ "")
    (hcell : findMTerm antenna_cell_name cell_pin = some mterm) :
    ∃ fuel0, ∀ fuel, fuel0 ≤ fuel →
      ∃ wireroots_info PARtable antenna_violations,
        getWireroots graph fuel = some wireroots_info
          ∧ buildWireParTable ck graph fuel [] wireroots_info = some PARtable
          ∧ getNetAntennaViolations ck findMTerm net fuel antenna_cell_name cell_pin
              = some antenna_violations
          ∧ (∀ par ∈ PARtable, ∀ rule,
              (graph.node par.WirerootNode).layer.getDefaultAntennaRule = some rule →
              rule.getPAR ≠ 0 → par.PAR_value > rule.getPAR →
              par ∈ PARtable.filter fun par =>
                checkViolation par (graph.node par.WirerootNode).layer)
          ∧ List.Forall₂
              (fun (par : PARinfo) (v : ViolationInfo) =>
                v.routing_level = (graph.node par.WirerootNode).layer.getRoutingLevel
                  ∧ ∀ rule, (graph.node par.WirerootNode).layer ∈ tech_layers →
                    (graph.node par.WirerootNode).layer.getDefaultAntennaRule = some rule →
                    rule.isAreaFactorDiffUseOnly = false →
                    rule.getPAR ≠ 0 → par.PAR_value > rule.getPAR →
                    v.antenna_cell_nums = 10
                      ∧ ∀ j, (diode_record ck graph
                          (mterm.getDiffArea.foldl (fun max_diff_area p => max max_diff_area p.1)
                            0) par j).PAR_value = par.PAR_value)
              (PARtable.filter fun par =>
                checkViolation par (graph.node par.WirerootNode).layer)
              antenna_violations := by
  obtain ⟨fuel0, h⟩ := getNetAntennaViolations_report ck findMTerm net graph antenna_cell_name
    cell_pin (mterm.getDiffArea.foldl (fun max_diff_area p => max max_diff_area p.1) 0)
    hspecial hwire hwf (by simp only [if_pos hname, hcell, Option.map_some'])
  refine ⟨fuel0, fun fuel hfuel => ?_⟩
  obtain ⟨roots, PARtable, vs, h1, h2, h3, h4, h5⟩ := h fuel hfuel
  refine ⟨roots, PARtable, vs, h1, h2, h3, ?_, ?_⟩
  · intro par hpar rule hrule hflat hviol
    refine List.mem_filter.mpr ⟨hpar, ?_⟩
    rw [checkViolation_eq _ _ rule hrule]
    simp only [decide_eq_true_eq]
    exact Or.inl ⟨hflat, hviol⟩
  refine forall₂_imp_mem _ _ _ _ h5 ?_
  rintro par v hpar ⟨hlevel, hcount⟩
  refine ⟨hlevel, ?_⟩
  intro rule hlayer hrule huse hflat hviol
  obtain ⟨r0, hr0⟩ := h4 par (List.mem_filter.mp hpar).1
  have hroot : par.WirerootNode = r0.WirerootNode := by
    rw [hr0]; exact (calculateParInfo_keeps ck graph r0).1
  have hfactor := loadAntennaRules_metal_factor stod _ tech_layers layer_info0 ck.layer_info
    rule hlayer hload hrule huse
  rw [hroot] at hfactor
  have hPAR : ∀ j, (diode_record ck graph
      (mterm.getDiffArea.foldl (fun max_diff_area p => max max_diff_area p.1) 0) par
        j).PAR_value = par.PAR_value := by
    intro j
    rw [hr0]
    exact diode_record_PAR ck graph _ r0 hfactor j
  refine ⟨?_, hPAR⟩
  rw [if_pos hname] at hcount
  rw [hcount]
  apply getNetAntennaViolations_while_ten
  intro j
  rw [checkViolation_eq _ _ rule hrule, hPAR j]
  simp only [decide_eq_true_eq]
  exact Or.inl ⟨hflat, hviol⟩

/-- The net of one wire on a gate is tree-shaped. -/
theorem ex_graph_gate_wellFormed (rule : Option dbTechLayerAntennaRule) :
    (ex_graph_gate rule).WellFormed := by
  refine ⟨?_, ?_, ⟨fun n => n, ?_⟩⟩
  · intro n hn e he
    simp only [ex_graph_gate, List.mem_cons, List.mem_singleton, List.not_mem_nil,
      or_false] at hn he ⊢
    rcases hn with rfl | rfl
    · simp at he
    · simp only [one_ne_zero, if_false, Option.some.injEq] at he
      subst he
      simp [ex_segment]
  · intro n hn e he
    simp only [ex_graph_gate, List.mem_cons, List.mem_singleton, List.not_mem_nil,
      or_false] at hn he ⊢
    rcases hn with rfl | rfl
    · simp only [if_true, List.mem_singleton] at he
      subst he
      simp [ex_segment]
    · simp at he
  · intro n hn e he
    simp only [ex_graph_gate, List.mem_cons, List.mem_singleton, List.not_mem_nil,
      or_false] at hn he
    rcases hn with rfl | rfl
    · simp at he
    · simp only [one_ne_zero, if_false, Option.some.injEq] at he
      subst he
      simp [ex_segment]

/-- C17, witness: the record of the wire on a gate, PAR 4, violates the curve
at diffusion area 0 (threshold 1) and with one diode (diffusion area 2,
threshold 3), and no longer with two diodes (diffusion area 4, threshold 5):
`getNetAntennaViolations` reports one violation, with the diode count 2. -/
theorem diode_count_least_witness :
    getNetAntennaViolations (ex_gate_checker [] (ex_layer_info (some ex_rule_pwl_par)))
        (fun _ _ => some ex_diode_mterm) (ex_net (ex_graph_gate (some ex_rule_pwl_par))) 10
        "ANTENNA" "DIODE"
      = some [⟨1, [0], 2⟩]
    ∧ ∃ fuel0, ∀ fuel, fuel0 ≤ fuel →
      ∃ wireroots_info PARtable antenna_violations,
        getWireroots (ex_graph_gate (some ex_rule_pwl_par)) fuel = some wireroots_info
          ∧ buildWireParTable (ex_gate_checker [] (ex_layer_info (some ex_rule_pwl_par)))
              (ex_graph_gate (some ex_rule_pwl_par)) fuel [] wireroots_info = some PARtable
          ∧ getNetAntennaViolations (ex_gate_checker [] (ex_layer_info (some ex_rule_pwl_par)))
              (fun _ _ => some ex_diode_mterm) (ex_net (ex_graph_gate (some ex_rule_pwl_par)))
              fuel "ANTENNA" "DIODE" = some antenna_violations
          ∧ List.Forall₂
              (fun (par : PARinfo) (v : ViolationInfo) =>
                v.routing_level
                    = ((ex_graph_gate (some ex_rule_pwl_par)).node
                        par.WirerootNode).layer.getRoutingLevel
                  ∧ 1 ≤ v.antenna_cell_nums ∧ v.antenna_cell_nums ≤ 10
                  ∧ (v.antenna_cell_nums < 10 →
                      checkViolation
                          (diode_record (ex_gate_checker [] (ex_layer_info (some ex_rule_pwl_par)))
                            (ex_graph_gate (some ex_rule_pwl_par))
                            (ex_diode_mterm.getDiffArea.foldl
                              (fun max_diff_area p => max max_diff_area p.1) 0)
                            par v.antenna_cell_nums)
                          ((ex_graph_gate (some ex_rule_pwl_par)).node par.WirerootNode).layer
                        = false
                        ∧ ∀ j, j < v.antenna_cell_nums →
                            checkViolation
                              (diode_record
                                (ex_gate_checker [] (ex_layer_info (some ex_rule_pwl_par)))
                                (ex_graph_gate (some ex_rule_pwl_par))
                                (ex_diode_mterm.getDiffArea.foldl
                                  (fun max_diff_area p => max max_diff_area p.1) 0) par j)
                              ((ex_graph_gate (some ex_rule_pwl_par)).node
                                par.WirerootNode).layer = true))
              (PARtable.filter fun par =>
                checkViolation par
                  ((ex_graph_gate (some ex_rule_pwl_par)).node par.WirerootNode).layer)
              antenna_violations :=
  ⟨by decide!,
    diode_count_least (ex_gate_checker [] (ex_layer_info (some ex_rule_pwl_par)))
      (fun _ _ => some ex_diode_mterm) (ex_net (ex_graph_gate (some ex_rule_pwl_par)))
      (ex_graph_gate (some ex_rule_pwl_par)) "ANTENNA" "DIODE" ex_diode_mterm rfl rfl
      (ex_graph_gate_wellFormed _) (by decide) rfl⟩

/-- C33, witness: the wire on a gate under the flat PAR threshold 1.5 has PAR
4; with a diode of diffusion area 2 `getNetAntennaViolations` reports one
violation, with the diode count 10. -/
theorem diode_flat_par_ten_witness :
    getNetAntennaViolations (ex_gate_checker [] (ex_loaded [ex_metal1 (some ex_rule_flat_par)]))
        (fun _ _ => some ex_diode_mterm) (ex_net (ex_graph_gate (some ex_rule_flat_par))) 10
        "ANTENNA" "DIODE"
      = some [⟨1, [0], 10⟩]
    ∧ ∃ fuel0, ∀ fuel, fuel0 ≤ fuel →
      ∃ wireroots_info PARtable antenna_violations,
        getWireroots (ex_graph_gate (some ex_rule_flat_par)) fuel = some wireroots_info
          ∧ buildWireParTable
              (ex_gate_checker [] (ex_loaded [ex_metal1 (some ex_rule_flat_par)]))
              (ex_graph_gate (some ex_rule_flat_par)) fuel [] wireroots_info = some PARtable
          ∧ getNetAntennaViolations
              (ex_gate_checker [] (ex_loaded [ex_metal1 (some ex_rule_flat_par)]))
              (fun _ _ => some ex_diode_mterm) (ex_net (ex_graph_gate (some ex_rule_flat_par)))
              fuel "ANTENNA" "DIODE" = some antenna_violations
          ∧ (∀ par ∈ PARtable, ∀ rule,
              ((ex_graph_gate (some ex_rule_flat_par)).node
                par.WirerootNode).layer.getDefaultAntennaRule = some rule →
              rule.getPAR ≠ 0 → par.PAR_value > rule.getPAR →
              par ∈ PARtable.filter fun par =>
                checkViolation par
                  ((ex_graph_gate (some ex_rule_flat_par)).node par.WirerootNode).layer)
          ∧ List.Forall₂
              (fun (par : PARinfo) (v : ViolationInfo) =>
                v.routing_level
                    = ((ex_graph_gate (some ex_rule_flat_par)).node
                        par.WirerootNode).layer.getRoutingLevel
                  ∧ ∀ rule,
                    ((ex_graph_gate (some ex_rule_flat_par)).node par.WirerootNode).layer
                      ∈ [ex_metal1 (some ex_rule_flat_par)] →
                    ((ex_graph_gate (some ex_rule_flat_par)).node
                      par.WirerootNode).layer.getDefaultAntennaRule = some rule →
                    rule.isAreaFactorDiffUseOnly = false →
                    rule.getPAR ≠ 0 → par.PAR_value > rule.getPAR →
                    v.antenna_cell_nums = 10
                      ∧ ∀ j, (diode_record
                          (ex_gate_checker [] (ex_loaded [ex_metal1 (some ex_rule_flat_par)]))
                          (ex_graph_gate (some ex_rule_flat_par))
                          (ex_diode_mterm.getDiffArea.foldl
                            (fun max_diff_area p => max max_diff_area p.1) 0) par j).PAR_value
                        = par.PAR_value)
              (PARtable.filter fun par =>
                checkViolation par
                  ((ex_graph_gate (some ex_rule_flat_par)).node par.WirerootNode).layer)
              antenna_violations :=
  ⟨by decide!,
    diode_flat_par_ten (fun _ => none) [ex_metal1 (some ex_rule_flat_par)] []
      (ex_gate_checker [] (ex_loaded [ex_metal1 (some ex_rule_flat_par)]))
      (fun _ _ => some ex_diode_mterm) (ex_net (ex_graph_gate (some ex_rule_flat_par)))
      (ex_graph_gate (some ex_rule_flat_par)) "ANTENNA" "DIODE" ex_diode_mterm (by decide!)
      rfl rfl (ex_graph_gate_wellFormed _) (by decide) rfl⟩

/-! ## The whole-design check returns -/

/-- The nodes `findCarPath` leaves in its two vectors are nodes of the graph,
when the nodes it starts from are. -/
theorem findCarPath_nodes (g : dbWireGraph) (goal : Nat) (depth : Nat → Nat)
    (hin : ∀ n ∈ g.nodes, ∀ e, (g.node n).in_edge = some e → e.source ∈ g.nodes)
    (hout : ∀ n ∈ g.nodes, ∀ e ∈ (g.node n).out_edges,
      e.source = n ∧ e.target ∈ g.nodes ∧ (g.node e.target).in_edge = some e)
    (hdepth : ∀ n ∈ g.nodes, ∀ e, (g.node n).in_edge = some e → depth e.source < depth n) :
    ∀ (fuel n : Nat) (wire_level : Int) (st res : CarPath), n ∈ g.nodes →
      (∀ x ∈ st.current_path, x ∈ g.nodes) → (∀ x ∈ st.path_found, x ∈ g.nodes) →
      findCarPath g fuel n wire_level goal st = some res →
      (∀ x ∈ res.current_path, x ∈ g.nodes) ∧ (∀ x ∈ res.path_found, x ∈ g.nodes) := by
  intro fuel
  induction fuel with
  | zero => intro n wire_level st res _ _ _ h; simp [findCarPath] at h
  | succ fuel ih =>
    intro n wire_level st res hn hcp hpf h
    rw [findCarPath] at h
    simp only [] at h
    obtain ⟨st3, hs, hres⟩ := Option.map_eq_some'.mp h
    have hcp1 : ∀ x ∈ st.current_path ++ [n], x ∈ g.nodes := by
      intro x hx
      rcases List.mem_append.mp hx with hx | hx
      · exact hcp x hx
      · rw [List.mem_singleton] at hx; rw [hx]; exact hn
    have key : (∀ x ∈ st3.current_path, x ∈ g.nodes) ∧ (∀ x ∈ st3.path_found, x ∈ g.nodes) := by
      by_cases hg : n = goal
      · rw [if_pos hg] at hs
        rw [← Option.some.inj hs]
        refine ⟨hcp1, ?_⟩
        intro x hx
        have hm : ∀ (cp pf : List Nat), (∀ y ∈ cp, y ∈ g.nodes) → (∀ y ∈ pf, y ∈ g.nodes) →
            ∀ y ∈ findCarPath_merge cp pf, y ∈ g.nodes := by
          intro cp
          induction cp with
          | nil => intro pf _ h2 y hy; exact h2 y hy
          | cons c rest ihm =>
            intro pf h1 h2 y hy
            have hunf : findCarPath_merge (c :: rest) pf
                = findCarPath_merge rest (if c ∈ pf then pf else pf ++ [c]) := rfl
            rw [hunf] at hy
            refine ihm _ (fun z hz => h1 z (List.mem_cons_of_mem _ hz)) ?_ y hy
            intro z hz
            split_ifs at hz
            · exact h2 z hz
            · rcases List.mem_append.mp hz with hz | hz
              · exact h2 z hz
              · rw [List.mem_singleton] at hz
                rw [hz]; exact h1 c (List.mem_cons_self _ _)
        exact hm _ _ hcp1 hpf x hx
      · rw [if_neg hg] at hs
        obtain ⟨st2, hin2, hfold⟩ := Option.bind_eq_some.mp hs
        have h2 : (∀ x ∈ st2.current_path, x ∈ g.nodes)
            ∧ (∀ x ∈ st2.path_found, x ∈ g.nodes) := by
          unfold findCarPath_in at hin2
          cases he : (g.node n).in_edge with
          | none =>
            rw [he] at hin2
            rw [← Option.some.inj hin2]
            exact ⟨hcp1, hpf⟩
          | some e =>
            rw [he] at hin2
            simp only [] at hin2
            split_ifs at hin2
            · obtain ⟨root, hroot, hrec⟩ := Option.bind_eq_some.mp hin2
              have hr := (findSegmentRoot_depth g depth _ hin hdepth fuel e.source root
                (hin n hn e he) hroot).1
              exact ih root _ ⟨st.current_path ++ [n], st.path_found⟩ st2 hr hcp1 hpf hrec
            · rw [← Option.some.inj hin2]
              exact ⟨hcp1, hpf⟩
        refine foldlM_option_invariant_mem
          (fun s : CarPath => (∀ x ∈ s.current_path, x ∈ g.nodes)
            ∧ (∀ x ∈ s.path_found, x ∈ g.nodes)) _ _ st2 st3 hfold h2 ?_
        intro s e s2 he hs1 hstep
        obtain ⟨_, ht, _⟩ := hout n hn e he
        unfold findCarPath_out at hstep
        cases hty : e.type <;> rw [hty] at hstep <;> simp only [] at hstep
        · exact ih _ _ _ s2 ht hs1.1 hs1.2 hstep
        · split_ifs at hstep
          · obtain ⟨first, hfirst, hrec⟩ := Option.bind_eq_some.mp hstep
            exact ih first _ _ s2
              (findSegmentStart_depth g depth hin hdepth fuel e.target first ht hfirst).1
              hs1.1 hs1.2 hrec
          · rw [← Option.some.inj hstep]; exact hs1
        · split_ifs at hstep
          · obtain ⟨first, hfirst, hrec⟩ := Option.bind_eq_some.mp hstep
            exact ih first _ _ s2
              (findSegmentStart_depth g depth hin hdepth fuel e.target first ht hfirst).1
              hs1.1 hs1.2 hrec
          · rw [← Option.some.inj hstep]; exact hs1
        · exact ih _ _ _ s2 ht hs1.1 hs1.2 hstep
    rw [← hres]
    exact ⟨fun x hx => key.1 x (List.dropLast_subset _ hx), key.2⟩

/-- On a node of a tree-shaped graph, with more fuel than the depth of every
node, `ifSegmentRoot` returns. -/
theorem ifSegmentRoot_returns (g : dbWireGraph) (depth : Nat → Nat) (D : Nat)
    (hin : ∀ n ∈ g.nodes, ∀ e, (g.node n).in_edge = some e → e.source ∈ g.nodes)
    (hdepth : ∀ n ∈ g.nodes, ∀ e, (g.node n).in_edge = some e → depth e.source < depth n)
    (hD : ∀ n ∈ g.nodes, depth n ≤ D) (fuel : Nat) (hfuel : D < fuel) (n : Nat)
    (hn : n ∈ g.nodes) (wire_level : Int) :
    ∃ b, ifSegmentRoot g fuel n wire_level = some b := by
  unfold ifSegmentRoot
  cases he : (g.node n).in_edge with
  | none => exact ⟨true, rfl⟩
  | some e =>
    simp only []
    have hs := hin n hn e he
    have hd := hD e.source hs
    obtain ⟨r, hr, _⟩ := findSegmentRoot_returns g depth wire_level hin hdepth fuel e.source
      hs (by omega)
    split_ifs <;> cases hty : e.type <;> (try simp only []) <;>
      first
      | exact ⟨_, rfl⟩
      | (rw [hr]; exact ⟨_, rfl⟩)

/-- On nodes of a tree-shaped graph, with more fuel than the depth of every
node, the loop that collects `car_wireroots` returns. -/
theorem car_wireroots_returns (g : dbWireGraph) (depth : Nat → Nat) (D : Nat)
    (hin : ∀ n ∈ g.nodes, ∀ e, (g.node n).in_edge = some e → e.source ∈ g.nodes)
    (hdepth : ∀ n ∈ g.nodes, ∀ e, (g.node n).in_edge = some e → depth e.source < depth n)
    (hD : ∀ n ∈ g.nodes, depth n ≤ D) (fuel : Nat) (hfuel : D < fuel)
    (path_found : List Nat) (hpath : ∀ x ∈ path_found, x ∈ g.nodes) :
    ∃ roots, car_wireroots g fuel path_found = some roots := by
  unfold car_wireroots
  obtain ⟨res, hres, _⟩ := foldlM_option_progress (fun _ : List Nat => True)
    (fun (roots : List Nat) (node : Nat) =>
      (ifSegmentRoot g fuel node (g.node node).layer.getRoutingLevel).map fun is_root =>
        if is_root then roots ++ [node] else roots)
    path_found [] trivial (by
      intro st n hn _
      obtain ⟨b, hb⟩ := ifSegmentRoot_returns g depth D hin hdepth hD fuel hfuel n
        (hpath n hn) (g.node n).layer.getRoutingLevel
      exact ⟨if b then st ++ [n] else st, by simp only [hb, Option.map_some'], trivial⟩)
  exact ⟨res, hres⟩

/-- The double loop of the cumulative table builders returns when its body
does on every gate and every record of the table; a property of the records
pushed holds of the whole table built. -/
theorem car_table_loop_returns (step : Nat → PARinfo → Option (Option ARinfo))
    (Q : ARinfo → Prop) (table : List PARinfo) (gates : List Nat)
    (hstep : ∀ gate ∈ gates, ∀ p ∈ table,
      ∃ r, step gate p = some r ∧ ∀ c, r = some c → Q c)
    (table0 : List ARinfo) (h0 : ∀ r ∈ table0, Q r) :
    ∃ result,
      gates.foldlM
          (fun (CARtable : List ARinfo) (gate : Nat) =>
            table.foldlM
              (fun (CARtable : List ARinfo) (ar_itr : PARinfo) =>
                (step gate ar_itr).map (push_record CARtable))
              CARtable)
          table0 = some result
        ∧ ∀ r ∈ result, Q r := by
  refine foldlM_option_progress (fun C : List ARinfo => ∀ r ∈ C, Q r) _ gates table0 h0 ?_
  intro C gate hgate hC
  refine foldlM_option_progress (fun C : List ARinfo => ∀ r ∈ C, Q r) _ table C hC ?_
  intro C2 p hp hC2
  obtain ⟨r, hr, hQ⟩ := hstep gate hgate p hp
  refine ⟨push_record C2 r, by simp only [hr, Option.map_some'], ?_⟩
  intro x hx
  cases r with
  | none => exact hC2 x hx
  | some c =>
    simp only [push_record] at hx
    rcases List.mem_append.mp hx with hx | hx
    · exact hC2 x hx
    · rw [List.mem_singleton] at hx
      rw [hx]; exact hQ c rfl

/-- On a decoded graph, with the fuel `tables_fuel`, the search `findCarPath`
from a node of the graph returns, with nodes of the graph in its found
list. -/
theorem findCarPath_decoded (g : dbWireGraph) (hg : g.Decoded) (depth : Nat → Nat)
    (hdepth : ∀ n ∈ g.nodes, ∀ e, (g.node n).in_edge = some e → depth e.source < depth n)
    (fuel : Nat) (hfuel : tables_fuel g depth ≤ fuel) (start : Nat) (hstart : start ∈ g.nodes)
    (wire_level : Int) (goal : Nat) :
    ∃ path, findCarPath g fuel start wire_level goal ⟨[], []⟩ = some path
      ∧ ∀ x ∈ path.path_found, x ∈ g.nodes := by
  have hm : findCarPath_measure g depth (g.nodes.map depth).sum start wire_level
      ≤ (g.nodes.length + 1) * ((g.nodes.map depth).sum + 1) + (g.nodes.map depth).sum := by
    unfold findCarPath_measure
    have h1 : (if (g.node start).layer.getRoutingLevel ≤ wire_level then level_rank g wire_level
        else g.nodes.length + 1) ≤ g.nodes.length + 1 := by
      split_ifs
      · have := level_rank_le g wire_level; omega
      · exact le_refl _
    have h2 := Nat.mul_le_mul_right ((g.nodes.map depth).sum + 1) h1
    omega
  unfold tables_fuel at hfuel
  obtain ⟨res, hres⟩ := findCarPath_returns g goal depth (g.nodes.map depth).sum
    hg.wellFormed.in_source hg.wellFormed.out_edge hdepth (depth_le_sum depth g.nodes)
    hg.in_target hg.segment_level fuel start wire_level ⟨[], []⟩ hstart (by omega)
  exact ⟨res, hres, (findCarPath_nodes g goal depth hg.wellFormed.in_source
    hg.wellFormed.out_edge hdepth fuel start wire_level ⟨[], []⟩ res hstart
    (fun x hx => by simp at hx) (fun x hx => by simp at hx) hres).2⟩

/-- On a decoded graph, with the fuel `tables_fuel`, `buildWireCarTable`
returns for a PAR table whose wireroots are nodes of the graph. -/
theorem buildWireCarTable_returns (g : dbWireGraph) (hg : g.Decoded) (depth : Nat → Nat)
    (hdepth : ∀ n ∈ g.nodes, ∀ e, (g.node n).in_edge = some e → depth e.source < depth n)
    (fuel : Nat) (hfuel : tables_fuel g depth ≤ fuel)
    (PARtable VIA_PARtable : List PARinfo) (gate_iterms : List Nat)
    (hroots : ∀ p ∈ PARtable, p.WirerootNode ∈ g.nodes) :
    ∃ CARtable, buildWireCarTable g fuel [] PARtable VIA_PARtable gate_iterms
      = some CARtable := by
  unfold buildWireCarTable
  obtain ⟨res, hres, _⟩ := car_table_loop_returns
    (buildWireCarTable_record g fuel PARtable VIA_PARtable) (fun _ => True) PARtable gate_iterms
    (by
      intro gate _ p hp
      obtain ⟨path, hpath, hnodes⟩ := findCarPath_decoded g hg depth hdepth fuel hfuel
        p.WirerootNode (hroots p hp) (g.node p.WirerootNode).layer.getRoutingLevel gate
      unfold buildWireCarTable_record
      simp only [hpath, Option.some_bind]
      split_ifs
      · obtain ⟨roots, hr⟩ := car_wireroots_returns g depth (g.nodes.map depth).sum
          hg.wellFormed.in_source hdepth (depth_le_sum depth g.nodes) fuel
          (by unfold tables_fuel at hfuel; omega) path.path_found hnodes
        rw [hr]
        exact ⟨_, rfl, fun _ _ => trivial⟩
      · exact ⟨none, rfl, fun _ _ => trivial⟩)
    [] (fun r hr => by simp at hr)
  exact ⟨res, hres⟩

/-- On a decoded graph, the via that `findVia` returns for a node with a
nonzero via area has a CUT layer. -/
theorem viaLayerOf_of_area (ck : AntennaChecker) (g : dbWireGraph) (hg : g.Decoded)
    (depth : Nat → Nat)
    (hdepth : ∀ n ∈ g.nodes, ∀ e, (g.node n).in_edge = some e → depth e.source < depth n)
    (fuel n : Nat) (hn : n ∈ g.nodes) (a : ℚ)
    (ha : calculateViaArea ck g fuel n (g.node n).layer.getRoutingLevel = some a)
    (hne : a ≠ 0) :
    ∃ layer, viaLayerOf g fuel n = some layer := by
  obtain ⟨r, hr, hsome, hvia⟩ := findVia_of_area ck g (g.node n).layer.getRoutingLevel fuel n a ha
  cases r with
  | none => exact absurd rfl (hsome hne)
  | some v =>
    obtain ⟨hty, m, hm, hcase⟩ := hvia v rfl
    have hmn := (ViaReach_nodes g _ depth hg.wellFormed.out_edge hdepth n m hn hm).1
    have hcut : (getViaLayer v).isSome := by
      rcases hcase with ⟨h1, _⟩ | ⟨h1, _⟩
      · exact hg.via_cut_in m hmn v h1 hty
      · exact hg.via_cut_out m hmn v h1 hty
    obtain ⟨layer, hl⟩ := Option.isSome_iff_exists.mp hcut
    exact ⟨layer, by simp only [viaLayerOf, hr, hl]⟩

/-- On a decoded graph, with the fuel `tables_fuel`, `buildViaParTable` returns
for wireroots that are nodes of the graph; the wireroots of its records are
nodes of the graph for which `viaLayerOf` returns a layer. -/
theorem buildViaParTable_returns (ck : AntennaChecker) (g : dbWireGraph) (hg : g.Decoded)
    (depth : Nat → Nat)
    (hdepth : ∀ n ∈ g.nodes, ∀ e, (g.node n).in_edge = some e → depth e.source < depth n)
    (fuel : Nat) (hfuel : tables_fuel g depth ≤ fuel) (wireroots_info : List Nat)
    (hroots : ∀ w ∈ wireroots_info, w ∈ g.nodes) :
    ∃ VIA_PARtable, buildViaParTable ck g fuel [] wireroots_info = some VIA_PARtable
      ∧ ∀ r ∈ VIA_PARtable, r.WirerootNode ∈ g.nodes
          ∧ ∃ layer, viaLayerOf g fuel r.WirerootNode = some layer := by
  unfold buildViaParTable
  unfold tables_fuel at hfuel
  refine foldlM_option_progress
    (fun T : List PARinfo => ∀ r ∈ T, r.WirerootNode ∈ g.nodes
      ∧ ∃ layer, viaLayerOf g fuel r.WirerootNode = some layer) _ wireroots_info []
    (fun r hr => by simp at hr) ?_
  intro T w hw hT
  have hwn := hroots w hw
  obtain ⟨a, ha⟩ := calculateViaArea_returns ck g (g.node w).layer.getRoutingLevel depth
    (g.nodes.map depth).sum hg.wellFormed.out_edge hdepth (depth_le_sum depth g.nodes) fuel w
    hwn (by omega)
  obtain ⟨below, hb, _⟩ := findWireBelowIterms_returns ck g depth (g.nodes.map depth).sum
    hg.wellFormed.in_source hg.wellFormed.out_edge hdepth (depth_le_sum depth g.nodes) fuel w
    (g.node w).layer.getRoutingLevel ⟨(0, 0), [], []⟩ hwn (by
      simp only [List.not_mem_nil, if_false]; omega)
  have hrec : ∃ rec, buildViaParTable_record ck g fuel w = some rec
      ∧ ∀ p, rec = some p → p.WirerootNode = w
        ∧ ∃ layer, viaLayerOf g fuel w = some layer := by
    unfold buildViaParTable_record
    simp only [ha, hb, Option.some_bind]
    by_cases hc : a ≠ 0 ∧ below.iterm_areas.1 ≠ 0
    · obtain ⟨layer, hl⟩ := viaLayerOf_of_area ck g hg depth hdepth fuel w hwn a ha hc.1
      rw [if_pos hc, hl]
      refine ⟨_, rfl, ?_⟩
      intro p hp
      simp only [Option.map_some', Option.some.injEq] at hp
      rw [← hp]
      exact ⟨rfl, layer, rfl⟩
    · rw [if_neg hc]
      exact ⟨none, rfl, fun p hp => by simp at hp⟩
  obtain ⟨rec, hrec1, hrec2⟩ := hrec
  rw [hrec1]
  refine ⟨_, rfl, ?_⟩
  intro r hr
  cases rec with
  | none => exact hT r hr
  | some p =>
    simp only [] at hr
    rcases List.mem_append.mp hr with hr | hr
    · exact hT r hr
    · rw [List.mem_singleton] at hr
      obtain ⟨h1, h2⟩ := hrec2 p rfl
      rw [hr, h1]
      exact ⟨hwn, h2⟩

/-- On a decoded graph, with the fuel `tables_fuel`, `buildViaCarTable` returns
for a VIA-PAR table whose wireroots are nodes of the graph for which
`viaLayerOf` returns a layer; so are the wireroots of its records. -/
theorem buildViaCarTable_returns (g : dbWireGraph) (hg : g.Decoded) (depth : Nat → Nat)
    (hdepth : ∀ n ∈ g.nodes, ∀ e, (g.node n).in_edge = some e → depth e.source < depth n)
    (fuel : Nat) (hfuel : tables_fuel g depth ≤ fuel)
    (PARtable VIA_PARtable : List PARinfo) (gate_iterms : List Nat)
    (hroots : ∀ p ∈ VIA_PARtable, p.WirerootNode ∈ g.nodes
      ∧ ∃ layer, viaLayerOf g fuel p.WirerootNode = some layer) :
    ∃ VIA_CARtable, buildViaCarTable g fuel [] PARtable VIA_PARtable gate_iterms
        = some VIA_CARtable
      ∧ ∀ r ∈ VIA_CARtable, ∃ layer, viaLayerOf g fuel r.WirerootNode = some layer := by
  unfold buildViaCarTable
  refine car_table_loop_returns
    (buildViaCarTable_record g fuel PARtable VIA_PARtable)
    (fun r => ∃ layer, viaLayerOf g fuel r.WirerootNode = some layer) VIA_PARtable gate_iterms
    ?_ [] (fun r hr => by simp at hr)
  intro gate _ p hp
  obtain ⟨hpn, layer, hl⟩ := hroots p hp
  obtain ⟨path, hpath, hnodes⟩ := findCarPath_decoded g hg depth hdepth fuel hfuel
    p.WirerootNode hpn (g.node p.WirerootNode).layer.getRoutingLevel gate
  unfold buildViaCarTable_record
  simp only [hpath, Option.some_bind]
  split_ifs
  · obtain ⟨roots, hr⟩ := car_wireroots_returns g depth (g.nodes.map depth).sum
      hg.wellFormed.in_source hdepth (depth_le_sum depth g.nodes) fuel
      (by unfold tables_fuel at hfuel; omega) path.path_found hnodes
    rw [hr]
    simp only [Option.some_bind]
    obtain ⟨sums, hsums, _⟩ := foldlM_option_progress (fun _ : CarSums => True)
      (buildViaCarTable_root g fuel PARtable VIA_PARtable p.WirerootNode) roots ⟨0, 0, 0, 0⟩
      trivial (by
        intro st root _ _
        unfold buildViaCarTable_root
        simp only [hl, Option.map_some']
        exact ⟨_, rfl, trivial⟩)
    rw [hsums]
    refine ⟨_, rfl, ?_⟩
    intro c hc
    simp only [Option.map_some', Option.some.injEq] at hc
    rw [← hc]
    exact ⟨layer, hl⟩
  · exact ⟨none, rfl, fun c hc => by simp at hc⟩

/-- On a decoded graph, with the fuel `tables_fuel`, the part of
`getAntennaRatio` that builds the tables of a net returns; `viaLayerOf` returns
a layer for the wireroot of every record of the via CAR table. -/
theorem getAntennaRatio_tables_returns (ck : AntennaChecker) (g : dbWireGraph)
    (hg : g.Decoded) (depth : Nat → Nat)
    (hdepth : ∀ n ∈ g.nodes, ∀ e, (g.node n).in_edge = some e → depth e.source < depth n)
    (fuel : Nat) (hfuel : tables_fuel g depth ≤ fuel) :
    ∃ tables, getAntennaRatio_tables ck g fuel = some tables
      ∧ ∀ r ∈ tables.VIA_CARtable, ∃ layer, viaLayerOf g fuel r.WirerootNode = some layer := by
  have hfuel2 := hfuel
  unfold tables_fuel at hfuel2
  obtain ⟨roots, hroots, hnodes⟩ := getWireroots_returns g depth (g.nodes.map depth).sum
    hg.wellFormed.in_source hdepth (depth_le_sum depth g.nodes) fuel (by omega)
  obtain ⟨res, hres⟩ := buildWireParTable_loop_returns ck g depth
    (g.nodes.map depth).sum hg.wellFormed.in_source hg.wellFormed.out_edge hdepth
    (depth_le_sum depth g.nodes) fuel (by omega) roots hnodes ([], [])
  have htable : buildWireParTable ck g fuel [] roots
      = some (res.1.map (calculateParInfo ck g)) := by
    simp only [buildWireParTable, hres, Option.map_some']
  have hrecs := buildWireParTable_records ck g fuel roots _ htable
  obtain ⟨VIA_PARtable, hvia, hviaroots⟩ := buildViaParTable_returns ck g hg depth hdepth fuel
    hfuel roots hnodes
  obtain ⟨CARtable, hcar⟩ := buildWireCarTable_returns g hg depth hdepth fuel hfuel
    (res.1.map (calculateParInfo ck g)) VIA_PARtable (getAntennaRatio_gate_iterms ck g)
    (fun p hp => hnodes _ (hrecs p hp).1)
  obtain ⟨VIA_CARtable, hviacar, hlayers⟩ := buildViaCarTable_returns g hg depth hdepth fuel
    hfuel (res.1.map (calculateParInfo ck g)) VIA_PARtable (getAntennaRatio_gate_iterms ck g)
    hviaroots
  refine ⟨⟨roots, getAntennaRatio_gate_iterms ck g, res.1.map (calculateParInfo ck g),
    VIA_PARtable, CARtable, VIA_CARtable⟩, ?_, hlayers⟩
  simp only [getAntennaRatio_tables, hroots, htable, hvia, hcar, hviacar, Option.some_bind,
    Option.map_some']

/-- On a decoded graph, with the fuel `tables_fuel`, the part of
`getAntennaRatio` for one net returns. -/
theorem getAntennaRatio_net_returns (ck : AntennaChecker) (g : dbWireGraph)
    (hg : g.Decoded) (depth : Nat → Nat)
    (hdepth : ∀ n ∈ g.nodes, ∀ e, (g.node n).in_edge = some e → depth e.source < depth n)
    (fuel : Nat) (hfuel : tables_fuel g depth ≤ fuel) (report_violating_nets : Bool) :
    ∃ st, getAntennaRatio_net ck g fuel report_violating_nets = some st := by
  obtain ⟨tables, htables, hlayers⟩ :=
    getAntennaRatio_tables_returns ck g hg depth hdepth fuel hfuel
  unfold getAntennaRatio_net
  rw [htables]
  simp only [Option.some_bind]
  obtain ⟨res, hres, _⟩ := foldlM_option_progress (fun _ : NetViolations => True)
    (getAntennaRatio_gate g fuel report_violating_nets tables) tables.gate_iterms
    ⟨false, false, []⟩ trivial (by
      intro st gate _ _
      unfold getAntennaRatio_gate
      obtain ⟨res, hres, _⟩ := foldlM_option_progress (fun _ : NetViolations => True)
        (getAntennaRatio_via g fuel report_violating_nets gate) tables.VIA_CARtable
        (tables.CARtable.foldl (getAntennaRatio_wire g report_violating_nets gate) st) trivial
        (by
          intro st2 via_ar hvia _
          obtain ⟨layer, hl⟩ := hlayers via_ar hvia
          unfold getAntennaRatio_via checkViaPar checkViaCar
          simp only [hl, Option.map_some', Option.some_bind]
          split_ifs <;> exact ⟨_, rfl, trivial⟩)
      exact ⟨res, hres, trivial⟩)
  exact ⟨res, hres⟩

/-- On a design whose nets that are not special have decoded wire graphs,
`getAntennaRatio` returns for every fuel from some bound on. -/
theorem getAntennaRatio_returns (ck : AntennaChecker) (out_opened : Bool)
    (report_violating_nets : Bool) :
    ∀ (nets : List dbNet),
      (∀ net ∈ nets, net.isSpecial = false → ∀ graph, net.getWire = some graph →
        graph.Decoded) →
      ∃ fuel0, ∀ fuel, fuel0 ≤ fuel →
        ∃ counts, getAntennaRatio ck out_opened nets fuel report_violating_nets
          = some counts := by
  intro nets hnets
  have key : ∀ (l : List dbNet),
      (∀ net ∈ l, net.isSpecial = false → ∀ graph, net.getWire = some graph →
        graph.Decoded) →
      ∃ fuel0, ∀ fuel, fuel0 ≤ fuel → ∀ c0,
        ∃ counts, l.foldlM (getAntennaRatio_step ck fuel report_violating_nets) c0
          = some counts := by
    intro l
    induction l with
    | nil => intro _; exact ⟨0, fun fuel _ c0 => ⟨c0, rfl⟩⟩
    | cons net rest ih =>
      intro hl
      obtain ⟨f1, h1⟩ := ih (fun n hn => hl n (List.mem_cons_of_mem _ hn))
      have hstep : ∃ f2, ∀ fuel, f2 ≤ fuel → ∀ c0,
          ∃ c1, getAntennaRatio_step ck fuel report_violating_nets c0 net = some c1 := by
        unfold getAntennaRatio_step
        by_cases hs : net.isSpecial = true
        · exact ⟨0, fun fuel _ c0 => ⟨c0, by rw [if_pos hs]⟩⟩
        · cases hw : net.getWire with
          | none => exact ⟨0, fun fuel _ c0 => ⟨_, by rw [if_neg hs]⟩⟩
          | some graph =>
            have hg := hl net (List.mem_cons_self _ _) (by simpa using hs) graph hw
            obtain ⟨depth, hdepth⟩ := hg.wellFormed.acyclic
            refine ⟨tables_fuel graph depth, fun fuel hfuel c0 => ?_⟩
            obtain ⟨st, hst⟩ := getAntennaRatio_net_returns ck graph hg depth hdepth fuel hfuel
              report_violating_nets
            rw [if_neg hs]
            simp only [hst, Option.map_some']
            exact ⟨_, rfl⟩
      obtain ⟨f2, h2⟩ := hstep
      refine ⟨max f1 f2, fun fuel hfuel c0 => ?_⟩
      obtain ⟨c1, hc1⟩ := h2 fuel (le_trans (le_max_right _ _) hfuel) c0
      obtain ⟨c2, hc2⟩ := h1 fuel (le_trans (le_max_left _ _) hfuel) c1
      exact ⟨c2, by simp only [List.foldlM, bind, Option.bind, hc1]; exact hc2⟩
  obtain ⟨fuel0, h⟩ := key nets hnets
  refine ⟨fuel0, fun fuel hfuel => ?_⟩
  unfold getAntennaRatio
  split_ifs
  · exact ⟨_, rfl⟩
  · exact h fuel hfuel _
  · exact ⟨_, rfl⟩

/-- The two-level net with a cut layer of type CUT is a decoded graph. -/
theorem ex_net_two_level_decoded (m1 m2 cut : dbTechLayer) (gates : List Nat)
    (hcut : cut.getType = dbTechLayerType.CUT) :
    (ex_net_two_level m1 m2 cut gates).Decoded := by
  have hnodes : ∀ n, n ∈ (ex_net_two_level m1 m2 cut gates).nodes ↔
      n = 0 ∨ n = 1 ∨ n = 2 ∨ n = 3 := by
    intro n; simp [ex_net_two_level]
  refine ⟨(ex_net_two_level_wellFormed m1 m2 cut gates).1,
    (ex_net_two_level_edges m1 m2 cut gates).1,
    fun n hn e he hty =>
      congrArg dbTechLayer.getRoutingLevel ((ex_net_two_level_edges m1 m2 cut gates).2 n hn e
        he hty), ?_, ?_⟩
  · intro n hn e he hty
    rw [hnodes] at hn
    rcases hn with rfl | rfl | rfl | rfl <;> simp [ex_net_two_level] at he <;> subst he <;>
      simp [getViaLayer, ex_segment, ex_via_up, ex_segment_top, hcut] at hty ⊢
  · intro n hn e he hty
    rw [hnodes] at hn
    rcases hn with rfl | rfl | rfl | rfl <;> simp [ex_net_two_level] at he <;> subst he <;>
      simp [getViaLayer, ex_segment, ex_via_up, ex_segment_top, hcut] at hty ⊢

/-- The net of one wire on a gate is a decoded graph. -/
theorem ex_graph_gate_decoded (rule : Option dbTechLayerAntennaRule) :
    (ex_graph_gate rule).Decoded := by
  have hnodes : ∀ n, n ∈ (ex_graph_gate rule).nodes ↔ n = 0 ∨ n = 1 := by
    intro n; simp [ex_graph_gate]
  refine ⟨ex_graph_gate_wellFormed rule, ?_, ?_, ?_, ?_⟩
  · intro n hn e he
    rw [hnodes] at hn
    rcases hn with rfl | rfl <;> simp [ex_graph_gate] at he
    subst he; rfl
  · intro n hn e he _
    rw [hnodes] at hn
    rcases hn with rfl | rfl <;> simp [ex_graph_gate] at he
    subst he; rfl
  · intro n hn e he hty
    rw [hnodes] at hn
    rcases hn with rfl | rfl <;> simp [ex_graph_gate] at he
    subst he
    simp [ex_segment] at hty
  · intro n hn e he hty
    rw [hnodes] at hn
    rcases hn with rfl | rfl <;> simp [ex_graph_gate] at he
    subst he
    simp [ex_segment] at hty

/-- C15. Violated-net count.  For every design whose report file can be opened
and whose nets that are not special have decoded wire graphs, with enough fuel
`getAntennaRatio` returns, and the second count returned is the number of nets
of the design that are not special, have a wire, and contain at least one gate
terminal with a violating wire or via cumulative record: every such net is
counted once, however many of its records or gates violate.  The third count
is the number of nets that are not special. -/
theorem violated_net_count (ck : AntennaChecker) (nets : List dbNet)
    (report_violating_nets : Bool)
    (hnets : ∀ net ∈ nets, net.isSpecial = false → ∀ graph, net.getWire = some graph →
      graph.Decoded) :
    ∃ fuel0, ∀ fuel, fuel0 ≤ fuel →
      ∃ counts, getAntennaRatio ck true nets fuel report_violating_nets = some counts
        ∧ counts.num_violated_net
            = nets.countP (fun net => net_violated ck fuel report_violating_nets net)
        ∧ counts.num_total_net = nets.countP (fun net => !net.isSpecial) := by
  obtain ⟨fuel0, h⟩ := getAntennaRatio_returns ck true report_violating_nets nets hnets
  refine ⟨fuel0, fun fuel hfuel => ?_⟩
  obtain ⟨counts, hc⟩ := h fuel hfuel
  exact ⟨counts, hc, getAntennaRatio_counts ck nets fuel report_violating_nets counts hc⟩

/-- C15, witness: in the design of three nets, the first net has three
violating wire records on two gates and is counted once, the special net and
the net without rule are not counted: `getAntennaRatio` returns 2 violated
pins, 1 violated net and 2 nets. -/
theorem violated_net_count_witness :
    getAntennaRatio ex_design_checker true ex_design 10 false = some ⟨2, 1, 2⟩
      ∧ (getAntennaRatio_tables ex_design_checker ex_design_graph 10).map
          (fun tables => tables.CARtable.map fun ar =>
            (ar.WirerootNode, ar.GateNode, wire_record_violates ex_design_graph false ar))
        = some [(0, 0, true), (2, 0, true), (2, 3, true)]
      ∧ ex_design.map (net_violated ex_design_checker 10 false) = [true, false, false]
      ∧ ∃ fuel0, ∀ fuel, fuel0 ≤ fuel →
        ∃ counts, getAntennaRatio ex_design_checker true ex_design fuel false = some counts
          ∧ counts.num_violated_net
              = ex_design.countP (fun net => net_violated ex_design_checker fuel false net)
          ∧ counts.num_total_net = ex_design.countP (fun net => !net.isSpecial) :=
  ⟨by decide!, by decide!, by decide!,
    violated_net_count ex_design_checker ex_design false (by
      intro net hnet hs graph hw
      simp only [ex_design, List.mem_cons, List.mem_singleton, List.not_mem_nil,
        or_false] at hnet
      rcases hnet with rfl | rfl | rfl
      · simp only [Option.some.injEq] at hw
        subst hw
        exact ex_net_two_level_decoded _ _ _ _ rfl
      · simp at hs
      · simp only [Option.some.injEq] at hw
        subst hw
        exact ex_graph_gate_decoded none)⟩


/-! ## The cumulative ratio of a two-level net -/

/-- When the SEGMENT and SHORT edges join nodes of one routing level, the node
`findSegmentStart` returns is on the level of the node it was called on. -/
theorem findSegmentStart_level (g : dbWireGraph)
    (hin : ∀ n ∈ g.nodes, ∀ e, (g.node n).in_edge = some e → e.source ∈ g.nodes)
    (hseg : ∀ n ∈ g.nodes, ∀ e, (g.node n).in_edge = some e →
      (e.type = EdgeType.SEGMENT ∨ e.type = EdgeType.SHORT) →
        (g.node e.source).layer.getRoutingLevel = (g.node n).layer.getRoutingLevel) :
    ∀ (fuel n p : Nat), n ∈ g.nodes → findSegmentStart g fuel n = some p →
      (g.node p).layer.getRoutingLevel = (g.node n).layer.getRoutingLevel := by
  intro fuel
  induction fuel with
  | zero => intro n p _ h; simp [findSegmentStart] at h
  | succ fuel ih =>
    intro n p hn h
    unfold findSegmentStart at h
    cases he : (g.node n).in_edge with
    | none =>
      rw [he] at h
      rw [← Option.some.inj h]
    | some e =>
      rw [he] at h
      simp only [] at h
      split_ifs at h
      · rw [← Option.some.inj h]
      · cases hty : e.type <;> rw [hty] at h <;> simp only [] at h
        · rw [ih e.source p (hin n hn e he) h]
          exact hseg n hn e he (Or.inl hty)
        · rw [← Option.some.inj h]
        · rw [← Option.some.inj h]
        · rw [ih e.source p (hin n hn e he) h]
          exact hseg n hn e he (Or.inr hty)

/-- A property of the state that the recursive calls keep is kept by the step
of `findWireBelowIterms` over the incoming edge. -/
theorem findWireBelowIterms_in_inv (P : BelowIterms → Prop) (g : dbWireGraph) (node : Nat)
    (wire_level : Int) (start : Nat → Option Nat)
    (recurse : Nat → BelowIterms → Option BelowIterms) (st st2 : BelowIterms) (hP : P st)
    (hvia : ∀ e, (g.node node).in_edge = some e →
      (g.node e.source).layer.getRoutingLevel ≤ wire_level →
      ∀ first, start e.source = some first → recurse first st = some st2 → P st2)
    (hsegment : ∀ e, (g.node node).in_edge = some e →
      (g.node e.source).layer.getRoutingLevel ≤ wire_level →
      (e.type = EdgeType.SEGMENT ∨ e.type = EdgeType.SHORT) →
      recurse e.source st = some st2 → P st2)
    (h : findWireBelowIterms_in g node wire_level start recurse st = some st2) : P st2 := by
  unfold findWireBelowIterms_in at h
  cases he : (g.node node).in_edge with
  | none =>
    rw [he] at h
    rw [← Option.some.inj h]
    exact hP
  | some e =>
    rw [he] at h
    simp only [] at h
    by_cases hlev : (g.node e.source).layer.getRoutingLevel ≤ wire_level
    · rw [if_pos hlev] at h
      split_ifs at h with c1 c2
      · obtain ⟨first, hfirst, hrec⟩ := Option.bind_eq_some.mp h
        exact hvia e he hlev first hfirst hrec
      · exact hsegment e he hlev c2.1 h
      · rw [← Option.some.inj h]; exact hP
    · rw [if_neg hlev] at h
      rw [← Option.some.inj h]; exact hP

/-- When the SEGMENT and SHORT edges join nodes of one routing level and no
node at or below `wire_level` is on a terminal with gate area,
`findWireBelowIterms` started at or below `wire_level` with the gate-area sum 0
returns the gate-area sum 0: it only visits nodes at or below `wire_level`. -/
theorem findWireBelowIterms_gate_zero (ck : AntennaChecker) (g : dbWireGraph)
    (depth : Nat → Nat) (wire_level : Int)
    (hin : ∀ n ∈ g.nodes, ∀ e, (g.node n).in_edge = some e → e.source ∈ g.nodes)
    (hout : ∀ n ∈ g.nodes, ∀ e ∈ (g.node n).out_edges,
      e.source = n ∧ e.target ∈ g.nodes ∧ (g.node e.target).in_edge = some e)
    (hdepth : ∀ n ∈ g.nodes, ∀ e, (g.node n).in_edge = some e → depth e.source < depth n)
    (hseg : ∀ n ∈ g.nodes, ∀ e, (g.node n).in_edge = some e →
      (e.type = EdgeType.SEGMENT ∨ e.type = EdgeType.SHORT) →
        (g.node e.source).layer.getRoutingLevel = (g.node n).layer.getRoutingLevel)
    (hzero : ∀ x ∈ g.nodes, (g.node x).layer.getRoutingLevel ≤ wire_level →
      node_gate_area ck g x = 0) :
    ∀ (fuel n : Nat) (st res : BelowIterms), n ∈ g.nodes →
      (g.node n).layer.getRoutingLevel ≤ wire_level → st.iterm_areas.1 = 0 →
      findWireBelowIterms ck g fuel n wire_level st = some res → res.iterm_areas.1 = 0 := by
  intro fuel
  induction fuel with
  | zero => intro n st res _ _ _ h; simp [findWireBelowIterms] at h
  | succ fuel ih =>
    intro n st res hn hl hst h
    rw [findWireBelowIterms] at h
    obtain ⟨st2, hin2, hfold⟩ := Option.bind_eq_some.mp h
    have hchk : (checkIterm ck g n st.iterm_areas).2.1 = 0 := by
      rw [checkIterm_eq]
      simp only [hst, hzero n hn hl, add_zero]
    have h2 : st2.iterm_areas.1 = 0 := by
      refine findWireBelowIterms_in_inv (fun s : BelowIterms => s.iterm_areas.1 = 0) g n
        wire_level _ _ _ st2 hchk ?_ ?_ hin2
      · intro e he hlev first hfirst hrec
        have hs := hin n hn e he
        have hf := findSegmentStart_depth g depth hin hdepth fuel e.source first hs hfirst
        have hfl := findSegmentStart_level g hin hseg fuel e.source first hs hfirst
        exact ih first _ st2 hf.1 (by rw [hfl]; exact hlev) hchk hrec
      · intro e he hlev _ hrec
        exact ih e.source _ st2 (hin n hn e he) hlev hchk hrec
    refine foldlM_option_invariant_mem (fun s : BelowIterms => s.iterm_areas.1 = 0) _ _ st2 res
      hfold h2 ?_
    intro s e s2 he hs1 hstep
    obtain ⟨hsrc, ht, htin⟩ := hout n hn e he
    unfold findWireBelowIterms_out at hstep
    split_ifs at hstep with c1 c2 c3
    · obtain ⟨first, hfirst, hrec⟩ := Option.bind_eq_some.mp hstep
      have hf := findSegmentStart_depth g depth hin hdepth fuel e.target first ht hfirst
      have hfl := findSegmentStart_level g hin hseg fuel e.target first ht hfirst
      exact ih first _ s2 hf.1 (by rw [hfl]; exact c2.1) hs1 hrec
    · rw [← Option.some.inj hstep]; exact hs1
    · have hlt := hseg e.target ht e htin c3.1
      rw [hsrc] at hlt
      exact ih e.target _ s2 ht (by rw [← hlt]; exact hl) hs1 hstep
    · rw [← Option.some.inj hstep]; exact hs1


/-- The path found through the lower wireroot.  On a graph in which every node
that is its own segment root at its own level is the node `A` or is above the
level of `A`, with the goal at or below the level of `A`: when the walk of
`findCarPath` is on a node above the level of `A`, on `A`, or has `A` on its
path stack, every path it finds holds `A`. -/
theorem findCarPath_through (g : dbWireGraph) (A goal : Nat) (depth : Nat → Nat)
    (hin : ∀ n ∈ g.nodes, ∀ e, (g.node n).in_edge = some e → e.source ∈ g.nodes)
    (hout : ∀ n ∈ g.nodes, ∀ e ∈ (g.node n).out_edges,
      e.source = n ∧ e.target ∈ g.nodes ∧ (g.node e.target).in_edge = some e)
    (hdepth : ∀ n ∈ g.nodes, ∀ e, (g.node n).in_edge = some e → depth e.source < depth n)
    (hseg : ∀ n ∈ g.nodes, ∀ e, (g.node n).in_edge = some e →
      (e.type = EdgeType.SEGMENT ∨ e.type = EdgeType.SHORT) →
        (g.node e.source).layer.getRoutingLevel = (g.node n).layer.getRoutingLevel)
    (hW : ∀ n ∈ g.nodes, SegmentRoot g (g.node n).layer.getRoutingLevel n n →
      n = A ∨ (g.node A).layer.getRoutingLevel < (g.node n).layer.getRoutingLevel)
    (hgoal : (g.node goal).layer.getRoutingLevel ≤ (g.node A).layer.getRoutingLevel) :
    ∀ (fuel n : Nat) (wire_level : Int) (st res : CarPath), n ∈ g.nodes →
      (A ∈ st.current_path ∨ n = A
        ∨ (g.node A).layer.getRoutingLevel < (g.node n).layer.getRoutingLevel) →
      findCarPath g fuel n wire_level goal st = some res →
      (st.path_found = [] ∨ A ∈ st.path_found) →
      (res.path_found = [] ∨ A ∈ res.path_found) := by
  intro fuel
  induction fuel with
  | zero => intro n wire_level st res _ _ h; simp [findCarPath] at h
  | succ fuel ih =>
    intro n wire_level st res hn hinv h hpf
    have hstep := findCarPath_step g goal (fuel + 1) n wire_level st.current_path st res rfl h
    rw [findCarPath] at h
    simp only [] at h
    obtain ⟨st3, hs, hres⟩ := Option.map_eq_some'.mp h
    rw [← hres]
    simp only []
    by_cases hg : n = goal
    · rw [if_pos hg] at hs
      rw [← Option.some.inj hs]
      right
      have hA : A ∈ st.current_path ++ [n] := by
        rcases hinv with h1 | h1 | h1
        · exact List.mem_append_left _ h1
        · rw [h1]; simp
        · rw [hg] at h1
          exact absurd h1 (not_lt.mpr hgoal)
      exact (findCarPath_merge_spec (st.current_path ++ [n]) st.path_found).2.2 A hA
    · rw [if_neg hg] at hs
      obtain ⟨st2, hin2, hfold⟩ := Option.bind_eq_some.mp hs
      -- a nested call on a node `t` keeps the property
      have hnest : ∀ (t : Nat) (wl : Int) (s s2 : CarPath), t ∈ g.nodes →
          s.current_path = st.current_path ++ [n] →
          ((g.node A).layer.getRoutingLevel < (g.node n).layer.getRoutingLevel →
            t = A ∨ (g.node A).layer.getRoutingLevel < (g.node t).layer.getRoutingLevel) →
          findCarPath g fuel t wl goal s = some s2 →
          (s.path_found = [] ∨ A ∈ s.path_found) →
          s2.current_path = st.current_path ++ [n]
            ∧ (s2.path_found = [] ∨ A ∈ s2.path_found) := by
        intro t wl s s2 ht hcp habove hcall hs1
        refine ⟨(findCarPath_step g goal fuel t wl _ s s2 hcp hcall).1, ?_⟩
        refine ih t wl s s2 ht ?_ hcall hs1
        rcases hinv with h1 | h1 | h1
        · left; rw [hcp]; exact List.mem_append_left _ h1
        · left; rw [hcp, h1]; simp
        · right; exact habove h1
      have h2 : st2.current_path = st.current_path ++ [n]
          ∧ (st2.path_found = [] ∨ A ∈ st2.path_found) := by
        unfold findCarPath_in at hin2
        cases he : (g.node n).in_edge with
        | none =>
          rw [he] at hin2
          rw [← Option.some.inj hin2]
          exact ⟨rfl, hpf⟩
        | some e =>
          rw [he] at hin2
          simp only [] at hin2
          split_ifs at hin2 with c1
          · obtain ⟨root, hroot, hrec⟩ := Option.bind_eq_some.mp hin2
            have hsrc := hin n hn e he
            have hr := (findSegmentRoot_depth g depth _ hin hdepth fuel e.source root
              hsrc hroot).1
            have hlev := findSegmentRoot_level g hin hseg _ fuel e.source root hsrc rfl hroot
            have hself := findSegmentRoot_idem g _ fuel e.source root hroot
            rw [← hlev] at hself
            have hown := findSegmentRoot_sound g _ fuel root root hself
            exact hnest root _ ⟨st.current_path ++ [n], st.path_found⟩ st2 hr rfl
              (fun _ => hW root hr hown) hrec hpf
          · rw [← Option.some.inj hin2]
            exact ⟨rfl, hpf⟩
      have h3 := foldlM_option_invariant_mem
        (fun s : CarPath => s.current_path = st.current_path ++ [n]
          ∧ (s.path_found = [] ∨ A ∈ s.path_found)) _ _ st2 st3 hfold h2 (by
        intro s e s2 he hs1 hstep2
        obtain ⟨hsrc, ht, htin⟩ := hout n hn e he
        have hvia : (e.type = EdgeType.VIA ∨ e.type = EdgeType.TECH_VIA) →
            ∀ first, findSegmentStart g fuel e.target = some first →
              findCarPath g fuel first wire_level goal s = some s2 →
              s2.current_path = st.current_path ++ [n]
                ∧ (s2.path_found = [] ∨ A ∈ s2.path_found) := by
          intro hty first hfirst hrec
          have hft := findSegmentStart_via_eq g fuel e.target first e htin hty hfirst
          rw [hft] at hrec
          refine hnest e.target _ s s2 ht hs1.1 ?_ hrec hs1.2
          intro habove
          by_cases hlt : (g.node A).layer.getRoutingLevel
              < (g.node e.target).layer.getRoutingLevel
          · exact Or.inr hlt
          · refine hW e.target ht (SegmentRoot.via_above e.target e htin hty ?_)
            rw [hsrc]
            exact lt_of_le_of_lt (not_lt.mp hlt) habove
        have hsegment : (e.type = EdgeType.SEGMENT ∨ e.type = EdgeType.SHORT) →
            findCarPath g fuel e.target wire_level goal s = some s2 →
              s2.current_path = st.current_path ++ [n]
                ∧ (s2.path_found = [] ∨ A ∈ s2.path_found) := by
          intro hty hrec
          refine hnest e.target _ s s2 ht hs1.1 ?_ hrec hs1.2
          intro habove
          right
          have hl := hseg e.target ht e htin hty
          rw [hsrc] at hl
          rw [← hl]; exact habove
        unfold findCarPath_out at hstep2
        cases hty : e.type <;> rw [hty] at hstep2 <;> simp only [] at hstep2
        · exact hsegment (Or.inl hty) hstep2
        · split_ifs at hstep2
          · obtain ⟨first, hfirst, hrec⟩ := Option.bind_eq_some.mp hstep2
            exact hvia (Or.inr hty) first hfirst hrec
          · rw [← Option.some.inj hstep2]; exact hs1
        · split_ifs at hstep2
          · obtain ⟨first, hfirst, hrec⟩ := Option.bind_eq_some.mp hstep2
            exact hvia (Or.inl hty) first hfirst hrec
          · rw [← Option.some.inj hstep2]; exact hs1
        · exact hsegment (Or.inr hty) hstep2)
      exact h3.2


/-- A node that `calculateWireArea` adds to `level_nodes` is on the level
`wire_level`. -/
theorem calculateWireArea_level_nodes_level (ck : AntennaChecker) (g : dbWireGraph) :
    ∀ (fuel node : Nat) (wire_level : Int) (nv level_nodes : List Nat) (res : WireArea),
      calculateWireArea ck g fuel node wire_level nv level_nodes = some res →
        ∀ x ∈ res.level_nodes,
          x ∈ level_nodes ∨ (g.node x).layer.getRoutingLevel = wire_level := by
  intro fuel
  induction fuel with
  | zero => intro node wire_level nv level_nodes res h; simp [calculateWireArea] at h
  | succ fuel ih =>
    intro node wire_level nv level_nodes res h
    simp only [calculateWireArea] at h
    refine foldlM_option_invariant
      (fun st : WireArea => ∀ x ∈ st.level_nodes,
        x ∈ level_nodes ∨ (g.node x).layer.getRoutingLevel = wire_level) _ _ _ res h
      (fun x hx => Or.inl hx) ?_
    intro st edge_info st2 hst hstep
    have hadd : ∀ (st0 : WireArea) (next : Nat) (out : WireArea),
        (∀ x ∈ st0.level_nodes,
          x ∈ level_nodes ∨ (g.node x).layer.getRoutingLevel = wire_level) →
        calculateWireArea_add (fun next nv level_nodes =>
          calculateWireArea ck g fuel next wire_level nv level_nodes) st0 next = some out →
        ∀ x ∈ out.level_nodes,
          x ∈ level_nodes ∨ (g.node x).layer.getRoutingLevel = wire_level := by
      intro st0 next out h0 hmap
      unfold calculateWireArea_add at hmap
      obtain ⟨areas, hc, hout⟩ := Option.map_eq_some'.mp hmap
      rw [← hout]
      intro x hx
      rcases ih next wire_level _ _ areas hc x hx with h1 | h1
      · exact h0 x h1
      · exact Or.inr h1
    have hins : (g.node node).layer.getRoutingLevel = wire_level →
        ∀ x ∈ set_insert st.level_nodes node,
          x ∈ level_nodes ∨ (g.node x).layer.getRoutingLevel = wire_level := by
      intro hl x hx
      unfold set_insert at hx
      split_ifs at hx
      · exact hst x hx
      · rcases List.mem_append.mp hx with hx | hx
        · exact hst x hx
        · rw [List.mem_singleton] at hx
          rw [hx]; exact Or.inr hl
    obtain ⟨edge, io⟩ := edge_info
    unfold calculateWireArea_edge at hstep
    cases io <;> cases hty : edge.type <;> simp only [hty] at hstep
    all_goals split_ifs at hstep with c1
    all_goals first
      | (refine hadd _ _ _ ?_ hstep; exact hst)
      | (refine hadd _ _ _ ?_ hstep; exact hins (by assumption))
      | (rw [← Option.some.inj hstep]; exact hst)

/-- A wireroot whose level no other wireroot of the list has, and no node of
`level_nodes` at the start, gets a record in the first loop of
`buildWireParTable`. -/
theorem buildWireParTable_loop_record (ck : AntennaChecker) (g : dbWireGraph) (fuel : Nat)
    (w : Nat) :
    ∀ (ws : List Nat) (T0 : List PARinfo) (ln0 : List Nat) (T : List PARinfo) (ln : List Nat),
      buildWireParTable_loop ck g fuel ws (T0, ln0) = some (T, ln) → w ∈ ws →
      (∀ x ∈ ln0, (g.node x).layer.getRoutingLevel ≠ (g.node w).layer.getRoutingLevel) →
      (∀ v ∈ ws, v ≠ w →
        (g.node v).layer.getRoutingLevel ≠ (g.node w).layer.getRoutingLevel) →
      ∃ r ∈ T, r.WirerootNode = w := by
  intro ws
  induction ws with
  | nil => intro T0 ln0 T ln _ hw; simp at hw
  | cons v rest ih =>
    intro T0 ln0 T ln h hw hln hws
    by_cases hv : v = w
    · subst hv
      obtain ⟨_, new, hT, _, _, hfirst⟩ :=
        buildWireParTable_loop_spec ck g fuel (v :: rest) T0 ln0 T ln h
      obtain ⟨r, hr, hrw⟩ := hfirst v rest rfl (fun hc => hln v hc rfl)
      exact ⟨r, by rw [hT]; exact List.mem_append_right _ hr, hrw⟩
    · have hwr : w ∈ rest := by
        rcases List.mem_cons.mp hw with h1 | h1
        · exact absurd h1.symm hv
        · exact h1
      have hrest : ∀ u ∈ rest, u ≠ w →
          (g.node u).layer.getRoutingLevel ≠ (g.node w).layer.getRoutingLevel :=
        fun u hu => hws u (List.mem_cons_of_mem _ hu)
      simp only [buildWireParTable_loop] at h
      by_cases hvl : v ∈ ln0
      · rw [if_pos hvl] at h
        exact ih T0 ln0 T ln h hwr hln hrest
      · rw [if_neg hvl] at h
        cases hc : calculateWireArea ck g fuel v (g.node v).layer.getRoutingLevel [] ln0 with
        | none => rw [hc] at h; simp at h
        | some areas =>
          rw [hc] at h
          cases hb : findWireBelowIterms ck g fuel v (g.node v).layer.getRoutingLevel
              ⟨(0, 0), [], []⟩ with
          | none => rw [hb] at h; simp at h
          | some below =>
            rw [hb] at h
            simp only [] at h
            refine ih _ _ T ln h hwr ?_ hrest
            intro x hx
            rcases calculateWireArea_level_nodes_level ck g fuel v _ [] ln0 areas hc x hx
              with h1 | h1
            · exact hln x h1
            · rw [h1]
              exact hws v (List.mem_cons_self _ _) hv

/-- Every node of the graph has its segment root at its own level in the list
that `getWireroots` returns. -/
theorem getWireroots_complete (g : dbWireGraph) (fuel : Nat) (roots : List Nat)
    (h : getWireroots g fuel = some roots) :
    ∀ n ∈ g.nodes, ∃ r ∈ roots,
      findSegmentRoot g fuel n (g.node n).layer.getRoutingLevel = some r := by
  unfold getWireroots at h
  obtain ⟨rs, hrs, hroots⟩ := getWireroots_loop g fuel g.nodes [] roots h
  rw [foldl_set_insert_eq_dedup] at hroots
  have hmem := forall₂_mem _ _ _ hrs
  intro n hn
  obtain ⟨r, hr, hnr⟩ := hmem.1 n hn
  refine ⟨r, ?_, hnr⟩
  rw [hroots]
  simpa using hr

/-- More fuel does not change what `findSegmentStart` returns. -/
theorem findSegmentStart_fuel_succ (g : dbWireGraph) :
    ∀ (fuel n p : Nat), findSegmentStart g fuel n = some p →
      findSegmentStart g (fuel + 1) n = some p := by
  intro fuel
  induction fuel with
  | zero => intro n p h; simp [findSegmentStart] at h
  | succ fuel ih =>
    intro n p h
    unfold findSegmentStart at h ⊢
    cases he : (g.node n).in_edge with
    | none => rw [he] at h; exact h
    | some e =>
      rw [he] at h
      simp only [] at h ⊢
      split_ifs at h ⊢
      · exact h
      · cases hty : e.type <;> rw [hty] at h <;> simp only [] at h ⊢
        · exact ih _ _ h
        · exact h
        · exact h
        · exact ih _ _ h

/-- A walk of `findCarPath` that reaches the goal reaches it with more fuel. -/
theorem CarReaches_fuel_le (g : dbWireGraph) (goal : Nat) (fuel node : Nat) (level : Int)
    (h : CarReaches g goal fuel node level) :
    ∀ fuel2, fuel ≤ fuel2 → CarReaches g goal fuel2 node level := by
  have hsucc : ∀ (f n : Nat) (l : Int), CarReaches g goal f n l →
      CarReaches g goal (f + 1) n l := by
    intro f n l hr
    induction hr with
    | here f l => exact CarReaches.here (f + 1) l
    | via_in f n l e root hne he hty hlt hroot _ ih =>
      exact CarReaches.via_in (f + 1) n l e root hne he hty hlt
        (findSegmentRoot_fuel_succ g _ f _ _ hroot) ih
    | via_out f n l e first hne he hty hle hfirst _ ih =>
      exact CarReaches.via_out (f + 1) n l e first hne he hty hle
        (findSegmentStart_fuel_succ g f _ _ hfirst) ih
    | segment_out f n l e hne he hty _ ih =>
      exact CarReaches.segment_out (f + 1) n l e hne he hty ih
  intro fuel2 hle
  induction fuel2 with
  | zero =>
    have : fuel = 0 := by omega
    rw [← this]; exact h
  | succ k ih =>
    by_cases hk : fuel ≤ k
    · exact hsucc k node level (ih hk)
    · have : fuel = k + 1 := by omega
      rw [← this]; exact h

/-- A record that a step of the loops of a cumulative table builder pushes is
in the table after the loops. -/
theorem car_table_loop_mem (step : Nat → PARinfo → Option (Option ARinfo))
    (table : List PARinfo) :
    ∀ (gates : List Nat) (table0 result : List ARinfo),
      gates.foldlM
          (fun (CARtable : List ARinfo) (gate : Nat) =>
            table.foldlM
              (fun (CARtable : List ARinfo) (ar_itr : PARinfo) =>
                (step gate ar_itr).map (push_record CARtable))
              CARtable)
          table0 = some result →
      table0 ⊆ result
        ∧ ∀ gate ∈ gates, ∀ p ∈ table, ∀ c, step gate p = some (some c) → c ∈ result := by
  have inner : ∀ (gate : Nat) (l : List PARinfo) (t0 res : List ARinfo),
      l.foldlM (fun (CARtable : List ARinfo) (ar_itr : PARinfo) =>
          (step gate ar_itr).map (push_record CARtable)) t0 = some res →
        t0 ⊆ res ∧ ∀ p ∈ l, ∀ c, step gate p = some (some c) → c ∈ res := by
    intro gate l
    induction l with
    | nil =>
      intro t0 res h
      simp only [List.foldlM, pure, Option.some.injEq] at h
      subst h
      exact ⟨fun x hx => hx, fun p hp => by simp at hp⟩
    | cons p rest ih =>
      intro t0 res h
      simp only [List.foldlM, bind] at h
      obtain ⟨t1, h1, h2⟩ := Option.bind_eq_some.mp h
      obtain ⟨rec1, hrec1, hpush⟩ := Option.map_eq_some'.mp h1
      obtain ⟨hsub, hall⟩ := ih t1 res h2
      have h01 : t0 ⊆ t1 := by
        rw [← hpush]
        unfold push_record
        cases rec1 with
        | none => exact fun x hx => hx
        | some c => exact fun x hx => List.mem_append_left _ hx
      refine ⟨fun x hx => hsub (h01 hx), ?_⟩
      intro q hq c hc
      rcases List.mem_cons.mp hq with hq | hq
      · subst hq
        rw [hc] at hrec1
        have : rec1 = some c := (Option.some.inj hrec1).symm
        apply hsub
        rw [← hpush, this]
        simp [push_record]
      · exact hall q hq c hc
  intro gates
  induction gates with
  | nil =>
    intro t0 res h
    simp only [List.foldlM, pure, Option.some.injEq] at h
    subst h
    exact ⟨fun x hx => hx, fun gate hgate => by simp at hgate⟩
  | cons gate rest ih =>
    intro t0 res h
    simp only [List.foldlM, bind] at h
    obtain ⟨t1, h1, h2⟩ := Option.bind_eq_some.mp h
    obtain ⟨hsub, hall⟩ := ih t1 res h2
    obtain ⟨h01, hin⟩ := inner gate table t0 t1 h1
    refine ⟨fun x hx => hsub (h01 hx), ?_⟩
    intro gate2 hg2 p hp c hc
    rcases List.mem_cons.mp hg2 with hg | hg
    · subst hg
      exact hsub (hin p hp c hc)
    · exact hall gate2 hg p hp c hc

/-- The sum of a function over a list without repetitions, when the function
is 0 outside two distinct arguments: the values at those of the two that are
in the list. -/
theorem sum_two_roots (f : Nat → ℚ) (A B : Nat) (hAB : A ≠ B) :
    ∀ (l : List Nat), l.Nodup → (∀ x ∈ l, x ≠ A → x ≠ B → f x = 0) →
      (l.map f).sum = (if A ∈ l then f A else 0) + (if B ∈ l then f B else 0) := by
  intro l
  induction l with
  | nil => intro _ _; simp
  | cons x rest ih =>
    intro hnd hz
    obtain ⟨hx, hrest⟩ := List.nodup_cons.mp hnd
    rw [List.map_cons, List.sum_cons, ih hrest (fun y hy => hz y (List.mem_cons_of_mem _ hy))]
    by_cases hxA : x = A
    · subst hxA
      have hB : ¬ (B = x) := fun hc => hAB hc.symm
      simp only [List.mem_cons, true_or, if_true, if_neg hx, hB, false_or]
      ring
    · by_cases hxB : x = B
      · subst hxB
        have hA : ¬ (A = x) := hxA ∘ Eq.symm
        simp only [List.mem_cons, true_or, if_true, if_neg hx, hA, false_or]
        ring
      · have hA : ¬ (A = x) := hxA ∘ Eq.symm
        have hB : ¬ (B = x) := hxB ∘ Eq.symm
        rw [hz x (List.mem_cons_self _ _) hxA hxB]
        simp only [List.mem_cons, hA, hB, false_or]
        ring


/-- The table of `buildWireParTable` holds a record for a wireroot of the list
whose level no other wireroot of the list has. -/
theorem buildWireParTable_has_record (ck : AntennaChecker) (g : dbWireGraph) (fuel : Nat)
    (wireroots_info : List Nat) (PARtable : List PARinfo)
    (h : buildWireParTable ck g fuel [] wireroots_info = some PARtable)
    (w : Nat) (hw : w ∈ wireroots_info)
    (hother : ∀ v ∈ wireroots_info, v ≠ w →
      (g.node v).layer.getRoutingLevel ≠ (g.node w).layer.getRoutingLevel) :
    ∃ p ∈ PARtable, p.WirerootNode = w := by
  unfold buildWireParTable at h
  obtain ⟨st, hst, hT⟩ := Option.map_eq_some'.mp h
  obtain ⟨r, hr, hrw⟩ := buildWireParTable_loop_record ck g fuel w wireroots_info [] []
    st.1 st.2 hst hw (fun x hx => by simp at hx) hother
  refine ⟨calculateParInfo ck g r, ?_, ?_⟩
  · rw [← hT]
    exact List.mem_map.mpr ⟨r, hr, rfl⟩
  · rw [(calculateParInfo_keeps ck g r).1, hrw]

/-- A record of the table of `buildWireParTable` for whose wireroot
`findWireBelowIterms` sums the gate area 0 has the PAR value 0. -/
theorem buildWireParTable_par_zero (ck : AntennaChecker) (g : dbWireGraph) (fuel : Nat)
    (wireroots_info : List Nat) (PARtable : List PARinfo)
    (h : buildWireParTable ck g fuel [] wireroots_info = some PARtable)
    (p : PARinfo) (hp : p ∈ PARtable)
    (hzero : ∀ below, findWireBelowIterms ck g fuel p.WirerootNode
        (g.node p.WirerootNode).layer.getRoutingLevel ⟨(0, 0), [], []⟩ = some below →
      below.iterm_areas.1 = 0) :
    p.PAR_value = 0 := by
  unfold buildWireParTable at h
  obtain ⟨st, hst, hT⟩ := Option.map_eq_some'.mp h
  obtain ⟨_, new, hnew, hrec, _⟩ :=
    buildWireParTable_loop_spec ck g fuel wireroots_info [] [] st.1 st.2 hst
  rw [List.nil_append] at hnew
  rw [← hT] at hp
  obtain ⟨r0, hr0, hpr⟩ := List.mem_map.mp hp
  rw [hnew] at hr0
  obtain ⟨h1, _, _, _, _, below, hb, h6⟩ := hrec r0 hr0
  have hk := (calculateParInfo_keeps ck g r0).1
  rw [hpr] at hk
  rw [hk] at hzero
  have hz : r0.iterm_areas.1 = 0 := by rw [h6]; exact hzero below hb
  rw [← hpr, calculateParInfo_zero_gate ck g r0 hz]
  exact h1

/-- The wireroots of the records of the table of `buildWireParTable` are
wireroots of the list, and no two records have the same wireroot when the
list holds no wireroot twice. -/
theorem buildWireParTable_wireroots (ck : AntennaChecker) (g : dbWireGraph) (fuel : Nat)
    (wireroots_info : List Nat) (PARtable : List PARinfo)
    (h : buildWireParTable ck g fuel [] wireroots_info = some PARtable) :
    (∀ p ∈ PARtable, p.WirerootNode ∈ wireroots_info)
      ∧ (wireroots_info.Nodup → (PARtable.map fun r => r.WirerootNode).Nodup) := by
  unfold buildWireParTable at h
  obtain ⟨st, hst, hT⟩ := Option.map_eq_some'.mp h
  obtain ⟨new, hnew, hsub⟩ := buildWireParTable_loop_sublist ck g fuel wireroots_info [] []
    st.1 st.2 hst
  rw [List.nil_append] at hnew
  have hmap : (PARtable.map fun r => r.WirerootNode) = new.map fun r => r.WirerootNode := by
    rw [← hT, hnew, List.map_map]
    apply List.map_congr_left
    intro r _
    exact (calculateParInfo_keeps ck g r).1
  have hTsub : (PARtable.map fun r => r.WirerootNode).Sublist wireroots_info := by
    rw [hmap]; exact hsub
  exact ⟨fun p hp => hTsub.subset (List.mem_map.mpr ⟨p, hp, rfl⟩), fun hnd => hnd.sublist hTsub⟩

/-- The value `par_of` looks up is 0 when every record of the wireroot has the
PAR value 0. -/
theorem par_of_zero (table : List PARinfo) (root : Nat)
    (h : ∀ p ∈ table, p.WirerootNode = root → p.PAR_value = 0) : par_of table root = 0 := by
  unfold par_of
  cases hf : table.find? (fun par_itr => par_itr.WirerootNode = root) with
  | none => rfl
  | some p =>
    have h1 := List.find?_some hf
    exact h p (List.mem_of_find?_eq_some hf) (by simpa using h1)

/-- A walk of `findCarPath` from empty vectors that finds a path reaches the
goal. -/
theorem CarReaches_of_found (g : dbWireGraph) (fuel start : Nat) (wire_level : Int)
    (goal : Nat) (res : CarPath)
    (h : findCarPath g fuel start wire_level goal ⟨[], []⟩ = some res)
    (hne : res.path_found ≠ []) : CarReaches g goal fuel start wire_level := by
  have h6 := (findCarPath_step g goal fuel start wire_level [] ⟨[], []⟩ res rfl h).2.2.2.2.2
  rcases h6.mp hne with h1 | h1
  · exact absurd rfl h1
  · exact h1

/-- Two lists related element by element to the same list by relations that
agree on the partner are equal. -/
theorem forall₂_unique {α β : Type} (R S : α → β → Prop)
    (hRS : ∀ a b c, R a b → S a c → b = c) :
    ∀ (l : List α) (l1 l2 : List β), List.Forall₂ R l l1 → List.Forall₂ S l l2 → l1 = l2 := by
  intro l
  induction l with
  | nil =>
    intro l1 l2 h1 h2
    cases h1; cases h2; rfl
  | cons a rest ih =>
    intro l1 l2 h1 h2
    cases h1 with
    | cons hab h1 =>
      cases h2 with
      | cons hac h2 =>
        rw [hRS _ _ _ hab hac, ih _ _ h1 h2]

/-- What `getWireroots` returns does not depend on the fuel. -/
theorem getWireroots_fuel_indep (g : dbWireGraph) (fuel1 fuel2 : Nat) (roots1 roots2 : List Nat)
    (h1 : getWireroots g fuel1 = some roots1) (h2 : getWireroots g fuel2 = some roots2) :
    roots1 = roots2 := by
  unfold getWireroots at h1 h2
  obtain ⟨rs1, hrs1, hr1⟩ := getWireroots_loop g fuel1 g.nodes [] roots1 h1
  obtain ⟨rs2, hrs2, hr2⟩ := getWireroots_loop g fuel2 g.nodes [] roots2 h2
  have := forall₂_unique
    (fun n r => findSegmentRoot g fuel1 n (g.node n).layer.getRoutingLevel = some r)
    (fun n r => findSegmentRoot g fuel2 n (g.node n).layer.getRoutingLevel = some r)
    (fun n a b ha hb =>
      SegmentRoot_unique g _ n a b (findSegmentRoot_sound g _ fuel1 n a ha)
        (findSegmentRoot_sound g _ fuel2 n b hb)) g.nodes rs1 rs2 hrs1 hrs2
  rw [hr1, hr2, this]


/-- The sums of a function over two sublists of a list picked by two tests are
equal when the function is 0 wherever the tests differ. -/
theorem sum_filter_congr_zero (f : Nat → ℚ) (p q : Nat → Bool) :
    ∀ (l : List Nat), (∀ x ∈ l, p x ≠ q x → f x = 0) →
      ((l.filter p).map f).sum = ((l.filter q).map f).sum := by
  intro l
  induction l with
  | nil => intro _; rfl
  | cons x rest ih =>
    intro h
    have ih2 := ih (fun y hy => h y (List.mem_cons_of_mem _ hy))
    have hx := h x (List.mem_cons_self _ _)
    cases hp : p x <;> cases hq : q x
    · simp only [List.filter_cons, hp, hq, Bool.false_eq_true, if_false]
      exact ih2
    · have h0 := hx (by rw [hp, hq]; decide)
      simp only [List.filter_cons, hp, hq, Bool.false_eq_true, if_false, if_true, List.map_cons,
        List.sum_cons, h0, zero_add]
      exact ih2
    · have h0 := hx (by rw [hp, hq]; decide)
      simp only [List.filter_cons, hp, hq, Bool.false_eq_true, if_false, if_true, List.map_cons,
        List.sum_cons, h0, zero_add]
      exact ih2
    · simp only [List.filter_cons, hp, hq, if_true, List.map_cons, List.sum_cons]
      rw [ih2]

/-- C13.  Cumulative ratio without the plus-cut flag.  On the graph of a net as
the decoder hands it over, for all large enough fuel the tables of the net are
built, and:

in general, a record of the wire CAR table built by `buildWireCarTable` whose
wireroot is on a layer that is not flagged "cumulative routing plus cut" has
as CAR_value the sum of the PAR-table values of every wireroot on the path
found between the wireroot of the record and its gate;

on a two-level net, that is when the wireroots of the net are A and B with A
on a lower routing level than B, `gate` is the one node of the net on a
terminal with gate area and a gate terminal of `getAntennaRatio`, the path
search from B reaches it (B feeds the gate), and the layer of B is not
flagged: the PAR table holds exactly one record of A and one of B, the wire
CAR table holds a record of B for the gate, and every such record has
CAR_value = PAR(A) + PAR(B). -/
theorem buildWireCarTable_no_plus_cut (ck : AntennaChecker) (g : dbWireGraph)
    (hg : g.Decoded) :
    ∃ fuel0, ∀ fuel, fuel0 ≤ fuel →
      ∃ tables, getAntennaRatio_tables ck g fuel = some tables
        ∧ (∀ ar ∈ tables.CARtable, plus_cut (g.node ar.WirerootNode).layer = false →
            ∃ path,
              findCarPath g fuel ar.WirerootNode (g.node ar.WirerootNode).layer.getRoutingLevel
                  ar.GateNode ⟨[], []⟩ = some path
                ∧ ar.CAR_value
                  = ((path.path_found.filter fun x => decide (x ∈ tables.wireroots_info)).map
                      (par_of tables.PARtable)).sum)
        ∧ ∀ A B gate : Nat, (∀ r, r ∈ tables.wireroots_info ↔ r = A ∨ r = B) →
            (g.node A).layer.getRoutingLevel < (g.node B).layer.getRoutingLevel →
            (∀ n ∈ g.nodes, n ≠ gate → node_gate_area ck g n = 0) →
            gate ∈ tables.gate_iterms →
            CarReaches g gate fuel B (g.node B).layer.getRoutingLevel →
            plus_cut (g.node B).layer = false →
            ∃ pa pb, pa ∈ tables.PARtable ∧ pa.WirerootNode = A
              ∧ (∀ p ∈ tables.PARtable, p.WirerootNode = A → p = pa)
              ∧ pb ∈ tables.PARtable ∧ pb.WirerootNode = B
              ∧ (∀ p ∈ tables.PARtable, p.WirerootNode = B → p = pb)
              ∧ (∃ ar ∈ tables.CARtable, ar.WirerootNode = B ∧ ar.GateNode = gate)
              ∧ ∀ ar ∈ tables.CARtable, ar.WirerootNode = B → ar.GateNode = gate →
                  ar.CAR_value = pa.PAR_value + pb.PAR_value := by
  obtain ⟨depth, hdepth⟩ := hg.wellFormed.acyclic
  have hin := hg.wellFormed.in_source
  have hout := hg.wellFormed.out_edge
  have hseg := hg.segment_level
  refine ⟨tables_fuel g depth, ?_⟩
  intro fuel hfuel1
  obtain ⟨tables, htab, _⟩ := getAntennaRatio_tables_returns ck g hg depth hdepth fuel hfuel1
  have htab2 := htab
  unfold getAntennaRatio_tables at htab2
  obtain ⟨wireroots_info, hw, h2⟩ := Option.bind_eq_some.mp htab2
  obtain ⟨PARtable, hpar, h3⟩ := Option.bind_eq_some.mp h2
  obtain ⟨VIA_PARtable, hvia, h4⟩ := Option.bind_eq_some.mp h3
  obtain ⟨CARtable, hcar, h5⟩ := Option.bind_eq_some.mp h4
  obtain ⟨VIA_CARtable, hvcar, h6⟩ := Option.map_eq_some'.mp h5
  have hP : tables.PARtable = PARtable := by rw [← h6]
  have hC : tables.CARtable = CARtable := by rw [← h6]
  have hWI : tables.wireroots_info = wireroots_info := by rw [← h6]
  have hGI : tables.gate_iterms = getAntennaRatio_gate_iterms ck g := by rw [← h6]
  -- the wireroots
  obtain ⟨hwnd, hwmem⟩ := getWireroots_mem g fuel wireroots_info hw
  have hown : ∀ r ∈ wireroots_info, r ∈ g.nodes
      ∧ findSegmentRoot g fuel r (g.node r).layer.getRoutingLevel = some r := by
    intro r hr
    obtain ⟨n, hn, hroot⟩ := hwmem r hr
    have hrn := (findSegmentRoot_depth g depth _ hin hdepth fuel n r hn hroot).1
    have hlev := findSegmentRoot_level g hin hseg _ fuel n r hn rfl hroot
    have hself := findSegmentRoot_idem g _ fuel n r hroot
    rw [← hlev] at hself
    exact ⟨hrn, hself⟩
  have hcomplete := getWireroots_complete g fuel wireroots_info hw
  -- the PAR table
  obtain ⟨hpw, hpnd0⟩ := buildWireParTable_wireroots ck g fuel wireroots_info PARtable hpar
  have hpnd := hpnd0 hwnd
  -- the records of the CAR table
  have hcar2 := hcar
  unfold buildWireCarTable at hcar2
  have hrec := car_table_loop (buildWireCarTable_record g fuel PARtable VIA_PARtable)
    (fun ar => ∃ gate2 p, p ∈ PARtable
      ∧ buildWireCarTable_record g fuel PARtable VIA_PARtable gate2 p = some (some ar))
    PARtable (fun gate2 p new_car hp h => ⟨gate2, p, hp, h⟩)
    (getAntennaRatio_gate_iterms ck g) [] CARtable hcar2 (fun r hr => by simp at hr)
  have hrecord : ∀ ar ∈ CARtable, plus_cut (g.node ar.WirerootNode).layer = false →
      ∃ (path : CarPath) (roots : List Nat),
        findCarPath g fuel ar.WirerootNode (g.node ar.WirerootNode).layer.getRoutingLevel
            ar.GateNode ⟨[], []⟩ = some path
          ∧ path.path_found ≠ []
          ∧ roots.Nodup
          ∧ (∀ r ∈ wireroots_info, r ∈ path.path_found → r ∈ roots)
          ∧ ar.CAR_value = (roots.map (par_of PARtable)).sum
          ∧ ar.CAR_value
            = ((path.path_found.filter fun x => decide (x ∈ wireroots_info)).map
                (par_of PARtable)).sum := by
    intro ar har hflag
    obtain ⟨gate2, p, hp, hstep⟩ := hrec ar har
    obtain ⟨path, roots, hpath, hne2, hcw, hw2, hgate2, _, _, hCAR, _⟩ :=
      buildWireCarTable_record_inv g fuel PARtable VIA_PARtable gate2 p ar hstep
    rw [← hw2, ← hgate2] at hpath
    rw [← hw2] at hCAR
    obtain ⟨_, _, a3, _, _, _⟩ := findCarPath_step g ar.GateNode fuel ar.WirerootNode
      (g.node ar.WirerootNode).layer.getRoutingLevel [] ⟨[], []⟩ path rfl hpath
    have hpnodup : path.path_found.Nodup := a3 List.nodup_nil
    unfold car_wireroots at hcw
    obtain ⟨hfilter, hret⟩ := car_wireroots_spec g fuel path.path_found [] roots hcw
    rw [List.nil_append] at hfilter
    have hrnd : roots.Nodup := by rw [hfilter]; exact hpnodup.filter _
    have hself : ∀ r ∈ wireroots_info, r ∈ path.path_found →
        ifSegmentRoot g fuel r (g.node r).layer.getRoutingLevel = some true := by
      intro r hr hon
      obtain ⟨b, hb⟩ := hret r hon
      have hbt := ifSegmentRoot_of_self g depth _ hin hdepth fuel r b (hown r hr).1
        (hown r hr).2 hb
      rw [hbt] at hb
      exact hb
    have hinroots : ∀ r ∈ wireroots_info, r ∈ path.path_found → r ∈ roots := by
      intro r hr hon
      rw [hfilter]
      exact List.mem_filter.mpr ⟨hon, by simpa using hself r hr hon⟩
    have hsum : ar.CAR_value = (roots.map (par_of PARtable)).sum := by
      rw [hCAR]
      congr 1
      apply List.map_congr_left
      intro x _
      simp only [hflag, Bool.false_eq_true, false_and, if_false, add_zero]
    refine ⟨path, roots, hpath, hne2, hrnd, hinroots, hsum, ?_⟩
    rw [hsum, hfilter]
    apply sum_filter_congr_zero
    intro x hx hdiff
    by_cases hxw : x ∈ wireroots_info
    · exfalso
      apply hdiff
      simp only [hself x hxw hx, hxw, decide_True]
    · apply par_of_zero
      intro q hq hqx
      rw [← hqx] at hxw
      exact absurd (hpw q hq) hxw
  refine ⟨tables, htab, ?_, ?_⟩
  · rw [hP, hC, hWI]
    intro ar har hflag
    obtain ⟨path, _, hpath, _, _, _, _, hsum⟩ := hrecord ar har hflag
    exact ⟨path, hpath, hsum⟩
  rw [hP, hC, hWI, hGI]
  intro A B gate hAB hlevel hgate hiterm hreach hflag
  have hAr : A ∈ wireroots_info := (hAB A).mpr (Or.inl rfl)
  have hBr : B ∈ wireroots_info := (hAB B).mpr (Or.inr rfl)
  have hne : A ≠ B := fun hc => by rw [hc] at hlevel; exact lt_irrefl _ hlevel
  have hW : ∀ n ∈ g.nodes, SegmentRoot g (g.node n).layer.getRoutingLevel n n →
      n = A ∨ (g.node A).layer.getRoutingLevel < (g.node n).layer.getRoutingLevel := by
    intro n hn hs
    obtain ⟨r, hr, hnr⟩ := hcomplete n hn
    have hrn := SegmentRoot_unique g _ n r n (findSegmentRoot_sound g _ fuel n r hnr) hs
    rw [hrn] at hr
    rcases (hAB n).mp hr with h1 | h1
    · exact Or.inl h1
    · right; rw [h1]; exact hlevel
  obtain ⟨pa, hpa, hpaw⟩ := buildWireParTable_has_record ck g fuel wireroots_info PARtable
    hpar A hAr (by
      intro v hv hvA
      rcases (hAB v).mp hv with h1 | h1
      · exact absurd h1 hvA
      · rw [h1]; exact ne_of_gt hlevel)
  obtain ⟨pb, hpb, hpbw⟩ := buildWireParTable_has_record ck g fuel wireroots_info PARtable
    hpar B hBr (by
      intro v hv hvB
      rcases (hAB v).mp hv with h1 | h1
      · rw [h1]; exact ne_of_lt hlevel
      · exact absurd h1 hvB)
  have huniq : ∀ q ∈ PARtable, ∀ p ∈ PARtable, p.WirerootNode = q.WirerootNode → p = q := by
    intro q hq p hp hpq
    have e1 := find_wireroot_of_nodup PARtable hpnd q hq
    have e2 := find_wireroot_of_nodup PARtable hpnd p hp
    rw [hpq, e1] at e2
    exact (Option.some.inj e2).symm
  have hparA : par_of PARtable A = pa.PAR_value := by
    rw [← hpaw]; exact (par_of_self PARtable hpnd pa hpa).1
  have hparB : par_of PARtable B = pb.PAR_value := by
    rw [← hpbw]; exact (par_of_self PARtable hpnd pb hpb).1
  -- the record of B for the gate is in the CAR table
  have hex : ∃ ar ∈ CARtable, ar.WirerootNode = B ∧ ar.GateNode = gate := by
    obtain ⟨path, hpath, hnodes⟩ := findCarPath_decoded g hg depth hdepth fuel hfuel1 B
      (hown B hBr).1 (g.node B).layer.getRoutingLevel gate
    have hne2 : path.path_found ≠ [] :=
      ((findCarPath_step g gate fuel B _ [] ⟨[], []⟩ path rfl hpath).2.2.2.2.2).mpr
        (Or.inr hreach)
    obtain ⟨roots, hr⟩ := car_wireroots_returns g depth (g.nodes.map depth).sum hin hdepth
      (depth_le_sum depth g.nodes) fuel (by unfold tables_fuel at hfuel1; omega)
      path.path_found hnodes
    rw [← hpbw] at hpath
    obtain ⟨c, hc, hcw, hcg, _⟩ := buildWireCarTable_record_car g fuel PARtable VIA_PARtable
      gate pb path roots hpath hne2 hr
    have hmem := (car_table_loop_mem (buildWireCarTable_record g fuel PARtable VIA_PARtable)
      PARtable (getAntennaRatio_gate_iterms ck g) [] CARtable hcar2).2 gate hiterm pb hpb c hc
    exact ⟨c, hmem, by rw [hcw, hpbw], hcg⟩
  -- the records of B for the gate
  have hrecs : ∀ ar ∈ CARtable, ar.WirerootNode = B → ar.GateNode = gate →
      ar.CAR_value = pa.PAR_value + pb.PAR_value := by
    intro ar har harw harg
    obtain ⟨path, roots, hpath, hne2, hrnd, hinroots, hsum, _⟩ :=
      hrecord ar har (by rw [harw]; exact hflag)
    rw [harw, harg] at hpath
    obtain ⟨_, _, _, _, a5, _⟩ := findCarPath_step g gate fuel B
      (g.node B).layer.getRoutingLevel [] ⟨[], []⟩ path rfl hpath
    have hhead := a5 rfl hne2
    have hBon : B ∈ path.path_found := by
      apply List.mem_of_mem_head?
      rw [hhead]
      simp
    have hBroots := hinroots B hBr hBon
    have hz : ∀ x ∈ roots, x ≠ A → x ≠ B → par_of PARtable x = 0 := by
      intro x _ hxA hxB
      apply par_of_zero
      intro q hq hqx
      have hq2 := (hAB q.WirerootNode).mp (hpw q hq)
      rw [hqx] at hq2
      rcases hq2 with h1 | h1
      · exact absurd h1 hxA
      · exact absurd h1 hxB
    rw [hsum, sum_two_roots (par_of PARtable) A B hne roots hrnd hz, if_pos hBroots, hparA,
      hparB]
    by_cases hAin : A ∈ roots
    · rw [if_pos hAin]
    · rw [if_neg hAin]
      have hlt : (g.node A).layer.getRoutingLevel < (g.node gate).layer.getRoutingLevel := by
        by_contra hc
        rcases findCarPath_through g A gate depth hin hout hdepth hseg hW (not_lt.mp hc) fuel B
          (g.node B).layer.getRoutingLevel ⟨[], []⟩ path (hown B hBr).1
          (Or.inr (Or.inr hlevel)) hpath (Or.inl rfl) with h1 | h1
        · exact hne2 h1
        · exact hAin (hinroots A hAr h1)
      have hzero : pa.PAR_value = 0 := by
        apply buildWireParTable_par_zero ck g fuel wireroots_info PARtable hpar pa hpa
        intro below hcall
        rw [hpaw] at hcall
        refine findWireBelowIterms_gate_zero ck g depth (g.node A).layer.getRoutingLevel hin
          hout hdepth hseg ?_ fuel A ⟨(0, 0), [], []⟩ below (hown A hAr).1 (le_refl _) rfl hcall
        intro x hx hxl
        apply hgate x hx
        intro hc
        rw [hc] at hxl
        exact absurd hlt (not_lt.mpr hxl)
      rw [hzero]
  exact ⟨pa, pb, hpa, hpaw, fun p hp hpA => huniq pa hpa p hp (by rw [hpA, hpaw]), hpb, hpbw,
    fun p hp hpB => huniq pb hpb p hp (by rw [hpB, hpbw]), hex, hrecs⟩


/-- The tables `getAntennaRatio_tables` returns hold the wireroots of
`getWireroots` and the gate terminals of the net. -/
theorem getAntennaRatio_tables_vectors (ck : AntennaChecker) (g : dbWireGraph) (fuel : Nat)
    (tables : NetTables) (h : getAntennaRatio_tables ck g fuel = some tables) :
    getWireroots g fuel = some tables.wireroots_info
      ∧ tables.gate_iterms = getAntennaRatio_gate_iterms ck g := by
  unfold getAntennaRatio_tables at h
  obtain ⟨wireroots_info, hw, h2⟩ := Option.bind_eq_some.mp h
  obtain ⟨PARtable, _, h3⟩ := Option.bind_eq_some.mp h2
  obtain ⟨VIA_PARtable, _, h4⟩ := Option.bind_eq_some.mp h3
  obtain ⟨CARtable, _, h5⟩ := Option.bind_eq_some.mp h4
  obtain ⟨VIA_CARtable, _, h6⟩ := Option.map_eq_some'.mp h5
  rw [← h6]
  exact ⟨hw, rfl⟩

/-- C13, witness: the two-level net of wireroot A = node 0 on level 1 and
wireroot B = node 2 on level 2, without any rule.  With its one gate on node 0,
PAR(A) = 4.1, PAR(B) = 6.2 and the record of B for the gate has
CAR_value 10.3; with its one gate on node 3, on the run of B, PAR(A) = 0,
PAR(B) = 6.2 and the record of B for the gate has CAR_value 6.2. -/
theorem buildWireCarTable_no_plus_cut_witness :
    ((getAntennaRatio_tables
          (ex_gate_checker [] (ex_loaded [ex_metal1 none, ex_metal2, ex_via1 none]))
          (ex_net_two_level (ex_metal1 none) ex_metal2 (ex_via1 none) [0]) 10).map
        fun tables =>
          (tables.PARtable.map (fun p => (p.WirerootNode, p.PAR_value)),
            tables.CARtable.map fun ar => (ar.WirerootNode, ar.GateNode, ar.CAR_value)))
        = some ([(0, 41 / 10), (2, 31 / 5)], [(0, 0, 41 / 10), (2, 0, 103 / 10)])
      ∧ ((getAntennaRatio_tables
          (ex_gate_checker [] (ex_loaded [ex_metal1 none, ex_metal2, ex_via1 none]))
          (ex_net_two_level (ex_metal1 none) ex_metal2 (ex_via1 none) [3]) 10).map
        fun tables =>
          (tables.PARtable.map (fun p => (p.WirerootNode, p.PAR_value)),
            tables.CARtable.map fun ar => (ar.WirerootNode, ar.GateNode, ar.CAR_value)))
        = some ([(0, 0), (2, 31 / 5)], [(2, 3, 31 / 5)])
      ∧ (∃ fuel tables pa pb,
          getAntennaRatio_tables
              (ex_gate_checker [] (ex_loaded [ex_metal1 none, ex_metal2, ex_via1 none]))
              (ex_net_two_level (ex_metal1 none) ex_metal2 (ex_via1 none) [0]) fuel
            = some tables
          ∧ tables.wireroots_info = [0, 2] ∧ tables.gate_iterms = [0]
          ∧ pa ∈ tables.PARtable ∧ pa.WirerootNode = 0
          ∧ pb ∈ tables.PARtable ∧ pb.WirerootNode = 2
          ∧ (∃ ar ∈ tables.CARtable, ar.WirerootNode = 2 ∧ ar.GateNode = 0)
          ∧ ∀ ar ∈ tables.CARtable, ar.WirerootNode = 2 → ar.GateNode = 0 →
              ar.CAR_value = pa.PAR_value + pb.PAR_value)
      ∧ (∃ fuel tables pa pb,
          getAntennaRatio_tables
              (ex_gate_checker [] (ex_loaded [ex_metal1 none, ex_metal2, ex_via1 none]))
              (ex_net_two_level (ex_metal1 none) ex_metal2 (ex_via1 none) [3]) fuel
            = some tables
          ∧ tables.wireroots_info = [0, 2] ∧ tables.gate_iterms = [3]
          ∧ pa ∈ tables.PARtable ∧ pa.WirerootNode = 0
          ∧ pb ∈ tables.PARtable ∧ pb.WirerootNode = 2
          ∧ (∃ ar ∈ tables.CARtable, ar.WirerootNode = 2 ∧ ar.GateNode = 3)
          ∧ ∀ ar ∈ tables.CARtable, ar.WirerootNode = 2 → ar.GateNode = 3 →
              ar.CAR_value = pa.PAR_value + pb.PAR_value) := by
  refine ⟨by decide!, by decide!, ?_, ?_⟩
  · obtain ⟨fuel0, h⟩ := buildWireCarTable_no_plus_cut
      (ex_gate_checker [] (ex_loaded [ex_metal1 none, ex_metal2, ex_via1 none]))
      (ex_net_two_level (ex_metal1 none) ex_metal2 (ex_via1 none) [0])
      (ex_net_two_level_decoded _ _ _ _ rfl)
    obtain ⟨tables, htab, _, h2⟩ := h (max fuel0 10) (le_max_left _ _)
    obtain ⟨hw, hgi⟩ := getAntennaRatio_tables_vectors _ _ _ tables htab
    have hroots : tables.wireroots_info = [0, 2] :=
      getWireroots_fuel_indep _ _ 10 _ [0, 2] hw (by decide)
    have hgates : tables.gate_iterms = [0] := by rw [hgi]; decide
    obtain ⟨pa, pb, a1, a2, _, a4, a5, _, a7, a8⟩ := h2 0 2 0
      (by rw [hroots]; intro r; simp) (by decide)
      (fun n hn hne => by
        simp only [ex_net_two_level, List.mem_cons, List.mem_singleton, List.not_mem_nil,
          or_false] at hn
        rcases hn with h | h | h | h
        · exact absurd h hne
        · rw [h]; decide!
        · rw [h]; decide!
        · rw [h]; decide!)
      (by rw [hgates]; decide)
      (CarReaches_fuel_le _ _ 10 _ _
        (CarReaches_of_found _ 10 2 2 0 ⟨[], [2, 0]⟩ (by decide) (by decide)) _
        (le_max_right _ _))
      (by decide)
    exact ⟨max fuel0 10, tables, pa, pb, htab, hroots, hgates, a1, a2, a4, a5, a7, a8⟩
  · obtain ⟨fuel0, h⟩ := buildWireCarTable_no_plus_cut
      (ex_gate_checker [] (ex_loaded [ex_metal1 none, ex_metal2, ex_via1 none]))
      (ex_net_two_level (ex_metal1 none) ex_metal2 (ex_via1 none) [3])
      (ex_net_two_level_decoded _ _ _ _ rfl)
    obtain ⟨tables, htab, _, h2⟩ := h (max fuel0 10) (le_max_left _ _)
    obtain ⟨hw, hgi⟩ := getAntennaRatio_tables_vectors _ _ _ tables htab
    have hroots : tables.wireroots_info = [0, 2] :=
      getWireroots_fuel_indep _ _ 10 _ [0, 2] hw (by decide)
    have hgates : tables.gate_iterms = [3] := by rw [hgi]; decide
    obtain ⟨pa, pb, a1, a2, _, a4, a5, _, a7, a8⟩ := h2 0 2 3
      (by rw [hroots]; intro r; simp) (by decide)
      (fun n hn hne => by
        simp only [ex_net_two_level, List.mem_cons, List.mem_singleton, List.not_mem_nil,
          or_false] at hn
        rcases hn with h | h | h | h
        · rw [h]; decide!
        · rw [h]; decide!
        · rw [h]; decide!
        · exact absurd h hne)
      (by rw [hgates]; decide)
      (CarReaches_fuel_le _ _ 10 _ _
        (CarReaches_of_found _ 10 2 2 3 ⟨[], [2, 3]⟩ (by decide) (by decide)) _
        (le_max_right _ _))
      (by decide)
    exact ⟨max fuel0 10, tables, pa, pb, htab, hroots, hgates, a1, a2, a4, a5, a7, a8⟩

end ant
